import Mathlib

/-! Lobjects: list objects over dynamically typed atoms.

A shallow embedding of the C sources `Lobjects.h`, `Lobjects.c`, `Lchange.c`,
`Lfind.c`, `Lmax.c`, `Lmin.c`, `Lpad.c` and `Ltoset.c`, followed by theorems
about the embedded functions.

Modelling conventions.

* A `t_symbol *` is an interned string (`gensym`), so pointer equality of
  symbols is equality of their names: symbols are `String`s.
* A C `double` is modelled by `Dbl`, the values of IEEE 754 binary64: a
  finite value is the rational it denotes, `pinf` and `ninf` are the
  infinities and `nan` is NaN, with which every C comparison is false.  An
  arithmetic operation (`+`, `-`, `*`, `/`) and the conversion `(double)n` of
  a `t_atom_long` give the exact result rounded to nearest, ties to even
  (`Dbl.round`), each operation on its own, with overflow to an infinity and
  gradual underflow.  The two zeros `+0.0` and `-0.0`, which every comparison
  of C treats as equal, are the one value `fin 0`; the one division of the
  sources, in `lfind_action`, divides by the difference of two values of
  which one is below the other, never by a zero.  `Dbl.is_double q` says that
  the rational `q` is the value of a finite double; the program only holds
  such values, and a statement over all of `Dbl` holds for them.
* `t_mess_int` lengths (`len_cur`, `len_max`, `maxlen`, `argc`) are never
  negative in the sources (they come from `argc` or are clamped at 0) and are
  natural numbers here; index arithmetic that can reach `-1` is done on `Int`.
* An atom array is a `List t_atom`.  A `NULL` array is the empty list (an
  allocated array always holds `len_max >= 1` atoms).  A read at a computed
  index is `list[i]?`, and a function that can read outside an array returns
  an `Option`, `none` being such a read.  A block copy of `cnt` atoms out of
  an incoming array is `take cnt`: the host passes arrays of `argc` atoms.
* Console output (`WARN`, `ERR`, `POST`) is not modelled, the warning of
  `mess_set` apart (`mess_set_warning`); the `warnings` flag is kept in the
  object structures but changes no result.
-/

namespace Lobjects

/-! ## Atoms -/

/-- Interned symbol (`t_symbol *`), identified with its name. -/
abbrev t_symbol := String

/-- C `double`: an IEEE 754 binary64 value.  A finite value is the rational
it denotes, the two infinities and NaN are separate values. -/
inductive Dbl where
  | fin (q : ℚ)
  | nan
  | pinf
  | ninf
  deriving DecidableEq, Repr

namespace Dbl

/-- The power `2^k` of an integer exponent. -/
def pow2 (k : Int) : ℚ :=
  if 0 ≤ k then ((2 ^ k.toNat : Nat) : ℚ) else 1 / ((2 ^ (-k).toNat : Nat) : ℚ)

/-- Binary logarithm of `n >= 1`, rounded down, by repeated halving (at most
`fuel` times). -/
def ilog2 : Nat → Nat → Nat
  | 0, _ => 0
  | fuel + 1, n => if n < 2 then 0 else ilog2 fuel (n / 2) + 1

/-- Exponent of the binade of `a > 0`: the largest `e` with `2^e <= a`, and
`-1022` (the exponent of the subnormal numbers) when that is smaller. -/
def expo (a : ℚ) : Int :=
  let k : Int := (ilog2 a.num.toNat a.num.toNat : Int) - (ilog2 a.den a.den : Int)
  let e := if pow2 k ≤ a then k else k - 1
  if e < -1022 then -1022 else e

/-- Rounding to the nearest integer, a tie going to the even one. -/
def rne (a : ℚ) : Int :=
  if a - ⌊a⌋ < 1 / 2 then ⌊a⌋
  else if 1 / 2 < a - ⌊a⌋ then ⌊a⌋ + 1
  else if ⌊a⌋ % 2 = 0 then ⌊a⌋ else ⌊a⌋ + 1

/-- Rounding of `a > 0` to 53 significant bits in its binade (to a multiple
of `2^-1074` below `2^-1022`), to nearest, ties to even. -/
def round_mag (a : ℚ) : ℚ := (rne (a / pow2 (expo a - 52)) : ℚ) * pow2 (expo a - 52)

/-- Rounding of an exact result to `double` in the default rounding mode:
to nearest, ties to even, an infinity when the rounded magnitude reaches
`2^1024`. -/
def round (q : ℚ) : Dbl :=
  if q = 0 then fin 0
  else if q < 0 then (if pow2 1024 ≤ round_mag (-q) then ninf else fin (-round_mag (-q)))
  else (if pow2 1024 ≤ round_mag q then pinf else fin (round_mag q))

/-- The rational `q` is the value of a finite `double`. -/
def is_double (q : ℚ) : Prop := round q = fin q

instance (q : ℚ) : Decidable (is_double q) := inferInstanceAs (Decidable (round q = fin q))

/-- C `a == b` on doubles. -/
def eq : Dbl → Dbl → Bool
  | fin a, fin b => decide (a = b)
  | pinf, pinf => true
  | ninf, ninf => true
  | _, _ => false

/-- C `a < b` on doubles. -/
def lt : Dbl → Dbl → Bool
  | fin a, fin b => decide (a < b)
  | fin _, pinf => true
  | ninf, fin _ => true
  | ninf, pinf => true
  | _, _ => false

/-- C `a > b` on doubles. -/
def gt (a b : Dbl) : Bool := lt b a

/-- C `a >= b` on doubles. -/
def ge : Dbl → Dbl → Bool
  | fin a, fin b => decide (b ≤ a)
  | pinf, fin _ => true
  | pinf, pinf => true
  | pinf, ninf => true
  | fin _, ninf => true
  | ninf, ninf => true
  | _, _ => false

/-- C `a - b` on doubles. -/
def sub : Dbl → Dbl → Dbl
  | fin a, fin b => round (a - b)
  | fin _, pinf => ninf
  | fin _, ninf => pinf
  | pinf, fin _ => pinf
  | pinf, ninf => pinf
  | ninf, fin _ => ninf
  | ninf, pinf => ninf
  | _, _ => nan

/-- C `a + b` on doubles. -/
def add : Dbl → Dbl → Dbl
  | fin a, fin b => round (a + b)
  | fin _, pinf => pinf
  | fin _, ninf => ninf
  | pinf, fin _ => pinf
  | pinf, pinf => pinf
  | ninf, fin _ => ninf
  | ninf, ninf => ninf
  | _, _ => nan

/-- C `a * b` on doubles. -/
def mul : Dbl → Dbl → Dbl
  | fin a, fin b => round (a * b)
  | fin a, pinf => if a = 0 then nan else if a < 0 then ninf else pinf
  | fin a, ninf => if a = 0 then nan else if a < 0 then pinf else ninf
  | pinf, fin b => if b = 0 then nan else if b < 0 then ninf else pinf
  | ninf, fin b => if b = 0 then nan else if b < 0 then pinf else ninf
  | pinf, pinf => pinf
  | pinf, ninf => ninf
  | ninf, pinf => ninf
  | ninf, ninf => pinf
  | _, _ => nan

/-- C `a / b` on doubles.  The two zeros are one value here, and a zero
divisor is taken to be `+0.0`. -/
def div : Dbl → Dbl → Dbl
  | fin a, fin b =>
    if b = 0 then (if a = 0 then nan else if a < 0 then ninf else pinf) else round (a / b)
  | fin _, pinf => fin 0
  | fin _, ninf => fin 0
  | pinf, fin b => if b < 0 then ninf else pinf
  | ninf, fin b => if b < 0 then pinf else ninf
  | _, _ => nan

/-- C conversion `(double)n` of an integer: the nearest double. -/
def ofInt (n : Int) : Dbl := round (n : ℚ)

/-- C conversion `(t_atom_long)d`: truncation toward zero.  Out of the range
of a 64-bit integer, and for an infinity or NaN, C leaves the result
undefined; the value taken is the one the x86-64 conversion instruction
produces, `-2^63`. -/
def toLong : Dbl → Int
  | fin q =>
    let t := Int.tdiv q.num (q.den : Int)
    if -(2 : Int) ^ 63 ≤ t ∧ t < (2 : Int) ^ 63 then t else -(2 : Int) ^ 63
  | _ => -(2 : Int) ^ 63

end Dbl

/-- Host macro `MAX(a, b)`: `((a) > (b) ? (a) : (b))` on `t_atom_long`. -/
def MAX_long (a b : Int) : Int := if a > b then a else b

/-- Host macro `MIN(a, b)`: `((a) < (b) ? (a) : (b))` on `t_atom_long`. -/
def MIN_long (a b : Int) : Int := if a < b then a else b

/-- Host macro `MAX(a, b)` on doubles. -/
def MAX_dbl (a b : Dbl) : Dbl := if Dbl.gt a b then a else b

/-- Host macro `MIN(a, b)` on doubles. -/
def MIN_dbl (a b : Dbl) : Dbl := if Dbl.lt a b then a else b

/-- The atom `t_atom`: a type code with its value.  Only the three codes the
sources distinguish are modelled. -/
inductive t_atom where
  | A_LONG (n : Int)
  | A_FLOAT (d : Dbl)
  | A_SYM (s : t_symbol)
  deriving DecidableEq, Repr

open t_atom

/-- Host function `atom_getfloat`: the value as a double, 0 for a symbol. -/
def atom_getfloat : t_atom → Dbl
  | A_LONG n => Dbl.ofInt n
  | A_FLOAT d => d
  | A_SYM _ => Dbl.fin 0

/-- Host function `atom_getlong`: the value as an integer, 0 for a symbol. -/
def atom_getlong : t_atom → Int
  | A_LONG n => n
  | A_FLOAT d => Dbl.toLong d
  | A_SYM _ => 0

/-- Host function `atom_getsym`: the symbol, the empty symbol for a number. -/
def atom_getsym : t_atom → t_symbol
  | A_SYM s => s
  | _ => ""

/-- Test `type == A_LONG || type == A_FLOAT`. -/
def is_number : t_atom → Bool
  | A_LONG _ => true
  | A_FLOAT _ => true
  | A_SYM _ => false

/-- Test `type == A_SYM`. -/
def is_sym : t_atom → Bool
  | A_SYM _ => true
  | _ => false

/-- Conversion `(t_mess_int)n` of a `t_atom_long` to a 32-bit signed integer. -/
def to_mess_int (n : Int) : Int :=
  (n + (2 : Int) ^ 31) % (2 : Int) ^ 32 - (2 : Int) ^ 31

/-- Conversion `(short)n` of a `long` to a 16-bit signed integer. -/
def to_short (n : Int) : Int :=
  (n + (2 : Int) ^ 15) % (2 : Int) ^ 16 - (2 : Int) ^ 15

/-! ## Frequently used symbols (`sym_init`) -/

def sym_int : t_symbol := "int"
def sym_float : t_symbol := "float"
def sym_list : t_symbol := "list"
def sym_mess : t_symbol := "mess"
def sym_empty : t_symbol := "empty"
def sym_null : t_symbol := "null"

/-! ## Message structure (`Lobjects.h`, `Lobjects.c`) -/

/-- Macro `MAXLEN_DEF`. -/
def MAXLEN_DEF : Nat := 256

/-- The structure `_mess_struct`. -/
structure t_mess_struct where
  len_cur : Nat
  len_max : Nat
  sym : t_symbol
  list : List t_atom
  offset : Nat
  deriving DecidableEq, Repr

/-- Macro `MESS_IS_NULL`. -/
def MESS_IS_NULL (mess : t_mess_struct) : Bool :=
  mess.len_max == 0 || mess.list.isEmpty

/-- Function `mess_init`. -/
def mess_init (_mess : t_mess_struct) : t_mess_struct :=
  { len_cur := 0, len_max := 0, sym := sym_null, list := [], offset := 0 }

/-- Function `mess_set_empty`: length 0, every slot `Int 0`. -/
def mess_set_empty (mess : t_mess_struct) : t_mess_struct :=
  { mess with
    len_cur := 0
    list := List.replicate mess.len_max (A_LONG 0)
    offset := 0
    sym := sym_empty }

/-- Function `mess_realloc` when the allocation succeeds. -/
def mess_realloc_ok (mess : t_mess_struct) (len_max : Nat) : t_mess_struct :=
  mess_set_empty { mess with len_max := len_max, list := List.replicate len_max (A_LONG 0) }

/-- Macro `ATOMS_COPY(dest + pos, src, cnt)`: overwrite `cnt` atoms of `dest`
from position `pos` on with the first `cnt` atoms of `src`. -/
def ATOMS_COPY (dest : List t_atom) (pos : Nat) (src : List t_atom) (cnt : Nat) : List t_atom :=
  dest.take pos ++ src.take cnt ++ dest.drop (pos + cnt)

/-- Function `mess_set`.  The warning flag only gates a console message. -/
def mess_set (mess : t_mess_struct) (sym : t_symbol) (argc : Nat) (argv : List t_atom)
    (offset : Nat) : t_mess_struct :=
  if MESS_IS_NULL mess then mess else
  let list := mess.list.set 0 (A_SYM sym)
  let argc := if (argc : Int) > (mess.len_max : Int) - (offset : Int)
    then mess.len_max - offset else argc
  { mess with
    len_cur := argc + offset
    sym := sym
    offset := offset
    list := ATOMS_COPY list offset argv argc }

/-- Function `mess_set_int`. -/
def mess_set_int (mess : t_mess_struct) (argv : List t_atom) : t_mess_struct :=
  mess_set mess sym_int 1 argv 0

/-- Function `mess_set_float`. -/
def mess_set_float (mess : t_mess_struct) (argv : List t_atom) : t_mess_struct :=
  mess_set mess sym_float 1 argv 0

/-- Function `mess_set_list`. -/
def mess_set_list (mess : t_mess_struct) (argc : Nat) (argv : List t_atom) : t_mess_struct :=
  mess_set mess sym_list argc argv 0

/-- Function `mess_set_any`. -/
def mess_set_any (mess : t_mess_struct) (sym : t_symbol) (argc : Nat) (argv : List t_atom) :
    t_mess_struct :=
  mess_set mess sym argc argv 1

/-- Function `mess_fill_int`. -/
def mess_fill_int (mess : t_mess_struct) (val : Int) (len : Nat) : t_mess_struct :=
  { mess with
    len_cur := len
    list := List.replicate mess.len_max (A_LONG val)
    offset := 0
    sym := match len with
      | 0 => sym_empty
      | 1 => sym_int
      | _ => sym_list }

/-- Function `mess_fill_float`. -/
def mess_fill_float (mess : t_mess_struct) (val : Dbl) (len : Nat) : t_mess_struct :=
  { mess with
    len_cur := len
    list := List.replicate mess.len_max (A_FLOAT val)
    offset := 0
    sym := match len with
      | 0 => sym_empty
      | 1 => sym_float
      | _ => sym_list }

/-- Function `mess_set_type`. -/
def mess_set_type (mess : t_mess_struct) : t_mess_struct :=
  if MESS_IS_NULL mess then { mess with offset := 0, sym := sym_null } else
  match mess.len_cur, mess.list.head? with
  | 0, _ => { mess with offset := 0, sym := sym_empty }
  | 1, some (A_LONG _) => { mess with offset := 0, sym := sym_int }
  | 1, some (A_FLOAT _) => { mess with offset := 0, sym := sym_float }
  | _, some (A_LONG _) => { mess with offset := 0, sym := sym_list }
  | _, some (A_FLOAT _) => { mess with offset := 0, sym := sym_list }
  | _, some (A_SYM s) => { mess with offset := 1, sym := s }
  | _, none => mess

/-- Function `mess_zpad`. -/
def mess_zpad (mess : t_mess_struct) : t_mess_struct :=
  { mess with
    list := mess.list.take mess.len_cur ++
      List.replicate (mess.len_max - mess.len_cur) (A_LONG 0) }

/-- Function `mess_outlet`: the message sent through the outlet, selector and
arguments (`outlet_anything`), or nothing for a null or empty structure. -/
def mess_outlet (mess : t_mess_struct) : Option (t_symbol × List t_atom) :=
  if mess.sym ≠ sym_null ∧ mess.sym ≠ sym_empty then
    some (mess.sym,
      (mess.list.drop mess.offset).take
        (to_short ((mess.len_cur : Int) - (mess.offset : Int))).toNat)
  else none

/-! ## Lfind (`Lfind.c`) -/

/-- The object structure `_lfind` (inlets and outlets left out). -/
structure t_lfind where
  i_list_2 : t_mess_struct
  o_float : Dbl
  maxlen : Nat
  warnings : Bool
  deriving DecidableEq, Repr

/-- First loop of `lfind_action`, `for (i = 0; i < argc; i++)`, with `n` the
number of iterations left: the index of the first atom equal to `f`.  The
outer `none` is a read outside the atom array. -/
def lfind_exact (argv : List t_atom) (f : Dbl) : Nat → Nat → Option (Option Nat)
  | 0, _ => some none
  | n + 1, i =>
    match argv[i]? with
    | none => none
    | some a =>
      if Dbl.eq (atom_getfloat a) f then some (some i) else lfind_exact argv f n (i + 1)

/-- Forward loop `for (i = 1; (i != argc) && ((argf = atom_getfloat(argv + i)) < f); i++)`
of `lfind_action`; `rest` is the array from index `i` on.  Returns
`(less_than_val, less_than_ind)`, or `none` for a read outside the array. -/
def lfind_less_fwd (f : Dbl) (argc : Nat) : List t_atom → Nat → Dbl → Nat → Option (Dbl × Nat)
  | [], i, less_than_val, less_than_ind =>
    if i = argc then some (less_than_val, less_than_ind) else none
  | a :: rest, i, less_than_val, less_than_ind =>
    if i = argc then some (less_than_val, less_than_ind)
    else if Dbl.lt (atom_getfloat a) f then
      if Dbl.ge (atom_getfloat a) less_than_val then
        lfind_less_fwd f argc rest (i + 1) (atom_getfloat a) i
      else lfind_less_fwd f argc rest (i + 1) less_than_val less_than_ind
    else some (less_than_val, less_than_ind)

/-- Backward loop `for (i = argc - 2; (i != -1) && ((argf = atom_getfloat(argv + i)) < f); i--)`
of `lfind_action`; the first argument is `i + 1`. -/
def lfind_less_bwd (argv : List t_atom) (f : Dbl) : Nat → Dbl → Nat → Option (Dbl × Nat)
  | 0, less_than_val, less_than_ind => some (less_than_val, less_than_ind)
  | i + 1, less_than_val, less_than_ind =>
    match argv[i]? with
    | none => none
    | some a =>
      if Dbl.lt (atom_getfloat a) f then
        if Dbl.ge (atom_getfloat a) less_than_val then
          lfind_less_bwd argv f i (atom_getfloat a) i
        else lfind_less_bwd argv f i less_than_val less_than_ind
      else some (less_than_val, less_than_ind)

/-- Forward loop `for (i = less_than_ind; i != argc; i++)` of `lfind_action`;
`rest` is the array from index `i` on.  Returns `more_than_ind`, with `none`
inside for `-1`. -/
def lfind_more_fwd (f : Dbl) (argc : Nat) : List t_atom → Nat → Option (Option Nat)
  | [], i => if i = argc then some none else none
  | a :: rest, i =>
    if i = argc then some none
    else if Dbl.gt (atom_getfloat a) f then some (some i)
    else lfind_more_fwd f argc rest (i + 1)

/-- Backward loop `for (i = less_than_ind; i != -1; i--)` of `lfind_action`;
the first argument is `i + 1`. -/
def lfind_more_bwd (argv : List t_atom) (f : Dbl) : Nat → Option (Option Nat)
  | 0 => some none
  | i + 1 =>
    match argv[i]? with
    | none => none
    | some a =>
      if Dbl.gt (atom_getfloat a) f then some (some i) else lfind_more_bwd argv f i

/-- The search for `less_than_ind` in `lfind_action`: forward when the first
atom is below `f`, else backward when the last atom is below `f`, else `-1`
(the function returns). -/
def lfind_less (argc : Nat) (argv : List t_atom) (f : Dbl) : Option (Option Nat) :=
  match argv[0]? with
  | none => none
  | some a0 =>
    if Dbl.lt (atom_getfloat a0) f then
      (lfind_less_fwd f argc (argv.drop 1) 1 (atom_getfloat a0) 0).map (fun r => some r.2)
    else
      match argc with
      | 0 => none
      | m + 1 =>
        match argv[m]? with
        | none => none
        | some al =>
          if Dbl.lt (atom_getfloat al) f then
            (lfind_less_bwd argv f m (atom_getfloat al) m).map (fun r => some r.2)
          else some none

/-- The search for `more_than_ind` in `lfind_action`: forward from
`less_than_ind`, then backward from it if nothing was found. -/
def lfind_more (argc : Nat) (argv : List t_atom) (f : Dbl) (less_than_ind : Nat) :
    Option (Option Nat) :=
  match lfind_more_fwd f argc (argv.drop less_than_ind) less_than_ind with
  | none => none
  | some (some j) => some (some j)
  | some none => lfind_more_bwd argv f (less_than_ind + 1)

/-- The interpolation of `lfind_action`:
`(f - argv[less]) / (argv[more] - argv[less]) * (more - less) + less`. -/
def lfind_interp (argv : List t_atom) (f : Dbl) (less_than_ind more_than_ind : Nat) :
    Option Dbl :=
  match argv[less_than_ind]?, argv[more_than_ind]? with
  | some al, some am =>
    some (Dbl.add
      (Dbl.mul
        (Dbl.div (Dbl.sub f (atom_getfloat al))
          (Dbl.sub (atom_getfloat am) (atom_getfloat al)))
        (Dbl.ofInt ((more_than_ind : Int) - (less_than_ind : Int))))
      (Dbl.ofInt (less_than_ind : Int)))
  | _, _ => none

/-- The position computed by `lfind_action`: `some (some p)` when `p` is
stored in `o_float` and sent out, `some none` when the function returns
without output, `none` when it reads outside the atom array. -/
def lfind_locate (argc : Nat) (argv : List t_atom) (f : Dbl) : Option (Option Dbl) :=
  match lfind_exact argv f argc 0 with
  | none => none
  | some (some i) => some (some (Dbl.ofInt (i : Int)))
  | some none =>
    match lfind_less argc argv f with
    | none => none
    | some none => some none
    | some (some less_than_ind) =>
      match lfind_more argc argv f less_than_ind with
      | none => none
      | some none => some none
      | some (some more_than_ind) =>
        (lfind_interp argv f less_than_ind more_than_ind).map some

/-- Function `lfind_action`: the new object state and the float sent through
the outlet (`lfind_output`), if any; `none` is a read outside the atom array. -/
def lfind_action (x : t_lfind) (argc : Nat) (argv : List t_atom) (f : Dbl) :
    Option (t_lfind × Option Dbl) :=
  (lfind_locate argc argv f).map fun r =>
    match r with
    | some p => ({ x with o_float := p }, some p)
    | none => (x, none)

/-- Function `lfind_float`, called on inlet `inlet`: the new object state and
the float sent out, if any. -/
def lfind_float (x : t_lfind) (inlet : Nat) (f : Dbl) : Option (t_lfind × Option Dbl) :=
  if x.maxlen = 0 then some (x, none)
  else match inlet with
    | 0 => lfind_action x x.i_list_2.len_cur x.i_list_2.list f
    | 1 => some ({ x with i_list_2 := mess_fill_float x.i_list_2 f 1 }, none)
    | _ => some (x, none)

/-- Function `lfind_list`, called on inlet `inlet`. -/
def lfind_list (x : t_lfind) (inlet : Nat) (argc : Nat) (argv : List t_atom) :
    Option (t_lfind × Option Dbl) :=
  if x.maxlen = 0 then some (x, none)
  else
    let argc := min argc x.maxlen
    match inlet with
    | 0 =>
      match x.i_list_2.list[0]? with
      | none => none
      | some a => lfind_action x argc argv (atom_getfloat a)
    | 1 => some ({ x with i_list_2 := mess_zpad (mess_set_list x.i_list_2 argc argv) }, none)
    | _ => some (x, none)

/-- The object built by `lfind_new` without arguments when the allocation
succeeds: `maxlen` is `MAXLEN_DEF`, the stored list is empty. -/
def lfind_new_default : t_lfind :=
  { i_list_2 := mess_realloc_ok (mess_init ⟨0, 0, sym_null, [], 0⟩) MAXLEN_DEF
    o_float := Dbl.fin 0
    maxlen := MAXLEN_DEF
    warnings := true }

/-! ## Lchange (`Lchange.c`) -/

/-- The object structure `_lchange` (inlets and outlets left out). -/
structure t_lchange where
  i_list_2 : t_mess_struct
  maxlen : Nat
  warnings : Bool
  is_locked : Bool
  deriving DecidableEq, Repr

/-- The two outlets of Lchange. -/
inductive t_lchange_outlet where
  | outl_list_same
  | outl_list_diff
  deriving DecidableEq, Repr

/-- Function `atoms_diff`: test if two atoms are different. -/
def atoms_diff (atom1 atom2 : t_atom) : Bool :=
  !((is_sym atom1 && is_sym atom2 && decide (atom_getsym atom1 = atom_getsym atom2))
    || (is_number atom1 && is_number atom2
      && Dbl.eq (atom_getfloat atom1) (atom_getfloat atom2)))

/-- The loop `for (i = 0; i < x->i_list_2->len_cur - offset; i++)` of
`lchange_action`, with `n` the number of iterations left: `some false` as
soon as `argv[i]` and `list[offset + i]` differ, `some true` if none does,
`none` for a read outside one of the arrays. -/
def lchange_scan (argv list : List t_atom) (offset : Nat) : Nat → Nat → Option Bool
  | 0, _ => some true
  | n + 1, i =>
    match argv[i]?, list[offset + i]? with
    | some a, some b =>
      if atoms_diff a b then some false else lchange_scan argv list offset n (i + 1)
    | _, _ => none

/-- The matching tests of `lchange_action`: the final value of `match`. -/
def lchange_match (x : t_lchange) (sym : t_symbol) (argc : Nat) (argv : List t_atom)
    (offset : Nat) : Option Bool :=
  if argc + offset ≠ x.i_list_2.len_cur
      ∨ (sym ≠ x.i_list_2.sym ∧ sym ≠ sym_int ∧ sym ≠ sym_float) then some false
  else lchange_scan argv x.i_list_2.list offset (x.i_list_2.len_cur - offset) 0

/-- Function `lchange_action`: the new object state, and the outlet and the
message (`outlet_anything (outl, sym, (short)argc, argv)`) sent through it;
`none` is a read outside an atom array. -/
def lchange_action (x : t_lchange) (sym : t_symbol) (argc : Nat) (argv : List t_atom)
    (offset : Nat) : Option (t_lchange × t_lchange_outlet × t_symbol × List t_atom) :=
  match lchange_match x sym argc argv offset with
  | none => none
  | some false =>
    some (if x.is_locked then x
        else { x with i_list_2 := mess_set x.i_list_2 sym argc argv offset },
      t_lchange_outlet.outl_list_diff, sym, argv.take (to_short (argc : Int)).toNat)
  | some true =>
    some (x, t_lchange_outlet.outl_list_same, sym, argv.take (to_short (argc : Int)).toNat)

/-! ## Lmax and Lmin (`Lmax.c`, `Lmin.c`)

The two sources are the same text up to the names and to the macro, `MAX` or
`MIN`, applied in the loop of the action. -/

/-- The object structure `_lmax`. -/
structure t_lmax where
  i_list_1 : t_mess_struct
  i_list_2 : t_mess_struct
  o_list : t_mess_struct
  maxlen : Nat
  warnings : Bool
  deriving DecidableEq, Repr

/-- The object structure `_lmin`. -/
structure t_lmin where
  i_list_1 : t_mess_struct
  i_list_2 : t_mess_struct
  o_list : t_mess_struct
  maxlen : Nat
  warnings : Bool
  deriving DecidableEq, Repr

/-- Body of the loop of `lmax_action`: the atom written to `*out` from `*in1`
and `*in2`. -/
def lmax_atom (in1 in2 : t_atom) : t_atom :=
  if !is_number in1 || !is_number in2 then in1
  else match in1, in2 with
    | A_LONG a, A_LONG b => A_LONG (MAX_long a b)
    | _, _ => A_FLOAT (MAX_dbl (atom_getfloat in1) (atom_getfloat in2))

/-- Body of the loop of `lmin_action`. -/
def lmin_atom (in1 in2 : t_atom) : t_atom :=
  if !is_number in1 || !is_number in2 then in1
  else match in1, in2 with
    | A_LONG a, A_LONG b => A_LONG (MIN_long a b)
    | _, _ => A_FLOAT (MIN_dbl (atom_getfloat in1) (atom_getfloat in2))

/-- The loop `for (i = 0; i < x->o_list->len_cur; i++)` shared by
`lmax_action` and `lmin_action`, with `n` the number of iterations left, `p1`
and `p2` the positions of the pointers `in1` and `in2`, `i` the position of
`out`, and `body` the atom written; `none` is a read outside an input array. -/
def lext_loop (body : t_atom → t_atom → t_atom) (in1 in2 : List t_atom) (incr1 incr2 : Nat) :
    Nat → Nat → Nat → Nat → List t_atom → Option (List t_atom)
  | 0, _, _, _, out => some out
  | n + 1, p1, p2, i, out =>
    match in1[p1]?, in2[p2]? with
    | some a, some b =>
      lext_loop body in1 in2 incr1 incr2 n (p1 + incr1) (p2 + incr2) (i + 1)
        (out.set i (body a b))
    | _, _ => none

/-- The pointer increment `incr1` chosen by `lmax_action` / `lmin_action`. -/
def lext_incr1 (len1 : Nat) : Nat := if len1 = 1 then 0 else 1

/-- The pointer increment `incr2` chosen by `lmax_action` / `lmin_action`. -/
def lext_incr2 (len1 len2 : Nat) : Nat := if len1 = 1 then 1 else if len2 = 1 then 0 else 1

/-- The output length chosen by `lmax_action` / `lmin_action`. -/
def lext_len (len1 len2 : Nat) : Nat := if len1 = 1 then len2 else len1

/-- The common text of `lmax_action` and `lmin_action`, run on the two input
structures and the output structure: the new output structure. -/
def lext_action (body : t_atom → t_atom → t_atom) (i_list_1 i_list_2 o_list : t_mess_struct) :
    Option t_mess_struct :=
  let len := lext_len i_list_1.len_cur i_list_2.len_cur
  (lext_loop body i_list_1.list i_list_2.list (lext_incr1 i_list_1.len_cur)
      (lext_incr2 i_list_1.len_cur i_list_2.len_cur) len 0 0 0 o_list.list).map
    fun out => mess_set_type { o_list with len_cur := len, list := out }

/-- Function `lmax_action`. -/
def lmax_action (x : t_lmax) : Option t_lmax :=
  (lext_action lmax_atom x.i_list_1 x.i_list_2 x.o_list).map fun o => { x with o_list := o }

/-- Function `lmin_action`. -/
def lmin_action (x : t_lmin) : Option t_lmin :=
  (lext_action lmin_atom x.i_list_1 x.i_list_2 x.o_list).map fun o => { x with o_list := o }

/-- Function `lmax_output`. -/
def lmax_output (x : t_lmax) : Option (t_symbol × List t_atom) := mess_outlet x.o_list

/-- Function `lmin_output`. -/
def lmin_output (x : t_lmin) : Option (t_symbol × List t_atom) := mess_outlet x.o_list

/-! ## Lpad (`Lpad.c`) -/

/-- The object structure `_lpad`. -/
structure t_lpad where
  i_pad_left : Nat
  i_pad_val : t_atom
  o_list : t_mess_struct
  maxlen : Nat
  warnings : Bool
  deriving DecidableEq, Repr

/-- The atoms `lpad_action` writes through the moving pointer `list`, in
order: the left padding, the leading symbol if set and if room remains, the
atoms of the input that fit, the right padding. -/
def lpad_written (x : t_lpad) (sym : t_symbol) (argc : Nat) (argv : List t_atom)
    (offset : Nat) : List t_atom :=
  let left := List.replicate (min x.i_pad_left x.maxlen) x.i_pad_val
  let first := if offset ≠ 0 ∧ left.length < x.maxlen then left ++ [A_SYM sym] else left
  let body := first ++ argv.take (min argc (x.maxlen - first.length))
  body ++ List.replicate (x.maxlen - body.length) x.i_pad_val

/-- Function `lpad_action`: the written atoms replace the start of the array,
then `mess_set_type`. -/
def lpad_action (x : t_lpad) (sym : t_symbol) (argc : Nat) (argv : List t_atom)
    (offset : Nat) : t_lpad :=
  let w := lpad_written x sym argc argv offset
  { x with o_list := mess_set_type { x.o_list with list := w ++ x.o_list.list.drop w.length } }

/-- Function `lpad_output`. -/
def lpad_output (x : t_lpad) : Option (t_symbol × List t_atom) := mess_outlet x.o_list

/-! ## Ltoset (`Ltoset.c`) -/

/-- The object structure `_ltoset`. -/
structure t_ltoset where
  i_value : Int
  o_list : t_mess_struct
  maxlen : Nat
  warnings : Bool
  deriving DecidableEq, Repr

/-- The index `(t_mess_int)atom_getlong(argv + i)` read by `ltoset_action`. -/
def ltoset_index (a : t_atom) : Int := to_mess_int (atom_getlong a)

/-- Body of the loop of `ltoset_action` on the atom array of the output. -/
def ltoset_step (maxlen : Nat) (i_value : Int) (list : List t_atom) (a : t_atom) : List t_atom :=
  if is_sym a then list
  else if 0 ≤ ltoset_index a ∧ ltoset_index a < (maxlen : Int) then
    list.set (ltoset_index a).toNat (A_LONG i_value)
  else list

/-- Function `ltoset_action`. -/
def ltoset_action (x : t_ltoset) (argc : Nat) (argv : List t_atom) : t_ltoset :=
  let o := mess_fill_int x.o_list 0 x.o_list.len_cur
  { x with
    o_list := mess_set_type
      { o with list := (argv.take argc).foldl (ltoset_step x.maxlen x.i_value) o.list } }

/-- Function `ltoset_output`. -/
def ltoset_output (x : t_ltoset) : Option (t_symbol × List t_atom) := mess_outlet x.o_list

/-- The new Lfind object after the list `0 10. 20` was stored through the
right inlet. -/
def lfind_example : t_lfind :=
  { lfind_new_default with
    i_list_2 := mess_zpad (mess_set_list lfind_new_default.i_list_2 3
      [A_LONG 0, A_FLOAT (Dbl.fin 10), A_LONG 20]) }

/-- The object built by `lchange_new` without arguments when the allocation
succeeds: `maxlen` is `MAXLEN_DEF`, the stored list is empty and locked. -/
def lchange_new_default : t_lchange :=
  { i_list_2 := mess_realloc_ok (mess_init ⟨0, 0, sym_null, [], 0⟩) MAXLEN_DEF
    maxlen := MAXLEN_DEF
    warnings := true
    is_locked := true }

/-- Function `lchange_list`, called on inlet `inlet`: the new object state and
the outlet and message sent, if any. -/
def lchange_list (x : t_lchange) (inlet : Nat) (argc : Nat) (argv : List t_atom) :
    Option (t_lchange × Option (t_lchange_outlet × t_symbol × List t_atom)) :=
  if x.maxlen = 0 then some (x, none)
  else match inlet with
    | 0 => (lchange_action x sym_list argc argv 0).map fun r => (r.1, some r.2)
    | 1 => some ({ x with i_list_2 := mess_set_list x.i_list_2 argc argv }, none)
    | _ => some (x, none)

/-- Atom equality in the words of the specification: two symbols are equal
when they are the same symbol; two numbers, `Int` or `Float` in any mix, when
they are numerically equal, an `Int` being taken as the double nearest to it;
a number and a symbol are never equal. -/
def atom_equal : t_atom → t_atom → Bool
  | A_SYM s, A_SYM t => decide (s = t)
  | A_LONG m, A_LONG n => Dbl.eq (Dbl.ofInt m) (Dbl.ofInt n)
  | A_LONG m, A_FLOAT d => Dbl.eq (Dbl.ofInt m) d
  | A_FLOAT c, A_LONG n => Dbl.eq c (Dbl.ofInt n)
  | A_FLOAT c, A_FLOAT d => Dbl.eq c d
  | _, _ => false

/-- Atom equality of the pair at position `i`: `argv[i]` against the stored
`list[offset + i]`. -/
def lchange_pair_equal (argv list : List t_atom) (offset i : Nat) : Bool :=
  match argv[i]?, list[offset + i]? with
  | some a, some b => atom_equal a b
  | _, _ => false

/-- Equality of an incoming message with the stored one, in the words of the
specification: the total lengths (lead offset included) are equal, the tags
match or the incoming tag is `int` or `float`, and every positional pair of
values is atom-equal. -/
def lchange_equals (x : t_lchange) (sym : t_symbol) (argv : List t_atom) (offset : Nat) : Prop :=
  argv.length + offset = x.i_list_2.len_cur
  ∧ (sym = x.i_list_2.sym ∨ sym = sym_int ∨ sym = sym_float)
  ∧ ∀ i, i < argv.length → lchange_pair_equal argv x.i_list_2.list offset i = true

instance (x : t_lchange) (sym : t_symbol) (argv : List t_atom) (offset : Nat) :
    Decidable (lchange_equals x sym argv offset) :=
  inferInstanceAs (Decidable (argv.length + offset = x.i_list_2.len_cur
    ∧ (sym = x.i_list_2.sym ∨ sym = sym_int ∨ sym = sym_float)
    ∧ ∀ i, i < argv.length → lchange_pair_equal argv x.i_list_2.list offset i = true))

/-- The new Lchange object after the list `1 2 3` was stored through the
right inlet. -/
def lchange_example : t_lchange :=
  { lchange_new_default with
    i_list_2 := mess_set_list lchange_new_default.i_list_2 3 [A_LONG 1, A_LONG 2, A_LONG 3] }

/-- Reads and writes of `lmax_action` / `lmin_action` stay inside the arrays:
the three arrays have one common size (the `maxlen` setter allocates them
together) and the two input lengths lie within it. -/
def lext_ok (i_list_1 i_list_2 o_list : t_mess_struct) : Prop :=
  i_list_1.len_cur ≤ i_list_1.list.length
  ∧ i_list_2.len_cur ≤ i_list_2.list.length
  ∧ i_list_1.list.length = i_list_2.list.length
  ∧ i_list_2.list.length = o_list.list.length

instance (i_list_1 i_list_2 o_list : t_mess_struct) :
    Decidable (lext_ok i_list_1 i_list_2 o_list) :=
  inferInstanceAs (Decidable (i_list_1.len_cur ≤ i_list_1.list.length
    ∧ i_list_2.len_cur ≤ i_list_2.list.length
    ∧ i_list_1.list.length = i_list_2.list.length
    ∧ i_list_2.list.length = o_list.list.length))

/-- The object built by `lmax_new` without arguments when the allocations
succeed. -/
def lmax_new_default : t_lmax :=
  { i_list_1 := mess_realloc_ok (mess_init ⟨0, 0, sym_null, [], 0⟩) MAXLEN_DEF
    i_list_2 := mess_realloc_ok (mess_init ⟨0, 0, sym_null, [], 0⟩) MAXLEN_DEF
    o_list := mess_realloc_ok (mess_init ⟨0, 0, sym_null, [], 0⟩) MAXLEN_DEF
    maxlen := MAXLEN_DEF
    warnings := true }

/-- The object built by `lmin_new` without arguments when the allocations
succeed. -/
def lmin_new_default : t_lmin :=
  { i_list_1 := mess_realloc_ok (mess_init ⟨0, 0, sym_null, [], 0⟩) MAXLEN_DEF
    i_list_2 := mess_realloc_ok (mess_init ⟨0, 0, sym_null, [], 0⟩) MAXLEN_DEF
    o_list := mess_realloc_ok (mess_init ⟨0, 0, sym_null, [], 0⟩) MAXLEN_DEF
    maxlen := MAXLEN_DEF
    warnings := true }

/-- Function `lmax_list`, called on inlet `inlet`: the new object state and
the message sent through the outlet, if any. -/
def lmax_list (x : t_lmax) (inlet : Nat) (argc : Nat) (argv : List t_atom) :
    Option (t_lmax × Option (t_symbol × List t_atom)) :=
  if x.maxlen = 0 then some (x, none)
  else match inlet with
    | 0 =>
      (lmax_action { x with i_list_1 := mess_set_list x.i_list_1 argc argv }).map
        fun x2 => (x2, lmax_output x2)
    | 1 =>
      (lmax_action { x with i_list_2 := mess_zpad (mess_set_list x.i_list_2 argc argv) }).map
        fun x2 => (x2, none)
    | _ => some (x, none)

/-- Function `lmin_list`, called on inlet `inlet`. -/
def lmin_list (x : t_lmin) (inlet : Nat) (argc : Nat) (argv : List t_atom) :
    Option (t_lmin × Option (t_symbol × List t_atom)) :=
  if x.maxlen = 0 then some (x, none)
  else match inlet with
    | 0 =>
      (lmin_action { x with i_list_1 := mess_set_list x.i_list_1 argc argv }).map
        fun x2 => (x2, lmin_output x2)
    | 1 =>
      (lmin_action { x with i_list_2 := mess_zpad (mess_set_list x.i_list_2 argc argv) }).map
        fun x2 => (x2, none)
    | _ => some (x, none)

/-- The new Lmax object holding the left list `1 5 3` and the right list `4`. -/
def lmax_example : t_lmax :=
  { lmax_new_default with
    i_list_1 := mess_set_list lmax_new_default.i_list_1 3 [A_LONG 1, A_LONG 5, A_LONG 3]
    i_list_2 := mess_zpad (mess_set_list lmax_new_default.i_list_2 1 [A_LONG 4]) }

/-- The new Lmin object holding the left list `1 a 3.5` and the right list
`2 2 2`. -/
def lmin_example : t_lmin :=
  { lmin_new_default with
    i_list_1 := mess_set_list lmin_new_default.i_list_1 3
      [A_LONG 1, A_SYM "a", A_FLOAT (Dbl.fin (7 / 2))]
    i_list_2 := mess_zpad
      (mess_set_list lmin_new_default.i_list_2 3 [A_LONG 2, A_LONG 2, A_LONG 2]) }

/-- Function `lpad_list`, called on inlet `inlet`: the new object state and
the message sent through the outlet, if any. -/
def lpad_list (x : t_lpad) (inlet : Nat) (argc : Nat) (argv : List t_atom) :
    t_lpad × Option (t_symbol × List t_atom) :=
  match inlet with
  | 0 =>
    if x.maxlen = 0 then (x, none)
    else (lpad_action x sym_list argc argv 0, lpad_output (lpad_action x sym_list argc argv 0))
  | _ => (x, none)

/-- The object `Lpad 1 0 5 @maxlen 5` as `lpad_new` builds it when the
allocation succeeds: five slots, left padding 1, padding value 0, output
length 5. -/
def lpad_new_example : t_lpad :=
  lpad_action
    { i_pad_left := 1
      i_pad_val := A_LONG 0
      o_list := { mess_realloc_ok (mess_init ⟨0, 0, sym_null, [], 0⟩) 5 with len_cur := 5 }
      maxlen := 5
      warnings := true }
    sym_empty 0 [] 0

/-- The host message that spells a list of slots, in the words of the
specification (lead tag and classification): a leading symbol is the selector
and the other slots are the arguments; a single number is an `int` or a
`float` message; several slots led by a number are a `list` message; no slot,
no message. -/
def slots_message : List t_atom → Option (t_symbol × List t_atom)
  | [] => none
  | A_SYM s :: rest => some (s, rest)
  | [A_LONG n] => some (sym_int, [A_LONG n])
  | [A_FLOAT d] => some (sym_float, [A_FLOAT d])
  | l => some (sym_list, l)

/-- The object `Ltoset 4 9 @maxlen 10` as `ltoset_new` builds it when the
allocation succeeds: ten slots, output length 4, value 9. -/
def ltoset_new_example : t_ltoset :=
  { i_value := 9
    o_list := { mess_realloc_ok (mess_init ⟨0, 0, sym_null, [], 0⟩) 10 with len_cur := 4 }
    maxlen := 10
    warnings := true }

/-! ## Allocation, attribute setters and the remaining message handlers -/

/-- Host macro `CLAMP(a, lo, hi)`: `((a) > (lo) ? ((a) < (hi) ? (a) : (hi)) : (lo))`. -/
def CLAMP (a lo hi : Int) : Int := if a > lo then (if a < hi then a else hi) else lo

/-- C conversion `(t_mess_int)d` of a double: truncation toward zero.  Out of
the range of a 32-bit integer, and for an infinity or NaN, C leaves the result undefined; the
value taken is the one the x86-64 conversion instruction produces, `-2^31`. -/
def Dbl.toMessInt : Dbl → Int
  | Dbl.fin q =>
    let t := Int.tdiv q.num (q.den : Int)
    if -(2 : Int) ^ 31 ≤ t ∧ t < (2 : Int) ^ 31 then t else -(2 : Int) ^ 31
  | _ => -(2 : Int) ^ 31

/-- Host error codes returned by the attribute setters. -/
inductive t_max_err where
  | MAX_ERR_NONE
  | MAX_ERR_GENERIC
  | MAX_ERR_OUT_OF_MEM
  deriving DecidableEq, Repr

/-- Function `mess_clear`. -/
def mess_clear (mess : t_mess_struct) : t_mess_struct := mess_init mess

/-- Function `mess_realloc`; `alloc_ok` tells whether `sysmem_newptr` returns
an array. -/
def mess_realloc (mess : t_mess_struct) (len_max : Nat) (alloc_ok : Bool) : t_mess_struct :=
  if alloc_ok then mess_realloc_ok mess len_max else mess_init mess

/-- Function `mess_fill_sym`. -/
def mess_fill_sym (mess : t_mess_struct) (sym : t_symbol) (len : Nat) : t_mess_struct :=
  { mess with
    len_cur := len
    list := List.replicate mess.len_max (A_SYM sym)
    offset := match len with
      | 0 => 0
      | _ => 1
    sym := match len with
      | 0 => sym_empty
      | _ => sym }

/-- Function `mess_fill_atom`. -/
def mess_fill_atom (mess : t_mess_struct) (atom : t_atom) (len : Nat) : t_mess_struct :=
  mess_set_type { mess with len_cur := len, list := List.replicate mess.len_max atom }

/-- The length `maxlen` read by the `maxlen` setters from the first atom:
`(t_mess_int)atom_getlong(argv)`, replaced by `MAXLEN_DEF` when it is not
positive. -/
def maxlen_request (argv : List t_atom) : Nat :=
  match argv with
  | [] => MAXLEN_DEF
  | a :: _ =>
    if to_mess_int (atom_getlong a) ≤ 0 then MAXLEN_DEF
    else (to_mess_int (atom_getlong a)).toNat

/-! ### Lchange -/

/-- Function `lchange_maxlen_set`, the setter of the attribute `maxlen`;
`alloc_ok` is the outcome of the allocation, if one is made. -/
def lchange_maxlen_set (x : t_lchange) (argc : Nat) (argv : List t_atom) (alloc_ok : Bool) :
    t_lchange × t_max_err :=
  if argc = 0 ∨ argv = [] then (x, t_max_err.MAX_ERR_GENERIC)
  else if maxlen_request argv = x.maxlen then (x, t_max_err.MAX_ERR_NONE)
  else if MESS_IS_NULL (mess_realloc x.i_list_2 (maxlen_request argv) alloc_ok) then
    ({ x with
        i_list_2 := mess_clear (mess_realloc x.i_list_2 (maxlen_request argv) alloc_ok)
        maxlen := 0 },
      t_max_err.MAX_ERR_OUT_OF_MEM)
  else
    ({ x with
        i_list_2 := mess_realloc x.i_list_2 (maxlen_request argv) alloc_ok
        maxlen := maxlen_request argv },
      t_max_err.MAX_ERR_NONE)

/-- Function `lchange_int`, called on inlet `inlet`. -/
def lchange_int (x : t_lchange) (inlet : Nat) (n : Int) :
    Option (t_lchange × Option (t_lchange_outlet × t_symbol × List t_atom)) :=
  if x.maxlen = 0 then some (x, none)
  else match inlet with
    | 0 => (lchange_action x sym_int 1 [A_LONG n] 0).map fun r => (r.1, some r.2)
    | 1 => some ({ x with i_list_2 := mess_set_int x.i_list_2 [A_LONG n] }, none)
    | _ => some (x, none)

/-- Function `lchange_float`, called on inlet `inlet`. -/
def lchange_float (x : t_lchange) (inlet : Nat) (f : Dbl) :
    Option (t_lchange × Option (t_lchange_outlet × t_symbol × List t_atom)) :=
  if x.maxlen = 0 then some (x, none)
  else match inlet with
    | 0 => (lchange_action x sym_float 1 [A_FLOAT f] 0).map fun r => (r.1, some r.2)
    | 1 => some ({ x with i_list_2 := mess_set_float x.i_list_2 [A_FLOAT f] }, none)
    | _ => some (x, none)

/-- Function `lchange_anything`, called on inlet `inlet`. -/
def lchange_anything (x : t_lchange) (inlet : Nat) (sym : t_symbol) (argc : Nat)
    (argv : List t_atom) :
    Option (t_lchange × Option (t_lchange_outlet × t_symbol × List t_atom)) :=
  if x.maxlen = 0 then some (x, none)
  else match inlet with
    | 0 => (lchange_action x sym argc argv 1).map fun r => (r.1, some r.2)
    | 1 => some ({ x with i_list_2 := mess_set_any x.i_list_2 sym argc argv }, none)
    | _ => some (x, none)

/-- Function `lchange_bang`: the stored list sent through the `different`
outlet. -/
def lchange_bang (x : t_lchange) : Option (t_symbol × List t_atom) := mess_outlet x.i_list_2

/-- Function `lchange_clear`. -/
def lchange_clear (x : t_lchange) : t_lchange :=
  { x with i_list_2 := mess_set_empty x.i_list_2 }

/-- The attributes of Lchange as the host sets them: `maxlen` through
`lchange_maxlen_set`, `warnings` and `lock` directly. -/
inductive lchange_attr where
  | maxlen (argv : List t_atom) (alloc_ok : Bool)
  | warnings (b : Bool)
  | lock (b : Bool)
  deriving DecidableEq, Repr

/-- One attribute set on an Lchange object. -/
def lchange_attr_set (x : t_lchange) : lchange_attr → t_lchange
  | lchange_attr.maxlen argv alloc_ok => (lchange_maxlen_set x argv.length argv alloc_ok).1
  | lchange_attr.warnings b => { x with warnings := b }
  | lchange_attr.lock b => { x with is_locked := b }

/-- Function `lchange_new` up to its return: `attrs` are the attribute
arguments (`attr_args_process`), `alloc_ok` the outcome of the default
allocation, `argv` the other arguments. -/
def lchange_new (attrs : List lchange_attr) (alloc_ok : Bool) (argv : List t_atom) : t_lchange :=
  let x0 : t_lchange :=
    { i_list_2 := mess_init ⟨0, 0, sym_null, [], 0⟩, maxlen := 0, warnings := true,
      is_locked := true }
  let x1 := attrs.foldl lchange_attr_set x0
  let x2 := if x1.maxlen = 0
    then (lchange_maxlen_set x1 1 [A_LONG (MAXLEN_DEF : Nat)] alloc_ok).1 else x1
  if argv.length ≠ 0 then
    { x2 with i_list_2 := mess_set_type (mess_set_list x2.i_list_2 argv.length argv) }
  else x2

/-- The messages the host sends to an Lchange object. -/
inductive lchange_msg where
  | bang
  | int (inlet : Nat) (n : Int)
  | float (inlet : Nat) (f : Dbl)
  | list (inlet : Nat) (argv : List t_atom)
  | anything (inlet : Nat) (sym : t_symbol) (argv : List t_atom)
  | clear
  | attr (a : lchange_attr)
  deriving DecidableEq, Repr

/-- The object state after one message; `none` is a read outside an array. -/
def lchange_handle (x : t_lchange) : lchange_msg → Option t_lchange
  | lchange_msg.bang => some x
  | lchange_msg.int inlet n => (lchange_int x inlet n).map Prod.fst
  | lchange_msg.float inlet f => (lchange_float x inlet f).map Prod.fst
  | lchange_msg.list inlet argv => (lchange_list x inlet argv.length argv).map Prod.fst
  | lchange_msg.anything inlet sym argv =>
    (lchange_anything x inlet sym argv.length argv).map Prod.fst
  | lchange_msg.clear => some (lchange_clear x)
  | lchange_msg.attr a => some (lchange_attr_set x a)

/-- The object state after a sequence of messages. -/
def lchange_run (x : t_lchange) : List lchange_msg → Option t_lchange
  | [] => some x
  | m :: ms => (lchange_handle x m).bind fun x2 => lchange_run x2 ms

/-! ### Lfind -/

/-- Function `lfind_maxlen_set`, the setter of the attribute `maxlen`. -/
def lfind_maxlen_set (x : t_lfind) (argc : Nat) (argv : List t_atom) (alloc_ok : Bool) :
    t_lfind × t_max_err :=
  if argc = 0 ∨ argv = [] then (x, t_max_err.MAX_ERR_GENERIC)
  else if maxlen_request argv = x.maxlen then (x, t_max_err.MAX_ERR_NONE)
  else if MESS_IS_NULL (mess_realloc x.i_list_2 (maxlen_request argv) alloc_ok) then
    ({ x with
        i_list_2 := mess_clear (mess_realloc x.i_list_2 (maxlen_request argv) alloc_ok)
        maxlen := 0 },
      t_max_err.MAX_ERR_OUT_OF_MEM)
  else
    ({ x with
        i_list_2 := mess_realloc x.i_list_2 (maxlen_request argv) alloc_ok
        maxlen := maxlen_request argv },
      t_max_err.MAX_ERR_NONE)

/-- Function `lfind_int`, called on inlet `inlet`. -/
def lfind_int (x : t_lfind) (inlet : Nat) (n : Int) : Option (t_lfind × Option Dbl) :=
  lfind_float x inlet (Dbl.ofInt n)

/-- Function `lfind_bang`: the float sent through the outlet. -/
def lfind_bang (x : t_lfind) : Dbl := x.o_float

/-- Function `lfind_clear`. -/
def lfind_clear (x : t_lfind) : t_lfind :=
  { x with i_list_2 := { mess_set_empty x.i_list_2 with len_cur := 1 } }

/-- The attributes of Lfind as the host sets them. -/
inductive lfind_attr where
  | maxlen (argv : List t_atom) (alloc_ok : Bool)
  | warnings (b : Bool)
  deriving DecidableEq, Repr

/-- One attribute set on an Lfind object. -/
def lfind_attr_set (x : t_lfind) : lfind_attr → t_lfind
  | lfind_attr.maxlen argv alloc_ok => (lfind_maxlen_set x argv.length argv alloc_ok).1
  | lfind_attr.warnings b => { x with warnings := b }

/-- Function `lfind_new` up to its return: `attrs` are the attribute
arguments, `alloc_ok` the outcome of the default allocation, `argv` the other
arguments. -/
def lfind_new (attrs : List lfind_attr) (alloc_ok : Bool) (argv : List t_atom) : t_lfind :=
  let x0 : t_lfind :=
    { i_list_2 := mess_init ⟨0, 0, sym_null, [], 0⟩, o_float := Dbl.fin 0, maxlen := 0,
      warnings := true }
  let x1 := attrs.foldl lfind_attr_set x0
  let x2 := if x1.maxlen = 0
    then (lfind_maxlen_set x1 1 [A_LONG (MAXLEN_DEF : Nat)] alloc_ok).1 else x1
  let x3 : t_lfind := match argv with
    | [] => x2
    | [a] => { x2 with i_list_2 := mess_fill_float x2.i_list_2 (atom_getfloat a) 1 }
    | _ => { x2 with i_list_2 := mess_set_type (mess_set_list x2.i_list_2 argv.length argv) }
  { x3 with o_float := Dbl.fin 0 }

/-- The messages the host sends to an Lfind object. -/
inductive lfind_msg where
  | bang
  | int (inlet : Nat) (n : Int)
  | float (inlet : Nat) (f : Dbl)
  | list (inlet : Nat) (argv : List t_atom)
  | anything (inlet : Nat) (sym : t_symbol) (argv : List t_atom)
  | clear
  | attr (a : lfind_attr)
  deriving DecidableEq, Repr

/-- The object state after one message; `none` is a read outside an array. -/
def lfind_handle (x : t_lfind) : lfind_msg → Option t_lfind
  | lfind_msg.bang => some x
  | lfind_msg.int inlet n => (lfind_int x inlet n).map Prod.fst
  | lfind_msg.float inlet f => (lfind_float x inlet f).map Prod.fst
  | lfind_msg.list inlet argv => (lfind_list x inlet argv.length argv).map Prod.fst
  | lfind_msg.anything _ _ _ => some x
  | lfind_msg.clear => some (lfind_clear x)
  | lfind_msg.attr a => some (lfind_attr_set x a)

/-- The object state after a sequence of messages. -/
def lfind_run (x : t_lfind) : List lfind_msg → Option t_lfind
  | [] => some x
  | m :: ms => (lfind_handle x m).bind fun x2 => lfind_run x2 ms

/-! ### Lmax -/

/-- Function `lmax_maxlen_set`, the setter of the attribute `maxlen`; `ok1`,
`ok2` and `ok3` are the outcomes of the three allocations. -/
def lmax_maxlen_set (x : t_lmax) (argc : Nat) (argv : List t_atom) (ok1 ok2 ok3 : Bool) :
    t_lmax × t_max_err :=
  if argc = 0 ∨ argv = [] then (x, t_max_err.MAX_ERR_GENERIC)
  else if maxlen_request argv = x.maxlen then (x, t_max_err.MAX_ERR_NONE)
  else if MESS_IS_NULL (mess_realloc x.i_list_1 (maxlen_request argv) ok1)
      || MESS_IS_NULL (mess_realloc x.i_list_2 (maxlen_request argv) ok2)
      || MESS_IS_NULL (mess_realloc x.o_list (maxlen_request argv) ok3) then
    ({ x with
        i_list_1 := mess_clear (mess_realloc x.i_list_1 (maxlen_request argv) ok1)
        i_list_2 := mess_clear (mess_realloc x.i_list_2 (maxlen_request argv) ok2)
        o_list := mess_clear (mess_realloc x.o_list (maxlen_request argv) ok3)
        maxlen := 0 },
      t_max_err.MAX_ERR_OUT_OF_MEM)
  else
    ({ x with
        i_list_1 := mess_realloc x.i_list_1 (maxlen_request argv) ok1
        i_list_2 := mess_realloc x.i_list_2 (maxlen_request argv) ok2
        o_list := mess_realloc x.o_list (maxlen_request argv) ok3
        maxlen := maxlen_request argv },
      t_max_err.MAX_ERR_NONE)

/-- The common text of the handlers of Lmax for a message on the left inlet:
the left list is set, the action is run and the output list is sent. -/
def lmax_left (x : t_lmax) (i_list_1 : t_mess_struct) :
    Option (t_lmax × Option (t_symbol × List t_atom)) :=
  (lmax_action { x with i_list_1 := i_list_1 }).map fun x2 => (x2, lmax_output x2)

/-- The common text of the handlers of Lmax for a message on the right
inlet: the right list is set and padded with zeros, and the action is run. -/
def lmax_right (x : t_lmax) (i_list_2 : t_mess_struct) :
    Option (t_lmax × Option (t_symbol × List t_atom)) :=
  (lmax_action { x with i_list_2 := mess_zpad i_list_2 }).map fun x2 => (x2, none)

/-- Function `lmax_int`, called on inlet `inlet`. -/
def lmax_int (x : t_lmax) (inlet : Nat) (n : Int) :
    Option (t_lmax × Option (t_symbol × List t_atom)) :=
  if x.maxlen = 0 then some (x, none)
  else match inlet with
    | 0 => lmax_left x (mess_set_int x.i_list_1 [A_LONG n])
    | 1 => lmax_right x (mess_set_int x.i_list_2 [A_LONG n])
    | _ => some (x, none)

/-- Function `lmax_float`, called on inlet `inlet`. -/
def lmax_float (x : t_lmax) (inlet : Nat) (f : Dbl) :
    Option (t_lmax × Option (t_symbol × List t_atom)) :=
  if x.maxlen = 0 then some (x, none)
  else match inlet with
    | 0 => lmax_left x (mess_set_float x.i_list_1 [A_FLOAT f])
    | 1 => lmax_right x (mess_set_float x.i_list_2 [A_FLOAT f])
    | _ => some (x, none)

/-- Function `lmax_anything`, called on inlet `inlet`. -/
def lmax_anything (x : t_lmax) (inlet : Nat) (sym : t_symbol) (argc : Nat)
    (argv : List t_atom) : Option (t_lmax × Option (t_symbol × List t_atom)) :=
  if x.maxlen = 0 then some (x, none)
  else match inlet with
    | 0 => lmax_left x (mess_set_any x.i_list_1 sym argc argv)
    | 1 => lmax_right x (mess_set_any x.i_list_2 sym argc argv)
    | _ => some (x, none)

/-- Function `lmax_clear`. -/
def lmax_clear (x : t_lmax) : t_lmax :=
  { x with
    i_list_1 := mess_set_empty x.i_list_1
    i_list_2 := mess_set_empty x.i_list_2
    o_list := mess_set_empty x.o_list }

/-- The attributes of Lmax as the host sets them. -/
inductive lmax_attr where
  | maxlen (argv : List t_atom) (ok1 ok2 ok3 : Bool)
  | warnings (b : Bool)
  deriving DecidableEq, Repr

/-- One attribute set on an Lmax object. -/
def lmax_attr_set (x : t_lmax) : lmax_attr → t_lmax
  | lmax_attr.maxlen argv ok1 ok2 ok3 => (lmax_maxlen_set x argv.length argv ok1 ok2 ok3).1
  | lmax_attr.warnings b => { x with warnings := b }

/-- Function `lmax_new` up to its return: `attrs` are the attribute
arguments, `ok1`, `ok2` and `ok3` the outcomes of the default allocations,
`argv` the other arguments. -/
def lmax_new (attrs : List lmax_attr) (ok1 ok2 ok3 : Bool) (argv : List t_atom) : t_lmax :=
  let x0 : t_lmax :=
    { i_list_1 := mess_init ⟨0, 0, sym_null, [], 0⟩
      i_list_2 := mess_init ⟨0, 0, sym_null, [], 0⟩
      o_list := mess_init ⟨0, 0, sym_null, [], 0⟩
      maxlen := 0
      warnings := true }
  let x1 := attrs.foldl lmax_attr_set x0
  let x2 := if x1.maxlen = 0
    then (lmax_maxlen_set x1 1 [A_LONG (MAXLEN_DEF : Nat)] ok1 ok2 ok3).1 else x1
  if argv.length ≠ 0 then
    { x2 with i_list_2 := mess_set_type (mess_set_list x2.i_list_2 argv.length argv) }
  else x2

/-- The messages the host sends to an Lmax object. -/
inductive lmax_msg where
  | bang
  | int (inlet : Nat) (n : Int)
  | float (inlet : Nat) (f : Dbl)
  | list (inlet : Nat) (argv : List t_atom)
  | anything (inlet : Nat) (sym : t_symbol) (argv : List t_atom)
  | clear
  | attr (a : lmax_attr)
  deriving DecidableEq, Repr

/-- The object state after one message; `none` is a read outside an array. -/
def lmax_handle (x : t_lmax) : lmax_msg → Option t_lmax
  | lmax_msg.bang => some x
  | lmax_msg.int inlet n => (lmax_int x inlet n).map Prod.fst
  | lmax_msg.float inlet f => (lmax_float x inlet f).map Prod.fst
  | lmax_msg.list inlet argv => (lmax_list x inlet argv.length argv).map Prod.fst
  | lmax_msg.anything inlet sym argv =>
    (lmax_anything x inlet sym argv.length argv).map Prod.fst
  | lmax_msg.clear => some (lmax_clear x)
  | lmax_msg.attr a => some (lmax_attr_set x a)

/-- The object state after a sequence of messages. -/
def lmax_run (x : t_lmax) : List lmax_msg → Option t_lmax
  | [] => some x
  | m :: ms => (lmax_handle x m).bind fun x2 => lmax_run x2 ms

/-! ### Lmin -/

/-- Function `lmin_maxlen_set`, the setter of the attribute `maxlen`; `ok1`,
`ok2` and `ok3` are the outcomes of the three allocations. -/
def lmin_maxlen_set (x : t_lmin) (argc : Nat) (argv : List t_atom) (ok1 ok2 ok3 : Bool) :
    t_lmin × t_max_err :=
  if argc = 0 ∨ argv = [] then (x, t_max_err.MAX_ERR_GENERIC)
  else if maxlen_request argv = x.maxlen then (x, t_max_err.MAX_ERR_NONE)
  else if MESS_IS_NULL (mess_realloc x.i_list_1 (maxlen_request argv) ok1)
      || MESS_IS_NULL (mess_realloc x.i_list_2 (maxlen_request argv) ok2)
      || MESS_IS_NULL (mess_realloc x.o_list (maxlen_request argv) ok3) then
    ({ x with
        i_list_1 := mess_clear (mess_realloc x.i_list_1 (maxlen_request argv) ok1)
        i_list_2 := mess_clear (mess_realloc x.i_list_2 (maxlen_request argv) ok2)
        o_list := mess_clear (mess_realloc x.o_list (maxlen_request argv) ok3)
        maxlen := 0 },
      t_max_err.MAX_ERR_OUT_OF_MEM)
  else
    ({ x with
        i_list_1 := mess_realloc x.i_list_1 (maxlen_request argv) ok1
        i_list_2 := mess_realloc x.i_list_2 (maxlen_request argv) ok2
        o_list := mess_realloc x.o_list (maxlen_request argv) ok3
        maxlen := maxlen_request argv },
      t_max_err.MAX_ERR_NONE)

/-- The common text of the handlers of Lmin for a message on the left inlet:
the left list is set, the action is run and the output list is sent. -/
def lmin_left (x : t_lmin) (i_list_1 : t_mess_struct) :
    Option (t_lmin × Option (t_symbol × List t_atom)) :=
  (lmin_action { x with i_list_1 := i_list_1 }).map fun x2 => (x2, lmin_output x2)

/-- The common text of the handlers of Lmin for a message on the right
inlet: the right list is set and padded with zeros, and the action is run. -/
def lmin_right (x : t_lmin) (i_list_2 : t_mess_struct) :
    Option (t_lmin × Option (t_symbol × List t_atom)) :=
  (lmin_action { x with i_list_2 := mess_zpad i_list_2 }).map fun x2 => (x2, none)

/-- Function `lmin_int`, called on inlet `inlet`. -/
def lmin_int (x : t_lmin) (inlet : Nat) (n : Int) :
    Option (t_lmin × Option (t_symbol × List t_atom)) :=
  if x.maxlen = 0 then some (x, none)
  else match inlet with
    | 0 => lmin_left x (mess_set_int x.i_list_1 [A_LONG n])
    | 1 => lmin_right x (mess_set_int x.i_list_2 [A_LONG n])
    | _ => some (x, none)

/-- Function `lmin_float`, called on inlet `inlet`. -/
def lmin_float (x : t_lmin) (inlet : Nat) (f : Dbl) :
    Option (t_lmin × Option (t_symbol × List t_atom)) :=
  if x.maxlen = 0 then some (x, none)
  else match inlet with
    | 0 => lmin_left x (mess_set_float x.i_list_1 [A_FLOAT f])
    | 1 => lmin_right x (mess_set_float x.i_list_2 [A_FLOAT f])
    | _ => some (x, none)

/-- Function `lmin_anything`, called on inlet `inlet`. -/
def lmin_anything (x : t_lmin) (inlet : Nat) (sym : t_symbol) (argc : Nat)
    (argv : List t_atom) : Option (t_lmin × Option (t_symbol × List t_atom)) :=
  if x.maxlen = 0 then some (x, none)
  else match inlet with
    | 0 => lmin_left x (mess_set_any x.i_list_1 sym argc argv)
    | 1 => lmin_right x (mess_set_any x.i_list_2 sym argc argv)
    | _ => some (x, none)

/-- Function `lmin_clear`. -/
def lmin_clear (x : t_lmin) : t_lmin :=
  { x with
    i_list_1 := mess_set_empty x.i_list_1
    i_list_2 := mess_set_empty x.i_list_2
    o_list := mess_set_empty x.o_list }

/-- The attributes of Lmin as the host sets them. -/
inductive lmin_attr where
  | maxlen (argv : List t_atom) (ok1 ok2 ok3 : Bool)
  | warnings (b : Bool)
  deriving DecidableEq, Repr

/-- One attribute set on an Lmin object. -/
def lmin_attr_set (x : t_lmin) : lmin_attr → t_lmin
  | lmin_attr.maxlen argv ok1 ok2 ok3 => (lmin_maxlen_set x argv.length argv ok1 ok2 ok3).1
  | lmin_attr.warnings b => { x with warnings := b }

/-- Function `lmin_new` up to its return: `attrs` are the attribute
arguments, `ok1`, `ok2` and `ok3` the outcomes of the default allocations,
`argv` the other arguments. -/
def lmin_new (attrs : List lmin_attr) (ok1 ok2 ok3 : Bool) (argv : List t_atom) : t_lmin :=
  let x0 : t_lmin :=
    { i_list_1 := mess_init ⟨0, 0, sym_null, [], 0⟩
      i_list_2 := mess_init ⟨0, 0, sym_null, [], 0⟩
      o_list := mess_init ⟨0, 0, sym_null, [], 0⟩
      maxlen := 0
      warnings := true }
  let x1 := attrs.foldl lmin_attr_set x0
  let x2 := if x1.maxlen = 0
    then (lmin_maxlen_set x1 1 [A_LONG (MAXLEN_DEF : Nat)] ok1 ok2 ok3).1 else x1
  if argv.length ≠ 0 then
    { x2 with i_list_2 := mess_set_type (mess_set_list x2.i_list_2 argv.length argv) }
  else x2

/-- The messages the host sends to an Lmin object. -/
inductive lmin_msg where
  | bang
  | int (inlet : Nat) (n : Int)
  | float (inlet : Nat) (f : Dbl)
  | list (inlet : Nat) (argv : List t_atom)
  | anything (inlet : Nat) (sym : t_symbol) (argv : List t_atom)
  | clear
  | attr (a : lmin_attr)
  deriving DecidableEq, Repr

/-- The object state after one message; `none` is a read outside an array. -/
def lmin_handle (x : t_lmin) : lmin_msg → Option t_lmin
  | lmin_msg.bang => some x
  | lmin_msg.int inlet n => (lmin_int x inlet n).map Prod.fst
  | lmin_msg.float inlet f => (lmin_float x inlet f).map Prod.fst
  | lmin_msg.list inlet argv => (lmin_list x inlet argv.length argv).map Prod.fst
  | lmin_msg.anything inlet sym argv =>
    (lmin_anything x inlet sym argv.length argv).map Prod.fst
  | lmin_msg.clear => some (lmin_clear x)
  | lmin_msg.attr a => some (lmin_attr_set x a)

/-- The object state after a sequence of messages. -/
def lmin_run (x : t_lmin) : List lmin_msg → Option t_lmin
  | [] => some x
  | m :: ms => (lmin_handle x m).bind fun x2 => lmin_run x2 ms

/-! ### Lpad -/

/-- Function `lpad_defaults`. -/
def lpad_defaults (x : t_lpad) : t_lpad :=
  { x with
    i_pad_left := 0
    i_pad_val := A_LONG 0
    o_list := { x.o_list with len_cur := x.maxlen } }

/-- Function `lpad_maxlen_set`, the setter of the attribute `maxlen`. -/
def lpad_maxlen_set (x : t_lpad) (argc : Nat) (argv : List t_atom) (alloc_ok : Bool) :
    t_lpad × t_max_err :=
  if argc = 0 ∨ argv = [] then (x, t_max_err.MAX_ERR_GENERIC)
  else if maxlen_request argv = x.maxlen then (x, t_max_err.MAX_ERR_NONE)
  else if MESS_IS_NULL (mess_realloc x.o_list (maxlen_request argv) alloc_ok) then
    ({ x with
        o_list := mess_clear (mess_realloc x.o_list (maxlen_request argv) alloc_ok)
        maxlen := 0 },
      t_max_err.MAX_ERR_OUT_OF_MEM)
  else
    (lpad_action
        (lpad_defaults
          { x with
            o_list := mess_realloc x.o_list (maxlen_request argv) alloc_ok
            maxlen := maxlen_request argv })
        sym_empty 0 [] 0,
      t_max_err.MAX_ERR_NONE)

/-- The length `CLAMP((t_mess_int)n, 0, x->maxlen)` stored by the length
setters of Lpad. -/
def lpad_clamp (x : t_lpad) (n : Int) : Nat := (CLAMP n 0 (x.maxlen : Int)).toNat

/-- Function `lpad_int`, called on inlet `inlet`. -/
def lpad_int (x : t_lpad) (inlet : Nat) (n : Int) : t_lpad × Option (t_symbol × List t_atom) :=
  match inlet with
  | 0 =>
    if x.maxlen = 0 then (x, none)
    else (lpad_action x sym_int 1 [A_LONG n] 0,
      lpad_output (lpad_action x sym_int 1 [A_LONG n] 0))
  | 1 => ({ x with i_pad_left := lpad_clamp x (to_mess_int n) }, none)
  | 2 => ({ x with i_pad_val := A_LONG n }, none)
  | 3 => ({ x with o_list := { x.o_list with len_cur := lpad_clamp x (to_mess_int n) } }, none)
  | _ => (x, none)

/-- Function `lpad_float`, called on inlet `inlet`. -/
def lpad_float (x : t_lpad) (inlet : Nat) (f : Dbl) : t_lpad × Option (t_symbol × List t_atom) :=
  match inlet with
  | 0 =>
    if x.maxlen = 0 then (x, none)
    else (lpad_action x sym_float 1 [A_FLOAT f] 0,
      lpad_output (lpad_action x sym_float 1 [A_FLOAT f] 0))
  | 1 => ({ x with i_pad_left := lpad_clamp x (Dbl.toMessInt f) }, none)
  | 2 => ({ x with i_pad_val := A_FLOAT f }, none)
  | 3 => ({ x with o_list := { x.o_list with len_cur := lpad_clamp x (Dbl.toMessInt f) } }, none)
  | _ => (x, none)

/-- Function `lpad_anything`, called on inlet `inlet`. -/
def lpad_anything (x : t_lpad) (inlet : Nat) (sym : t_symbol) (argc : Nat)
    (argv : List t_atom) : t_lpad × Option (t_symbol × List t_atom) :=
  match inlet with
  | 0 =>
    if x.maxlen = 0 then (x, none)
    else (lpad_action x sym argc argv 1, lpad_output (lpad_action x sym argc argv 1))
  | 2 => ({ x with i_pad_val := A_SYM sym }, none)
  | _ => (x, none)

/-- Function `lpad_clear`. -/
def lpad_clear (x : t_lpad) : t_lpad :=
  { x with o_list := mess_fill_int x.o_list 0 x.o_list.len_cur }

/-- Function `lpad_reset`. -/
def lpad_reset (x : t_lpad) : t_lpad :=
  { x with o_list := mess_fill_atom x.o_list x.i_pad_val x.o_list.len_cur }

/-- The attributes of Lpad as the host sets them. -/
inductive lpad_attr where
  | maxlen (argv : List t_atom) (alloc_ok : Bool)
  | warnings (b : Bool)
  deriving DecidableEq, Repr

/-- One attribute set on an Lpad object. -/
def lpad_attr_set (x : t_lpad) : lpad_attr → t_lpad
  | lpad_attr.maxlen argv alloc_ok => (lpad_maxlen_set x argv.length argv alloc_ok).1
  | lpad_attr.warnings b => { x with warnings := b }

/-- Function `lpad_new` up to its return: `attrs` are the attribute arguments,
`alloc_ok` the outcome of the default allocation, `argv` the other arguments. -/
def lpad_new (attrs : List lpad_attr) (alloc_ok : Bool) (argv : List t_atom) : t_lpad :=
  let x0 : t_lpad :=
    { i_pad_left := 0, i_pad_val := A_LONG 0, o_list := mess_init ⟨0, 0, sym_null, [], 0⟩,
      maxlen := 0, warnings := true }
  let x1 := attrs.foldl lpad_attr_set x0
  let x2 := if x1.maxlen = 0
    then (lpad_maxlen_set x1 1 [A_LONG (MAXLEN_DEF : Nat)] alloc_ok).1 else x1
  let x3 := lpad_defaults x2
  let x4 : t_lpad := match argv with
    | [] => x3
    | [a] =>
      { x3 with
        o_list := { x3.o_list with len_cur := lpad_clamp x3 (to_mess_int (atom_getlong a)) } }
    | [a, b] =>
      { x3 with
        i_pad_val := a
        o_list := { x3.o_list with len_cur := lpad_clamp x3 (to_mess_int (atom_getlong b)) } }
    | a :: b :: c :: _ =>
      { x3 with
        i_pad_left := lpad_clamp x3 (to_mess_int (atom_getlong a))
        i_pad_val := b
        o_list := { x3.o_list with len_cur := lpad_clamp x3 (to_mess_int (atom_getlong c)) } }
  lpad_action x4 sym_empty 0 [] 0

/-- The messages the host sends to an Lpad object. -/
inductive lpad_msg where
  | bang
  | int (inlet : Nat) (n : Int)
  | float (inlet : Nat) (f : Dbl)
  | list (inlet : Nat) (argv : List t_atom)
  | anything (inlet : Nat) (sym : t_symbol) (argv : List t_atom)
  | clear
  | reset
  | attr (a : lpad_attr)
  deriving DecidableEq, Repr

/-- The object state after one message. -/
def lpad_handle (x : t_lpad) : lpad_msg → t_lpad
  | lpad_msg.bang => x
  | lpad_msg.int inlet n => (lpad_int x inlet n).1
  | lpad_msg.float inlet f => (lpad_float x inlet f).1
  | lpad_msg.list inlet argv => (lpad_list x inlet argv.length argv).1
  | lpad_msg.anything inlet sym argv => (lpad_anything x inlet sym argv.length argv).1
  | lpad_msg.clear => lpad_clear x
  | lpad_msg.reset => lpad_reset x
  | lpad_msg.attr a => lpad_attr_set x a

/-- The object state after a sequence of messages. -/
def lpad_run (x : t_lpad) : List lpad_msg → t_lpad
  | [] => x
  | m :: ms => lpad_run (lpad_handle x m) ms

/-! ### Ltoset -/

/-- Function `ltoset_defaults`. -/
def ltoset_defaults (x : t_ltoset) : t_ltoset :=
  { x with i_value := 1, o_list := { x.o_list with len_cur := min 12 x.maxlen } }

/-- Function `ltoset_maxlen_set`, the setter of the attribute `maxlen`. -/
def ltoset_maxlen_set (x : t_ltoset) (argc : Nat) (argv : List t_atom) (alloc_ok : Bool) :
    t_ltoset × t_max_err :=
  if argc = 0 ∨ argv = [] then (x, t_max_err.MAX_ERR_GENERIC)
  else if maxlen_request argv = x.maxlen then (x, t_max_err.MAX_ERR_NONE)
  else if MESS_IS_NULL (mess_realloc x.o_list (maxlen_request argv) alloc_ok) then
    ({ x with
        o_list := mess_clear (mess_realloc x.o_list (maxlen_request argv) alloc_ok)
        maxlen := 0 },
      t_max_err.MAX_ERR_OUT_OF_MEM)
  else
    (ltoset_defaults
        { x with
          o_list := mess_realloc x.o_list (maxlen_request argv) alloc_ok
          maxlen := maxlen_request argv },
      t_max_err.MAX_ERR_NONE)

/-- The length `CLAMP((t_mess_int)length, 1, x->maxlen)` stored by the length
setters of Ltoset. -/
def ltoset_clamp (x : t_ltoset) (n : Int) : Nat := (CLAMP n 1 (x.maxlen : Int)).toNat

/-- Function `ltoset_int`: the index is clamped to the output length. -/
def ltoset_int (x : t_ltoset) (n : Int) : t_ltoset × Option (t_symbol × List t_atom) :=
  if x.maxlen = 0 then (x, none)
  else
    (ltoset_action x 1 [A_LONG (CLAMP n 0 ((x.o_list.len_cur : Int) - 1))],
      ltoset_output (ltoset_action x 1 [A_LONG (CLAMP n 0 ((x.o_list.len_cur : Int) - 1))]))

/-- Function `ltoset_in1`: set the value. -/
def ltoset_in1 (x : t_ltoset) (value : Int) : t_ltoset := { x with i_value := value }

/-- Function `ltoset_in2`: set the output length. -/
def ltoset_in2 (x : t_ltoset) (length : Int) : t_ltoset :=
  { x with o_list := { x.o_list with len_cur := ltoset_clamp x (to_mess_int length) } }

/-- Function `ltoset_float`. -/
def ltoset_float (x : t_ltoset) (f : Dbl) : t_ltoset × Option (t_symbol × List t_atom) :=
  ltoset_int x (Dbl.toMessInt f)

/-- Function `ltoset_list`. -/
def ltoset_list (x : t_ltoset) (argc : Nat) (argv : List t_atom) :
    t_ltoset × Option (t_symbol × List t_atom) :=
  if x.maxlen = 0 then (x, none)
  else (ltoset_action x argc argv, ltoset_output (ltoset_action x argc argv))

/-- Function `ltoset_anything`: the arguments are processed as a list. -/
def ltoset_anything (x : t_ltoset) (_sym : t_symbol) (argc : Nat) (argv : List t_atom) :
    t_ltoset × Option (t_symbol × List t_atom) :=
  if x.maxlen = 0 then (x, none)
  else (ltoset_action x argc argv, ltoset_output (ltoset_action x argc argv))

/-- Function `ltoset_clear`. -/
def ltoset_clear (x : t_ltoset) : t_ltoset :=
  { x with o_list := mess_fill_int x.o_list 0 x.o_list.len_cur }

/-- The attributes of Ltoset as the host sets them. -/
inductive ltoset_attr where
  | maxlen (argv : List t_atom) (alloc_ok : Bool)
  | warnings (b : Bool)
  deriving DecidableEq, Repr

/-- One attribute set on an Ltoset object. -/
def ltoset_attr_set (x : t_ltoset) : ltoset_attr → t_ltoset
  | ltoset_attr.maxlen argv alloc_ok => (ltoset_maxlen_set x argv.length argv alloc_ok).1
  | ltoset_attr.warnings b => { x with warnings := b }

/-- Function `ltoset_new` up to its return: `attrs` are the attribute
arguments as processed by the host, `alloc_ok` the outcome of the default
allocation, `argv` the whole argument array. -/
def ltoset_new (attrs : List ltoset_attr) (alloc_ok : Bool) (argv : List t_atom) : t_ltoset :=
  let x0 : t_ltoset :=
    { i_value := 0, o_list := mess_init ⟨0, 0, sym_null, [], 0⟩, maxlen := 0, warnings := true }
  let x1 := attrs.foldl ltoset_attr_set x0
  let x2 := if x1.maxlen = 0
    then (ltoset_maxlen_set x1 1 [A_LONG (MAXLEN_DEF : Nat)] alloc_ok).1 else x1
  let x3 := ltoset_defaults x2
  let x4 : t_ltoset := match argv with
    | a :: _ =>
      if is_number a then
        { x3 with
          o_list :=
            { x3.o_list with len_cur := ltoset_clamp x3 (to_mess_int (atom_getlong a)) } }
      else x3
    | [] => x3
  match argv with
  | a :: b :: _ => if is_number a then { x4 with i_value := atom_getlong b } else x4
  | _ => x4

/-- The messages the host sends to an Ltoset object. -/
inductive ltoset_msg where
  | bang
  | int (n : Int)
  | in1 (value : Int)
  | in2 (length : Int)
  | float (f : Dbl)
  | list (argv : List t_atom)
  | anything (sym : t_symbol) (argv : List t_atom)
  | clear
  | attr (a : ltoset_attr)
  deriving DecidableEq, Repr

/-- The object state after one message. -/
def ltoset_handle (x : t_ltoset) : ltoset_msg → t_ltoset
  | ltoset_msg.bang => x
  | ltoset_msg.int n => (ltoset_int x n).1
  | ltoset_msg.in1 value => ltoset_in1 x value
  | ltoset_msg.in2 length => ltoset_in2 x length
  | ltoset_msg.float f => (ltoset_float x f).1
  | ltoset_msg.list argv => (ltoset_list x argv.length argv).1
  | ltoset_msg.anything sym argv => (ltoset_anything x sym argv.length argv).1
  | ltoset_msg.clear => ltoset_clear x
  | ltoset_msg.attr a => ltoset_attr_set x a

/-- The object state after a sequence of messages. -/
def ltoset_run (x : t_ltoset) : List ltoset_msg → t_ltoset
  | [] => x
  | m :: ms => ltoset_run (ltoset_handle x m) ms

/-! ### Consistency of a message structure inside an object -/

/-- A message structure of an object whose attribute `maxlen` is `maxlen`:
its array holds `len_max = maxlen` atoms (none when the allocation failed),
and, when it is allocated, its length lies within its capacity. -/
def mess_inv (maxlen : Nat) (m : t_mess_struct) : Prop :=
  m.len_max = maxlen ∧ m.list.length = maxlen ∧ (maxlen ≠ 0 → m.len_cur ≤ maxlen)

instance (maxlen : Nat) (m : t_mess_struct) : Decidable (mess_inv maxlen m) :=
  inferInstanceAs (Decidable (m.len_max = maxlen ∧ m.list.length = maxlen
    ∧ (maxlen ≠ 0 → m.len_cur ≤ maxlen)))

/-- Consistency of an Lchange object. -/
def lchange_inv (x : t_lchange) : Prop := mess_inv x.maxlen x.i_list_2

/-- Consistency of an Lfind object. -/
def lfind_inv (x : t_lfind) : Prop := mess_inv x.maxlen x.i_list_2

/-- Consistency of an Lmax object. -/
def lmax_inv (x : t_lmax) : Prop :=
  mess_inv x.maxlen x.i_list_1 ∧ mess_inv x.maxlen x.i_list_2 ∧ mess_inv x.maxlen x.o_list

/-- Consistency of an Lmin object. -/
def lmin_inv (x : t_lmin) : Prop :=
  mess_inv x.maxlen x.i_list_1 ∧ mess_inv x.maxlen x.i_list_2 ∧ mess_inv x.maxlen x.o_list

/-- Consistency of an Lpad object. -/
def lpad_inv (x : t_lpad) : Prop := mess_inv x.maxlen x.o_list

/-- Consistency of an Ltoset object. -/
def ltoset_inv (x : t_ltoset) : Prop := mess_inv x.maxlen x.o_list

/-! ## Outputs on `bang` -/

/-- Function `ltoset_bang`: the message sent through the outlet. -/
def ltoset_bang (x : t_ltoset) : Option (t_symbol × List t_atom) := ltoset_output x

/-! ## The tail of a message structure -/

/-- Every slot of a message structure from its length up to its capacity holds
the int 0. -/
def mess_tail_zero (m : t_mess_struct) : Prop :=
  ∀ j, j < m.len_max → m.len_cur ≤ j → m.list[j]? = some (A_LONG 0)

instance (m : t_mess_struct) : Decidable (mess_tail_zero m) :=
  inferInstanceAs (Decidable (∀ j, j < m.len_max → m.len_cur ≤ j → m.list[j]? = some (A_LONG 0)))

instance (x : t_lchange) : Decidable (lchange_inv x) :=
  inferInstanceAs (Decidable (mess_inv x.maxlen x.i_list_2))

instance (x : t_lfind) : Decidable (lfind_inv x) :=
  inferInstanceAs (Decidable (mess_inv x.maxlen x.i_list_2))

instance (x : t_lmax) : Decidable (lmax_inv x) :=
  inferInstanceAs (Decidable (mess_inv x.maxlen x.i_list_1 ∧ mess_inv x.maxlen x.i_list_2
    ∧ mess_inv x.maxlen x.o_list))

instance (x : t_lmin) : Decidable (lmin_inv x) :=
  inferInstanceAs (Decidable (mess_inv x.maxlen x.i_list_1 ∧ mess_inv x.maxlen x.i_list_2
    ∧ mess_inv x.maxlen x.o_list))

instance (x : t_lpad) : Decidable (lpad_inv x) :=
  inferInstanceAs (Decidable (mess_inv x.maxlen x.o_list))

instance (x : t_ltoset) : Decidable (ltoset_inv x) :=
  inferInstanceAs (Decidable (mess_inv x.maxlen x.o_list))

/-! ## Lfind: the floats sent by a sequence of messages -/

/-- One message to an Lfind object: the new state and the float computed and
sent by `lfind_action`, if any (`bang` sends the stored float again and is
not recorded here); `none` is a read outside an array. -/
def lfind_step (x : t_lfind) : lfind_msg → Option (t_lfind × Option Dbl)
  | lfind_msg.bang => some (x, none)
  | lfind_msg.int inlet n => lfind_int x inlet n
  | lfind_msg.float inlet f => lfind_float x inlet f
  | lfind_msg.list inlet argv => lfind_list x inlet argv.length argv
  | lfind_msg.anything _ _ _ => some (x, none)
  | lfind_msg.clear => some (lfind_clear x, none)
  | lfind_msg.attr a => some (lfind_attr_set x a, none)

/-- The object state after a sequence of messages, with the floats computed
and sent by `lfind_action` on the way, the oldest first. -/
def lfind_trace (x : t_lfind) : List lfind_msg → Option (t_lfind × List Dbl)
  | [] => some (x, [])
  | m :: ms =>
    (lfind_step x m).bind fun r =>
      (lfind_trace r.1 ms).map fun t => (t.1, r.2.toList ++ t.2)

/-! ## The console warning of `mess_set` -/

/-- The warning posted by `mess_set`,
`WARN(warn, "Message truncated from length %i to %i.", argc + offset, mess->len_max)`:
the two integers printed, or `none` when nothing is posted.  A Null structure
returns before the test (`ASSERT_MESS`); the function posts nothing else. -/
def mess_set_warning (mess : t_mess_struct) (argc : Nat) (offset : Nat) (warn : Bool) :
    Option (Int × Int) :=
  if MESS_IS_NULL mess then none
  else if (argc : Int) > (mess.len_max : Int) - (offset : Int) then
    (if warn then some ((argc : Int) + (offset : Int), (mess.len_max : Int)) else none)
  else none

/-! ## Dynamic strings (`dstring.c`, `dstring.h`)

The type `t_dstr_int` is an unsigned 32-bit integer, modelled by `Nat` with
`% 2^32` where the arithmetic can wrap.  The member `cstr` is `none` for
`NULL_CSTR` and otherwise the bytes of the string that the functions below
copy.  The outcome of `MALLOC` is a parameter. -/

/-- Macro `DSTR_LEN_ERR`, `(t_dstr_int)-1`. -/
def DSTR_LEN_ERR : Nat := 2 ^ 32 - 1

/-- Macro `DSTR_LEN_MAX`, `(t_dstr_int)-2`. -/
def DSTR_LEN_MAX : Nat := 2 ^ 32 - 2

/-- Macro `DSTR_LEN_NTOA`. -/
def DSTR_LEN_NTOA : Nat := 22

/-- The structure `_dstring_struct`. -/
structure t_dstr_struct where
  cstr : Option (List Char)
  len_cur : Nat
  len_max : Nat
  deriving DecidableEq, Repr

/-- Macro `DSTR_IS_NULL` on a pointer that is neither `NULL` nor `NULL_DSTR`. -/
def DSTR_IS_NULL (ds : t_dstr_struct) : Bool :=
  ds.cstr.isNone || decide (ds.len_max > DSTR_LEN_MAX) || decide (ds.len_cur > ds.len_max)

/-- Macro `DSTR_SET_TO_NULL`. -/
def DSTR_SET_TO_NULL (_ds : t_dstr_struct) : t_dstr_struct :=
  { cstr := none, len_cur := 0, len_max := DSTR_LEN_ERR }

/-- Function `_dstr_cstr_alloc`; `alloc_ok` tells whether `MALLOC` returns a
string. -/
def _dstr_cstr_alloc (dstr : t_dstr_struct) (src : List Char) (len_cur len_max len_cpy : Nat)
    (alloc_ok : Bool) : t_dstr_struct :=
  if alloc_ok then { cstr := some (src.take len_cpy), len_cur := len_cur, len_max := len_max }
  else DSTR_SET_TO_NULL { dstr with len_cur := len_cur, len_max := len_max }

/-- The statements `power |= (power >> 1); ... power |= (power >> 16); power++;`
of `_dstr_cstr_adjust` on a 32-bit unsigned integer. -/
def dstr_next_power (power : Nat) : Nat :=
  let p1 := power ||| (power >>> 1)
  let p2 := p1 ||| (p1 >>> 2)
  let p3 := p2 ||| (p2 >>> 4)
  let p4 := p3 ||| (p3 >>> 8)
  let p5 := p4 ||| (p4 >>> 16)
  (p5 + 1) % 2 ^ 32

/-- Function `_dstr_cstr_adjust`: the dstring afterwards and the value
returned, the clipped copy length. -/
def _dstr_cstr_adjust (dest : t_dstr_struct) (insert_pos len_cpy : Nat) (alloc_ok : Bool) :
    t_dstr_struct × Nat :=
  if DSTR_IS_NULL dest then (dest, 0)
  else
    let len_cpy := min len_cpy ((DSTR_LEN_MAX + 2 ^ 32 - insert_pos) % 2 ^ 32)
    let len_cur := (insert_pos + len_cpy) % 2 ^ 32
    if len_cur > dest.len_max then
      let power :=
        if len_cur < 8 then 8
        else if len_cur > DSTR_LEN_ERR >>> 1 then DSTR_LEN_MAX
        else dstr_next_power len_cur
      let power := if power < DSTR_LEN_MAX then power else DSTR_LEN_MAX
      (_dstr_cstr_alloc { dest with len_cur := len_cur } (dest.cstr.getD []) len_cur power
          insert_pos alloc_ok,
        len_cpy)
    else ({ dest with len_cur := len_cur }, len_cpy)

/-- The loop `do { *pc++ = '0' + (ui % 10); ui /= 10; } while (ui);` of
`_dstr_itoa`: `room` is the number of bytes left in the buffer from `pc` on
and `buf` the bytes written so far; `none` is a write outside the buffer. -/
def dstr_itoa_digits : Nat → Nat → List Char → Option (List Char)
  | 0, _, _ => none
  | room + 1, ui, buf =>
    if ui / 10 ≠ 0 then dstr_itoa_digits room (ui / 10) (buf ++ [Char.ofNat (48 + ui % 10)])
    else some (buf ++ [Char.ofNat (48 + ui % 10)])

/-- The loop `while (str < pc) { tmp = *str; *str++ = *pc; *pc-- = tmp; }` of
`_dstr_itoa`, with `lo` and `hi` the positions of `str` and `pc` and `n` a
bound on the number of iterations; `none` when the bound is reached or a
position is outside the bytes written. -/
def dstr_itoa_reverse : Nat → List Char → Nat → Nat → Option (List Char)
  | 0, buf, lo, hi => if lo < hi then none else some buf
  | n + 1, buf, lo, hi =>
    if lo < hi then
      match buf[lo]?, buf[hi]? with
      | some a, some b => dstr_itoa_reverse n ((buf.set lo b).set hi a) (lo + 1) (hi - 1)
      | _, _ => none
    else some buf

/-- Function `_dstr_itoa` writing into a buffer of `size` bytes: the string
written, without its terminating NUL, and the value returned; `none` is a
write outside the buffer.  The magnitude `(i > 0) ? i : -i` is taken as a
64-bit unsigned integer. -/
def _dstr_itoa (size : Nat) (i : Int) : Option (List Char × Int) :=
  let ui := ((if i > 0 then i else -i) % 2 ^ 64).toNat
  match dstr_itoa_digits size ui [] with
  | none => none
  | some digits =>
    match (if i < 0 then (if digits.length < size then some (digits ++ ['-']) else none)
        else some digits) with
    | none => none
    | some buf =>
      if buf.length < size then
        (dstr_itoa_reverse buf.length buf 0 (buf.length - 1)).map
          fun s => (s, (buf.length : Int))
      else none

/-- The decimal digits of a natural number, the most significant first, in
the words of the claim: `0` for zero and otherwise the digits of
`Nat.digits 10` without leading zero. -/
def decimal_digits (n : Nat) : List Char :=
  if n = 0 then ['0'] else ((Nat.digits 10 n).map fun d => Char.ofNat (48 + d)).reverse

/-- The decimal representation of an integer: a leading `-` for a negative
number, then the digits of its magnitude. -/
def decimal_repr (i : Int) : List Char :=
  (if i < 0 then ['-'] else []) ++ decimal_digits i.natAbs

/-- The value of the atom is that of a `double`: the rational of a finite
float atom is the value of a finite double.  An integer atom is read through
the conversion `(double)`, and its value is always a double. -/
def atom_is_double : t_atom → Prop
  | A_FLOAT (Dbl.fin q) => Dbl.is_double q
  | _ => True

instance (a : t_atom) : Decidable (atom_is_double a) :=
  match a with
  | A_FLOAT (Dbl.fin q) => inferInstanceAs (Decidable (Dbl.is_double q))
  | A_FLOAT Dbl.nan => isTrue trivial
  | A_FLOAT Dbl.pinf => isTrue trivial
  | A_FLOAT Dbl.ninf => isTrue trivial
  | A_LONG _ => isTrue trivial
  | A_SYM _ => isTrue trivial

/-! ## Theorems -/

/-! ### Rounding to `double` -/

namespace Dbl

theorem pow2_eq (k : Int) : pow2 k = (2 : ℚ) ^ k := by
  unfold pow2
  split
  · rename_i h
    obtain ⟨n, rfl⟩ := Int.eq_ofNat_of_zero_le h
    simp
  · rename_i h
    have h2 : 0 ≤ -k := by omega
    obtain ⟨n, hn⟩ := Int.eq_ofNat_of_zero_le h2
    have hk : k = -(n : Int) := by omega
    subst hk
    simp [zpow_neg]

theorem pow2_pos (k : Int) : 0 < pow2 k := by
  rw [pow2_eq]
  positivity

theorem pow2_add (j k : Int) : pow2 (j + k) = pow2 j * pow2 k := by
  rw [pow2_eq, pow2_eq, pow2_eq, zpow_add₀ (by norm_num)]

theorem pow2_le (j k : Int) (h : j ≤ k) : pow2 j ≤ pow2 k := by
  rw [pow2_eq, pow2_eq]
  exact zpow_le_zpow_right₀ (by norm_num) h

theorem pow2_lt (j k : Int) (h : j < k) : pow2 j < pow2 k := by
  rw [pow2_eq, pow2_eq]
  exact zpow_lt_zpow_right₀ (by norm_num) h

theorem pow2_nat (n : Nat) : pow2 (n : Int) = ((2 ^ n : Nat) : ℚ) := by
  rw [pow2_eq]
  simp

theorem ilog2_spec : ∀ (fuel n : Nat), 1 ≤ n → n ≤ fuel →
    2 ^ ilog2 fuel n ≤ n ∧ n < 2 ^ (ilog2 fuel n + 1)
  | 0, n, h1, h2 => by omega
  | fuel + 1, n, h1, h2 => by
    unfold ilog2
    split
    · rename_i h
      simp
      omega
    · rename_i h
      obtain ⟨a, b⟩ := ilog2_spec fuel (n / 2) (by omega) (by omega)
      rw [pow_succ] at b
      rw [pow_succ, pow_succ, pow_succ]
      generalize 2 ^ ilog2 fuel (n / 2) = p at a b
      omega

theorem expo_guess (a : ℚ) (ha : 0 < a) :
    pow2 ((ilog2 a.num.toNat a.num.toNat : Int) - (ilog2 a.den a.den : Int) - 1) < a
    ∧ a < pow2 ((ilog2 a.num.toNat a.num.toNat : Int) - (ilog2 a.den a.den : Int) + 1) := by
  have hnum : 0 < a.num := Rat.num_pos.mpr ha
  have hden : 0 < a.den := a.den_pos
  obtain ⟨n, hn⟩ := Int.eq_ofNat_of_zero_le (le_of_lt hnum)
  have hn1 : 1 ≤ n := by omega
  have htn : a.num.toNat = n := by omega
  rw [htn]
  obtain ⟨n1, n2⟩ := ilog2_spec n n hn1 (le_refl _)
  obtain ⟨d1, d2⟩ := ilog2_spec a.den a.den hden (le_refl _)
  generalize ilog2 n n = ln at n1 n2
  generalize ilog2 a.den a.den = ld at d1 d2
  have hdq : (0 : ℚ) < (a.den : ℚ) := by exact_mod_cast hden
  have had : a * (a.den : ℚ) = (n : ℚ) := by
    have h := Rat.mul_den_eq_num a
    rw [hn] at h
    exact_mod_cast h
  have n1q : ((2 ^ ln : Nat) : ℚ) ≤ (n : ℚ) := by exact_mod_cast n1
  have n2q : (n : ℚ) < ((2 ^ (ln + 1) : Nat) : ℚ) := by exact_mod_cast n2
  have d1q : ((2 ^ ld : Nat) : ℚ) ≤ (a.den : ℚ) := by exact_mod_cast d1
  have d2q : (a.den : ℚ) < ((2 ^ (ld + 1) : Nat) : ℚ) := by exact_mod_cast d2
  rw [← pow2_nat] at n1q n2q d1q d2q
  constructor
  · have e1 : pow2 ((ln : Int) - (ld : Int) - 1) * pow2 (((ld + 1 : Nat) : Int)) = pow2 (ln : Int) := by
      rw [← pow2_add]
      congr 1
      push_cast
      ring
    have hp := pow2_pos ((ln : Int) - (ld : Int) - 1)
    have h1 : pow2 ((ln : Int) - (ld : Int) - 1) * (a.den : ℚ) < a * (a.den : ℚ) := by
      calc pow2 ((ln : Int) - (ld : Int) - 1) * (a.den : ℚ)
          < pow2 ((ln : Int) - (ld : Int) - 1) * pow2 (((ld + 1 : Nat) : Int)) :=
            mul_lt_mul_of_pos_left d2q hp
        _ = pow2 (ln : Int) := e1
        _ ≤ (n : ℚ) := n1q
        _ = a * (a.den : ℚ) := had.symm
    exact lt_of_mul_lt_mul_right h1 (le_of_lt hdq)
  · have e1 : pow2 ((ln : Int) - (ld : Int) + 1) * pow2 ((ld : Nat) : Int) = pow2 ((ln + 1 : Nat) : Int) := by
      rw [← pow2_add]
      congr 1
      push_cast
      ring
    have hp := pow2_pos ((ln : Int) - (ld : Int) + 1)
    have h1 : a * (a.den : ℚ) < pow2 ((ln : Int) - (ld : Int) + 1) * (a.den : ℚ) := by
      calc a * (a.den : ℚ) = (n : ℚ) := had
        _ < pow2 ((ln + 1 : Nat) : Int) := n2q
        _ = pow2 ((ln : Int) - (ld : Int) + 1) * pow2 ((ld : Nat) : Int) := e1.symm
        _ ≤ pow2 ((ln : Int) - (ld : Int) + 1) * (a.den : ℚ) :=
            mul_le_mul_of_nonneg_left d1q (le_of_lt hp)
    exact lt_of_mul_lt_mul_right h1 (le_of_lt hdq)

/-- The exponent of `a > 0`: at least `-1022`, with `a < 2^(e+1)`, and
`2^e <= a` unless `e = -1022`. -/
theorem expo_spec (a : ℚ) (ha : 0 < a) :
    -1022 ≤ expo a ∧ a < pow2 (expo a + 1) ∧ (expo a = -1022 ∨ pow2 (expo a) ≤ a) := by
  obtain ⟨g1, g2⟩ := expo_guess a ha
  unfold expo
  simp only
  generalize (ilog2 a.num.toNat a.num.toNat : Int) - (ilog2 a.den a.den : Int) = k at g1 g2
  by_cases hk : pow2 k ≤ a
  · rw [if_pos hk]
    by_cases hc : k < -1022
    · rw [if_pos hc]
      refine ⟨le_refl _, lt_of_lt_of_le g2 (pow2_le _ _ (by omega)), Or.inl rfl⟩
    · rw [if_neg hc]
      exact ⟨by omega, g2, Or.inr hk⟩
  · rw [if_neg hk]
    have hk2 : a < pow2 k := lt_of_not_le hk
    by_cases hc : k - 1 < -1022
    · rw [if_pos hc]
      refine ⟨le_refl _, lt_of_lt_of_le hk2 (pow2_le _ _ (by omega)), Or.inl rfl⟩
    · rw [if_neg hc]
      refine ⟨by omega, ?_, Or.inr (le_of_lt g1)⟩
      have : k - 1 + 1 = k := by ring
      rw [this]
      exact hk2

theorem expo_unique (a : ℚ) (e : Int) (hlo : pow2 e ≤ a) (hhi : a < pow2 (e + 1))
    (he : -1022 ≤ e) : expo a = e := by
  have ha : 0 < a := lt_of_lt_of_le (pow2_pos e) hlo
  obtain ⟨s1, s2, s3⟩ := expo_spec a ha
  by_contra hne
  rcases lt_or_gt_of_ne hne with h | h
  · have : pow2 (expo a + 1) ≤ pow2 e := pow2_le _ _ (by omega)
    linarith
  · rcases s3 with s3 | s3
    · omega
    · have : pow2 (e + 1) ≤ pow2 (expo a) := pow2_le _ _ (by omega)
      linarith

theorem expo_mono (a b : ℚ) (ha : 0 < a) (hab : a ≤ b) : expo a ≤ expo b := by
  obtain ⟨a1, a2, a3⟩ := expo_spec a ha
  obtain ⟨b1, b2, b3⟩ := expo_spec b (lt_of_lt_of_le ha hab)
  by_contra hc
  have hlt : expo b < expo a := by omega
  rcases a3 with a3 | a3
  · omega
  · have : pow2 (expo b + 1) ≤ pow2 (expo a) := pow2_le _ _ (by omega)
    linarith

theorem rne_int (n : Int) : rne (n : ℚ) = n := by
  unfold rne
  rw [Int.floor_intCast]
  norm_num

theorem rne_floor_le (a : ℚ) : ⌊a⌋ ≤ rne a := by
  unfold rne
  split_ifs <;> omega

theorem rne_le_floor_succ (a : ℚ) : rne a ≤ ⌊a⌋ + 1 := by
  unfold rne
  split_ifs <;> omega

theorem rne_mono (a b : ℚ) (h : a ≤ b) : rne a ≤ rne b := by
  have hk : ⌊a⌋ ≤ ⌊b⌋ := Int.floor_mono h
  rcases lt_or_eq_of_le hk with hlt | heq
  · have h1 := rne_le_floor_succ a
    have h2 := rne_floor_le b
    omega
  · unfold rne
    rw [← heq]
    split_ifs <;> first | omega | (exfalso; linarith)

theorem rne_le_int (a : ℚ) (n : Int) (h : a ≤ (n : ℚ)) : rne a ≤ n := by
  have := rne_mono a n h
  rwa [rne_int] at this

theorem rne_ge_int (a : ℚ) (n : Int) (h : (n : ℚ) ≤ a) : n ≤ rne a := by
  have := rne_mono n a h
  rwa [rne_int] at this

theorem round_mag_le_top (a : ℚ) (ha : 0 < a) : round_mag a ≤ pow2 (expo a + 1) := by
  obtain ⟨s1, s2, s3⟩ := expo_spec a ha
  unfold round_mag
  have hu := pow2_pos (expo a - 52)
  have e1 : pow2 (expo a + 1) = ((2 ^ 53 : Int) : ℚ) * pow2 (expo a - 52) := by
    have : expo a + 1 = 53 + (expo a - 52) := by ring
    rw [this, pow2_add]
    congr 1
  rw [e1]
  apply mul_le_mul_of_nonneg_right _ (le_of_lt hu)
  have : rne (a / pow2 (expo a - 52)) ≤ (2 ^ 53 : Int) := by
    apply rne_le_int
    rw [div_le_iff₀ hu, ← e1]
    exact le_of_lt s2
  exact_mod_cast this

theorem round_mag_ge_bot (a : ℚ) (h : pow2 (expo a) ≤ a) :
    pow2 (expo a) ≤ round_mag a := by
  unfold round_mag
  have hu := pow2_pos (expo a - 52)
  have e1 : pow2 (expo a) = ((2 ^ 52 : Int) : ℚ) * pow2 (expo a - 52) := by
    have : expo a = 52 + (expo a - 52) := by ring
    nth_rewrite 1 [this]
    rw [pow2_add]
    congr 1
  rw [e1]
  apply mul_le_mul_of_nonneg_right _ (le_of_lt hu)
  have : (2 ^ 52 : Int) ≤ rne (a / pow2 (expo a - 52)) := by
    apply rne_ge_int
    rw [le_div_iff₀ hu, ← e1]
    exact h
  exact_mod_cast this

theorem round_mag_nonneg (a : ℚ) (ha : 0 < a) : 0 ≤ round_mag a := by
  unfold round_mag
  have hu := pow2_pos (expo a - 52)
  apply mul_nonneg _ (le_of_lt hu)
  have : (0 : Int) ≤ rne (a / pow2 (expo a - 52)) := by
    apply rne_ge_int
    simp only [Int.cast_zero]
    exact le_of_lt (div_pos ha hu)
  exact_mod_cast this

theorem round_mag_mono (a b : ℚ) (ha : 0 < a) (hab : a ≤ b) : round_mag a ≤ round_mag b := by
  have hb : 0 < b := lt_of_lt_of_le ha hab
  rcases lt_or_eq_of_le (expo_mono a b ha hab) with hlt | heq
  · obtain ⟨b1, b2, b3⟩ := expo_spec b hb
    obtain ⟨a1, a2, a3⟩ := expo_spec a ha
    have hbn : pow2 (expo b) ≤ b := by
      rcases b3 with b3 | b3
      · omega
      · exact b3
    calc round_mag a ≤ pow2 (expo a + 1) := round_mag_le_top a ha
      _ ≤ pow2 (expo b) := pow2_le _ _ (by omega)
      _ ≤ round_mag b := round_mag_ge_bot b hbn
  · unfold round_mag
    rw [heq]
    have hu := pow2_pos (expo b - 52)
    apply mul_le_mul_of_nonneg_right _ (le_of_lt hu)
    have : rne (a / pow2 (expo b - 52)) ≤ rne (b / pow2 (expo b - 52)) :=
      rne_mono _ _ (div_le_div_of_nonneg_right hab (le_of_lt hu))
    exact_mod_cast this

/-- A positive multiple of a power of two no smaller than the rounding unit
of its binade is not changed by the rounding. -/
theorem round_mag_exact (a : ℚ) (m : Int) (j : Int) (hj : expo a - 52 ≤ j)
    (h : a = (m : ℚ) * pow2 j) : round_mag a = a := by
  unfold round_mag
  have hu := pow2_pos (expo a - 52)
  obtain ⟨n, hn⟩ := Int.eq_ofNat_of_zero_le (by omega : 0 ≤ j - (expo a - 52))
  have hjj : j = (n : Int) + (expo a - 52) := by omega
  have hdiv : a / pow2 (expo a - 52) = ((m * (2 ^ n : Nat) : Int) : ℚ) := by
    rw [div_eq_iff (ne_of_gt hu)]
    nth_rewrite 1 [h]
    rw [hjj, pow2_add, pow2_nat]
    push_cast
    ring
  rw [hdiv, rne_int, ← hdiv]
  exact div_mul_cancel₀ a (ne_of_gt hu)

theorem round_zero : round 0 = fin 0 := by
  unfold round
  rw [if_pos rfl]

theorem round_pos (q : ℚ) (hq : 0 < q) :
    round q = if pow2 1024 ≤ round_mag q then pinf else fin (round_mag q) := by
  unfold round
  rw [if_neg (ne_of_gt hq), if_neg (not_lt.mpr (le_of_lt hq))]

theorem round_neg (q : ℚ) (hq : q < 0) :
    round q = if pow2 1024 ≤ round_mag (-q) then ninf else fin (-round_mag (-q)) := by
  unfold round
  rw [if_neg (ne_of_lt hq), if_pos hq]

/-- Rounding is monotonic: `a <= b` gives `round b >= round a` in the
comparison of C. -/
theorem round_mono (a b : ℚ) (hab : a ≤ b) : ge (round b) (round a) = true := by
  rcases lt_trichotomy a 0 with ha | ha | ha
  · rw [round_neg a ha]
    have hra := round_mag_nonneg (-a) (by linarith)
    rcases lt_trichotomy b 0 with hb | hb | hb
    · rw [round_neg b hb]
      have hm := round_mag_mono (-b) (-a) (by linarith) (by linarith)
      split_ifs with h1 h2 h2
      · rfl
      · exact absurd (le_trans h1 hm) h2
      · rfl
      · simp only [ge, decide_eq_true_eq]
        linarith
    · subst hb
      rw [round_zero]
      split_ifs
      · rfl
      · simp only [ge, decide_eq_true_eq]
        linarith
    · rw [round_pos b hb]
      have hrb := round_mag_nonneg b hb
      split_ifs
      · rfl
      · rfl
      · rfl
      · simp only [ge, decide_eq_true_eq]
        linarith
  · subst ha
    rw [round_zero]
    rcases lt_or_eq_of_le hab with hb | hb
    · rw [round_pos b hb]
      have hrb := round_mag_nonneg b hb
      split_ifs
      · rfl
      · simp only [ge, decide_eq_true_eq]
        exact hrb
    · rw [← hb, round_zero]
      simp [ge]
  · have hb : 0 < b := lt_of_lt_of_le ha hab
    rw [round_pos a ha, round_pos b hb]
    have hm := round_mag_mono a b ha hab
    split_ifs with h1 h2 h2
    · rfl
    · rfl
    · exact absurd (le_trans h2 hm) h1
    · simp only [ge, decide_eq_true_eq]
      exact hm

/-- A value between two doubles rounds to a double between them. -/
theorem round_between (lo hi q : ℚ) (hlo : is_double lo) (hhi : is_double hi)
    (h1 : lo ≤ q) (h2 : q ≤ hi) : ∃ x, round q = fin x ∧ lo ≤ x ∧ x ≤ hi := by
  have m1 := round_mono lo q h1
  have m2 := round_mono q hi h2
  unfold is_double at hlo hhi
  rw [hlo] at m1
  rw [hhi] at m2
  cases hq : round q with
  | fin x =>
    rw [hq] at m1 m2
    simp only [ge, decide_eq_true_eq] at m1 m2
    exact ⟨x, rfl, m1, m2⟩
  | nan =>
    rw [hq] at m1
    simp [ge] at m1
  | pinf =>
    rw [hq] at m2
    simp [ge] at m2
  | ninf =>
    rw [hq] at m1
    simp [ge] at m1

theorem pow2_zero : pow2 0 = 1 := by
  rw [pow2_eq]
  norm_num

theorem pow2_one : pow2 1 = 2 := by
  rw [pow2_eq]
  norm_num

theorem pow2_53 : pow2 53 = 9007199254740992 := by
  rw [pow2_eq]
  norm_num

theorem expo_lt_of_lt (a : ℚ) (ha : 0 < a) (e : Int) (he : -1022 ≤ e) (h : a < pow2 (e + 1)) :
    expo a ≤ e := by
  obtain ⟨s1, s2, s3⟩ := expo_spec a ha
  rcases s3 with s3 | s3
  · omega
  · by_contra hc
    have : pow2 (e + 1) ≤ pow2 (expo a) := pow2_le _ _ (by omega)
    linarith

theorem round_of_mag (q : ℚ) (hq : 0 < q) (hm : round_mag q = q) (hlt : q < pow2 1024) :
    round q = fin q := by
  rw [round_pos q hq, hm, if_neg (not_le.mpr hlt)]

theorem round_opp (q x : ℚ) (h : round q = fin x) : round (-q) = fin (-x) := by
  rcases lt_trichotomy q 0 with hq | hq | hq
  · rw [round_neg q hq] at h
    rw [round_pos (-q) (by linarith)]
    split_ifs at h with h1
    rw [if_neg h1]
    simp only [fin.injEq] at h
    rw [← h, neg_neg]
  · subst hq
    rw [round_zero] at h
    simp only [fin.injEq] at h
    rw [← h]
    simp [round_zero]
  · rw [round_pos q hq] at h
    rw [round_neg (-q) (by linarith), neg_neg]
    split_ifs at h with h1
    rw [if_neg h1]
    simp only [fin.injEq] at h
    rw [← h]

/-- An integer of magnitude at most `2^53` is a double. -/
theorem round_int (n : Int) (h1 : -(2 : Int) ^ 53 ≤ n) (h2 : n ≤ (2 : Int) ^ 53) :
    round (n : ℚ) = fin (n : ℚ) := by
  have key : ∀ m : Int, 0 < m → m ≤ (2 : Int) ^ 53 → round (m : ℚ) = fin (m : ℚ) := by
    intro m hm0 hm
    have ha : (0 : ℚ) < (m : ℚ) := by exact_mod_cast hm0
    have hle : (m : ℚ) ≤ pow2 53 := by
      rw [pow2_53]
      exact_mod_cast hm
    have hone : (1 : ℚ) ≤ (m : ℚ) := by exact_mod_cast hm0
    obtain ⟨s1, s2, s3⟩ := expo_spec (m : ℚ) ha
    have hlo : pow2 (expo (m : ℚ)) ≤ (m : ℚ) := by
      rcases s3 with s3 | s3
      · rw [s3] at s2
        have : pow2 (-1022 + 1) ≤ pow2 0 := pow2_le _ _ (by norm_num)
        rw [pow2_zero] at this
        linarith
      · exact s3
    have he : expo (m : ℚ) ≤ 53 := by
      by_contra hc
      have : pow2 53 < pow2 (expo (m : ℚ)) := pow2_lt _ _ (by omega)
      linarith
    have hlt : (m : ℚ) < pow2 1024 := lt_of_le_of_lt hle (pow2_lt _ _ (by norm_num))
    apply round_of_mag _ ha _ hlt
    by_cases h52 : expo (m : ℚ) ≤ 52
    · exact round_mag_exact (m : ℚ) m 0 (by omega) (by rw [pow2_zero, mul_one])
    · have he53 : expo (m : ℚ) = 53 := by omega
      rw [he53] at hlo
      have hm53 : (m : ℚ) = pow2 53 := le_antisymm hle hlo
      refine round_mag_exact (m : ℚ) ((2 : Int) ^ 52) 1 (by omega) ?_
      rw [hm53, pow2_53, pow2_one]
      norm_num
  rcases lt_trichotomy n 0 with hn | hn | hn
  · have := round_opp _ _ (key (-n) (by omega) (by omega))
    simpa using this
  · subst hn
    simp [round_zero]
  · exact key n hn h2

/-- The result of a rounding is a double. -/
theorem round_idem (q x : ℚ) (h : round q = fin x) : round x = fin x := by
  have key : ∀ a : ℚ, 0 < a → round_mag a < pow2 1024 →
      round (round_mag a) = fin (round_mag a) := by
    intro a ha hov
    rcases lt_or_eq_of_le (round_mag_nonneg a ha) with hv | hv
    · apply round_of_mag _ hv _ hov
      obtain ⟨s1, s2, s3⟩ := expo_spec a ha
      rcases lt_or_eq_of_le (round_mag_le_top a ha) with htop | htop
      · have he := expo_lt_of_lt (round_mag a) hv (expo a) s1 htop
        exact round_mag_exact (round_mag a) (rne (a / pow2 (expo a - 52))) (expo a - 52)
          (by omega) rfl
      · have he : expo (round_mag a) = expo a + 1 :=
          expo_unique _ _ (le_of_eq htop.symm) (by rw [htop]; exact pow2_lt _ _ (by omega))
            (by omega)
        refine round_mag_exact (round_mag a) 1 (expo a + 1) (by omega) ?_
        rw [htop]
        simp
    · rw [← hv, round_zero]
  rcases lt_trichotomy q 0 with hq | hq | hq
  · rw [round_neg q hq] at h
    split_ifs at h with h1
    simp only [fin.injEq] at h
    rw [← h]
    exact round_opp _ _ (key (-q) (by linarith) (not_le.mp h1))
  · subst hq
    rw [round_zero] at h
    simp only [fin.injEq] at h
    rw [← h, round_zero]
  · rw [round_pos q hq] at h
    split_ifs at h with h1
    simp only [fin.injEq] at h
    rw [← h]
    exact key q hq (not_le.mp h1)

/-- Every double is an integer multiple of `2^-1074`. -/
theorem is_double_grid (x : ℚ) (h : is_double x) : ∃ m : Int, x = (m : ℚ) * pow2 (-1074) := by
  have key : ∀ a : ℚ, 0 < a → ∃ m : Int, round_mag a = (m : ℚ) * pow2 (-1074) := by
    intro a ha
    obtain ⟨s1, -, -⟩ := expo_spec a ha
    obtain ⟨n, hn⟩ := Int.eq_ofNat_of_zero_le (by omega : 0 ≤ expo a - 52 + 1074)
    refine ⟨rne (a / pow2 (expo a - 52)) * ((2 ^ n : Nat) : Int), ?_⟩
    unfold round_mag
    have : expo a - 52 = (n : Int) + (-1074) := by omega
    nth_rewrite 2 [this]
    rw [pow2_add, pow2_nat]
    push_cast
    ring
  unfold is_double at h
  rcases lt_trichotomy x 0 with hx | hx | hx
  · rw [round_neg x hx] at h
    split_ifs at h with h1
    simp only [fin.injEq] at h
    obtain ⟨m, hm⟩ := key (-x) (by linarith)
    refine ⟨-m, ?_⟩
    rw [← h, hm]
    push_cast
    ring
  · exact ⟨0, by simp [hx]⟩
  · rw [round_pos x hx] at h
    split_ifs at h with h1
    simp only [fin.injEq] at h
    obtain ⟨m, hm⟩ := key x hx
    exact ⟨m, by rw [← h, hm]⟩

theorem is_double_grid_unit : round (pow2 (-1074)) = fin (pow2 (-1074)) := by decide!

/-- Gradual underflow: the difference of two distinct doubles does not round
to zero. -/
theorem round_sub_pos (a b : ℚ) (ha : is_double a) (hb : is_double b) (hab : a < b) :
    ge (round (b - a)) (fin (pow2 (-1074))) = true := by
  obtain ⟨ma, hma⟩ := is_double_grid a ha
  obtain ⟨mb, hmb⟩ := is_double_grid b hb
  have hu := pow2_pos (-1074)
  have hlt : ma < mb := by
    by_contra hc
    have : (mb : ℚ) ≤ (ma : ℚ) := by exact_mod_cast (not_lt.mp hc)
    have := mul_le_mul_of_nonneg_right this (le_of_lt hu)
    linarith
  have h1 : (1 : ℚ) ≤ (mb : ℚ) - (ma : ℚ) := by
    have : (1 : Int) ≤ mb - ma := by omega
    exact_mod_cast this
  have h2 : pow2 (-1074) ≤ b - a := by
    rw [hma, hmb, ← sub_mul]
    calc pow2 (-1074) = 1 * pow2 (-1074) := (one_mul _).symm
      _ ≤ ((mb : ℚ) - (ma : ℚ)) * pow2 (-1074) := mul_le_mul_of_nonneg_right h1 (le_of_lt hu)
  have := round_mono _ _ h2
  rwa [is_double_grid_unit] at this

theorem round_ne_nan (q : ℚ) : round q ≠ nan := by
  unfold round
  split_ifs <;> simp

theorem eq_true_iff (a b : Dbl) : eq a b = true ↔ a = b ∧ a ≠ nan := by
  cases a <;> cases b <;> simp [eq]

theorem eq_self (a : Dbl) (h : a ≠ nan) : eq a a = true :=
  (eq_true_iff a a).mpr ⟨rfl, h⟩

theorem ofInt_exact (n : Int) (h1 : -(2 : Int) ^ 53 ≤ n) (h2 : n ≤ (2 : Int) ^ 53) :
    ofInt n = fin (n : ℚ) := round_int n h1 h2

theorem ofInt_nat (n : Nat) (h : n ≤ 2 ^ 53) : ofInt (n : Int) = fin (n : ℚ) := by
  have := ofInt_exact (n : Int) (by have : (0 : Int) ≤ (n : Int) := Int.ofNat_nonneg n; omega)
    (by exact_mod_cast h)
  simpa using this

theorem ofInt_ne_nan (n : Int) : ofInt n ≠ nan := round_ne_nan _

theorem lt_trans (a b c : Dbl) (h1 : lt a b = true) (h2 : lt b c = true) : lt a c = true := by
  cases a <;> cases b <;> cases c <;> simp_all [lt]
  exact LT.lt.trans h1 h2

theorem lt_asymm (a b : Dbl) (h : lt a b = true) : lt b a = false := by
  cases a <;> cases b <;> simp_all [lt]
  exact le_of_lt h

theorem lt_irrefl (a : Dbl) : lt a a = false := by
  cases a <;> simp [lt]

theorem eq_false_of_lt (a b : Dbl) (h : lt a b = true) : eq a b = false ∧ eq b a = false := by
  cases a <;> cases b <;> simp_all [lt, eq]
  exact ⟨ne_of_lt h, ne_of_gt h⟩

theorem ge_of_lt (a b : Dbl) (h : lt a b = true) : ge b a = true := by
  cases a <;> cases b <;> simp_all [lt, ge]
  exact le_of_lt h

theorem sub_fin (a b : Dbl) (v : ℚ) (h : sub a b = fin v) :
    ∃ p q : ℚ, a = fin p ∧ b = fin q ∧ round (p - q) = fin v := by
  cases a <;> cases b <;> simp_all [sub]

end Dbl

/-! ### Message structure -/

theorem mess_set_type_list (m : t_mess_struct) : (mess_set_type m).list = m.list := by
  unfold mess_set_type
  split
  · rfl
  · split <;> rfl

theorem mess_set_type_len_cur (m : t_mess_struct) : (mess_set_type m).len_cur = m.len_cur := by
  unfold mess_set_type
  split
  · rfl
  · split <;> rfl

theorem to_short_of_le (n : Nat) (h : n ≤ 32767) : (to_short (n : Int)).toNat = n := by
  unfold to_short
  have h1 : ((n : Int) + 2 ^ 15) % 2 ^ 16 = (n : Int) + 2 ^ 15 := by
    apply Int.emod_eq_of_lt <;> omega
  rw [h1]
  omega

/-! ### Lfind -/

/-- C1 (as amended): for the reference `0 10 20 30` and the query `15`,
`lfind_action` stores and sends out the position `3/2`, whatever the object
state. -/
theorem lfind_action_example (x : t_lfind) :
    lfind_action x 4 [A_LONG 0, A_LONG 10, A_LONG 20, A_LONG 30] (Dbl.fin 15)
      = some ({ x with o_float := Dbl.fin (3 / 2) }, some (Dbl.fin (3 / 2))) := by
  have h : lfind_locate 4 [A_LONG 0, A_LONG 10, A_LONG 20, A_LONG 30] (Dbl.fin 15)
      = some (some (Dbl.fin (3 / 2))) := by decide!
  unfold lfind_action
  rw [h]
  rfl

/-- C1 (counterexample): on the object built by `lfind_new`, the position sent
out for the reference `0 10 20 30` and the query `15` is not `5/2`. -/
theorem lfind_action_example_not_five_halves :
    (lfind_action lfind_new_default 4 [A_LONG 0, A_LONG 10, A_LONG 20, A_LONG 30]
      (Dbl.fin 15)).map Prod.snd ≠ some (some (Dbl.fin (5 / 2))) := by
  decide!

theorem lfind_exact_none (argv : List t_atom) (f : Dbl) :
    ∀ n k : Nat,
      (∀ j, k ≤ j → j < k + n →
        ∃ a, argv[j]? = some a ∧ Dbl.eq (atom_getfloat a) f = false) →
      lfind_exact argv f n k = some none := by
  intro n
  induction n with
  | zero => intro k _; rfl
  | succ n ih =>
    intro k h
    obtain ⟨a, ha, hne⟩ := h k (le_refl k) (by omega)
    have hrec := ih (k + 1) (fun j hj1 hj2 => h j (by omega) (by omega))
    simp [lfind_exact, ha, hne, hrec]

theorem lfind_less_fwd_run (argc : Nat) (argv : List t_atom) (f : Dbl) (r : Nat → Dbl) (i : Nat)
    (hlen : i + 1 < argc) (hargc : argc ≤ argv.length)
    (hr : ∀ j, j ≤ i + 1 → (argv[j]?).map atom_getfloat = some (r j))
    (hmono : ∀ j, j < i → Dbl.ge (r (j + 1)) (r j) = true)
    (hlt : ∀ j, j ≤ i → Dbl.lt (r j) f = true) (hge : Dbl.lt (r (i + 1)) f = false) :
    ∀ d k : Nat, k + d = i + 1 → 1 ≤ k →
      lfind_less_fwd f argc (argv.drop k) k (r (k - 1)) (k - 1) = some (r i, i) := by
  intro d
  induction d with
  | zero =>
    intro k hk _
    have hki : k = i + 1 := by omega
    subst hki
    have hl : i + 1 < argv.length := by omega
    have hv := hr (i + 1) (le_refl _)
    rw [List.getElem?_eq_getElem hl] at hv
    simp only [Option.map_some', Option.some.injEq] at hv
    rw [List.drop_eq_getElem_cons hl]
    simp [lfind_less_fwd, hv, hge, Nat.ne_of_lt hlen]
  | succ d ih =>
    intro k hk h1
    have hkc : k < argc := by omega
    have hklen : k < argv.length := by omega
    have hv := hr k (by omega)
    rw [List.getElem?_eq_getElem hklen] at hv
    simp only [Option.map_some', Option.some.injEq] at hv
    have hlt2 := hlt k (by omega)
    have hm := hmono (k - 1) (by omega)
    have hk1 : k - 1 + 1 = k := by omega
    rw [hk1] at hm
    have hrec := ih (k + 1) (by omega) (by omega)
    simp only [Nat.add_sub_cancel] at hrec
    rw [List.drop_eq_getElem_cons hklen]
    simp [lfind_less_fwd, hv, hlt2, hm, Nat.ne_of_lt hkc, hrec]

/-- The interpolation `(f - a) / (b - a) * d + l` of `lfind_action` in double
arithmetic, each operation rounded. -/
theorem lfind_interp_eq (argv : List t_atom) (f : Dbl) (l m : Nat) (al am : t_atom)
    (hl : argv[l]? = some al) (hm : argv[m]? = some am) :
    lfind_interp argv f l m
      = some (Dbl.add
          (Dbl.mul
            (Dbl.div (Dbl.sub f (atom_getfloat al))
              (Dbl.sub (atom_getfloat am) (atom_getfloat al)))
            (Dbl.ofInt ((m : Int) - (l : Int))))
          (Dbl.ofInt (l : Int))) := by
  unfold lfind_interp
  rw [hl, hm]

/-- C10 (as amended): `lfind_action` on increasing data.  The reference is
the first `argc` atoms of the array (the whole incoming list, or the stored
list inside its array); when their values `ref` are strictly increasing and
the query `f` lies strictly between the elements `a` of index `i` and `b` of
index `i + 1`, the search ends with `less_than_ind = i` and
`more_than_ind = i + 1`, and the position stored and sent out is the value of
`(f - a) / (b - a) * 1 + i` in double arithmetic, each operation rounded.
It is the exact `i + (f - a) / (b - a)` when the two differences, the
quotient and the sum are doubles. -/
theorem lfind_action_increasing (x : t_lfind) (argc : Nat) (argv : List t_atom) (ref : List Dbl)
    (f a b : Dbl) (i : Nat)
    (hargc : argc ≤ argv.length)
    (hval : (argv.take argc).map atom_getfloat = ref)
    (hinc : ref.Pairwise (fun u v => Dbl.lt u v = true))
    (ha : ref[i]? = some a) (hb : ref[i + 1]? = some b)
    (haq : Dbl.lt a f = true) (hqb : Dbl.lt f b = true) :
    lfind_less argc argv f = some (some i)
    ∧ lfind_more argc argv f i = some (some (i + 1))
    ∧ lfind_action x argc argv f
        = some ({ x with
              o_float := (Dbl.add (Dbl.mul (Dbl.div (Dbl.sub f a) (Dbl.sub b a)) (Dbl.ofInt 1))
                (Dbl.ofInt (i : Int))) },
            some (Dbl.add (Dbl.mul (Dbl.div (Dbl.sub f a) (Dbl.sub b a)) (Dbl.ofInt 1))
              (Dbl.ofInt (i : Int))))
    ∧ (∀ q u v : ℚ, f = Dbl.fin q → a = Dbl.fin u → b = Dbl.fin v → i ≤ 2 ^ 53 →
        Dbl.is_double (q - u) → Dbl.is_double (v - u) → Dbl.is_double ((q - u) / (v - u)) →
        Dbl.is_double ((q - u) / (v - u) + (i : ℚ)) →
        Dbl.add (Dbl.mul (Dbl.div (Dbl.sub f a) (Dbl.sub b a)) (Dbl.ofInt 1))
            (Dbl.ofInt (i : Int))
          = Dbl.fin ((i : ℚ) + (q - u) / (v - u))) := by
  have hlen : argc = ref.length := by
    have := congrArg List.length hval
    simp only [List.length_map, List.length_take] at this
    omega
  obtain ⟨hi1, hbe⟩ := List.getElem?_eq_some.mp hb
  have hi0 : i < ref.length := by omega
  have hae : ref[i] = a := by
    rw [List.getElem?_eq_getElem hi0] at ha
    exact Option.some.inj ha
  -- the value read at each index
  obtain ⟨r, hgd⟩ : ∃ r : Nat → Dbl, ∀ j (hj : j < ref.length), r j = ref[j] :=
    ⟨fun j => ref.getD j Dbl.nan, fun j hj => by simp [List.getD, List.getElem?_eq_getElem hj]⟩
  have hr : ∀ j, j < ref.length → (argv[j]?).map atom_getfloat = some (r j) := by
    intro j hj
    have h1 : (argv.take argc)[j]? = argv[j]? := by
      rw [List.getElem?_take, if_pos (by omega)]
    rw [← h1, ← List.getElem?_map, hval, List.getElem?_eq_getElem hj, hgd j hj]
  have hmono : ∀ j k, j < k → k < ref.length → Dbl.lt (r j) (r k) = true := by
    intro j k hjk hk
    rw [hgd j (by omega), hgd k hk]
    exact List.pairwise_iff_getElem.mp hinc j k (by omega) hk hjk
  have hri : r i = a := by rw [hgd i hi0, hae]
  have hri1 : r (i + 1) = b := by rw [hgd (i + 1) hi1, hbe]
  have hlow : ∀ j, j ≤ i → Dbl.lt (r j) f = true := by
    intro j hj
    rcases Nat.lt_or_eq_of_le hj with h | h
    · exact Dbl.lt_trans _ _ _ (hmono j i h hi0) (by rw [hri]; exact haq)
    · subst h; rw [hri]; exact haq
  have hhigh : ∀ j, i + 1 ≤ j → j < ref.length → Dbl.lt f (r j) = true := by
    intro j hj hjl
    rcases Nat.lt_or_eq_of_le hj with h | h
    · exact Dbl.lt_trans _ _ _ (by rw [hri1]; exact hqb) (hmono (i + 1) j h hjl)
    · subst h; rw [hri1]; exact hqb
  have hatom : ∀ j, j < ref.length →
      ∃ c, argv[j]? = some c ∧ atom_getfloat c = r j := by
    intro j hj
    have h := hr j hj
    rw [List.getElem?_eq_getElem (by omega : j < argv.length)] at h ⊢
    exact ⟨_, rfl, by simpa using h⟩
  -- no exact match
  have hexact : lfind_exact argv f argc 0 = some none := by
    apply lfind_exact_none
    intro j _ hj
    obtain ⟨c, hc, hcv⟩ := hatom j (by omega)
    refine ⟨c, hc, ?_⟩
    rw [hcv]
    by_cases hji : j ≤ i
    · exact (Dbl.eq_false_of_lt _ _ (hlow j hji)).1
    · exact (Dbl.eq_false_of_lt _ _ (hhigh j (by omega) (by omega))).2
  -- the forward search of the value below
  have hless : lfind_less argc argv f = some (some i) := by
    obtain ⟨c0, hc0, hcv0⟩ := hatom 0 (by omega)
    have hrun := lfind_less_fwd_run argc argv f r i (by omega) hargc
      (fun j hj => hr j (by omega))
      (fun j hj => Dbl.ge_of_lt _ _ (hmono j (j + 1) (by omega) (by omega)))
      hlow (Dbl.lt_asymm _ _ (hhigh (i + 1) (le_refl _) hi1)) i 1 (by omega) (le_refl _)
    simp only [Nat.sub_self, List.drop_one] at hrun
    simp [lfind_less, hc0, hcv0, hlow 0 (Nat.zero_le _), hrun]
  -- the forward search of the value above
  obtain ⟨ci, hci, hcvi⟩ := hatom i hi0
  obtain ⟨cj, hcj, hcvj⟩ := hatom (i + 1) hi1
  have hil : i < argv.length := by omega
  have hil1 : i + 1 < argv.length := by omega
  have hci2 : argv[i] = ci := by
    rw [List.getElem?_eq_getElem hil] at hci; exact Option.some.inj hci
  have hcj2 : argv[i + 1] = cj := by
    rw [List.getElem?_eq_getElem hil1] at hcj; exact Option.some.inj hcj
  have hmore : lfind_more argc argv f i = some (some (i + 1)) := by
    rw [lfind_more, List.drop_eq_getElem_cons hil, List.drop_eq_getElem_cons hil1, hci2, hcj2]
    simp [lfind_more_fwd, hcvi, hcvj, Dbl.gt,
      Nat.ne_of_lt (by omega : i < argc), Nat.ne_of_lt (by omega : i + 1 < argc),
      Dbl.lt_asymm _ _ (hlow i (le_refl _)), hhigh (i + 1) (le_refl _) hi1]
  have hone : ((i + 1 : Nat) : Int) - (i : Int) = 1 := by
    push_cast
    ring
  have hinterp : lfind_interp argv f i (i + 1)
      = some (Dbl.add (Dbl.mul (Dbl.div (Dbl.sub f a) (Dbl.sub b a)) (Dbl.ofInt 1))
          (Dbl.ofInt (i : Int))) := by
    rw [lfind_interp_eq argv f i (i + 1) ci cj hci hcj, hcvi, hcvj, hri, hri1, hone]
  refine ⟨hless, hmore, ?_, ?_⟩
  · simp [lfind_action, lfind_locate, hexact, hless, hmore, hinterp]
  · intro q u v hf hau hbv hi53 e1 e2 e3 e4
    subst hf hau hbv
    have huv : u < v := by
      have h1 : u < q := by simpa [Dbl.lt] using haq
      have h2 : q < v := by simpa [Dbl.lt] using hqb
      linarith
    have hne : v - u ≠ 0 := by linarith
    unfold Dbl.is_double at e1 e2 e3 e4
    have hone1 : Dbl.ofInt 1 = Dbl.fin 1 := by decide!
    rw [Dbl.ofInt_nat i hi53, hone1]
    simp only [Dbl.sub, e1, e2, Dbl.div, if_neg hne, e3, Dbl.mul, mul_one, Dbl.add, e4]
    rw [add_comm]

/-- C10 (witness): the query `15` sent to the left inlet of an object that
stores the reference `0 10. 20`, between the elements of index 1 and 2; every
operation is exact and the position is `3/2`. -/
theorem lfind_action_increasing_witness :
    lfind_less 3 lfind_example.i_list_2.list (Dbl.fin 15) = some (some 1)
    ∧ lfind_more 3 lfind_example.i_list_2.list (Dbl.fin 15) 1 = some (some (1 + 1))
    ∧ lfind_action lfind_example 3 lfind_example.i_list_2.list (Dbl.fin 15)
      = some ({ lfind_example with
            o_float := (Dbl.add (Dbl.mul (Dbl.div (Dbl.sub (Dbl.fin 15) (Dbl.fin 10))
              (Dbl.sub (Dbl.fin 20) (Dbl.fin 10))) (Dbl.ofInt 1)) (Dbl.ofInt ((1 : Nat) : Int))) },
          some (Dbl.add (Dbl.mul (Dbl.div (Dbl.sub (Dbl.fin 15) (Dbl.fin 10))
            (Dbl.sub (Dbl.fin 20) (Dbl.fin 10))) (Dbl.ofInt 1)) (Dbl.ofInt ((1 : Nat) : Int))))
    ∧ Dbl.add (Dbl.mul (Dbl.div (Dbl.sub (Dbl.fin 15) (Dbl.fin 10))
          (Dbl.sub (Dbl.fin 20) (Dbl.fin 10))) (Dbl.ofInt 1)) (Dbl.ofInt ((1 : Nat) : Int))
        = Dbl.fin (((1 : Nat) : ℚ) + (15 - 10) / (20 - 10))
    ∧ (((1 : Nat) : ℚ) + (15 - 10) / (20 - 10) = 3 / 2) :=
  have h := lfind_action_increasing lfind_example 3 lfind_example.i_list_2.list
    [Dbl.fin 0, Dbl.fin 10, Dbl.fin 20] (Dbl.fin 15) (Dbl.fin 10) (Dbl.fin 20) 1
    (by decide!) (by decide!) (by decide!) (by decide!) (by decide!) (by decide!) (by decide!)
  ⟨h.1, h.2.1, h.2.2.1,
    h.2.2.2 15 10 20 rfl rfl rfl (by decide) (by decide!) (by decide!) (by decide!) (by decide!),
    by decide!⟩

/-- C10, counterexample: on the increasing reference `0 3` the query `1` lies
between the two elements, and the position sent out is the double nearest to
`1/3`, not `0 + (1 - 0) / (3 - 0)`; on the increasing reference
`-2^1023 2^1023` of two doubles the difference of the elements overflows, and
the position sent out for the query `0` is `0`, not `1/2`. -/
theorem lfind_action_increasing_inexact :
    (lfind_action lfind_new_default 2 [A_LONG 0, A_LONG 3] (Dbl.fin 1)).map Prod.snd
        = some (some (Dbl.fin (6004799503160661 / 18014398509481984)))
    ∧ (6004799503160661 / 18014398509481984 : ℚ) ≠ 0 + (1 - 0) / (3 - 0)
    ∧ Dbl.is_double (Dbl.pow2 1023)
    ∧ Dbl.is_double (-Dbl.pow2 1023)
    ∧ (lfind_action lfind_new_default 2
          [A_FLOAT (Dbl.fin (-Dbl.pow2 1023)), A_FLOAT (Dbl.fin (Dbl.pow2 1023))]
          (Dbl.fin 0)).map Prod.snd
        = some (some (Dbl.fin 0))
    ∧ (0 : ℚ) ≠ 0 + (0 - (-Dbl.pow2 1023)) / (Dbl.pow2 1023 - (-Dbl.pow2 1023)) := by
  decide!

/-! ### Lchange -/

theorem lchange_scan_true (argv list : List t_atom) (offset : Nat) :
    ∀ n i : Nat,
      (∀ j, i ≤ j → j < i + n →
        ∃ a b, argv[j]? = some a ∧ list[offset + j]? = some b ∧ atoms_diff a b = false) →
      lchange_scan argv list offset n i = some true := by
  intro n
  induction n with
  | zero => intro i _; rfl
  | succ n ih =>
    intro i h
    obtain ⟨a, b, ha, hb, hab⟩ := h i (le_refl i) (by omega)
    have hrec := ih (i + 1) (fun j hj1 hj2 => h j (by omega) (by omega))
    simp [lchange_scan, ha, hb, hab, hrec]

theorem lchange_scan_false (argv list : List t_atom) (offset : Nat) :
    ∀ n i : Nat,
      (∀ j, i ≤ j → j < i + n → ∃ a b, argv[j]? = some a ∧ list[offset + j]? = some b) →
      (∃ j a b, i ≤ j ∧ j < i + n ∧ argv[j]? = some a ∧ list[offset + j]? = some b
        ∧ atoms_diff a b = true) →
      lchange_scan argv list offset n i = some false := by
  intro n
  induction n with
  | zero =>
    intro i _ h
    obtain ⟨j, _, _, h1, h2, _⟩ := h
    omega
  | succ n ih =>
    intro i hb h
    obtain ⟨a, b, ha, hbb⟩ := hb i (le_refl i) (by omega)
    cases hab : atoms_diff a b with
    | true => simp [lchange_scan, ha, hbb, hab]
    | false =>
      obtain ⟨j, a', b', h1, h2, ha', hb', hd⟩ := h
      have hji : j ≠ i := by
        intro hji
        subst hji
        rw [ha] at ha'
        rw [hbb] at hb'
        cases ha'
        cases hb'
        rw [hab] at hd
        cases hd
      have hrec := ih (i + 1) (fun k hk1 hk2 => hb k (by omega) (by omega))
        ⟨j, a', b', by omega, by omega, ha', hb', hd⟩
      simp [lchange_scan, ha, hbb, hab, hrec]

theorem atoms_diff_atom_equal (a b : t_atom) : atoms_diff a b = !atom_equal a b := by
  cases a <;> cases b <;>
    simp [atoms_diff, atom_equal, is_sym, is_number, atom_getsym, atom_getfloat]

theorem lchange_match_equals (x : t_lchange) (sym : t_symbol) (argv : List t_atom) (offset : Nat)
    (hwf : x.i_list_2.len_cur ≤ x.i_list_2.list.length) :
    lchange_match x sym argv.length argv offset = some (decide (lchange_equals x sym argv offset)) := by
  unfold lchange_match
  by_cases h1 : argv.length + offset ≠ x.i_list_2.len_cur
      ∨ (sym ≠ x.i_list_2.sym ∧ sym ≠ sym_int ∧ sym ≠ sym_float)
  · rw [if_pos h1]
    have : ¬ lchange_equals x sym argv offset := by
      intro he
      rcases h1 with h | ⟨h2, h3, h4⟩
      · exact h he.1
      · rcases he.2.1 with h | h | h
        · exact h2 h
        · exact h3 h
        · exact h4 h
    simp [this]
  · rw [if_neg h1]
    have hlen : argv.length + offset = x.i_list_2.len_cur := by
      by_contra h; exact h1 (Or.inl h)
    have hsym : sym = x.i_list_2.sym ∨ sym = sym_int ∨ sym = sym_float := by
      by_contra h
      push_neg at h
      exact h1 (Or.inr h)
    have hn : x.i_list_2.len_cur - offset = argv.length := by omega
    rw [hn]
    have hread : ∀ j, 0 ≤ j → j < 0 + argv.length →
        ∃ a b, argv[j]? = some a ∧ x.i_list_2.list[offset + j]? = some b := by
      intro j _ hj
      have hj1 : j < argv.length := by omega
      have hj2 : offset + j < x.i_list_2.list.length := by omega
      exact ⟨_, _, List.getElem?_eq_getElem hj1, List.getElem?_eq_getElem hj2⟩
    by_cases hall : ∀ i, i < argv.length → lchange_pair_equal argv x.i_list_2.list offset i = true
    · have he : lchange_equals x sym argv offset := ⟨hlen, hsym, hall⟩
      rw [lchange_scan_true]
      · simp [he]
      · intro j hj0 hj
        obtain ⟨a, b, ha, hb⟩ := hread j hj0 hj
        refine ⟨a, b, ha, hb, ?_⟩
        have := hall j (by omega)
        simpa [lchange_pair_equal, ha, hb, atoms_diff_atom_equal] using this
    · have he : ¬ lchange_equals x sym argv offset := fun he => hall he.2.2
      rw [lchange_scan_false _ _ _ _ _ hread]
      · simp [he]
      · push_neg at hall
        obtain ⟨j, hj, hne⟩ := hall
        obtain ⟨a, b, ha, hb⟩ := hread j (Nat.zero_le _) (by omega)
        refine ⟨j, a, b, Nat.zero_le _, by omega, ha, hb, ?_⟩
        simpa [lchange_pair_equal, ha, hb, atoms_diff_atom_equal] using hne

/-- C8: whenever the total length of the incoming message (values plus lead
offset) differs from the stored length, `lchange_action` fails the match and
sends the message through the `different` outlet, whatever the values; this
is the case of every message longer than `maxlen` when the stored length is
within `maxlen`. -/
theorem lchange_action_length_differs (x : t_lchange) (sym : t_symbol) (argc : Nat)
    (argv : List t_atom) (offset : Nat)
    (h : argc + offset ≠ x.i_list_2.len_cur
      ∨ (x.i_list_2.len_cur ≤ x.maxlen ∧ x.maxlen < argc + offset)) :
    lchange_match x sym argc argv offset = some false
    ∧ ∃ x2 msg, lchange_action x sym argc argv offset
        = some (x2, t_lchange_outlet.outl_list_diff, msg) := by
  have hne : argc + offset ≠ x.i_list_2.len_cur := by
    rcases h with h | ⟨h1, h2⟩
    · exact h
    · omega
  have hm : lchange_match x sym argc argv offset = some false := by
    unfold lchange_match
    rw [if_pos (Or.inl hne)]
  refine ⟨hm, ?_⟩
  unfold lchange_action
  rw [hm]
  exact ⟨_, _, rfl⟩

/-- C9 (as amended): atom equality (`atoms_diff` false).  Two numbers are
equal exactly when their values as doubles are equal, an integer being
converted to the nearest double first; for integers of magnitude at most
`2^53`, which the conversion does not change, this is equality of the
numbers themselves.  A NaN is equal to nothing.  Two symbols are equal
exactly when they are the same symbol; a number and a symbol are never equal,
as the integer 1 and the symbol "1". -/
theorem atoms_diff_false_iff :
    (∀ a b : Int, atoms_diff (A_LONG a) (A_LONG b) = false ↔ Dbl.ofInt a = Dbl.ofInt b)
    ∧ (∀ a b : Int, -(2 : Int) ^ 53 ≤ a ∧ a ≤ (2 : Int) ^ 53 →
        -(2 : Int) ^ 53 ≤ b ∧ b ≤ (2 : Int) ^ 53 →
        (atoms_diff (A_LONG a) (A_LONG b) = false ↔ a = b))
    ∧ (∀ (a : Int) (d : Dbl), (atoms_diff (A_LONG a) (A_FLOAT d) = false ↔ Dbl.ofInt a = d)
        ∧ (atoms_diff (A_FLOAT d) (A_LONG a) = false ↔ d = Dbl.ofInt a))
    ∧ (∀ (a : Int) (q : ℚ), -(2 : Int) ^ 53 ≤ a ∧ a ≤ (2 : Int) ^ 53 →
        (atoms_diff (A_LONG a) (A_FLOAT (Dbl.fin q)) = false ↔ (a : ℚ) = q)
        ∧ (atoms_diff (A_FLOAT (Dbl.fin q)) (A_LONG a) = false ↔ q = (a : ℚ)))
    ∧ (∀ c d : Dbl, atoms_diff (A_FLOAT c) (A_FLOAT d) = false ↔ c = d ∧ c ≠ Dbl.nan)
    ∧ (∀ p q : ℚ, atoms_diff (A_FLOAT (Dbl.fin p)) (A_FLOAT (Dbl.fin q)) = false ↔ p = q)
    ∧ (∀ a : t_atom, atoms_diff a (A_FLOAT Dbl.nan) = true
        ∧ atoms_diff (A_FLOAT Dbl.nan) a = true)
    ∧ (∀ s t : t_symbol, atoms_diff (A_SYM s) (A_SYM t) = false ↔ s = t)
    ∧ (∀ (n : Int) (s : t_symbol), atoms_diff (A_LONG n) (A_SYM s) = true
        ∧ atoms_diff (A_SYM s) (A_LONG n) = true)
    ∧ (∀ (d : Dbl) (s : t_symbol), atoms_diff (A_FLOAT d) (A_SYM s) = true
        ∧ atoms_diff (A_SYM s) (A_FLOAT d) = true)
    ∧ atoms_diff (A_LONG 1) (A_SYM "1") = true := by
  have hnum : ∀ a b : t_atom, is_number a = true → is_number b = true →
      (atoms_diff a b = false
        ↔ atom_getfloat a = atom_getfloat b ∧ atom_getfloat a ≠ Dbl.nan) := by
    intro a b ha hb
    rw [← Dbl.eq_true_iff]
    cases a <;> cases b <;> simp [atoms_diff, is_sym, is_number] at ha hb ⊢
  have hll : ∀ a b : Int, atoms_diff (A_LONG a) (A_LONG b) = false
      ↔ Dbl.ofInt a = Dbl.ofInt b := by
    intro a b
    rw [hnum (A_LONG a) (A_LONG b) rfl rfl]
    exact ⟨fun h => h.1, fun h => ⟨h, Dbl.ofInt_ne_nan a⟩⟩
  have hlf : ∀ (a : Int) (d : Dbl), atoms_diff (A_LONG a) (A_FLOAT d) = false
      ↔ Dbl.ofInt a = d := by
    intro a d
    rw [hnum (A_LONG a) (A_FLOAT d) rfl rfl]
    exact ⟨fun h => h.1, fun h => ⟨h, Dbl.ofInt_ne_nan a⟩⟩
  have hfl : ∀ (a : Int) (d : Dbl), atoms_diff (A_FLOAT d) (A_LONG a) = false
      ↔ d = Dbl.ofInt a := by
    intro a d
    rw [hnum (A_FLOAT d) (A_LONG a) rfl rfl]
    refine ⟨fun h => h.1, fun h => ⟨h, ?_⟩⟩
    show d ≠ Dbl.nan
    rw [h]
    exact Dbl.ofInt_ne_nan a
  have hff : ∀ c d : Dbl, atoms_diff (A_FLOAT c) (A_FLOAT d) = false ↔ c = d ∧ c ≠ Dbl.nan :=
    fun c d => hnum (A_FLOAT c) (A_FLOAT d) rfl rfl
  refine ⟨hll, ?_, fun a d => ⟨hlf a d, hfl a d⟩, ?_, hff, ?_, ?_, ?_, ?_, ?_, ?_⟩
  · intro a b ha hb
    rw [hll, Dbl.ofInt_exact a ha.1 ha.2, Dbl.ofInt_exact b hb.1 hb.2]
    simp
  · intro a q ha
    rw [hlf, hfl, Dbl.ofInt_exact a ha.1 ha.2]
    simp
  · intro p q
    rw [hff]
    simp
  · intro a
    cases a <;> simp [atoms_diff, is_sym, is_number, atom_getfloat, Dbl.eq]
  · intro s t
    simp [atoms_diff, is_sym, is_number, atom_getsym]
  · intro n s
    simp [atoms_diff, is_sym, is_number]
  · intro d s
    simp [atoms_diff, is_sym, is_number]
  · simp [atoms_diff, is_sym, is_number]

/-- C9 on the integer 3: equal to the float `3.`, to the integer 3 and not to
the integer 4, nor to the float `7/2`. -/
theorem atoms_diff_false_iff_witness :
    (atoms_diff (A_LONG 3) (A_FLOAT (Dbl.fin 3)) = false ↔ ((3 : Int) : ℚ) = 3)
    ∧ (atoms_diff (A_LONG 3) (A_LONG 4) = false ↔ (3 : Int) = 4)
    ∧ atoms_diff (A_LONG 3) (A_FLOAT (Dbl.fin 3)) = false
    ∧ atoms_diff (A_LONG 3) (A_LONG 3) = false
    ∧ atoms_diff (A_LONG 3) (A_LONG 4) = true
    ∧ atoms_diff (A_LONG 3) (A_FLOAT (Dbl.fin (7 / 2))) = true :=
  ⟨(atoms_diff_false_iff.2.2.2.1 3 3 ⟨by decide, by decide⟩).1,
    atoms_diff_false_iff.2.1 3 4 ⟨by decide, by decide⟩ ⟨by decide, by decide⟩,
    by decide!, by decide!, by decide!, by decide!⟩

/-- C9, counterexample: the integers `2^53 + 1` and `2^53` are different
numbers, and as atoms they are equal, both converting to the double `2^53`;
so are the integer `2^53 + 1` and the float `2^53`. -/
theorem atoms_diff_large_int :
    atoms_diff (A_LONG 9007199254740993) (A_LONG 9007199254740992) = false
    ∧ (9007199254740993 : Int) ≠ 9007199254740992
    ∧ atoms_diff (A_LONG 9007199254740993) (A_FLOAT (Dbl.fin 9007199254740992)) = false
    ∧ ((9007199254740993 : Int) : ℚ) ≠ 9007199254740992
    ∧ (9007199254740992 : Int) = 2 ^ 53
    ∧ Dbl.is_double 9007199254740992 := by
  decide!

set_option maxRecDepth 8192 in
/-- C8 (witness): the list `1 2`, a prefix of the stored list `1 2 3`, comes
out of the `different` outlet; so does a list of 300 atoms, longer than
`maxlen`. -/
theorem lchange_action_length_differs_witness :
    (2 + 0 ≠ lchange_example.i_list_2.len_cur
      ∧ lchange_match lchange_example sym_list 2 [A_LONG 1, A_LONG 2] 0 = some false
      ∧ ∃ x2 msg, lchange_action lchange_example sym_list 2 [A_LONG 1, A_LONG 2] 0
          = some (x2, t_lchange_outlet.outl_list_diff, msg))
    ∧ (lchange_example.i_list_2.len_cur ≤ lchange_example.maxlen
      ∧ lchange_example.maxlen < 300 + 0
      ∧ ∃ x2 msg, lchange_action lchange_example sym_list 300 (List.replicate 300 (A_LONG 1)) 0
          = some (x2, t_lchange_outlet.outl_list_diff, msg)) :=
  ⟨⟨by decide,
      lchange_action_length_differs lchange_example sym_list 2 [A_LONG 1, A_LONG 2] 0
        (Or.inl (by decide))⟩,
    ⟨by decide, by decide,
      (lchange_action_length_differs lchange_example sym_list 300
        (List.replicate 300 (A_LONG 1)) 0 (Or.inr ⟨by decide, by decide⟩)).2⟩⟩

/-! ### Lmax and Lmin -/

theorem lext_loop_spec (body : t_atom → t_atom → t_atom) (in1 in2 : List t_atom)
    (incr1 incr2 : Nat) :
    ∀ (n p1 p2 i : Nat) (out : List t_atom),
      (∀ k, k < n → p1 + k * incr1 < in1.length) →
      (∀ k, k < n → p2 + k * incr2 < in2.length) →
      i + n ≤ out.length →
      ∃ res, lext_loop body in1 in2 incr1 incr2 n p1 p2 i out = some res
        ∧ res.length = out.length
        ∧ (∀ k, k < n → ∃ a b, in1[p1 + k * incr1]? = some a ∧ in2[p2 + k * incr2]? = some b
            ∧ res[i + k]? = some (body a b))
        ∧ (∀ j, j < i ∨ i + n ≤ j → res[j]? = out[j]?) := by
  intro n
  induction n with
  | zero =>
    intro p1 p2 i out _ _ _
    exact ⟨out, rfl, rfl, fun k hk => absurd hk (Nat.not_lt_zero k), fun _ _ => rfl⟩
  | succ n ih =>
    intro p1 p2 i out h1 h2 ho
    have hp1 : p1 < in1.length := by simpa using h1 0 (Nat.succ_pos n)
    have hp2 : p2 < in2.length := by simpa using h2 0 (Nat.succ_pos n)
    have e1 : ∀ k, p1 + incr1 + k * incr1 = p1 + (k + 1) * incr1 := by
      intro k; rw [Nat.succ_mul]; omega
    have e2 : ∀ k, p2 + incr2 + k * incr2 = p2 + (k + 1) * incr2 := by
      intro k; rw [Nat.succ_mul]; omega
    obtain ⟨res, hres, hlen, hpos, hframe⟩ :=
      ih (p1 + incr1) (p2 + incr2) (i + 1) (out.set i (body in1[p1] in2[p2]))
        (fun k hk => by rw [e1]; exact h1 (k + 1) (by omega))
        (fun k hk => by rw [e2]; exact h2 (k + 1) (by omega))
        (by rw [List.length_set]; omega)
    refine ⟨res, ?_, ?_, ?_, ?_⟩
    · simp [lext_loop, List.getElem?_eq_getElem hp1, List.getElem?_eq_getElem hp2, hres]
    · rw [hlen, List.length_set]
    · intro k hk
      cases k with
      | zero =>
        refine ⟨in1[p1], in2[p2], by simp [List.getElem?_eq_getElem hp1],
          by simp [List.getElem?_eq_getElem hp2], ?_⟩
        rw [Nat.add_zero, hframe i (Or.inl (Nat.lt_succ_self i)), List.getElem?_set]
        simp
        omega
      | succ k =>
        obtain ⟨a, b, ha, hb, hab⟩ := hpos k (by omega)
        rw [e1] at ha
        rw [e2] at hb
        refine ⟨a, b, ha, hb, ?_⟩
        rw [← hab]
        congr 1
        omega
    · intro j hj
      rw [hframe j (by omega), List.getElem?_set]
      have : i ≠ j := by omega
      simp [this]

theorem lext_action_spec (body : t_atom → t_atom → t_atom) (l1 l2 o : t_mess_struct)
    (h : lext_ok l1 l2 o) :
    ∃ o2, lext_action body l1 l2 o = some o2
      ∧ o2.len_cur = (if l1.len_cur = 1 then l2.len_cur else l1.len_cur)
      ∧ o2.list.length = o.list.length
      ∧ (∀ i, i < o2.len_cur →
          ∃ a b, l1.list[if l1.len_cur = 1 then 0 else i]? = some a
            ∧ l2.list[if l1.len_cur ≠ 1 ∧ l2.len_cur = 1 then 0 else i]? = some b
            ∧ o2.list[i]? = some (body a b))
      ∧ (∀ j, o2.len_cur ≤ j → o2.list[j]? = o.list[j]?) := by
  obtain ⟨h1, h2, h12, ho⟩ := h
  have hlen : lext_len l1.len_cur l2.len_cur = (if l1.len_cur = 1 then l2.len_cur else l1.len_cur) :=
    rfl
  have hb1 : ∀ k, k < lext_len l1.len_cur l2.len_cur →
      0 + k * lext_incr1 l1.len_cur < l1.list.length := by
    intro k hk
    unfold lext_len at hk
    unfold lext_incr1
    split <;> simp_all <;> omega
  have hb2 : ∀ k, k < lext_len l1.len_cur l2.len_cur →
      0 + k * lext_incr2 l1.len_cur l2.len_cur < l2.list.length := by
    intro k hk
    unfold lext_len at hk
    unfold lext_incr2
    split
    · simp_all; omega
    · split <;> simp_all <;> omega
  have hbo : 0 + lext_len l1.len_cur l2.len_cur ≤ o.list.length := by
    unfold lext_len
    split <;> omega
  obtain ⟨res, hres, hrl, hpos, hframe⟩ :=
    lext_loop_spec body l1.list l2.list (lext_incr1 l1.len_cur)
      (lext_incr2 l1.len_cur l2.len_cur) (lext_len l1.len_cur l2.len_cur) 0 0 0 o.list hb1 hb2 hbo
  refine ⟨mess_set_type { o with len_cur := lext_len l1.len_cur l2.len_cur, list := res },
    by simp only [lext_action, hres, Option.map_some'], ?_, ?_, ?_, ?_⟩
  · rw [mess_set_type_len_cur]
    exact hlen
  · rw [mess_set_type_list]
    exact hrl
  · intro i hi
    rw [mess_set_type_len_cur] at hi
    obtain ⟨a, b, ha, hb, hab⟩ := hpos i hi
    refine ⟨a, b, ?_, ?_, ?_⟩
    · rw [← ha]
      congr 1
      unfold lext_incr1
      split <;> simp
    · rw [← hb]
      congr 1
      unfold lext_incr2
      split
      · simp_all
      · split <;> simp_all
    · rw [mess_set_type_list]
      simpa using hab
  · intro j hj
    rw [mess_set_type_len_cur] at hj
    rw [mess_set_type_list]
    exact hframe j (Or.inr (by simpa using hj))

set_option maxRecDepth 8192 in
/-- C3: broadcast rule of `lmax_action` and `lmin_action`.  The output length
is the right length when the left length is 1 and the left length otherwise,
and output position `i` is the loop body applied to left `0` and right `i`
when the left length is 1, to left `i` and right `0` when the left length is
not 1 and the right length is 1, and to left `i` and right `i` otherwise.
The maximum of left `1 5 3` and right `4` is `4 5 4`. -/
theorem lmax_lmin_broadcast (x : t_lmax) (y : t_lmin)
    (hx : lext_ok x.i_list_1 x.i_list_2 x.o_list)
    (hy : lext_ok y.i_list_1 y.i_list_2 y.o_list) :
    (∃ x2, lmax_action x = some x2
      ∧ x2.o_list.len_cur
          = (if x.i_list_1.len_cur = 1 then x.i_list_2.len_cur else x.i_list_1.len_cur)
      ∧ ∀ i, i < x2.o_list.len_cur →
          ∃ a b, x.i_list_1.list[if x.i_list_1.len_cur = 1 then 0 else i]? = some a
            ∧ x.i_list_2.list[if x.i_list_1.len_cur ≠ 1 ∧ x.i_list_2.len_cur = 1
                then 0 else i]? = some b
            ∧ x2.o_list.list[i]? = some (lmax_atom a b))
    ∧ (∃ y2, lmin_action y = some y2
      ∧ y2.o_list.len_cur
          = (if y.i_list_1.len_cur = 1 then y.i_list_2.len_cur else y.i_list_1.len_cur)
      ∧ ∀ i, i < y2.o_list.len_cur →
          ∃ a b, y.i_list_1.list[if y.i_list_1.len_cur = 1 then 0 else i]? = some a
            ∧ y.i_list_2.list[if y.i_list_1.len_cur ≠ 1 ∧ y.i_list_2.len_cur = 1
                then 0 else i]? = some b
            ∧ y2.o_list.list[i]? = some (lmin_atom a b))
    ∧ ((lmax_list lmax_new_default 1 1 [A_LONG 4]).bind
          (fun r => lmax_list r.1 0 3 [A_LONG 1, A_LONG 5, A_LONG 3])).map Prod.snd
        = some (some (sym_list, [A_LONG 4, A_LONG 5, A_LONG 4])) := by
  refine ⟨?_, ?_, by decide⟩
  · obtain ⟨o2, ho, hl, _, hp, _⟩ := lext_action_spec lmax_atom _ _ _ hx
    exact ⟨{ x with o_list := o2 }, by simp [lmax_action, ho], hl, hp⟩
  · obtain ⟨o2, ho, hl, _, hp, _⟩ := lext_action_spec lmin_atom _ _ _ hy
    exact ⟨{ y with o_list := o2 }, by simp [lmin_action, ho], hl, hp⟩

/-- C4: numeric type promotion of `lmax_action` and `lmin_action`.  Every
output position holds the loop body applied to the two combined atoms; on two
numbers the body gives the integer maximum (minimum) when both are integers,
and otherwise the float `MAX` (`MIN`) of the two values taken as floats, which
on finite values is their maximum (minimum); so the result is an integer
exactly when both atoms are integers. -/
theorem lmax_lmin_promotion (x : t_lmax) (y : t_lmin)
    (hx : lext_ok x.i_list_1 x.i_list_2 x.o_list)
    (hy : lext_ok y.i_list_1 y.i_list_2 y.o_list) :
    (∃ x2, lmax_action x = some x2
      ∧ ∀ i, i < x2.o_list.len_cur →
          ∃ a b, x.i_list_1.list[if x.i_list_1.len_cur = 1 then 0 else i]? = some a
            ∧ x.i_list_2.list[if x.i_list_1.len_cur ≠ 1 ∧ x.i_list_2.len_cur = 1
                then 0 else i]? = some b
            ∧ x2.o_list.list[i]? = some (lmax_atom a b))
    ∧ (∃ y2, lmin_action y = some y2
      ∧ ∀ i, i < y2.o_list.len_cur →
          ∃ a b, y.i_list_1.list[if y.i_list_1.len_cur = 1 then 0 else i]? = some a
            ∧ y.i_list_2.list[if y.i_list_1.len_cur ≠ 1 ∧ y.i_list_2.len_cur = 1
                then 0 else i]? = some b
            ∧ y2.o_list.list[i]? = some (lmin_atom a b))
    ∧ (∀ m n : Int, lmax_atom (A_LONG m) (A_LONG n) = A_LONG (max m n)
        ∧ lmin_atom (A_LONG m) (A_LONG n) = A_LONG (min m n))
    ∧ (∀ (m : Int) (d : Dbl),
        lmax_atom (A_LONG m) (A_FLOAT d) = A_FLOAT (MAX_dbl (Dbl.ofInt m) d)
        ∧ lmax_atom (A_FLOAT d) (A_LONG m) = A_FLOAT (MAX_dbl d (Dbl.ofInt m))
        ∧ lmin_atom (A_LONG m) (A_FLOAT d) = A_FLOAT (MIN_dbl (Dbl.ofInt m) d)
        ∧ lmin_atom (A_FLOAT d) (A_LONG m) = A_FLOAT (MIN_dbl d (Dbl.ofInt m)))
    ∧ (∀ d e : Dbl, lmax_atom (A_FLOAT d) (A_FLOAT e) = A_FLOAT (MAX_dbl d e)
        ∧ lmin_atom (A_FLOAT d) (A_FLOAT e) = A_FLOAT (MIN_dbl d e))
    ∧ (∀ p q : ℚ, MAX_dbl (Dbl.fin p) (Dbl.fin q) = Dbl.fin (max p q)
        ∧ MIN_dbl (Dbl.fin p) (Dbl.fin q) = Dbl.fin (min p q))
    ∧ (∀ a b : t_atom, is_number a = true → is_number b = true →
        (((∃ n, lmax_atom a b = A_LONG n) ↔ ∃ m n, a = A_LONG m ∧ b = A_LONG n)
        ∧ ((∃ n, lmin_atom a b = A_LONG n) ↔ ∃ m n, a = A_LONG m ∧ b = A_LONG n))) := by
  refine ⟨?_, ?_, ?_, ?_, ?_, ?_, ?_⟩
  · obtain ⟨o2, ho, _, _, hp, _⟩ := lext_action_spec lmax_atom _ _ _ hx
    exact ⟨{ x with o_list := o2 }, by simp [lmax_action, ho], hp⟩
  · obtain ⟨o2, ho, _, _, hp, _⟩ := lext_action_spec lmin_atom _ _ _ hy
    exact ⟨{ y with o_list := o2 }, by simp [lmin_action, ho], hp⟩
  · intro m n
    constructor
    · simp only [lmax_atom, is_number, MAX_long]
      rcases le_total m n with h | h
      · simp [max_eq_right h, not_lt.mpr h]
      · rcases eq_or_lt_of_le h with h2 | h2
        · simp [h2]
        · simp [max_eq_left h, h2]
    · simp only [lmin_atom, is_number, MIN_long]
      rcases le_total m n with h | h
      · rcases eq_or_lt_of_le h with h2 | h2
        · simp [h2]
        · simp [min_eq_left h, h2]
      · simp [min_eq_right h, not_lt.mpr h]
  · intro m d
    simp [lmax_atom, lmin_atom, is_number, atom_getfloat]
  · intro d e
    simp [lmax_atom, lmin_atom, is_number, atom_getfloat]
  · intro p q
    constructor
    · simp only [MAX_dbl, Dbl.gt, Dbl.lt]
      rcases le_total p q with h | h
      · simp [max_eq_right h, not_lt.mpr h]
      · rcases eq_or_lt_of_le h with h2 | h2
        · simp [h2]
        · simp [max_eq_left h, h2]
    · simp only [MIN_dbl, Dbl.lt]
      rcases le_total p q with h | h
      · rcases eq_or_lt_of_le h with h2 | h2
        · simp [h2]
        · simp [min_eq_left h, h2]
      · simp [min_eq_right h, not_lt.mpr h]
  · intro a b ha hb
    cases a <;> cases b <;> simp_all [lmax_atom, lmin_atom, is_number]

set_option maxRecDepth 8192 in
/-- C5: non-numeric pass-through of `lmax_action` and `lmin_action`.  Every
output position holds the loop body applied to the two combined atoms, and
when either atom is not a number the body gives the left atom unchanged.  The
maximum of left `1 a 3` and right `5 5 5` is `5 a 5`. -/
theorem lmax_lmin_pass_through (x : t_lmax) (y : t_lmin)
    (hx : lext_ok x.i_list_1 x.i_list_2 x.o_list)
    (hy : lext_ok y.i_list_1 y.i_list_2 y.o_list) :
    (∃ x2, lmax_action x = some x2
      ∧ ∀ i, i < x2.o_list.len_cur →
          ∃ a b, x.i_list_1.list[if x.i_list_1.len_cur = 1 then 0 else i]? = some a
            ∧ x.i_list_2.list[if x.i_list_1.len_cur ≠ 1 ∧ x.i_list_2.len_cur = 1
                then 0 else i]? = some b
            ∧ x2.o_list.list[i]? = some (lmax_atom a b)
            ∧ (is_number a = false ∨ is_number b = false → x2.o_list.list[i]? = some a))
    ∧ (∃ y2, lmin_action y = some y2
      ∧ ∀ i, i < y2.o_list.len_cur →
          ∃ a b, y.i_list_1.list[if y.i_list_1.len_cur = 1 then 0 else i]? = some a
            ∧ y.i_list_2.list[if y.i_list_1.len_cur ≠ 1 ∧ y.i_list_2.len_cur = 1
                then 0 else i]? = some b
            ∧ y2.o_list.list[i]? = some (lmin_atom a b)
            ∧ (is_number a = false ∨ is_number b = false → y2.o_list.list[i]? = some a))
    ∧ ((lmax_list lmax_new_default 1 3 [A_LONG 5, A_LONG 5, A_LONG 5]).bind
          (fun r => lmax_list r.1 0 3 [A_LONG 1, A_SYM "a", A_LONG 3])).map Prod.snd
        = some (some (sym_list, [A_LONG 5, A_SYM "a", A_LONG 5])) := by
  have hmax : ∀ a b, is_number a = false ∨ is_number b = false → lmax_atom a b = a := by
    intro a b h
    rcases h with h | h <;> simp [lmax_atom, h]
  have hmin : ∀ a b, is_number a = false ∨ is_number b = false → lmin_atom a b = a := by
    intro a b h
    rcases h with h | h <;> simp [lmin_atom, h]
  refine ⟨?_, ?_, by decide⟩
  · obtain ⟨o2, ho, _, _, hp, _⟩ := lext_action_spec lmax_atom _ _ _ hx
    refine ⟨{ x with o_list := o2 }, by simp [lmax_action, ho], ?_⟩
    intro i hi
    obtain ⟨a, b, ha, hb, hab⟩ := hp i hi
    exact ⟨a, b, ha, hb, hab, fun h => by rw [hab, hmax a b h]⟩
  · obtain ⟨o2, ho, _, _, hp, _⟩ := lext_action_spec lmin_atom _ _ _ hy
    refine ⟨{ y with o_list := o2 }, by simp [lmin_action, ho], ?_⟩
    intro i hi
    obtain ⟨a, b, ha, hb, hab⟩ := hp i hi
    exact ⟨a, b, ha, hb, hab, fun h => by rw [hab, hmin a b h]⟩

set_option maxRecDepth 8192 in
/-- C3 (witness): the broadcast rule at `lmax_example` and `lmin_example`. -/
theorem lmax_lmin_broadcast_witness :
    lext_ok lmax_example.i_list_1 lmax_example.i_list_2 lmax_example.o_list
    ∧ lext_ok lmin_example.i_list_1 lmin_example.i_list_2 lmin_example.o_list
    ∧ ∃ x2, lmax_action lmax_example = some x2
      ∧ x2.o_list.len_cur
          = (if lmax_example.i_list_1.len_cur = 1 then lmax_example.i_list_2.len_cur
              else lmax_example.i_list_1.len_cur)
      ∧ ∀ i, i < x2.o_list.len_cur →
          ∃ a b, lmax_example.i_list_1.list[if lmax_example.i_list_1.len_cur = 1
                then 0 else i]? = some a
            ∧ lmax_example.i_list_2.list[if lmax_example.i_list_1.len_cur ≠ 1
                ∧ lmax_example.i_list_2.len_cur = 1 then 0 else i]? = some b
            ∧ x2.o_list.list[i]? = some (lmax_atom a b) :=
  ⟨by decide, by decide,
    (lmax_lmin_broadcast lmax_example lmin_example (by decide) (by decide)).1⟩

set_option maxRecDepth 8192 in
/-- C4 (witness): the promotion rule at `lmax_example` and `lmin_example`. -/
theorem lmax_lmin_promotion_witness :
    lext_ok lmax_example.i_list_1 lmax_example.i_list_2 lmax_example.o_list
    ∧ lext_ok lmin_example.i_list_1 lmin_example.i_list_2 lmin_example.o_list
    ∧ ∃ y2, lmin_action lmin_example = some y2
      ∧ ∀ i, i < y2.o_list.len_cur →
          ∃ a b, lmin_example.i_list_1.list[if lmin_example.i_list_1.len_cur = 1
                then 0 else i]? = some a
            ∧ lmin_example.i_list_2.list[if lmin_example.i_list_1.len_cur ≠ 1
                ∧ lmin_example.i_list_2.len_cur = 1 then 0 else i]? = some b
            ∧ y2.o_list.list[i]? = some (lmin_atom a b) :=
  ⟨by decide, by decide,
    (lmax_lmin_promotion lmax_example lmin_example (by decide) (by decide)).2.1⟩

set_option maxRecDepth 8192 in
/-- C5 (witness): the pass-through rule at `lmax_example` and `lmin_example`. -/
theorem lmax_lmin_pass_through_witness :
    lext_ok lmax_example.i_list_1 lmax_example.i_list_2 lmax_example.o_list
    ∧ lext_ok lmin_example.i_list_1 lmin_example.i_list_2 lmin_example.o_list
    ∧ ∃ y2, lmin_action lmin_example = some y2
      ∧ ∀ i, i < y2.o_list.len_cur →
          ∃ a b, lmin_example.i_list_1.list[if lmin_example.i_list_1.len_cur = 1
                then 0 else i]? = some a
            ∧ lmin_example.i_list_2.list[if lmin_example.i_list_1.len_cur ≠ 1
                ∧ lmin_example.i_list_2.len_cur = 1 then 0 else i]? = some b
            ∧ y2.o_list.list[i]? = some (lmin_atom a b)
            ∧ (is_number a = false ∨ is_number b = false → y2.o_list.list[i]? = some a) :=
  ⟨by decide, by decide,
    (lmax_lmin_pass_through lmax_example lmin_example (by decide) (by decide)).2.1⟩

/-! ### Lpad -/

theorem take_append_replicate (B : List t_atom) (n : Nat) (pad : t_atom) :
    (B ++ List.replicate n pad).take n
      = B.take n ++ List.replicate (n - (B.take n).length) pad := by
  rw [List.take_append_eq_append_take, List.take_replicate, List.length_take]
  congr 2
  omega

theorem lpad_written_eq (x : t_lpad) (sym : t_symbol) (argv : List t_atom) (offset : Nat)
    (hpad : x.i_pad_left ≤ x.maxlen) :
    lpad_written x sym argv.length argv offset
      = (List.replicate x.i_pad_left x.i_pad_val
          ++ (if offset ≠ 0 then [A_SYM sym] else []) ++ argv
          ++ List.replicate x.maxlen x.i_pad_val).take x.maxlen := by
  rw [take_append_replicate, List.take_append_eq_append_take]
  have hfirst : (List.replicate x.i_pad_left x.i_pad_val
        ++ (if offset ≠ 0 then [A_SYM sym] else [])).take x.maxlen
      = (if offset ≠ 0 ∧ (List.replicate (min x.i_pad_left x.maxlen) x.i_pad_val).length
            < x.maxlen
          then List.replicate (min x.i_pad_left x.maxlen) x.i_pad_val ++ [A_SYM sym]
          else List.replicate (min x.i_pad_left x.maxlen) x.i_pad_val) := by
    rw [Nat.min_eq_left hpad, List.length_replicate]
    by_cases ho : offset ≠ 0
    · by_cases hlt : x.i_pad_left < x.maxlen
      · rw [if_pos ho, if_pos ⟨ho, hlt⟩]
        apply List.take_of_length_le
        simp
        omega
      · rw [if_pos ho, if_neg (fun h => hlt h.2)]
        have : x.i_pad_left = x.maxlen := by omega
        rw [List.take_append_eq_append_take]
        simp [this]
    · rw [if_neg ho, if_neg (fun h => ho h.1)]
      simp [List.take_replicate, hpad]
  have htake : ∀ k, argv.take (min argv.length k) = argv.take k := by
    intro k
    rcases Nat.le_total argv.length k with h | h
    · rw [Nat.min_eq_left h, List.take_length, List.take_of_length_le h]
    · rw [Nat.min_eq_right h]
  have hlenfirst : x.maxlen - ((List.replicate x.i_pad_left x.i_pad_val
        ++ (if offset ≠ 0 then [A_SYM sym] else [])).take x.maxlen).length
      = x.maxlen - (List.replicate x.i_pad_left x.i_pad_val
        ++ (if offset ≠ 0 then [A_SYM sym] else [])).length := by
    rw [List.length_take]
    omega
  unfold lpad_written
  simp only [htake]
  rw [← hfirst, hlenfirst]

theorem lpad_written_length (x : t_lpad) (sym : t_symbol) (argv : List t_atom) (offset : Nat)
    (hpad : x.i_pad_left ≤ x.maxlen) :
    (lpad_written x sym argv.length argv offset).length = x.maxlen := by
  rw [lpad_written_eq x sym argv offset hpad, List.length_take]
  simp
  omega

theorem mess_outlet_set_type (m : t_mess_struct)
    (hmax : m.len_max = m.list.length) (hlen : m.len_cur ≤ m.list.length)
    (hshort : m.len_cur ≤ 32767)
    (hhead : 0 < m.len_cur → m.list.head? ≠ some (A_SYM sym_empty)
      ∧ m.list.head? ≠ some (A_SYM sym_null)) :
    mess_outlet (mess_set_type m) = slots_message (m.list.take m.len_cur) := by
  obtain ⟨len_cur, len_max, sym, list, offset⟩ := m
  simp only at hmax hlen hshort hhead
  cases list with
  | nil =>
    have : len_cur = 0 := by simpa using hlen
    subst this
    simp [mess_set_type, MESS_IS_NULL, mess_outlet, slots_message, sym_null]
  | cons a rest =>
    have hnn : MESS_IS_NULL ⟨len_cur, len_max, sym, a :: rest, offset⟩ = false := by
      simp [MESS_IS_NULL, hmax]
    match len_cur, hlen, hshort, hhead with
    | 0, _, _, _ =>
      simp [mess_set_type, hnn, mess_outlet, slots_message, sym_empty, sym_null]
    | 1, _, _, hhead =>
      cases a with
      | A_LONG n =>
        simp [mess_set_type, hnn, mess_outlet, slots_message, sym_empty, sym_null, sym_int,
          to_short]
      | A_FLOAT d =>
        simp [mess_set_type, hnn, mess_outlet, slots_message, sym_empty, sym_null, sym_float,
          to_short]
      | A_SYM s =>
        have h := hhead (by omega)
        simp only [List.head?_cons, ne_eq, Option.some.injEq, t_atom.A_SYM.injEq] at h
        simp [mess_set_type, hnn, mess_outlet, slots_message, h.1, h.2, to_short]
    | k + 2, hlen, hshort, hhead =>
      have hk : (to_short ((k : Int) + 2)).toNat = k + 2 := by
        have := to_short_of_le (k + 2) hshort
        simpa using this
      have hk1 : (to_short ((k : Int) + 2 - 1)).toNat = k + 1 := by
        have := to_short_of_le (k + 1) (by omega)
        have e : ((k : Int) + 2 - 1) = ((k + 1 : Nat) : Int) := by push_cast; ring
        rw [e]; exact this
      cases rest with
      | nil => simp at hlen
      | cons b rest2 =>
        cases a with
        | A_LONG n =>
          simp [mess_set_type, hnn, mess_outlet, slots_message, sym_empty, sym_null, sym_list,
            hk]
        | A_FLOAT d =>
          simp [mess_set_type, hnn, mess_outlet, slots_message, sym_empty, sym_null, sym_list,
            hk]
        | A_SYM s =>
          have h := hhead (by omega)
          simp only [List.head?_cons, ne_eq, Option.some.injEq, t_atom.A_SYM.injEq] at h
          simp [mess_set_type, hnn, mess_outlet, slots_message, h.1, h.2, hk1]

/-- C6 (as amended): `lpad_action` with a left padding within `maxlen` leaves
in the `maxlen` slots of the output array the sequence "left padding copies
of the padding value, the leading symbol if there is one, the input atoms,
then the padding value again and again", cut to `maxlen`; the output length
is unchanged; and when the output length is at most 32767 and slot 0 is not
the symbol `empty` or `null`, the message sent by `lpad_output` spells the
first `len_cur` slots.  With five slots, left padding 1, padding value 0 and
output length 5, the list `7 8` gives `0 7 8 0 0`. -/
theorem lpad_action_buffer (x : t_lpad) (sym : t_symbol) (argv : List t_atom) (offset : Nat)
    (hpad : x.i_pad_left ≤ x.maxlen) (hlist : x.o_list.list.length = x.maxlen) :
    (lpad_action x sym argv.length argv offset).o_list.list
        = (List.replicate x.i_pad_left x.i_pad_val
            ++ (if offset ≠ 0 then [A_SYM sym] else []) ++ argv
            ++ List.replicate x.maxlen x.i_pad_val).take x.maxlen
    ∧ (∀ j, j < x.maxlen →
        (lpad_action x sym argv.length argv offset).o_list.list[j]?
          = some ((List.replicate x.i_pad_left x.i_pad_val
              ++ (if offset ≠ 0 then [A_SYM sym] else []) ++ argv).getD j x.i_pad_val))
    ∧ (lpad_action x sym argv.length argv offset).o_list.len_cur = x.o_list.len_cur
    ∧ (x.o_list.len_max = x.maxlen → x.o_list.len_cur ≤ x.maxlen → x.o_list.len_cur ≤ 32767 →
        (lpad_action x sym argv.length argv offset).o_list.list.head? ≠ some (A_SYM sym_empty) →
        (lpad_action x sym argv.length argv offset).o_list.list.head? ≠ some (A_SYM sym_null) →
        lpad_output (lpad_action x sym argv.length argv offset)
          = slots_message ((lpad_action x sym argv.length argv offset).o_list.list.take
              x.o_list.len_cur))
    ∧ lpad_list lpad_new_example 0 2 [A_LONG 7, A_LONG 8]
        = (lpad_action lpad_new_example sym_list 2 [A_LONG 7, A_LONG 8] 0,
            some (sym_list, [A_LONG 0, A_LONG 7, A_LONG 8, A_LONG 0, A_LONG 0])) := by
  have hw := lpad_written_eq x sym argv offset hpad
  have hwl := lpad_written_length x sym argv offset hpad
  have hl : (lpad_action x sym argv.length argv offset).o_list.list
      = (List.replicate x.i_pad_left x.i_pad_val
          ++ (if offset ≠ 0 then [A_SYM sym] else []) ++ argv
          ++ List.replicate x.maxlen x.i_pad_val).take x.maxlen := by
    unfold lpad_action
    simp only [mess_set_type_list]
    rw [List.drop_of_length_le (by omega), List.append_nil, hw]
  have hc : (lpad_action x sym argv.length argv offset).o_list.len_cur = x.o_list.len_cur := by
    unfold lpad_action
    simp only [mess_set_type_len_cur]
  refine ⟨hl, ?_, hc, ?_, by decide⟩
  · intro j hj
    rw [hl, List.getElem?_take, if_pos hj]
    generalize (List.replicate x.i_pad_left x.i_pad_val
        ++ (if offset ≠ 0 then [A_SYM sym] else []) ++ argv) = B
    by_cases hjl : j < B.length
    · rw [List.getElem?_append_left hjl, List.getD_eq_getElem?_getD,
        List.getElem?_eq_getElem hjl]
      rfl
    · have hjl2 : B.length ≤ j := Nat.le_of_not_lt hjl
      have hjm : j - B.length < x.maxlen := by omega
      rw [List.getElem?_append_right hjl2, List.getElem?_replicate, if_pos hjm,
        List.getD_eq_getElem?_getD, List.getElem?_eq_none hjl2]
      rfl
  · intro hmax hlen hshort hne hnn
    unfold lpad_output lpad_action
    simp only [mess_set_type_list]
    have hwl2 : (lpad_written x sym argv.length argv offset
        ++ List.drop (lpad_written x sym argv.length argv offset).length x.o_list.list).length
        = x.maxlen := by
      rw [List.drop_of_length_le (by omega), List.append_nil, hwl]
    have hlist2 : (lpad_action x sym argv.length argv offset).o_list.list
        = lpad_written x sym argv.length argv offset
          ++ List.drop (lpad_written x sym argv.length argv offset).length x.o_list.list := by
      unfold lpad_action
      simp only [mess_set_type_list]
    rw [hlist2] at hne hnn
    exact mess_outlet_set_type _ (by simp only [hwl2, hmax]) (by simp only [hwl2]; exact hlen)
      hshort (fun _ => ⟨hne, hnn⟩)

/-- C6 (counterexample): with five slots, left padding 1, output length 5 and
the symbol `empty` as padding value, the list `7 8` leaves `empty 7 8 empty
empty` in the first five slots, and `lpad_output` sends nothing. -/
theorem lpad_output_empty_symbol :
    (lpad_action { lpad_new_example with i_pad_val := A_SYM "empty" } sym_list 2
        [A_LONG 7, A_LONG 8] 0).o_list.list.take 5
      = [A_SYM "empty", A_LONG 7, A_LONG 8, A_SYM "empty", A_SYM "empty"]
    ∧ (lpad_list { lpad_new_example with i_pad_val := A_SYM "empty" } 0 2
        [A_LONG 7, A_LONG 8]).2 = none
    ∧ (lpad_list { lpad_new_example with i_pad_val := A_SYM "empty" } 0 2
        [A_LONG 7, A_LONG 8]).2
      ≠ slots_message ((lpad_action { lpad_new_example with i_pad_val := A_SYM "empty" }
          sym_list 2 [A_LONG 7, A_LONG 8] 0).o_list.list.take 5) := by
  decide

/-- C6 (witness): the amended statement at the object `Lpad 1 0 5 @maxlen 5`
and the list `7 8`. -/
theorem lpad_action_buffer_witness :
    (lpad_action lpad_new_example sym_list 2 [A_LONG 7, A_LONG 8] 0).o_list.list
      = [A_LONG 0, A_LONG 7, A_LONG 8, A_LONG 0, A_LONG 0]
    ∧ lpad_output (lpad_action lpad_new_example sym_list 2 [A_LONG 7, A_LONG 8] 0)
      = some (sym_list, [A_LONG 0, A_LONG 7, A_LONG 8, A_LONG 0, A_LONG 0]) :=
  ⟨(lpad_action_buffer lpad_new_example sym_list [A_LONG 7, A_LONG 8] 0
      (by decide) (by decide)).1,
    ((lpad_action_buffer lpad_new_example sym_list [A_LONG 7, A_LONG 8] 0
      (by decide) (by decide)).2.2.2.1 (by decide) (by decide) (by decide) (by decide)
      (by decide)).trans (by decide)⟩

/-! ### Ltoset -/

theorem ltoset_step_length (maxlen : Nat) (v : Int) (list : List t_atom) (a : t_atom) :
    (ltoset_step maxlen v list a).length = list.length := by
  unfold ltoset_step
  split
  · rfl
  · split
    · rw [List.length_set]
    · rfl

theorem ltoset_step_get (maxlen : Nat) (v : Int) (list : List t_atom) (a : t_atom) (j : Nat)
    (hj : j < list.length) (hlen : list.length = maxlen) :
    (ltoset_step maxlen v list a)[j]?
      = if is_number a = true ∧ ltoset_index a = (j : Int) then some (A_LONG v) else list[j]? := by
  unfold ltoset_step
  cases a with
  | A_SYM s => simp [is_sym, is_number]
  | A_LONG n =>
    simp only [is_sym, is_number, Bool.false_eq_true, if_false, true_and]
    by_cases hr : 0 ≤ ltoset_index (A_LONG n) ∧ ltoset_index (A_LONG n) < (maxlen : Int)
    · rw [if_pos hr, List.getElem?_set]
      by_cases hi : ltoset_index (A_LONG n) = (j : Int)
      · have : (ltoset_index (A_LONG n)).toNat = j := by omega
        simp [hi, this, hj]
      · have : (ltoset_index (A_LONG n)).toNat ≠ j := by omega
        simp [hi, this]
    · rw [if_neg hr]
      have hi : ltoset_index (A_LONG n) ≠ (j : Int) := by omega
      simp [hi]
  | A_FLOAT d =>
    simp only [is_sym, is_number, Bool.false_eq_true, if_false, true_and]
    by_cases hr : 0 ≤ ltoset_index (A_FLOAT d) ∧ ltoset_index (A_FLOAT d) < (maxlen : Int)
    · rw [if_pos hr, List.getElem?_set]
      by_cases hi : ltoset_index (A_FLOAT d) = (j : Int)
      · have : (ltoset_index (A_FLOAT d)).toNat = j := by omega
        simp [hi, this, hj]
      · have : (ltoset_index (A_FLOAT d)).toNat ≠ j := by omega
        simp [hi, this]
    · rw [if_neg hr]
      have hi : ltoset_index (A_FLOAT d) ≠ (j : Int) := by omega
      simp [hi]

theorem ltoset_fold_length (maxlen : Nat) (v : Int) :
    ∀ (l init : List t_atom), (l.foldl (ltoset_step maxlen v) init).length = init.length := by
  intro l
  induction l with
  | nil => intro init; rfl
  | cons a l ih =>
    intro init
    rw [List.foldl_cons, ih, ltoset_step_length]

theorem ltoset_fold_spec (maxlen : Nat) (v : Int) :
    ∀ (l init : List t_atom) (j : Nat), j < init.length → init.length = maxlen →
      (l.foldl (ltoset_step maxlen v) init)[j]?
          = (if ∃ a, a ∈ l ∧ is_number a = true ∧ ltoset_index a = (j : Int)
              then some (A_LONG v) else init[j]?)
        ∧ (l.foldl (ltoset_step maxlen v) init).length = init.length := by
  intro l
  induction l with
  | nil => intro init j _ _; simp
  | cons a l ih =>
    intro init j hj hlen
    have hsl := ltoset_step_length maxlen v init a
    obtain ⟨h1, h2⟩ := ih (ltoset_step maxlen v init a) j (by omega) (by omega)
    refine ⟨?_, by rw [List.foldl_cons, h2, hsl]⟩
    rw [List.foldl_cons, h1, ltoset_step_get maxlen v init a j hj hlen]
    by_cases hl : ∃ b, b ∈ l ∧ is_number b = true ∧ ltoset_index b = (j : Int)
    · have : ∃ b, b ∈ a :: l ∧ is_number b = true ∧ ltoset_index b = (j : Int) := by
        obtain ⟨b, hb, hb2⟩ := hl
        exact ⟨b, List.mem_cons_of_mem a hb, hb2⟩
      rw [if_pos hl, if_pos this]
    · rw [if_neg hl]
      by_cases ha : is_number a = true ∧ ltoset_index a = (j : Int)
      · rw [if_pos ha, if_pos ⟨a, List.mem_cons_self a l, ha⟩]
      · have : ¬ ∃ b, b ∈ a :: l ∧ is_number b = true ∧ ltoset_index b = (j : Int) := by
          rintro ⟨b, hb, hb2⟩
          rcases List.mem_cons.mp hb with h | h
          · subst h; exact ha hb2
          · exact hl ⟨b, h, hb2⟩
        rw [if_neg ha, if_neg this]

/-- C7 (as amended): after `ltoset_action`, every slot `j` below `maxlen` of
the output array holds the integer `i_value` if some atom of the input that
is a number has `(t_mess_int)atom_getlong`, its integer value cut to 32 bits,
equal to `j`, and the integer 0 otherwise.  When the integer values of the
numbers of the input lie in the 32-bit range, the slot is marked exactly when
one of them is `j`: symbols and indices outside `[0, maxlen)` mark nothing.
The array keeps its `maxlen` slots and the output length is unchanged. -/
theorem ltoset_action_buffer (x : t_ltoset) (argv : List t_atom)
    (hmax : x.o_list.len_max = x.maxlen) :
    (∀ j, j < x.maxlen →
      (ltoset_action x argv.length argv).o_list.list[j]?
        = some (if ∃ a, a ∈ argv ∧ is_number a = true
              ∧ to_mess_int (atom_getlong a) = (j : Int)
            then A_LONG x.i_value else A_LONG 0))
    ∧ ((∀ a, a ∈ argv → is_number a = true →
          -(2 : Int) ^ 31 ≤ atom_getlong a ∧ atom_getlong a < (2 : Int) ^ 31) →
        ∀ j, j < x.maxlen →
          (ltoset_action x argv.length argv).o_list.list[j]?
            = some (if ∃ a, a ∈ argv ∧ is_number a = true ∧ atom_getlong a = (j : Int)
                then A_LONG x.i_value else A_LONG 0))
    ∧ (ltoset_action x argv.length argv).o_list.list.length = x.maxlen
    ∧ (ltoset_action x argv.length argv).o_list.len_cur = x.o_list.len_cur := by
  have hinit : (mess_fill_int x.o_list 0 x.o_list.len_cur).list
      = List.replicate x.maxlen (A_LONG 0) := by
    simp [mess_fill_int, hmax]
  have hlist : (ltoset_action x argv.length argv).o_list.list
      = argv.foldl (ltoset_step x.maxlen x.i_value) (List.replicate x.maxlen (A_LONG 0)) := by
    unfold ltoset_action
    simp only [mess_set_type_list, hinit, List.take_length]
  have hgen : ∀ j, j < x.maxlen →
      (ltoset_action x argv.length argv).o_list.list[j]?
        = some (if ∃ a, a ∈ argv ∧ is_number a = true
              ∧ to_mess_int (atom_getlong a) = (j : Int)
            then A_LONG x.i_value else A_LONG 0) := by
    intro j hj
    obtain ⟨h1, _⟩ := ltoset_fold_spec x.maxlen x.i_value argv
      (List.replicate x.maxlen (A_LONG 0)) j (by simpa using hj) (by simp)
    show _ = some (if ∃ a, a ∈ argv ∧ is_number a = true ∧ ltoset_index a = (j : Int)
      then A_LONG x.i_value else A_LONG 0)
    rw [hlist, h1]
    by_cases h : ∃ a, a ∈ argv ∧ is_number a = true ∧ ltoset_index a = (j : Int)
    · rw [if_pos h, if_pos h]
    · rw [if_neg h, if_neg h, List.getElem?_replicate, if_pos hj]
  refine ⟨hgen, ?_, ?_, ?_⟩
  · intro hrange j hj
    rw [hgen j hj]
    have hiff : (∃ a, a ∈ argv ∧ is_number a = true ∧ to_mess_int (atom_getlong a) = (j : Int))
        ↔ ∃ a, a ∈ argv ∧ is_number a = true ∧ atom_getlong a = (j : Int) := by
      constructor
      · rintro ⟨a, ha, hn, hi⟩
        obtain ⟨h1, h2⟩ := hrange a ha hn
        refine ⟨a, ha, hn, ?_⟩
        unfold to_mess_int at hi
        omega
      · rintro ⟨a, ha, hn, hi⟩
        obtain ⟨h1, h2⟩ := hrange a ha hn
        refine ⟨a, ha, hn, ?_⟩
        unfold to_mess_int
        omega
    by_cases h : ∃ a, a ∈ argv ∧ is_number a = true ∧ atom_getlong a = (j : Int)
    · rw [if_pos h, if_pos (hiff.mpr h)]
    · rw [if_neg h, if_neg (fun h2 => h (hiff.mp h2))]
  · rw [hlist, ltoset_fold_length]
    simp
  · unfold ltoset_action
    simp only [mess_set_type_len_cur, mess_fill_int]

/-- C7 (witness): the indices `1 1 5 12` on the object
`Ltoset 4 9 @maxlen 10`: slots 1 and 5 are marked, slot 5 lying beyond the
output length 4; the index 12 marks nothing. -/
theorem ltoset_action_buffer_witness :
    ltoset_new_example.o_list.len_max = ltoset_new_example.maxlen
    ∧ (∀ a, a ∈ [A_LONG 1, A_LONG 1, A_LONG 5, A_LONG 12] → is_number a = true →
        -(2 : Int) ^ 31 ≤ atom_getlong a ∧ atom_getlong a < (2 : Int) ^ 31)
    ∧ (ltoset_action ltoset_new_example 4
          [A_LONG 1, A_LONG 1, A_LONG 5, A_LONG 12]).o_list.list[5]?
        = some (if ∃ a, a ∈ [A_LONG 1, A_LONG 1, A_LONG 5, A_LONG 12]
              ∧ is_number a = true ∧ atom_getlong a = ((5 : Nat) : Int)
            then A_LONG ltoset_new_example.i_value else A_LONG 0)
    ∧ (ltoset_action ltoset_new_example 4
          [A_LONG 1, A_LONG 1, A_LONG 5, A_LONG 12]).o_list.list
        = [A_LONG 0, A_LONG 9, A_LONG 0, A_LONG 0, A_LONG 0, A_LONG 9, A_LONG 0, A_LONG 0,
            A_LONG 0, A_LONG 0] :=
  have hr : ∀ a, a ∈ [A_LONG 1, A_LONG 1, A_LONG 5, A_LONG 12] →
      is_number a = true → -(2 : Int) ^ 31 ≤ atom_getlong a ∧ atom_getlong a < (2 : Int) ^ 31 := by
    decide
  ⟨by decide, hr,
    (ltoset_action_buffer ltoset_new_example
      [A_LONG 1, A_LONG 1, A_LONG 5, A_LONG 12] (by decide)).2.1 hr 5 (by decide),
    by decide⟩

/-- C7, counterexample: the integer index `2^32 + 1`, outside
`[0, maxlen)`, is not ignored: cut to 32 bits it is 1 and slot 1 is marked.
The float `2^100`, whose conversion to an integer is out of range, marks
slot 0. -/
theorem ltoset_action_index_wraps :
    ¬ ((0 : Int) ≤ 4294967297 ∧ (4294967297 : Int) < (ltoset_new_example.maxlen : Int))
    ∧ (ltoset_action ltoset_new_example 1 [A_LONG 4294967297]).o_list.list
        = [A_LONG 0, A_LONG 9, A_LONG 0, A_LONG 0, A_LONG 0, A_LONG 0, A_LONG 0, A_LONG 0,
            A_LONG 0, A_LONG 0]
    ∧ Dbl.is_double (Dbl.pow2 100)
    ∧ (ltoset_action ltoset_new_example 1 [A_FLOAT (Dbl.fin (Dbl.pow2 100))]).o_list.list
        = [A_LONG 9, A_LONG 0, A_LONG 0, A_LONG 0, A_LONG 0, A_LONG 0, A_LONG 0, A_LONG 0,
            A_LONG 0, A_LONG 0] := by
  decide!

/-! ### Lfind: exact match, empty reference, out of range, decreasing data -/

theorem lfind_exact_first (argv : List t_atom) (f : Dbl) :
    ∀ n k i : Nat, k ≤ i → i < k + n →
      (∀ j a, k ≤ j → j < i → argv[j]? = some a → Dbl.eq (atom_getfloat a) f = false) →
      (∃ a, argv[i]? = some a ∧ Dbl.eq (atom_getfloat a) f = true) →
      (∀ j, j < i → j < argv.length) →
      lfind_exact argv f n k = some (some i) := by
  intro n
  induction n with
  | zero => intro k i h1 h2; omega
  | succ n ih =>
    intro k i hki hin hmin heq hlen
    rcases Nat.lt_or_eq_of_le hki with h | h
    · have hk : k < argv.length := hlen k h
      have hne := hmin k argv[k] (le_refl k) h (List.getElem?_eq_getElem hk)
      have hrec := ih (k + 1) i (by omega) (by omega)
        (fun j a hj1 hj2 => hmin j a (by omega) hj2) heq hlen
      simp [lfind_exact, List.getElem?_eq_getElem hk, hne, hrec]
    · subst h
      obtain ⟨a, ha, hae⟩ := heq
      simp [lfind_exact, ha, hae]

/-- C12: exact match of `lfind_action`.  When `i` is the smallest index below
`argc` whose atom has the value `f`, the first loop ends the function at `i`:
the position stored and sent out is `i`, and nothing of the search for a
bracket is run.  For the reference `5` and the query `5` the position is 0. -/
theorem lfind_action_exact (x : t_lfind) (argc : Nat) (argv : List t_atom) (f : Dbl) (i : Nat)
    (hargc : argc ≤ argv.length) (hi : i < argc)
    (hmin : ∀ j a, j < i → argv[j]? = some a → Dbl.eq (atom_getfloat a) f = false)
    (heq : ∀ a, argv[i]? = some a → Dbl.eq (atom_getfloat a) f = true) :
    lfind_exact argv f argc 0 = some (some i)
    ∧ lfind_locate argc argv f = some (some (Dbl.ofInt (i : Int)))
    ∧ lfind_action x argc argv f
        = some ({ x with o_float := Dbl.ofInt (i : Int) }, some (Dbl.ofInt (i : Int)))
    ∧ lfind_action x 1 [A_LONG 5] (Dbl.fin 5)
        = some ({ x with o_float := Dbl.fin 0 }, some (Dbl.fin 0)) := by
  have hil : i < argv.length := by omega
  have hex : lfind_exact argv f argc 0 = some (some i) :=
    lfind_exact_first argv f argc 0 i (Nat.zero_le _) (by omega)
      (fun j a _ hj ha => hmin j a hj ha)
      ⟨argv[i], List.getElem?_eq_getElem hil, heq _ (List.getElem?_eq_getElem hil)⟩
      (fun j hj => by omega)
  refine ⟨hex, by simp [lfind_locate, hex], by simp [lfind_action, lfind_locate, hex], ?_⟩
  have h5 : lfind_locate 1 [A_LONG 5] (Dbl.fin 5) = some (some (Dbl.fin 0)) := by decide!
  unfold lfind_action
  rw [h5]
  rfl

/-- C12 (witness): the reference `0 10. 20` and the query `10`: the position
is 1. -/
theorem lfind_action_exact_witness :
    lfind_exact [A_LONG 0, A_FLOAT (Dbl.fin 10), A_LONG 20] (Dbl.fin 10) 3 0 = some (some 1)
    ∧ lfind_locate 3 [A_LONG 0, A_FLOAT (Dbl.fin 10), A_LONG 20] (Dbl.fin 10)
        = some (some (Dbl.ofInt ((1 : Nat) : Int)))
    ∧ lfind_action lfind_new_default 3 [A_LONG 0, A_FLOAT (Dbl.fin 10), A_LONG 20] (Dbl.fin 10)
        = some ({ lfind_new_default with o_float := Dbl.ofInt ((1 : Nat) : Int) },
            some (Dbl.ofInt ((1 : Nat) : Int)))
    ∧ lfind_action lfind_new_default 1 [A_LONG 5] (Dbl.fin 5)
        = some ({ lfind_new_default with o_float := Dbl.fin 0 }, some (Dbl.fin 0)) :=
  lfind_action_exact lfind_new_default 3 [A_LONG 0, A_FLOAT (Dbl.fin 10), A_LONG 20]
    (Dbl.fin 10) 1 (by decide) (by decide)
    (by
      intro j a hj ha
      have hj0 : j = 0 := by omega
      subst hj0
      simp only [List.getElem?_cons_zero, Option.some.injEq] at ha
      subst ha
      decide!)
    (by
      intro a ha
      simp only [List.getElem?_cons_succ, List.getElem?_cons_zero, Option.some.injEq] at ha
      subst ha
      decide!)

theorem lfind_less_fwd_zeros (f : Dbl) (hf : Dbl.lt (Dbl.fin 0) f = true) :
    ∀ (n i : Nat) (v : Dbl) (li : Nat), 1 ≤ i →
      lfind_less_fwd f 0 (List.replicate n (A_LONG 0)) i v li = none := by
  intro n
  induction n with
  | zero =>
    intro i v li hi
    have : i ≠ 0 := by omega
    simp [lfind_less_fwd, this]
  | succ n ih =>
    intro i v li hi
    have h0 : i ≠ 0 := by omega
    have hv : atom_getfloat (A_LONG 0) = Dbl.fin 0 := by decide!
    rw [List.replicate_succ]
    simp only [lfind_less_fwd, if_neg h0, hv, hf, if_true]
    split
    · exact ih (i + 1) (Dbl.fin 0) i (by omega)
    · exact ih (i + 1) v li (by omega)

/-- C13 (the code on the failing input): on an array of zeros, as
`mess_realloc` leaves it, `lfind_action` with `argc = 0` never returns within
the array, whatever the query: either the forward loop, whose end test is
`i != argc`, runs past the last atom, or the atom before the first one is
read.  This is the call `lfind_float` makes on the new object. -/
theorem lfind_float_empty_reference (f : Dbl) :
    (∀ (x : t_lfind) (n : Nat), lfind_action x 0 (List.replicate n (A_LONG 0)) f = none)
    ∧ lfind_new_default.i_list_2.len_cur = 0
    ∧ lfind_float lfind_new_default 0 f = none := by
  have hgen : ∀ (x : t_lfind) (n : Nat),
      lfind_action x 0 (List.replicate n (A_LONG 0)) f = none := by
    intro x n
    have hless : lfind_less 0 (List.replicate n (A_LONG 0)) f = none := by
      cases n with
      | zero => simp [lfind_less]
      | succ n =>
        have hv : atom_getfloat (A_LONG 0) = Dbl.fin 0 := by decide!
        cases hf : Dbl.lt (Dbl.fin 0) f with
        | true =>
          simp [lfind_less, List.replicate_succ, hv, hf, lfind_less_fwd_zeros f hf n 1 _ 0]
        | false =>
          simp [lfind_less, List.replicate_succ, hv, hf]
    simp [lfind_action, lfind_locate, lfind_exact, hless]
  refine ⟨hgen, rfl, ?_⟩
  exact hgen lfind_new_default 256

theorem lfind_less_fwd_all_below (argc : Nat) (argv : List t_atom) (f : Dbl)
    (hargc : argc ≤ argv.length)
    (hall : ∀ j a, j < argc → argv[j]? = some a → Dbl.lt (atom_getfloat a) f = true) :
    ∀ (d k : Nat) (v : Dbl) (li : Nat), k + d = argc → li < argc →
      ∃ v2 li2, lfind_less_fwd f argc (argv.drop k) k v li = some (v2, li2) ∧ li2 < argc := by
  intro d
  induction d with
  | zero =>
    intro k v li hk hli
    have hk2 : k = argc := by omega
    refine ⟨v, li, ?_, hli⟩
    cases h : argv.drop k with
    | nil => simp [lfind_less_fwd, hk2]
    | cons a rest => simp [lfind_less_fwd, hk2]
  | succ d ih =>
    intro k v li hk hli
    have hkc : k < argc := by omega
    have hkl : k < argv.length := by omega
    have hlt := hall k argv[k] hkc (List.getElem?_eq_getElem hkl)
    rw [List.drop_eq_getElem_cons hkl]
    simp only [lfind_less_fwd, if_neg (Nat.ne_of_lt hkc), hlt, if_true]
    split
    · exact ih (k + 1) _ k (by omega) hkc
    · exact ih (k + 1) v li (by omega) hli

theorem lfind_more_fwd_none (argc : Nat) (argv : List t_atom) (f : Dbl)
    (hargc : argc ≤ argv.length) :
    ∀ (d k : Nat), k + d = argc →
      (∀ j a, k ≤ j → j < argc → argv[j]? = some a → Dbl.gt (atom_getfloat a) f = false) →
      lfind_more_fwd f argc (argv.drop k) k = some none := by
  intro d
  induction d with
  | zero =>
    intro k hk _
    have hk2 : k = argc := by omega
    cases h : argv.drop k with
    | nil => simp [lfind_more_fwd, hk2]
    | cons a rest => simp [lfind_more_fwd, hk2]
  | succ d ih =>
    intro k hk hall
    have hkc : k < argc := by omega
    have hkl : k < argv.length := by omega
    have hgt := hall k argv[k] (le_refl k) hkc (List.getElem?_eq_getElem hkl)
    rw [List.drop_eq_getElem_cons hkl]
    simp only [lfind_more_fwd, if_neg (Nat.ne_of_lt hkc), hgt, Bool.false_eq_true, if_false]
    exact ih (k + 1) (by omega) (fun j a hj1 hj2 => hall j a (by omega) hj2)

theorem lfind_more_bwd_none (argv : List t_atom) (f : Dbl) :
    ∀ k : Nat, k ≤ argv.length →
      (∀ j a, j < k → argv[j]? = some a → Dbl.gt (atom_getfloat a) f = false) →
      lfind_more_bwd argv f k = some none := by
  intro k
  induction k with
  | zero => intro _ _; rfl
  | succ k ih =>
    intro hk hall
    have hkl : k < argv.length := by omega
    have hgt := hall k argv[k] (Nat.lt_succ_self k) (List.getElem?_eq_getElem hkl)
    simp only [lfind_more_bwd, List.getElem?_eq_getElem hkl, hgt, Bool.false_eq_true, if_false]
    exact ih (by omega) (fun j a hj => hall j a (by omega))

theorem Dbl.lt_asymm_bool (a b : Dbl) (h : Dbl.lt a b = true) : Dbl.lt b a = false := by
  cases a <;> cases b <;> simp_all [Dbl.lt]
  exact le_of_lt h

/-- C14: out-of-range query of `lfind_action`, on a reference of `argc >= 1`
atoms inside the array.  If the query is below the value of every atom, or
above the value of every atom, the function returns without output and
without changing the object; hence an output is produced only if some atom
is not above the query and some atom is not below it, which for finite values
is `min <= query <= max`. -/
theorem lfind_action_out_of_range (x : t_lfind) (argc : Nat) (argv : List t_atom) (f : Dbl)
    (hpos : 1 ≤ argc) (hargc : argc ≤ argv.length) :
    ((∀ j a, j < argc → argv[j]? = some a → Dbl.lt f (atom_getfloat a) = true) →
        lfind_action x argc argv f = some (x, none))
    ∧ ((∀ j a, j < argc → argv[j]? = some a → Dbl.lt (atom_getfloat a) f = true) →
        lfind_action x argc argv f = some (x, none))
    ∧ (∀ x2 p, lfind_action x argc argv f = some (x2, some p) →
        (∃ j a, j < argc ∧ argv[j]? = some a ∧ Dbl.lt f (atom_getfloat a) = false)
        ∧ (∃ j a, j < argc ∧ argv[j]? = some a ∧ Dbl.lt (atom_getfloat a) f = false)) := by
  have hread : ∀ j, j < argc → ∃ a, argv[j]? = some a := fun j hj =>
    ⟨_, List.getElem?_eq_getElem (by omega : j < argv.length)⟩
  have hbelow : (∀ j a, j < argc → argv[j]? = some a → Dbl.lt f (atom_getfloat a) = true) →
      lfind_action x argc argv f = some (x, none) := by
    intro hall
    have hne : ∀ j a, j < argc → argv[j]? = some a → Dbl.lt (atom_getfloat a) f = false :=
      fun j a hj ha => Dbl.lt_asymm_bool _ _ (hall j a hj ha)
    have hexact : lfind_exact argv f argc 0 = some none := by
      apply lfind_exact_none
      intro j _ hj
      have hj2 : j < argc := by omega
      obtain ⟨a, ha⟩ := hread j hj2
      refine ⟨a, ha, ?_⟩
      have h1 := hall j _ hj2 ha
      revert h1
      cases atom_getfloat a <;> cases f <;> simp [Dbl.lt, Dbl.eq]
      intro h; exact ne_of_gt h
    have hless : lfind_less argc argv f = some none := by
      obtain ⟨m, hm⟩ : ∃ m, argc = m + 1 := ⟨argc - 1, by omega⟩
      subst hm
      obtain ⟨a0, ha0⟩ := hread 0 (by omega)
      obtain ⟨am, ham⟩ := hread m (by omega)
      simp [lfind_less, ha0, hne 0 _ (by omega) ha0, ham, hne m _ (by omega) ham]
    simp [lfind_action, lfind_locate, hexact, hless]
  have habove : (∀ j a, j < argc → argv[j]? = some a → Dbl.lt (atom_getfloat a) f = true) →
      lfind_action x argc argv f = some (x, none) := by
    intro hall
    have hgt : ∀ j a, j < argc → argv[j]? = some a → Dbl.gt (atom_getfloat a) f = false :=
      fun j a hj ha => Dbl.lt_asymm_bool _ _ (hall j a hj ha)
    have hexact : lfind_exact argv f argc 0 = some none := by
      apply lfind_exact_none
      intro j _ hj
      have hj2 : j < argc := by omega
      obtain ⟨a, ha⟩ := hread j hj2
      refine ⟨a, ha, ?_⟩
      have h1 := hall j _ hj2 ha
      revert h1
      cases atom_getfloat a <;> cases f <;> simp [Dbl.lt, Dbl.eq]
      intro h; exact ne_of_lt h
    obtain ⟨a0, ha0⟩ := hread 0 (by omega)
    obtain ⟨v2, li2, hrun, hli2⟩ := lfind_less_fwd_all_below argc argv f hargc hall
      (argc - 1) 1 (atom_getfloat a0) 0 (by omega) (by omega)
    have hless : lfind_less argc argv f = some (some li2) := by
      simp only [List.drop_one] at hrun
      simp [lfind_less, ha0, hall 0 _ (by omega) ha0, hrun]
    have hmore : lfind_more argc argv f li2 = some none := by
      have h1 := lfind_more_fwd_none argc argv f hargc (argc - li2) li2 (by omega)
        (fun j a _ hj ha => hgt j a hj ha)
      have h2 := lfind_more_bwd_none argv f (li2 + 1) (by omega)
        (fun j a hj ha => hgt j a (by omega) ha)
      simp [lfind_more, h1, h2]
    simp [lfind_action, lfind_locate, hexact, hless, hmore]
  refine ⟨hbelow, habove, ?_⟩
  intro x2 p hout
  constructor
  · by_contra hcon
    push_neg at hcon
    have hall : ∀ j a, j < argc → argv[j]? = some a → Dbl.lt f (atom_getfloat a) = true := by
      intro j a hj ha
      have := hcon j a hj ha
      simpa using this
    rw [hbelow hall] at hout
    simp at hout
  · by_contra hcon
    push_neg at hcon
    have hall : ∀ j a, j < argc → argv[j]? = some a → Dbl.lt (atom_getfloat a) f = true := by
      intro j a hj ha
      have := hcon j a hj ha
      simpa using this
    rw [habove hall] at hout
    simp at hout

/-- C14 (witness): on the reference `0 10`, the query `20` above it and the
query `-5` below it give no output. -/
theorem lfind_action_out_of_range_witness :
    lfind_action lfind_new_default 2 [A_LONG 0, A_LONG 10] (Dbl.fin 20)
        = some (lfind_new_default, none)
    ∧ lfind_action lfind_new_default 2 [A_LONG 0, A_LONG 10] (Dbl.fin (-5))
        = some (lfind_new_default, none) :=
  ⟨(lfind_action_out_of_range lfind_new_default 2 [A_LONG 0, A_LONG 10] (Dbl.fin 20)
      (by decide) (by decide)).2.1
      (by
        intro j a hj ha
        interval_cases j <;> simp at ha <;> subst ha <;>
          decide!),
    (lfind_action_out_of_range lfind_new_default 2 [A_LONG 0, A_LONG 10] (Dbl.fin (-5))
      (by decide) (by decide)).1
      (by
        intro j a hj ha
        interval_cases j <;> simp at ha <;> subst ha <;>
          decide!)⟩

theorem lfind_less_bwd_run (argv : List t_atom) (f : Dbl) (r : Nat → Dbl) (i : Nat)
    (hr : ∀ j, i ≤ j → j < argv.length → (argv[j]?).map atom_getfloat = some (r j))
    (hmono : ∀ j, i < j → j + 1 < argv.length → Dbl.ge (r j) (r (j + 1)) = true)
    (hlt : ∀ j, i < j → j < argv.length → Dbl.lt (r j) f = true)
    (hge : Dbl.lt (r i) f = false) :
    ∀ d k : Nat, k = i + 1 + d → k < argv.length →
      lfind_less_bwd argv f k (r k) k = some (r (i + 1), i + 1) := by
  intro d
  induction d with
  | zero =>
    intro k hk hkl
    subst hk
    have hil : i < argv.length := by omega
    have hv := hr i (le_refl _) hil
    rw [List.getElem?_eq_getElem hil] at hv
    simp only [Option.map_some', Option.some.injEq] at hv
    simp [lfind_less_bwd, List.getElem?_eq_getElem hil, hv, hge]
  | succ d ih =>
    intro k hk hkl
    obtain ⟨k2, hk2⟩ : ∃ k2, k = k2 + 1 := ⟨k - 1, by omega⟩
    subst hk2
    have hkl2 : k2 < argv.length := by omega
    have hv := hr k2 (by omega) hkl2
    rw [List.getElem?_eq_getElem hkl2] at hv
    simp only [Option.map_some', Option.some.injEq] at hv
    have hlt2 := hlt k2 (by omega) hkl2
    have hm := hmono k2 (by omega) hkl
    have hrec := ih k2 (by omega) hkl2
    simp [lfind_less_bwd, List.getElem?_eq_getElem hkl2, hv, hlt2, hm, hrec]

/-- C11 (as amended): `lfind_action` on decreasing data.  The reference is
the first `argc` atoms of the array; when their values `ref` are strictly
decreasing and the query `f` lies strictly between the elements `a` of index
`i` and `b` of index `i + 1`, the backward search ends with
`less_than_ind = i + 1`, the search of the value above ends with
`more_than_ind = i`, and the position stored and sent out is the value of
`(f - b) / (a - b) * (-1) + (i + 1)` in double arithmetic, each operation
rounded.  It is the exact `i + (a - f) / (a - b)` when the two differences,
the quotient and the sum are doubles. -/
theorem lfind_action_decreasing (x : t_lfind) (argc : Nat) (argv : List t_atom) (ref : List Dbl)
    (f a b : Dbl) (i : Nat)
    (hargc : argc ≤ argv.length)
    (hval : (argv.take argc).map atom_getfloat = ref)
    (hdec : ref.Pairwise (fun u v => Dbl.lt v u = true))
    (ha : ref[i]? = some a) (hb : ref[i + 1]? = some b)
    (hqa : Dbl.lt f a = true) (hbq : Dbl.lt b f = true) :
    lfind_less argc argv f = some (some (i + 1))
    ∧ lfind_more argc argv f (i + 1) = some (some i)
    ∧ lfind_action x argc argv f
        = some ({ x with
              o_float := (Dbl.add (Dbl.mul (Dbl.div (Dbl.sub f b) (Dbl.sub a b)) (Dbl.ofInt (-1)))
                (Dbl.ofInt ((i + 1 : Nat) : Int))) },
            some (Dbl.add (Dbl.mul (Dbl.div (Dbl.sub f b) (Dbl.sub a b)) (Dbl.ofInt (-1)))
              (Dbl.ofInt ((i + 1 : Nat) : Int))))
    ∧ (∀ q u v : ℚ, f = Dbl.fin q → a = Dbl.fin u → b = Dbl.fin v → i + 1 ≤ 2 ^ 53 →
        Dbl.is_double (q - v) → Dbl.is_double (u - v) → Dbl.is_double ((q - v) / (u - v)) →
        Dbl.is_double ((i : ℚ) + 1 - (q - v) / (u - v)) →
        Dbl.add (Dbl.mul (Dbl.div (Dbl.sub f b) (Dbl.sub a b)) (Dbl.ofInt (-1)))
            (Dbl.ofInt ((i + 1 : Nat) : Int))
          = Dbl.fin ((i : ℚ) + (u - q) / (u - v))) := by
  have hlen : argc = ref.length := by
    have := congrArg List.length hval
    simp only [List.length_map, List.length_take] at this
    omega
  obtain ⟨hi1, hbe⟩ := List.getElem?_eq_some.mp hb
  have hi0 : i < ref.length := by omega
  have hae : ref[i] = a := by
    rw [List.getElem?_eq_getElem hi0] at ha
    exact Option.some.inj ha
  obtain ⟨r, hgd⟩ : ∃ r : Nat → Dbl, ∀ j (hj : j < ref.length), r j = ref[j] :=
    ⟨fun j => ref.getD j Dbl.nan, fun j hj => by simp [List.getD, List.getElem?_eq_getElem hj]⟩
  -- the array cut at `argc`: the loops never read beyond it
  obtain ⟨cut, hcut⟩ : ∃ cut : List t_atom, cut = argv.take argc := ⟨_, rfl⟩
  have hcl : cut.length = ref.length := by rw [hcut, List.length_take]; omega
  have hr : ∀ j, j < ref.length → (argv[j]?).map atom_getfloat = some (r j) := by
    intro j hj
    have h1 : (argv.take argc)[j]? = argv[j]? := by
      rw [List.getElem?_take, if_pos (by omega)]
    rw [← h1, ← List.getElem?_map, hval, List.getElem?_eq_getElem hj, hgd j hj]
  have hmono : ∀ j k, j < k → k < ref.length → Dbl.lt (r k) (r j) = true := by
    intro j k hjk hk
    rw [hgd j (by omega), hgd k hk]
    exact List.pairwise_iff_getElem.mp hdec j k (by omega) hk hjk
  have hri : r i = a := by rw [hgd i hi0, hae]
  have hri1 : r (i + 1) = b := by rw [hgd (i + 1) hi1, hbe]
  have hhigh : ∀ j, j ≤ i → Dbl.lt f (r j) = true := by
    intro j hj
    rcases Nat.lt_or_eq_of_le hj with h | h
    · exact Dbl.lt_trans _ _ _ (by rw [hri]; exact hqa) (hmono j i h hi0)
    · subst h; rw [hri]; exact hqa
  have hlow : ∀ j, i + 1 ≤ j → j < ref.length → Dbl.lt (r j) f = true := by
    intro j hj hjl
    rcases Nat.lt_or_eq_of_le hj with h | h
    · exact Dbl.lt_trans _ _ _ (hmono (i + 1) j h hjl) (by rw [hri1]; exact hbq)
    · subst h; rw [hri1]; exact hbq
  have hatom : ∀ j, j < ref.length →
      ∃ c, argv[j]? = some c ∧ atom_getfloat c = r j := by
    intro j hj
    have h := hr j hj
    rw [List.getElem?_eq_getElem (by omega : j < argv.length)] at h ⊢
    exact ⟨_, rfl, by simpa using h⟩
  have hexact : lfind_exact argv f argc 0 = some none := by
    apply lfind_exact_none
    intro j _ hj
    obtain ⟨c, hc, hcv⟩ := hatom j (by omega)
    refine ⟨c, hc, ?_⟩
    rw [hcv]
    by_cases hji : j ≤ i
    · exact (Dbl.eq_false_of_lt _ _ (hhigh j hji)).2
    · exact (Dbl.eq_false_of_lt _ _ (hlow j (by omega) (by omega))).1
  -- the backward search of the value below, run on the cut array
  have hcutget : ∀ j, j < ref.length → cut[j]? = argv[j]? := by
    intro j hj
    rw [hcut, List.getElem?_take, if_pos (by omega)]
  have hbwd_eq : ∀ (k : Nat) (v : Dbl) (li : Nat), k ≤ ref.length →
      lfind_less_bwd argv f k v li = lfind_less_bwd cut f k v li := by
    intro k
    induction k with
    | zero => intro v li _; rfl
    | succ k ih =>
      intro v li hk
      simp only [lfind_less_bwd, hcutget k (by omega)]
      cases argv[k]? with
      | none => rfl
      | some c =>
        simp only
        split
        · split
          · exact ih _ _ (by omega)
          · exact ih _ _ (by omega)
        · rfl
  have hless : lfind_less argc argv f = some (some (i + 1)) := by
    obtain ⟨c0, hc0, hcv0⟩ := hatom 0 (by omega)
    obtain ⟨m, hm⟩ : ∃ m, argc = m + 1 := ⟨argc - 1, by omega⟩
    obtain ⟨cm, hcm, hcvm⟩ := hatom m (by omega)
    have hrun := lfind_less_bwd_run cut f r i
      (fun j _ hj => by rw [hcutget j (by omega)]; exact hr j (by omega))
      (fun j hj hjl => Dbl.ge_of_lt _ _ (hmono j (j + 1) (by omega) (by omega)))
      (fun j hj hjl => hlow j (by omega) (by omega))
      (Dbl.lt_asymm _ _ (hhigh i (le_refl _))) (m - (i + 1)) m (by omega) (by omega)
    rw [← hbwd_eq m _ _ (by omega)] at hrun
    rw [hm]
    simp [lfind_less, hc0, hcv0, Dbl.lt_asymm _ _ (hhigh 0 (Nat.zero_le _)),
      hcm, hcvm, hlow m (by omega) (by omega), hrun]
  -- the search of the value above: nothing forward, then backward
  obtain ⟨ci, hci, hcvi⟩ := hatom i hi0
  obtain ⟨cj, hcj, hcvj⟩ := hatom (i + 1) hi1
  have hmore : lfind_more argc argv f (i + 1) = some (some i) := by
    have hfwd := lfind_more_fwd_none argc argv f hargc (argc - (i + 1)) (i + 1)
      (by omega)
      (fun j c hj1 hj2 hc => by
        obtain ⟨c2, hc2, hcv2⟩ := hatom j (by omega)
        rw [hc2] at hc
        cases hc
        rw [hcv2]
        exact Dbl.lt_asymm _ _ (hlow j hj1 (by omega)))
    simp [lfind_more, hfwd, lfind_more_bwd, hci, hcj, hcvi, hcvj, Dbl.gt,
      Dbl.lt_asymm _ _ (hlow (i + 1) (le_refl _) hi1), hhigh i (le_refl _)]
  have hone : (i : Int) - ((i + 1 : Nat) : Int) = -1 := by
    push_cast
    ring
  have hinterp : lfind_interp argv f (i + 1) i
      = some (Dbl.add (Dbl.mul (Dbl.div (Dbl.sub f b) (Dbl.sub a b)) (Dbl.ofInt (-1)))
          (Dbl.ofInt ((i + 1 : Nat) : Int))) := by
    rw [lfind_interp_eq argv f (i + 1) i cj ci hcj hci, hcvi, hcvj, hri, hri1, hone]
  refine ⟨hless, hmore, ?_, ?_⟩
  · simp [lfind_action, lfind_locate, hexact, hless, hmore, hinterp]
  · intro q u v hf hau hbv hi53 e1 e2 e3 e4
    subst hf hau hbv
    have huv : v < u := by
      have h1 : q < u := by simpa [Dbl.lt] using hqa
      have h2 : v < q := by simpa [Dbl.lt] using hbq
      linarith
    have hne : u - v ≠ 0 := by linarith
    unfold Dbl.is_double at e1 e2 e3 e4
    have hm1 : Dbl.ofInt (-1) = Dbl.fin (-1) := by decide!
    have e3n : Dbl.round ((q - v) / (u - v) * -1) = Dbl.fin (-((q - v) / (u - v))) := by
      rw [mul_neg_one]
      exact Dbl.round_opp _ _ e3
    have hsum : -((q - v) / (u - v)) + ((i + 1 : Nat) : ℚ) = (i : ℚ) + 1 - (q - v) / (u - v) := by
      push_cast
      ring
    rw [Dbl.ofInt_nat (i + 1) hi53, hm1]
    simp only [Dbl.sub, e1, e2, Dbl.div, if_neg hne, e3, Dbl.mul, e3n, Dbl.add, hsum, e4]
    congr 1
    field_simp
    ring

/-- C11 (witness): the reference `20 10. 0` inside an array of five atoms and
the query `15`, between the elements of index 0 and 1; every operation is
exact and the position is `1/2`. -/
theorem lfind_action_decreasing_witness :
    lfind_less 3 [A_LONG 20, A_FLOAT (Dbl.fin 10), A_LONG 0, A_LONG 0, A_LONG 0] (Dbl.fin 15)
      = some (some (0 + 1))
    ∧ lfind_more 3 [A_LONG 20, A_FLOAT (Dbl.fin 10), A_LONG 0, A_LONG 0, A_LONG 0] (Dbl.fin 15)
        (0 + 1) = some (some 0)
    ∧ lfind_action lfind_new_default 3
        [A_LONG 20, A_FLOAT (Dbl.fin 10), A_LONG 0, A_LONG 0, A_LONG 0] (Dbl.fin 15)
      = some ({ lfind_new_default with
            o_float := (Dbl.add (Dbl.mul (Dbl.div (Dbl.sub (Dbl.fin 15) (Dbl.fin 10))
              (Dbl.sub (Dbl.fin 20) (Dbl.fin 10))) (Dbl.ofInt (-1)))
              (Dbl.ofInt ((0 + 1 : Nat) : Int))) },
          some (Dbl.add (Dbl.mul (Dbl.div (Dbl.sub (Dbl.fin 15) (Dbl.fin 10))
            (Dbl.sub (Dbl.fin 20) (Dbl.fin 10))) (Dbl.ofInt (-1)))
            (Dbl.ofInt ((0 + 1 : Nat) : Int))))
    ∧ Dbl.add (Dbl.mul (Dbl.div (Dbl.sub (Dbl.fin 15) (Dbl.fin 10))
          (Dbl.sub (Dbl.fin 20) (Dbl.fin 10))) (Dbl.ofInt (-1)))
          (Dbl.ofInt ((0 + 1 : Nat) : Int))
        = Dbl.fin (((0 : Nat) : ℚ) + (20 - 15) / (20 - 10))
    ∧ (((0 : Nat) : ℚ) + (20 - 15) / (20 - 10) = 1 / 2) :=
  have h := lfind_action_decreasing lfind_new_default 3
    [A_LONG 20, A_FLOAT (Dbl.fin 10), A_LONG 0, A_LONG 0, A_LONG 0]
    [Dbl.fin 20, Dbl.fin 10, Dbl.fin 0] (Dbl.fin 15) (Dbl.fin 20) (Dbl.fin 10) 0
    (by decide!) (by decide!) (by decide!) (by decide!) (by decide!) (by decide!) (by decide!)
  ⟨h.1, h.2.1, h.2.2.1,
    h.2.2.2 15 20 10 rfl rfl rfl (by decide) (by decide!) (by decide!) (by decide!) (by decide!),
    by decide!⟩

/-- C11, counterexample: on the decreasing reference `3 0` the query `1` lies
between the two elements, and the position sent out is
`3002399751580331 / 2^52`, not `0 + (3 - 1) / (3 - 0)`; on the decreasing reference
`2^1023 -2^1023` of two doubles the difference of the elements overflows, and
the position sent out for the query `0` is `1`, not `1/2`. -/
theorem lfind_action_decreasing_inexact :
    (lfind_action lfind_new_default 2 [A_LONG 3, A_LONG 0] (Dbl.fin 1)).map Prod.snd
        = some (some (Dbl.fin (3002399751580331 / 4503599627370496)))
    ∧ (3002399751580331 / 4503599627370496 : ℚ) ≠ 0 + (3 - 1) / (3 - 0)
    ∧ Dbl.is_double (Dbl.pow2 1023)
    ∧ Dbl.is_double (-Dbl.pow2 1023)
    ∧ (lfind_action lfind_new_default 2
          [A_FLOAT (Dbl.fin (Dbl.pow2 1023)), A_FLOAT (Dbl.fin (-Dbl.pow2 1023))]
          (Dbl.fin 0)).map Prod.snd
        = some (some (Dbl.fin 1))
    ∧ (1 : ℚ) ≠ 0 + (Dbl.pow2 1023 - 0) / (Dbl.pow2 1023 - (-Dbl.pow2 1023)) := by
  decide!

/-! ### Capacity invariant -/

theorem mess_inv_null_iff (n : Nat) (m : t_mess_struct) (h : mess_inv n m) :
    MESS_IS_NULL m = decide (n = 0) := by
  obtain ⟨h1, h2, _⟩ := h
  unfold MESS_IS_NULL
  by_cases hn : n = 0
  · simp [h1, hn]
  · have : m.list ≠ [] := by
      intro he
      rw [he] at h2
      exact hn h2.symm
    simp [h1, hn, this]

theorem ATOMS_COPY_length (dest : List t_atom) (pos : Nat) (src : List t_atom) (cnt : Nat)
    (h1 : pos + cnt ≤ dest.length) (h2 : cnt ≤ src.length) :
    (ATOMS_COPY dest pos src cnt).length = dest.length := by
  unfold ATOMS_COPY
  simp only [List.length_append, List.length_take, List.length_drop]
  omega

theorem mess_inv_set (n : Nat) (m : t_mess_struct) (sym : t_symbol) (argc : Nat)
    (argv : List t_atom) (offset : Nat) (h : mess_inv n m) (ho : offset ≤ 1)
    (ha : argc ≤ argv.length) :
    mess_inv n (mess_set m sym argc argv offset) := by
  have hnull := mess_inv_null_iff n m h
  obtain ⟨h1, h2, h3⟩ := h
  unfold mess_set
  by_cases hn : n = 0
  · have hnl : MESS_IS_NULL m = true := by rw [hnull]; exact decide_eq_true hn
    rw [if_pos hnl]
    exact ⟨h1, h2, h3⟩
  · have hnl : ¬ MESS_IS_NULL m = true := by rw [hnull]; simp [hn]
    rw [if_neg hnl]
    refine ⟨h1, ?_, ?_⟩
    · simp only
      rw [ATOMS_COPY_length]
      · rw [List.length_set, h2]
      · rw [List.length_set, h2]
        split <;> omega
      · split <;> omega
    · intro _
      simp only
      split <;> omega

theorem mess_inv_set_empty (n : Nat) (m : t_mess_struct) (h : mess_inv n m) :
    mess_inv n (mess_set_empty m) := by
  obtain ⟨h1, h2, h3⟩ := h
  exact ⟨h1, by simp [mess_set_empty, h1], fun _ => by simp [mess_set_empty]⟩

theorem mess_inv_set_type (n : Nat) (m : t_mess_struct) (h : mess_inv n m) :
    mess_inv n (mess_set_type m) := by
  obtain ⟨h1, h2, h3⟩ := h
  refine ⟨?_, by rw [mess_set_type_list]; exact h2,
    fun hn => by rw [mess_set_type_len_cur]; exact h3 hn⟩
  unfold mess_set_type
  split
  · exact h1
  · split <;> exact h1

theorem mess_inv_zpad (n : Nat) (m : t_mess_struct) (h : mess_inv n m) :
    mess_inv n (mess_zpad m) := by
  obtain ⟨h1, h2, h3⟩ := h
  refine ⟨h1, ?_, h3⟩
  by_cases hn : n = 0
  · subst hn
    have : m.list = [] := List.eq_nil_of_length_eq_zero h2
    simp [mess_zpad, this, h1]
  · have := h3 hn
    simp only [mess_zpad, List.length_append, List.length_take, List.length_replicate]
    omega

theorem mess_inv_fill_int (n : Nat) (m : t_mess_struct) (v : Int) (len : Nat)
    (h : mess_inv n m) (hl : n ≠ 0 → len ≤ n) : mess_inv n (mess_fill_int m v len) := by
  obtain ⟨h1, h2, h3⟩ := h
  exact ⟨h1, by simp [mess_fill_int, h1], hl⟩

theorem mess_inv_fill_float (n : Nat) (m : t_mess_struct) (v : Dbl) (len : Nat)
    (h : mess_inv n m) (hl : n ≠ 0 → len ≤ n) : mess_inv n (mess_fill_float m v len) := by
  obtain ⟨h1, h2, h3⟩ := h
  exact ⟨h1, by simp [mess_fill_float, h1], hl⟩

theorem mess_inv_fill_atom (n : Nat) (m : t_mess_struct) (a : t_atom) (len : Nat)
    (h : mess_inv n m) (hl : n ≠ 0 → len ≤ n) : mess_inv n (mess_fill_atom m a len) := by
  obtain ⟨h1, h2, h3⟩ := h
  unfold mess_fill_atom
  apply mess_inv_set_type
  exact ⟨h1, by simp [h1], hl⟩

theorem mess_inv_len_cur (n : Nat) (m : t_mess_struct) (len : Nat)
    (h : mess_inv n m) (hl : n ≠ 0 → len ≤ n) : mess_inv n { m with len_cur := len } := by
  obtain ⟨h1, h2, h3⟩ := h
  exact ⟨h1, h2, hl⟩

theorem mess_inv_init (m : t_mess_struct) : mess_inv 0 (mess_init m) := by
  refine ⟨rfl, rfl, fun h => absurd rfl h⟩

theorem mess_inv_realloc_ok (m : t_mess_struct) (n : Nat) : mess_inv n (mess_realloc_ok m n) := by
  refine ⟨rfl, by simp [mess_realloc_ok, mess_set_empty], fun _ => by
    simp [mess_realloc_ok, mess_set_empty]⟩

theorem maxlen_request_pos (argv : List t_atom) : maxlen_request argv ≠ 0 := by
  unfold maxlen_request
  cases argv with
  | nil => simp [MAXLEN_DEF]
  | cons a rest =>
    simp only
    split
    · simp [MAXLEN_DEF]
    · omega

theorem CLAMP_zero_bounds (a : Int) (n : Nat) :
    0 ≤ CLAMP a 0 (n : Int) ∧ CLAMP a 0 (n : Int) ≤ (n : Int) := by
  unfold CLAMP
  split
  · split <;> omega
  · omega

theorem CLAMP_one_bounds (a : Int) (n : Nat) :
    0 ≤ CLAMP a 1 (n : Int) ∧ (n ≠ 0 → CLAMP a 1 (n : Int) ≤ (n : Int)) := by
  unfold CLAMP
  split
  · split <;> omega
  · omega

theorem mess_set_type_len_max (m : t_mess_struct) : (mess_set_type m).len_max = m.len_max := by
  unfold mess_set_type
  split
  · rfl
  · split <;> rfl

theorem mess_realloc_cases (m : t_mess_struct) (n : Nat) (ok : Bool) (hn : n ≠ 0) :
    (MESS_IS_NULL (mess_realloc m n ok) = true ∧ ok = false)
    ∨ (MESS_IS_NULL (mess_realloc m n ok) = false ∧ ok = true
        ∧ mess_realloc m n ok = mess_realloc_ok m n) := by
  cases ok with
  | false =>
    left
    exact ⟨by simp [mess_realloc, mess_init, MESS_IS_NULL], rfl⟩
  | true =>
    right
    refine ⟨?_, rfl, rfl⟩
    have h := mess_inv_null_iff n _ (mess_inv_realloc_ok m n)
    simp only [mess_realloc, if_true]
    rw [h]
    simp [hn]

/-! #### Lchange -/

theorem lchange_inv_maxlen_set (x : t_lchange) (argc : Nat) (argv : List t_atom) (ok : Bool)
    (h : lchange_inv x) : lchange_inv (lchange_maxlen_set x argc argv ok).1 := by
  unfold lchange_maxlen_set
  split
  · exact h
  · split
    · exact h
    · rcases mess_realloc_cases x.i_list_2 (maxlen_request argv) ok (maxlen_request_pos argv)
        with ⟨hn, _⟩ | ⟨hn, _, he⟩
      · rw [if_pos hn]
        exact mess_inv_init (mess_realloc x.i_list_2 (maxlen_request argv) ok)
      · rw [if_neg (by rw [hn]; simp), he]
        exact mess_inv_realloc_ok _ _

theorem lchange_action_state (x : t_lchange) (sym : t_symbol) (argc : Nat) (argv : List t_atom)
    (offset : Nat) (r : t_lchange × t_lchange_outlet × t_symbol × List t_atom)
    (h : lchange_action x sym argc argv offset = some r) :
    r.1 = x ∨ r.1 = { x with i_list_2 := mess_set x.i_list_2 sym argc argv offset } := by
  unfold lchange_action at h
  split at h
  · cases h
  · cases hl : x.is_locked <;> simp only [hl, Bool.false_eq_true, if_false, if_true] at h
    · right
      cases h
      rfl
    · left
      cases h
      rfl
  · left
    cases h
    rfl

theorem lchange_inv_action (x : t_lchange) (sym : t_symbol) (argc : Nat) (argv : List t_atom)
    (offset : Nat) (r : t_lchange × t_lchange_outlet × t_symbol × List t_atom)
    (hinv : lchange_inv x) (ho : offset ≤ 1) (ha : argc ≤ argv.length)
    (h : lchange_action x sym argc argv offset = some r) : lchange_inv r.1 := by
  rcases lchange_action_state x sym argc argv offset r h with he | he
  · rw [he]; exact hinv
  · rw [he]; exact mess_inv_set _ _ _ _ _ _ hinv ho ha

theorem lchange_inv_handle (x x2 : t_lchange) (m : lchange_msg) (hinv : lchange_inv x)
    (h : lchange_handle x m = some x2) : lchange_inv x2 := by
  cases m with
  | bang => cases h; exact hinv
  | clear => cases h; exact mess_inv_set_empty _ _ hinv
  | attr a =>
    cases h
    cases a with
    | maxlen argv ok => exact lchange_inv_maxlen_set _ _ _ _ hinv
    | warnings b => exact hinv
    | lock b => exact hinv
  | int inlet n =>
    simp only [lchange_handle, lchange_int] at h
    split at h
    · cases h; exact hinv
    · split at h
      · simp only [Option.map_map, Option.map_eq_some'] at h
        obtain ⟨r, hr, he⟩ := h
        rw [← he]
        exact lchange_inv_action _ _ _ _ _ r hinv (by omega) (by simp) hr
      · cases h
        exact mess_inv_set _ _ _ _ _ _ hinv (by omega) (by simp)
      · cases h; exact hinv
  | float inlet f =>
    simp only [lchange_handle, lchange_float] at h
    split at h
    · cases h; exact hinv
    · split at h
      · simp only [Option.map_map, Option.map_eq_some'] at h
        obtain ⟨r, hr, he⟩ := h
        rw [← he]
        exact lchange_inv_action _ _ _ _ _ r hinv (by omega) (by simp) hr
      · cases h
        exact mess_inv_set _ _ _ _ _ _ hinv (by omega) (by simp)
      · cases h; exact hinv
  | list inlet argv =>
    simp only [lchange_handle, lchange_list] at h
    split at h
    · cases h; exact hinv
    · split at h
      · simp only [Option.map_map, Option.map_eq_some'] at h
        obtain ⟨r, hr, he⟩ := h
        rw [← he]
        exact lchange_inv_action _ _ _ _ _ r hinv (by omega) (le_refl _) hr
      · cases h
        exact mess_inv_set _ _ _ _ _ _ hinv (by omega) (le_refl _)
      · cases h; exact hinv
  | anything inlet sym argv =>
    simp only [lchange_handle, lchange_anything] at h
    split at h
    · cases h; exact hinv
    · split at h
      · simp only [Option.map_map, Option.map_eq_some'] at h
        obtain ⟨r, hr, he⟩ := h
        rw [← he]
        exact lchange_inv_action _ _ _ _ _ r hinv (by omega) (le_refl _) hr
      · cases h
        exact mess_inv_set _ _ _ _ _ _ hinv (by omega) (le_refl _)
      · cases h; exact hinv

theorem lchange_inv_run (ms : List lchange_msg) :
    ∀ x x2 : t_lchange, lchange_inv x → lchange_run x ms = some x2 → lchange_inv x2 := by
  induction ms with
  | nil => intro x x2 hinv h; cases h; exact hinv
  | cons m ms ih =>
    intro x x2 hinv h
    simp only [lchange_run, Option.bind_eq_some] at h
    obtain ⟨x1, h1, h2⟩ := h
    exact ih x1 x2 (lchange_inv_handle x x1 m hinv h1) h2

theorem lchange_inv_attrs (attrs : List lchange_attr) :
    ∀ x : t_lchange, lchange_inv x → lchange_inv (attrs.foldl lchange_attr_set x) := by
  induction attrs with
  | nil => intro x h; exact h
  | cons a attrs ih =>
    intro x h
    apply ih
    cases a with
    | maxlen argv ok => exact lchange_inv_maxlen_set _ _ _ _ h
    | warnings b => exact h
    | lock b => exact h

theorem lchange_inv_new_args (x1 : t_lchange) (ok : Bool) (argv : List t_atom)
    (h1 : lchange_inv x1) :
    lchange_inv
      (if argv.length ≠ 0 then
        { (if x1.maxlen = 0
            then (lchange_maxlen_set x1 1 [A_LONG (MAXLEN_DEF : Nat)] ok).1 else x1) with
          i_list_2 := mess_set_type (mess_set_list
            (if x1.maxlen = 0
              then (lchange_maxlen_set x1 1 [A_LONG (MAXLEN_DEF : Nat)] ok).1 else x1).i_list_2
            argv.length argv) }
      else (if x1.maxlen = 0
        then (lchange_maxlen_set x1 1 [A_LONG (MAXLEN_DEF : Nat)] ok).1 else x1)) := by
  have h2 : lchange_inv (if x1.maxlen = 0
      then (lchange_maxlen_set x1 1 [A_LONG (MAXLEN_DEF : Nat)] ok).1 else x1) := by
    split
    · exact lchange_inv_maxlen_set _ _ _ _ h1
    · exact h1
  split
  · exact mess_inv_set_type _ _ (mess_inv_set _ _ _ _ _ _ h2 (by omega) (le_refl _))
  · exact h2

theorem lchange_inv_new (attrs : List lchange_attr) (ok : Bool) (argv : List t_atom) :
    lchange_inv (lchange_new attrs ok argv) :=
  lchange_inv_new_args _ ok argv
    (lchange_inv_attrs attrs _ (mess_inv_init ⟨0, 0, sym_null, [], 0⟩))

/-! #### Lfind -/

theorem lfind_inv_maxlen_set (x : t_lfind) (argc : Nat) (argv : List t_atom) (ok : Bool)
    (h : lfind_inv x) : lfind_inv (lfind_maxlen_set x argc argv ok).1 := by
  unfold lfind_maxlen_set
  split
  · exact h
  · split
    · exact h
    · rcases mess_realloc_cases x.i_list_2 (maxlen_request argv) ok (maxlen_request_pos argv)
        with ⟨hn, _⟩ | ⟨hn, _, he⟩
      · rw [if_pos hn]
        exact mess_inv_init (mess_realloc x.i_list_2 (maxlen_request argv) ok)
      · rw [if_neg (by rw [hn]; simp), he]
        exact mess_inv_realloc_ok _ _

theorem lfind_action_state (x : t_lfind) (argc : Nat) (argv : List t_atom) (f : Dbl)
    (r : t_lfind × Option Dbl) (h : lfind_action x argc argv f = some r) :
    r.1.i_list_2 = x.i_list_2 ∧ r.1.maxlen = x.maxlen := by
  unfold lfind_action at h
  simp only [Option.map_eq_some'] at h
  obtain ⟨p, _, hp⟩ := h
  cases p with
  | none => cases hp; exact ⟨rfl, rfl⟩
  | some v => cases hp; exact ⟨rfl, rfl⟩

theorem lfind_inv_action (x : t_lfind) (argc : Nat) (argv : List t_atom) (f : Dbl)
    (r : t_lfind × Option Dbl) (hinv : lfind_inv x)
    (h : lfind_action x argc argv f = some r) : lfind_inv r.1 := by
  obtain ⟨h1, h2⟩ := lfind_action_state x argc argv f r h
  unfold lfind_inv
  rw [h1, h2]
  exact hinv

theorem lfind_inv_float (x x2 : t_lfind) (inlet : Nat) (f : Dbl) (o : Option Dbl)
    (hinv : lfind_inv x) (h : lfind_float x inlet f = some (x2, o)) : lfind_inv x2 := by
  unfold lfind_float at h
  split at h
  · cases h; exact hinv
  · rename_i hm
    split at h
    · exact lfind_inv_action _ _ _ _ (x2, o) hinv h
    · cases h
      exact mess_inv_fill_float _ _ _ _ hinv (fun _ => by omega)
    · cases h; exact hinv

theorem lfind_inv_handle (x x2 : t_lfind) (m : lfind_msg) (hinv : lfind_inv x)
    (h : lfind_handle x m = some x2) : lfind_inv x2 := by
  cases m with
  | bang => cases h; exact hinv
  | anything inlet sym argv => cases h; exact hinv
  | clear =>
    cases h
    exact mess_inv_len_cur _ _ 1 (mess_inv_set_empty _ _ hinv) (fun _ => by
      have : x.maxlen ≠ 0 := by assumption
      show 1 ≤ x.maxlen
      omega)
  | attr a =>
    cases h
    cases a with
    | maxlen argv ok => exact lfind_inv_maxlen_set _ _ _ _ hinv
    | warnings b => exact hinv
  | int inlet n =>
    simp only [lfind_handle, lfind_int, Option.map_eq_some'] at h
    obtain ⟨r, hr, he⟩ := h
    rw [← he]
    exact lfind_inv_float x r.1 inlet _ r.2 hinv hr
  | float inlet f =>
    simp only [lfind_handle, Option.map_eq_some'] at h
    obtain ⟨r, hr, he⟩ := h
    rw [← he]
    exact lfind_inv_float x r.1 inlet _ r.2 hinv hr
  | list inlet argv =>
    simp only [lfind_handle, lfind_list, Option.map_eq_some'] at h
    obtain ⟨r, hr, he⟩ := h
    rw [← he]
    split at hr
    · cases hr; exact hinv
    · split at hr
      · split at hr
        · cases hr
        · exact lfind_inv_action _ _ _ _ r hinv hr
      · cases hr
        exact mess_inv_zpad _ _
          (mess_inv_set _ _ _ _ _ _ hinv (by omega) (Nat.min_le_left _ _))
      · cases hr; exact hinv

theorem lfind_inv_run (ms : List lfind_msg) :
    ∀ x x2 : t_lfind, lfind_inv x → lfind_run x ms = some x2 → lfind_inv x2 := by
  induction ms with
  | nil => intro x x2 hinv h; cases h; exact hinv
  | cons m ms ih =>
    intro x x2 hinv h
    simp only [lfind_run, Option.bind_eq_some] at h
    obtain ⟨x1, h1, h2⟩ := h
    exact ih x1 x2 (lfind_inv_handle x x1 m hinv h1) h2

theorem lfind_inv_attrs (attrs : List lfind_attr) :
    ∀ x : t_lfind, lfind_inv x → lfind_inv (attrs.foldl lfind_attr_set x) := by
  induction attrs with
  | nil => intro x h; exact h
  | cons a attrs ih =>
    intro x h
    apply ih
    cases a with
    | maxlen argv ok => exact lfind_inv_maxlen_set _ _ _ _ h
    | warnings b => exact h

theorem lfind_inv_new (attrs : List lfind_attr) (ok : Bool) (argv : List t_atom) :
    lfind_inv (lfind_new attrs ok argv) := by
  have h0 : lfind_inv ⟨mess_init ⟨0, 0, sym_null, [], 0⟩, Dbl.fin 0, 0, true⟩ :=
    mess_inv_init ⟨0, 0, sym_null, [], 0⟩
  have h1 := lfind_inv_attrs attrs _ h0
  have h2 : ∀ x1 : t_lfind, lfind_inv x1 → lfind_inv (if x1.maxlen = 0
      then (lfind_maxlen_set x1 1 [A_LONG (MAXLEN_DEF : Nat)] ok).1 else x1) := by
    intro x1 hx1
    split
    · exact lfind_inv_maxlen_set _ _ _ _ hx1
    · exact hx1
  have h3 := h2 _ h1
  unfold lfind_new
  simp only
  match argv with
  | [] => exact h3
  | [a] => exact mess_inv_fill_float _ _ _ _ h3 (fun _ => by omega)
  | a :: b :: rest =>
    exact mess_inv_set_type _ _ (mess_inv_set _ _ _ _ _ _ h3 (by omega) (le_refl _))

/-! #### Lmax and Lmin -/

theorem lext_inv_action (body : t_atom → t_atom → t_atom) (l1 l2 o o2 : t_mess_struct) (n : Nat)
    (h1 : mess_inv n l1) (h2 : mess_inv n l2) (ho : mess_inv n o) (hn : n ≠ 0)
    (h : lext_action body l1 l2 o = some o2) : mess_inv n o2 := by
  have hok : lext_ok l1 l2 o :=
    ⟨by rw [h1.2.1]; exact h1.2.2 hn, by rw [h2.2.1]; exact h2.2.2 hn,
      by rw [h1.2.1, h2.2.1], by rw [h2.2.1, ho.2.1]⟩
  obtain ⟨o3, hs, hlen, hll, _, _⟩ := lext_action_spec body l1 l2 o hok
  rw [hs] at h
  cases h
  refine ⟨?_, by rw [hll]; exact ho.2.1, ?_⟩
  · unfold lext_action at hs
    simp only [Option.map_eq_some'] at hs
    obtain ⟨out, _, he⟩ := hs
    rw [← he, mess_set_type_len_max]
    exact ho.1
  · intro _
    rw [hlen]
    split
    · exact h2.2.2 hn
    · exact h1.2.2 hn

theorem lmax_inv_maxlen_set (x : t_lmax) (argc : Nat) (argv : List t_atom) (ok1 ok2 ok3 : Bool)
    (h : lmax_inv x) : lmax_inv (lmax_maxlen_set x argc argv ok1 ok2 ok3).1 := by
  unfold lmax_maxlen_set
  split
  · exact h
  · split
    · exact h
    · rcases mess_realloc_cases x.i_list_1 (maxlen_request argv) ok1 (maxlen_request_pos argv)
        with ⟨hn1, _⟩ | ⟨hn1, _, he1⟩
      · rw [if_pos (by simp [hn1])]
        exact ⟨mess_inv_init (mess_realloc x.i_list_1 (maxlen_request argv) ok1),
          mess_inv_init (mess_realloc x.i_list_2 (maxlen_request argv) ok2),
          mess_inv_init (mess_realloc x.o_list (maxlen_request argv) ok3)⟩
      · rcases mess_realloc_cases x.i_list_2 (maxlen_request argv) ok2 (maxlen_request_pos argv)
          with ⟨hn2, _⟩ | ⟨hn2, _, he2⟩
        · rw [if_pos (by simp [hn2])]
          exact ⟨mess_inv_init (mess_realloc x.i_list_1 (maxlen_request argv) ok1),
            mess_inv_init (mess_realloc x.i_list_2 (maxlen_request argv) ok2),
            mess_inv_init (mess_realloc x.o_list (maxlen_request argv) ok3)⟩
        · rcases mess_realloc_cases x.o_list (maxlen_request argv) ok3 (maxlen_request_pos argv)
            with ⟨hn3, _⟩ | ⟨hn3, _, he3⟩
          · rw [if_pos (by simp [hn3])]
            exact ⟨mess_inv_init (mess_realloc x.i_list_1 (maxlen_request argv) ok1),
              mess_inv_init (mess_realloc x.i_list_2 (maxlen_request argv) ok2),
              mess_inv_init (mess_realloc x.o_list (maxlen_request argv) ok3)⟩
          · rw [if_neg (by simp [hn1, hn2, hn3]), he1, he2, he3]
            exact ⟨mess_inv_realloc_ok _ _, mess_inv_realloc_ok _ _, mess_inv_realloc_ok _ _⟩

theorem lmax_inv_action (x x2 : t_lmax) (hinv : lmax_inv x) (hn : x.maxlen ≠ 0)
    (h : lmax_action x = some x2) : lmax_inv x2 := by
  unfold lmax_action at h
  simp only [Option.map_eq_some'] at h
  obtain ⟨o2, ho2, he⟩ := h
  rw [← he]
  exact ⟨hinv.1, hinv.2.1, lext_inv_action _ _ _ _ o2 _ hinv.1 hinv.2.1 hinv.2.2 hn ho2⟩

theorem lmax_inv_left (x : t_lmax) (m1 : t_mess_struct)
    (r : t_lmax × Option (t_symbol × List t_atom)) (hinv : lmax_inv x) (hn : x.maxlen ≠ 0)
    (hm : mess_inv x.maxlen m1) (h : lmax_left x m1 = some r) : lmax_inv r.1 := by
  unfold lmax_left at h
  simp only [Option.map_eq_some'] at h
  obtain ⟨x2, hx2, he⟩ := h
  rw [← he]
  exact lmax_inv_action { x with i_list_1 := m1 } x2 ⟨hm, hinv.2.1, hinv.2.2⟩ hn hx2

theorem lmax_inv_right (x : t_lmax) (m2 : t_mess_struct)
    (r : t_lmax × Option (t_symbol × List t_atom)) (hinv : lmax_inv x) (hn : x.maxlen ≠ 0)
    (hm : mess_inv x.maxlen m2) (h : lmax_right x m2 = some r) : lmax_inv r.1 := by
  unfold lmax_right at h
  simp only [Option.map_eq_some'] at h
  obtain ⟨x2, hx2, he⟩ := h
  rw [← he]
  exact lmax_inv_action { x with i_list_2 := mess_zpad m2 } x2
    ⟨hinv.1, mess_inv_zpad _ _ hm, hinv.2.2⟩ hn hx2

theorem lmax_inv_handle (x x2 : t_lmax) (m : lmax_msg) (hinv : lmax_inv x)
    (h : lmax_handle x m = some x2) : lmax_inv x2 := by
  cases m with
  | bang => cases h; exact hinv
  | clear =>
    cases h
    exact ⟨mess_inv_set_empty _ _ hinv.1, mess_inv_set_empty _ _ hinv.2.1,
      mess_inv_set_empty _ _ hinv.2.2⟩
  | attr a =>
    cases h
    cases a with
    | maxlen argv ok1 ok2 ok3 => exact lmax_inv_maxlen_set _ _ _ _ _ _ hinv
    | warnings b => exact hinv
  | int inlet n =>
    simp only [lmax_handle, lmax_int, Option.map_eq_some'] at h
    obtain ⟨r, hr, he⟩ := h
    rw [← he]
    split at hr
    · cases hr; exact hinv
    · rename_i hn
      split at hr
      · exact lmax_inv_left x _ r hinv hn
          (mess_inv_set _ _ _ _ _ _ hinv.1 (by omega) (by simp)) hr
      · exact lmax_inv_right x _ r hinv hn
          (mess_inv_set _ _ _ _ _ _ hinv.2.1 (by omega) (by simp)) hr
      · cases hr; exact hinv
  | float inlet f =>
    simp only [lmax_handle, lmax_float, Option.map_eq_some'] at h
    obtain ⟨r, hr, he⟩ := h
    rw [← he]
    split at hr
    · cases hr; exact hinv
    · rename_i hn
      split at hr
      · exact lmax_inv_left x _ r hinv hn
          (mess_inv_set _ _ _ _ _ _ hinv.1 (by omega) (by simp)) hr
      · exact lmax_inv_right x _ r hinv hn
          (mess_inv_set _ _ _ _ _ _ hinv.2.1 (by omega) (by simp)) hr
      · cases hr; exact hinv
  | list inlet argv =>
    simp only [lmax_handle, lmax_list, Option.map_eq_some'] at h
    obtain ⟨r, hr, he⟩ := h
    rw [← he]
    split at hr
    · cases hr; exact hinv
    · rename_i hn
      split at hr
      · exact lmax_inv_left x _ r hinv hn
          (mess_inv_set _ _ _ _ _ _ hinv.1 (by omega) (le_refl _)) hr
      · exact lmax_inv_right x _ r hinv hn
          (mess_inv_set _ _ _ _ _ _ hinv.2.1 (by omega) (le_refl _)) hr
      · cases hr; exact hinv
  | anything inlet sym argv =>
    simp only [lmax_handle, lmax_anything, Option.map_eq_some'] at h
    obtain ⟨r, hr, he⟩ := h
    rw [← he]
    split at hr
    · cases hr; exact hinv
    · rename_i hn
      split at hr
      · exact lmax_inv_left x _ r hinv hn
          (mess_inv_set _ _ _ _ _ _ hinv.1 (by omega) (le_refl _)) hr
      · exact lmax_inv_right x _ r hinv hn
          (mess_inv_set _ _ _ _ _ _ hinv.2.1 (by omega) (le_refl _)) hr
      · cases hr; exact hinv

theorem lmax_inv_run (ms : List lmax_msg) :
    ∀ x x2 : t_lmax, lmax_inv x → lmax_run x ms = some x2 → lmax_inv x2 := by
  induction ms with
  | nil => intro x x2 hinv h; cases h; exact hinv
  | cons m ms ih =>
    intro x x2 hinv h
    simp only [lmax_run, Option.bind_eq_some] at h
    obtain ⟨x1, h1, h2⟩ := h
    exact ih x1 x2 (lmax_inv_handle x x1 m hinv h1) h2

theorem lmax_inv_attrs (attrs : List lmax_attr) :
    ∀ x : t_lmax, lmax_inv x → lmax_inv (attrs.foldl lmax_attr_set x) := by
  induction attrs with
  | nil => intro x h; exact h
  | cons a attrs ih =>
    intro x h
    apply ih
    cases a with
    | maxlen argv ok1 ok2 ok3 => exact lmax_inv_maxlen_set _ _ _ _ _ _ h
    | warnings b => exact h

theorem lmax_inv_new (attrs : List lmax_attr) (ok1 ok2 ok3 : Bool) (argv : List t_atom) :
    lmax_inv (lmax_new attrs ok1 ok2 ok3 argv) := by
  have h0 : lmax_inv ⟨mess_init ⟨0, 0, sym_null, [], 0⟩, mess_init ⟨0, 0, sym_null, [], 0⟩,
      mess_init ⟨0, 0, sym_null, [], 0⟩, 0, true⟩ :=
    ⟨mess_inv_init ⟨0, 0, sym_null, [], 0⟩, mess_inv_init ⟨0, 0, sym_null, [], 0⟩,
      mess_inv_init ⟨0, 0, sym_null, [], 0⟩⟩
  have h1 := lmax_inv_attrs attrs _ h0
  have h2 : ∀ x1 : t_lmax, lmax_inv x1 → lmax_inv (if x1.maxlen = 0
      then (lmax_maxlen_set x1 1 [A_LONG (MAXLEN_DEF : Nat)] ok1 ok2 ok3).1 else x1) := by
    intro x1 hx1
    split
    · exact lmax_inv_maxlen_set _ _ _ _ _ _ hx1
    · exact hx1
  have h3 := h2 _ h1
  unfold lmax_new
  simp only
  split
  · exact ⟨h3.1, mess_inv_set_type _ _ (mess_inv_set _ _ _ _ _ _ h3.2.1 (by omega) (le_refl _)),
      h3.2.2⟩
  · exact h3

theorem lmin_inv_maxlen_set (x : t_lmin) (argc : Nat) (argv : List t_atom) (ok1 ok2 ok3 : Bool)
    (h : lmin_inv x) : lmin_inv (lmin_maxlen_set x argc argv ok1 ok2 ok3).1 := by
  unfold lmin_maxlen_set
  split
  · exact h
  · split
    · exact h
    · rcases mess_realloc_cases x.i_list_1 (maxlen_request argv) ok1 (maxlen_request_pos argv)
        with ⟨hn1, _⟩ | ⟨hn1, _, he1⟩
      · rw [if_pos (by simp [hn1])]
        exact ⟨mess_inv_init (mess_realloc x.i_list_1 (maxlen_request argv) ok1),
          mess_inv_init (mess_realloc x.i_list_2 (maxlen_request argv) ok2),
          mess_inv_init (mess_realloc x.o_list (maxlen_request argv) ok3)⟩
      · rcases mess_realloc_cases x.i_list_2 (maxlen_request argv) ok2 (maxlen_request_pos argv)
          with ⟨hn2, _⟩ | ⟨hn2, _, he2⟩
        · rw [if_pos (by simp [hn2])]
          exact ⟨mess_inv_init (mess_realloc x.i_list_1 (maxlen_request argv) ok1),
            mess_inv_init (mess_realloc x.i_list_2 (maxlen_request argv) ok2),
            mess_inv_init (mess_realloc x.o_list (maxlen_request argv) ok3)⟩
        · rcases mess_realloc_cases x.o_list (maxlen_request argv) ok3 (maxlen_request_pos argv)
            with ⟨hn3, _⟩ | ⟨hn3, _, he3⟩
          · rw [if_pos (by simp [hn3])]
            exact ⟨mess_inv_init (mess_realloc x.i_list_1 (maxlen_request argv) ok1),
              mess_inv_init (mess_realloc x.i_list_2 (maxlen_request argv) ok2),
              mess_inv_init (mess_realloc x.o_list (maxlen_request argv) ok3)⟩
          · rw [if_neg (by simp [hn1, hn2, hn3]), he1, he2, he3]
            exact ⟨mess_inv_realloc_ok _ _, mess_inv_realloc_ok _ _, mess_inv_realloc_ok _ _⟩

theorem lmin_inv_action (x x2 : t_lmin) (hinv : lmin_inv x) (hn : x.maxlen ≠ 0)
    (h : lmin_action x = some x2) : lmin_inv x2 := by
  unfold lmin_action at h
  simp only [Option.map_eq_some'] at h
  obtain ⟨o2, ho2, he⟩ := h
  rw [← he]
  exact ⟨hinv.1, hinv.2.1, lext_inv_action _ _ _ _ o2 _ hinv.1 hinv.2.1 hinv.2.2 hn ho2⟩

theorem lmin_inv_left (x : t_lmin) (m1 : t_mess_struct)
    (r : t_lmin × Option (t_symbol × List t_atom)) (hinv : lmin_inv x) (hn : x.maxlen ≠ 0)
    (hm : mess_inv x.maxlen m1) (h : lmin_left x m1 = some r) : lmin_inv r.1 := by
  unfold lmin_left at h
  simp only [Option.map_eq_some'] at h
  obtain ⟨x2, hx2, he⟩ := h
  rw [← he]
  exact lmin_inv_action { x with i_list_1 := m1 } x2 ⟨hm, hinv.2.1, hinv.2.2⟩ hn hx2

theorem lmin_inv_right (x : t_lmin) (m2 : t_mess_struct)
    (r : t_lmin × Option (t_symbol × List t_atom)) (hinv : lmin_inv x) (hn : x.maxlen ≠ 0)
    (hm : mess_inv x.maxlen m2) (h : lmin_right x m2 = some r) : lmin_inv r.1 := by
  unfold lmin_right at h
  simp only [Option.map_eq_some'] at h
  obtain ⟨x2, hx2, he⟩ := h
  rw [← he]
  exact lmin_inv_action { x with i_list_2 := mess_zpad m2 } x2
    ⟨hinv.1, mess_inv_zpad _ _ hm, hinv.2.2⟩ hn hx2

theorem lmin_inv_handle (x x2 : t_lmin) (m : lmin_msg) (hinv : lmin_inv x)
    (h : lmin_handle x m = some x2) : lmin_inv x2 := by
  cases m with
  | bang => cases h; exact hinv
  | clear =>
    cases h
    exact ⟨mess_inv_set_empty _ _ hinv.1, mess_inv_set_empty _ _ hinv.2.1,
      mess_inv_set_empty _ _ hinv.2.2⟩
  | attr a =>
    cases h
    cases a with
    | maxlen argv ok1 ok2 ok3 => exact lmin_inv_maxlen_set _ _ _ _ _ _ hinv
    | warnings b => exact hinv
  | int inlet n =>
    simp only [lmin_handle, lmin_int, Option.map_eq_some'] at h
    obtain ⟨r, hr, he⟩ := h
    rw [← he]
    split at hr
    · cases hr; exact hinv
    · rename_i hn
      split at hr
      · exact lmin_inv_left x _ r hinv hn
          (mess_inv_set _ _ _ _ _ _ hinv.1 (by omega) (by simp)) hr
      · exact lmin_inv_right x _ r hinv hn
          (mess_inv_set _ _ _ _ _ _ hinv.2.1 (by omega) (by simp)) hr
      · cases hr; exact hinv
  | float inlet f =>
    simp only [lmin_handle, lmin_float, Option.map_eq_some'] at h
    obtain ⟨r, hr, he⟩ := h
    rw [← he]
    split at hr
    · cases hr; exact hinv
    · rename_i hn
      split at hr
      · exact lmin_inv_left x _ r hinv hn
          (mess_inv_set _ _ _ _ _ _ hinv.1 (by omega) (by simp)) hr
      · exact lmin_inv_right x _ r hinv hn
          (mess_inv_set _ _ _ _ _ _ hinv.2.1 (by omega) (by simp)) hr
      · cases hr; exact hinv
  | list inlet argv =>
    simp only [lmin_handle, lmin_list, Option.map_eq_some'] at h
    obtain ⟨r, hr, he⟩ := h
    rw [← he]
    split at hr
    · cases hr; exact hinv
    · rename_i hn
      split at hr
      · exact lmin_inv_left x _ r hinv hn
          (mess_inv_set _ _ _ _ _ _ hinv.1 (by omega) (le_refl _)) hr
      · exact lmin_inv_right x _ r hinv hn
          (mess_inv_set _ _ _ _ _ _ hinv.2.1 (by omega) (le_refl _)) hr
      · cases hr; exact hinv
  | anything inlet sym argv =>
    simp only [lmin_handle, lmin_anything, Option.map_eq_some'] at h
    obtain ⟨r, hr, he⟩ := h
    rw [← he]
    split at hr
    · cases hr; exact hinv
    · rename_i hn
      split at hr
      · exact lmin_inv_left x _ r hinv hn
          (mess_inv_set _ _ _ _ _ _ hinv.1 (by omega) (le_refl _)) hr
      · exact lmin_inv_right x _ r hinv hn
          (mess_inv_set _ _ _ _ _ _ hinv.2.1 (by omega) (le_refl _)) hr
      · cases hr; exact hinv

theorem lmin_inv_run (ms : List lmin_msg) :
    ∀ x x2 : t_lmin, lmin_inv x → lmin_run x ms = some x2 → lmin_inv x2 := by
  induction ms with
  | nil => intro x x2 hinv h; cases h; exact hinv
  | cons m ms ih =>
    intro x x2 hinv h
    simp only [lmin_run, Option.bind_eq_some] at h
    obtain ⟨x1, h1, h2⟩ := h
    exact ih x1 x2 (lmin_inv_handle x x1 m hinv h1) h2

theorem lmin_inv_attrs (attrs : List lmin_attr) :
    ∀ x : t_lmin, lmin_inv x → lmin_inv (attrs.foldl lmin_attr_set x) := by
  induction attrs with
  | nil => intro x h; exact h
  | cons a attrs ih =>
    intro x h
    apply ih
    cases a with
    | maxlen argv ok1 ok2 ok3 => exact lmin_inv_maxlen_set _ _ _ _ _ _ h
    | warnings b => exact h

theorem lmin_inv_new (attrs : List lmin_attr) (ok1 ok2 ok3 : Bool) (argv : List t_atom) :
    lmin_inv (lmin_new attrs ok1 ok2 ok3 argv) := by
  have h0 : lmin_inv ⟨mess_init ⟨0, 0, sym_null, [], 0⟩, mess_init ⟨0, 0, sym_null, [], 0⟩,
      mess_init ⟨0, 0, sym_null, [], 0⟩, 0, true⟩ :=
    ⟨mess_inv_init ⟨0, 0, sym_null, [], 0⟩, mess_inv_init ⟨0, 0, sym_null, [], 0⟩,
      mess_inv_init ⟨0, 0, sym_null, [], 0⟩⟩
  have h1 := lmin_inv_attrs attrs _ h0
  have h2 : ∀ x1 : t_lmin, lmin_inv x1 → lmin_inv (if x1.maxlen = 0
      then (lmin_maxlen_set x1 1 [A_LONG (MAXLEN_DEF : Nat)] ok1 ok2 ok3).1 else x1) := by
    intro x1 hx1
    split
    · exact lmin_inv_maxlen_set _ _ _ _ _ _ hx1
    · exact hx1
  have h3 := h2 _ h1
  unfold lmin_new
  simp only
  split
  · exact ⟨h3.1, mess_inv_set_type _ _ (mess_inv_set _ _ _ _ _ _ h3.2.1 (by omega) (le_refl _)),
      h3.2.2⟩
  · exact h3

/-! #### Lpad -/

theorem lpad_written_length_eq (x : t_lpad) (sym : t_symbol) (argc : Nat) (argv : List t_atom)
    (offset : Nat) : (lpad_written x sym argc argv offset).length = x.maxlen := by
  unfold lpad_written
  simp only [List.length_append, List.length_replicate, List.length_take]
  split
  · simp only [List.length_append, List.length_replicate, List.length_singleton]
    omega
  · simp only [List.length_replicate]
    omega

theorem lpad_clamp_le (x : t_lpad) (n : Int) : lpad_clamp x n ≤ x.maxlen := by
  have h := CLAMP_zero_bounds n x.maxlen
  unfold lpad_clamp
  omega

theorem lpad_inv_action (x : t_lpad) (sym : t_symbol) (argc : Nat) (argv : List t_atom)
    (offset : Nat) (h : lpad_inv x) : lpad_inv (lpad_action x sym argc argv offset) := by
  obtain ⟨h1, h2, h3⟩ := h
  unfold lpad_action lpad_inv
  apply mess_inv_set_type
  refine ⟨h1, ?_, h3⟩
  simp only [List.length_append, List.length_drop, lpad_written_length_eq]
  omega

theorem lpad_inv_maxlen_set (x : t_lpad) (argc : Nat) (argv : List t_atom) (ok : Bool)
    (h : lpad_inv x) : lpad_inv (lpad_maxlen_set x argc argv ok).1 := by
  unfold lpad_maxlen_set
  split
  · exact h
  · split
    · exact h
    · rcases mess_realloc_cases x.o_list (maxlen_request argv) ok (maxlen_request_pos argv)
        with ⟨hn, _⟩ | ⟨hn, _, he⟩
      · rw [if_pos hn]
        exact mess_inv_init (mess_realloc x.o_list (maxlen_request argv) ok)
      · rw [if_neg (by simp [hn]), he]
        apply lpad_inv_action
        exact mess_inv_len_cur _ _ _ (mess_inv_realloc_ok _ _) (fun _ => le_refl _)

theorem lpad_inv_handle (x : t_lpad) (m : lpad_msg) (hinv : lpad_inv x) :
    lpad_inv (lpad_handle x m) := by
  cases m with
  | bang => exact hinv
  | clear => exact mess_inv_fill_int _ _ _ _ hinv hinv.2.2
  | reset => exact mess_inv_fill_atom _ _ _ _ hinv hinv.2.2
  | attr a =>
    cases a with
    | maxlen argv ok => exact lpad_inv_maxlen_set _ _ _ _ hinv
    | warnings b => exact hinv
  | int inlet n =>
    simp only [lpad_handle, lpad_int]
    split
    · split
      · exact hinv
      · exact lpad_inv_action _ _ _ _ _ hinv
    · exact hinv
    · exact hinv
    · exact mess_inv_len_cur _ _ _ hinv (fun _ => lpad_clamp_le x _)
    · exact hinv
  | float inlet f =>
    simp only [lpad_handle, lpad_float]
    split
    · split
      · exact hinv
      · exact lpad_inv_action _ _ _ _ _ hinv
    · exact hinv
    · exact hinv
    · exact mess_inv_len_cur _ _ _ hinv (fun _ => lpad_clamp_le x _)
    · exact hinv
  | list inlet argv =>
    simp only [lpad_handle, lpad_list]
    split
    · split
      · exact hinv
      · exact lpad_inv_action _ _ _ _ _ hinv
    · exact hinv
  | anything inlet sym argv =>
    simp only [lpad_handle, lpad_anything]
    split
    · split
      · exact hinv
      · exact lpad_inv_action _ _ _ _ _ hinv
    · exact hinv
    · exact hinv

theorem lpad_inv_run (ms : List lpad_msg) :
    ∀ x : t_lpad, lpad_inv x → lpad_inv (lpad_run x ms) := by
  induction ms with
  | nil => intro x hinv; exact hinv
  | cons m ms ih =>
    intro x hinv
    exact ih _ (lpad_inv_handle x m hinv)

theorem lpad_inv_attrs (attrs : List lpad_attr) :
    ∀ x : t_lpad, lpad_inv x → lpad_inv (attrs.foldl lpad_attr_set x) := by
  induction attrs with
  | nil => intro x h; exact h
  | cons a attrs ih =>
    intro x h
    apply ih
    cases a with
    | maxlen argv ok => exact lpad_inv_maxlen_set _ _ _ _ h
    | warnings b => exact h

theorem lpad_inv_new (attrs : List lpad_attr) (ok : Bool) (argv : List t_atom) :
    lpad_inv (lpad_new attrs ok argv) := by
  have h0 : lpad_inv ⟨0, A_LONG 0, mess_init ⟨0, 0, sym_null, [], 0⟩, 0, true⟩ :=
    mess_inv_init ⟨0, 0, sym_null, [], 0⟩
  have h1 := lpad_inv_attrs attrs _ h0
  have h2 : ∀ x1 : t_lpad, lpad_inv x1 → lpad_inv (if x1.maxlen = 0
      then (lpad_maxlen_set x1 1 [A_LONG (MAXLEN_DEF : Nat)] ok).1 else x1) := by
    intro x1 hx1
    split
    · exact lpad_inv_maxlen_set _ _ _ _ hx1
    · exact hx1
  have h3 := h2 _ h1
  have h4 : ∀ x2 : t_lpad, lpad_inv x2 → lpad_inv (lpad_defaults x2) := fun x2 hx2 =>
    mess_inv_len_cur _ _ _ hx2 (fun _ => le_refl _)
  have h5 := h4 _ h3
  unfold lpad_new
  simp only
  apply lpad_inv_action
  split
  · exact h5
  · exact mess_inv_len_cur _ _ _ h5 (fun _ => lpad_clamp_le _ _)
  · exact mess_inv_len_cur _ _ _ h5 (fun _ => lpad_clamp_le _ _)
  · exact mess_inv_len_cur _ _ _ h5 (fun _ => lpad_clamp_le _ _)

/-! #### Ltoset -/

theorem ltoset_clamp_le (x : t_ltoset) (n : Int) (hn : x.maxlen ≠ 0) :
    ltoset_clamp x n ≤ x.maxlen := by
  have h := CLAMP_one_bounds n x.maxlen
  have h2 := h.2 hn
  unfold ltoset_clamp
  omega

theorem ltoset_inv_action (x : t_ltoset) (argc : Nat) (argv : List t_atom)
    (h : ltoset_inv x) : ltoset_inv (ltoset_action x argc argv) := by
  have hf := mess_inv_fill_int _ _ 0 x.o_list.len_cur h h.2.2
  obtain ⟨h1, h2, h3⟩ := hf
  unfold ltoset_action ltoset_inv
  apply mess_inv_set_type
  exact ⟨h1, by simp only [ltoset_fold_length]; exact h2, h3⟩

theorem ltoset_inv_defaults (x : t_ltoset) (h : ltoset_inv x) :
    ltoset_inv (ltoset_defaults x) :=
  mess_inv_len_cur _ _ _ h (fun _ => Nat.min_le_right 12 x.maxlen)

theorem ltoset_inv_maxlen_set (x : t_ltoset) (argc : Nat) (argv : List t_atom) (ok : Bool)
    (h : ltoset_inv x) : ltoset_inv (ltoset_maxlen_set x argc argv ok).1 := by
  unfold ltoset_maxlen_set
  split
  · exact h
  · split
    · exact h
    · rcases mess_realloc_cases x.o_list (maxlen_request argv) ok (maxlen_request_pos argv)
        with ⟨hn, _⟩ | ⟨hn, _, he⟩
      · rw [if_pos hn]
        exact mess_inv_init (mess_realloc x.o_list (maxlen_request argv) ok)
      · rw [if_neg (by simp [hn]), he]
        apply ltoset_inv_defaults
        exact mess_inv_realloc_ok _ _

theorem ltoset_inv_handle (x : t_ltoset) (m : ltoset_msg) (hinv : ltoset_inv x) :
    ltoset_inv (ltoset_handle x m) := by
  cases m with
  | bang => exact hinv
  | clear => exact mess_inv_fill_int _ _ _ _ hinv hinv.2.2
  | in1 value => exact hinv
  | in2 length => exact mess_inv_len_cur _ _ _ hinv (fun hn => ltoset_clamp_le x _ hn)
  | attr a =>
    cases a with
    | maxlen argv ok => exact ltoset_inv_maxlen_set _ _ _ _ hinv
    | warnings b => exact hinv
  | int n =>
    simp only [ltoset_handle, ltoset_int]
    split
    · exact hinv
    · exact ltoset_inv_action _ _ _ hinv
  | float f =>
    simp only [ltoset_handle, ltoset_float, ltoset_int]
    split
    · exact hinv
    · exact ltoset_inv_action _ _ _ hinv
  | list argv =>
    simp only [ltoset_handle, ltoset_list]
    split
    · exact hinv
    · exact ltoset_inv_action _ _ _ hinv
  | anything sym argv =>
    simp only [ltoset_handle, ltoset_anything]
    split
    · exact hinv
    · exact ltoset_inv_action _ _ _ hinv

theorem ltoset_inv_run (ms : List ltoset_msg) :
    ∀ x : t_ltoset, ltoset_inv x → ltoset_inv (ltoset_run x ms) := by
  induction ms with
  | nil => intro x hinv; exact hinv
  | cons m ms ih =>
    intro x hinv
    exact ih _ (ltoset_inv_handle x m hinv)

theorem ltoset_inv_attrs (attrs : List ltoset_attr) :
    ∀ x : t_ltoset, ltoset_inv x → ltoset_inv (attrs.foldl ltoset_attr_set x) := by
  induction attrs with
  | nil => intro x h; exact h
  | cons a attrs ih =>
    intro x h
    apply ih
    cases a with
    | maxlen argv ok => exact ltoset_inv_maxlen_set _ _ _ _ h
    | warnings b => exact h

theorem ltoset_inv_new (attrs : List ltoset_attr) (ok : Bool) (argv : List t_atom) :
    ltoset_inv (ltoset_new attrs ok argv) := by
  have h0 : ltoset_inv ⟨0, mess_init ⟨0, 0, sym_null, [], 0⟩, 0, true⟩ :=
    mess_inv_init ⟨0, 0, sym_null, [], 0⟩
  have h1 := ltoset_inv_attrs attrs _ h0
  have h2 : ∀ x1 : t_ltoset, ltoset_inv x1 → ltoset_inv (if x1.maxlen = 0
      then (ltoset_maxlen_set x1 1 [A_LONG (MAXLEN_DEF : Nat)] ok).1 else x1) := by
    intro x1 hx1
    split
    · exact ltoset_inv_maxlen_set _ _ _ _ hx1
    · exact hx1
  have h5 := ltoset_inv_defaults _ (h2 _ h1)
  have h6 : ∀ x3 : t_ltoset, ltoset_inv x3 → ltoset_inv (match argv with
      | a :: _ =>
        if is_number a then
          { x3 with
            o_list :=
              { x3.o_list with len_cur := ltoset_clamp x3 (to_mess_int (atom_getlong a)) } }
        else x3
      | [] => x3) := by
    intro x3 hx3
    split
    · split
      · exact mess_inv_len_cur _ _ _ hx3 (fun hn => ltoset_clamp_le x3 _ hn)
      · exact hx3
    · exact hx3
  have h7 := h6 _ h5
  unfold ltoset_new
  simp only
  split
  · split
    · exact h7
    · exact h7
  · exact h7

theorem mess_inv_bound (n : Nat) (m : t_mess_struct) (h : mess_inv n m)
    (hnn : MESS_IS_NULL m = false) : m.len_cur ≤ m.len_max ∧ m.list.length = m.len_max := by
  have hnull := mess_inv_null_iff n m h
  rw [hnn] at hnull
  have hn : n ≠ 0 := by
    intro h0
    simp [h0] at hnull
  obtain ⟨h1, h2, h3⟩ := h
  rw [h1, h2]
  exact ⟨h3 hn, rfl⟩

/-- The capacity invariant of C17 on allocated lists: in every state an object
reaches from its creation
through any sequence of messages and attribute settings (whatever the outcome
of each allocation), every message structure that is allocated (not Null)
has its length within its capacity, `len_cur ≤ len_max`, and an array of
`len_max` atoms. This holds for the stored list of Lchange and of Lfind, the
two inputs and the output of Lmax and Lmin, and the output of Lpad and of
Ltoset. The lengths stored by the setters of Lpad and Ltoset are never
negative before they are stored. -/
theorem capacity_invariant_allocated :
    (∀ attrs ok argv msgs s, lchange_run (lchange_new attrs ok argv) msgs = some s →
        MESS_IS_NULL s.i_list_2 = false →
        s.i_list_2.len_cur ≤ s.i_list_2.len_max ∧ s.i_list_2.list.length = s.i_list_2.len_max)
    ∧ (∀ attrs ok argv msgs s, lfind_run (lfind_new attrs ok argv) msgs = some s →
        MESS_IS_NULL s.i_list_2 = false →
        s.i_list_2.len_cur ≤ s.i_list_2.len_max ∧ s.i_list_2.list.length = s.i_list_2.len_max)
    ∧ (∀ attrs ok1 ok2 ok3 argv msgs s,
        lmax_run (lmax_new attrs ok1 ok2 ok3 argv) msgs = some s →
        (MESS_IS_NULL s.i_list_1 = false →
          s.i_list_1.len_cur ≤ s.i_list_1.len_max ∧ s.i_list_1.list.length = s.i_list_1.len_max)
        ∧ (MESS_IS_NULL s.i_list_2 = false →
          s.i_list_2.len_cur ≤ s.i_list_2.len_max ∧ s.i_list_2.list.length = s.i_list_2.len_max)
        ∧ (MESS_IS_NULL s.o_list = false →
          s.o_list.len_cur ≤ s.o_list.len_max ∧ s.o_list.list.length = s.o_list.len_max))
    ∧ (∀ attrs ok1 ok2 ok3 argv msgs s,
        lmin_run (lmin_new attrs ok1 ok2 ok3 argv) msgs = some s →
        (MESS_IS_NULL s.i_list_1 = false →
          s.i_list_1.len_cur ≤ s.i_list_1.len_max ∧ s.i_list_1.list.length = s.i_list_1.len_max)
        ∧ (MESS_IS_NULL s.i_list_2 = false →
          s.i_list_2.len_cur ≤ s.i_list_2.len_max ∧ s.i_list_2.list.length = s.i_list_2.len_max)
        ∧ (MESS_IS_NULL s.o_list = false →
          s.o_list.len_cur ≤ s.o_list.len_max ∧ s.o_list.list.length = s.o_list.len_max))
    ∧ (∀ attrs ok argv msgs,
        MESS_IS_NULL (lpad_run (lpad_new attrs ok argv) msgs).o_list = false →
        (lpad_run (lpad_new attrs ok argv) msgs).o_list.len_cur
            ≤ (lpad_run (lpad_new attrs ok argv) msgs).o_list.len_max
          ∧ (lpad_run (lpad_new attrs ok argv) msgs).o_list.list.length
            = (lpad_run (lpad_new attrs ok argv) msgs).o_list.len_max)
    ∧ (∀ attrs ok argv msgs,
        MESS_IS_NULL (ltoset_run (ltoset_new attrs ok argv) msgs).o_list = false →
        (ltoset_run (ltoset_new attrs ok argv) msgs).o_list.len_cur
            ≤ (ltoset_run (ltoset_new attrs ok argv) msgs).o_list.len_max
          ∧ (ltoset_run (ltoset_new attrs ok argv) msgs).o_list.list.length
            = (ltoset_run (ltoset_new attrs ok argv) msgs).o_list.len_max)
    ∧ (∀ (x : t_lpad) (n : Int), 0 ≤ CLAMP n 0 (x.maxlen : Int))
    ∧ (∀ (x : t_ltoset) (n : Int), 0 ≤ CLAMP n 1 (x.maxlen : Int)) := by
  refine ⟨?_, ?_, ?_, ?_, ?_, ?_, ?_, ?_⟩
  · intro attrs ok argv msgs s h hnn
    exact mess_inv_bound _ _ (lchange_inv_run msgs _ s (lchange_inv_new attrs ok argv) h) hnn
  · intro attrs ok argv msgs s h hnn
    exact mess_inv_bound _ _ (lfind_inv_run msgs _ s (lfind_inv_new attrs ok argv) h) hnn
  · intro attrs ok1 ok2 ok3 argv msgs s h
    have hi := lmax_inv_run msgs _ s (lmax_inv_new attrs ok1 ok2 ok3 argv) h
    exact ⟨mess_inv_bound _ _ hi.1, mess_inv_bound _ _ hi.2.1, mess_inv_bound _ _ hi.2.2⟩
  · intro attrs ok1 ok2 ok3 argv msgs s h
    have hi := lmin_inv_run msgs _ s (lmin_inv_new attrs ok1 ok2 ok3 argv) h
    exact ⟨mess_inv_bound _ _ hi.1, mess_inv_bound _ _ hi.2.1, mess_inv_bound _ _ hi.2.2⟩
  · intro attrs ok argv msgs hnn
    exact mess_inv_bound _ _ (lpad_inv_run msgs _ (lpad_inv_new attrs ok argv)) hnn
  · intro attrs ok argv msgs hnn
    exact mess_inv_bound _ _ (ltoset_inv_run msgs _ (ltoset_inv_new attrs ok argv)) hnn
  · intro x n
    exact (CLAMP_zero_bounds n x.maxlen).1
  · intro x n
    exact (CLAMP_one_bounds n x.maxlen).1

/-- The capacity invariant on the stored list of an Lfind object with four
slots after the list `10 20 30` on the right inlet: allocated, with length 3
within capacity 4. -/
theorem capacity_invariant_allocated_witness :
    lfind_run (lfind_new [lfind_attr.maxlen [A_LONG 4] true] true [])
        [lfind_msg.list 1 [A_LONG 10, A_LONG 20, A_LONG 30]]
      = some ⟨⟨3, 4, sym_list, [A_LONG 10, A_LONG 20, A_LONG 30, A_LONG 0], 0⟩,
          Dbl.fin 0, 4, true⟩
    ∧ MESS_IS_NULL ⟨3, 4, sym_list, [A_LONG 10, A_LONG 20, A_LONG 30, A_LONG 0], 0⟩ = false
    ∧ (3 : Nat) ≤ 4
    ∧ [A_LONG 10, A_LONG 20, A_LONG 30, A_LONG 0].length = 4 :=
  ⟨by decide, by decide,
    capacity_invariant_allocated.2.1 [lfind_attr.maxlen [A_LONG 4] true] true []
      [lfind_msg.list 1 [A_LONG 10, A_LONG 20, A_LONG 30]]
      ⟨⟨3, 4, sym_list, [A_LONG 10, A_LONG 20, A_LONG 30, A_LONG 0], 0⟩, Dbl.fin 0, 4, true⟩
      (by decide) (by decide)⟩

/-- C17 (the code on the failing input): an Lfind object is created with four
slots (the allocation succeeds), then a capacity request whose allocation
fails leaves its list Null with capacity 0, then `clear`, which `lfind_clear`
does not guard with `ASSERT_ALLOC`, stores length 1: the length exceeds the
capacity. -/
theorem capacity_invariant_null_exceeds :
    lfind_run (lfind_new [lfind_attr.maxlen [A_LONG 4] true] true [])
        [lfind_msg.attr (lfind_attr.maxlen [A_LONG 10] false), lfind_msg.clear]
      = some ⟨⟨1, 0, sym_empty, [], 0⟩, Dbl.fin 0, 0, true⟩
    ∧ ¬ ((1 : Nat) ≤ 0) := by
  constructor
  · decide
  · decide

/-! ### The container (`Lobjects.c`) -/

theorem ATOMS_COPY_window (dest src : List t_atom) (pos cnt : Nat)
    (h1 : pos ≤ dest.length) (h2 : cnt ≤ src.length) :
    ((ATOMS_COPY dest pos src cnt).drop pos).take cnt = src.take cnt := by
  unfold ATOMS_COPY
  have hp : (dest.take pos).length = pos := by
    rw [List.length_take]
    omega
  have hc : (src.take cnt).length = cnt := by
    rw [List.length_take]
    omega
  rw [List.append_assoc, List.drop_append_of_le_length (by omega),
    List.drop_eq_nil_of_le (by omega), List.nil_append,
    List.take_append_of_le_length (by omega), List.take_of_length_le (by omega)]

/-- C15: `mess_set` on an allocated structure of capacity `len_max`, with an
offset `offset` of 0 or 1 and `argc` values: the length becomes
`min (offset + argc) len_max`; the slots from `offset` up to the length hold
the first values of the input in order, unchanged, so the stored values are a
prefix of the input; with offset 1, slot 0 holds the symbol; the symbol and
the offset are recorded; the capacity and the number of slots do not change. -/
theorem mess_set_contract (mess : t_mess_struct) (sym : t_symbol) (argc : Nat)
    (argv : List t_atom) (offset : Nat)
    (hnn : MESS_IS_NULL mess = false) (hlen : mess.list.length = mess.len_max)
    (ho : offset ≤ 1) (hargc : argc ≤ argv.length) :
    (mess_set mess sym argc argv offset).len_cur = min (offset + argc) mess.len_max
    ∧ (mess_set mess sym argc argv offset).len_cur - offset ≤ argc
    ∧ (∀ j, offset ≤ j → j < (mess_set mess sym argc argv offset).len_cur →
        (mess_set mess sym argc argv offset).list[j]? = argv[j - offset]?
        ∧ j - offset < argv.length)
    ∧ ((mess_set mess sym argc argv offset).list.drop offset).take
          ((mess_set mess sym argc argv offset).len_cur - offset)
        = argv.take ((mess_set mess sym argc argv offset).len_cur - offset)
    ∧ (offset = 1 → (mess_set mess sym argc argv offset).list[0]? = some (A_SYM sym)
        ∧ (mess_set mess sym argc argv offset).offset = 1)
    ∧ (mess_set mess sym argc argv offset).sym = sym
    ∧ (mess_set mess sym argc argv offset).offset = offset
    ∧ (mess_set mess sym argc argv offset).len_max = mess.len_max
    ∧ (mess_set mess sym argc argv offset).list.length = mess.len_max := by
  have hpos : 1 ≤ mess.len_max := by
    unfold MESS_IS_NULL at hnn
    simp only [Bool.or_eq_false_iff, beq_eq_false_iff_ne] at hnn
    omega
  obtain ⟨c, hc, hcle⟩ : ∃ c : Nat, (if (argc : Int) > (mess.len_max : Int) - (offset : Int)
      then mess.len_max - offset else argc) = c ∧ c = min argc (mess.len_max - offset) := by
    refine ⟨_, rfl, ?_⟩
    split <;> omega
  have hset : mess_set mess sym argc argv offset
      = { mess with len_cur := c + offset, sym := sym, offset := offset,
                    list := ATOMS_COPY (mess.list.set 0 (A_SYM sym)) offset argv c } := by
    unfold mess_set
    rw [if_neg (by simp [hnn])]
    simp only [hc]
  have hl0 : (mess.list.set 0 (A_SYM sym)).length = mess.len_max := by
    rw [List.length_set, hlen]
  have hwin := ATOMS_COPY_window (mess.list.set 0 (A_SYM sym)) argv offset c
    (by omega) (by omega)
  have hcopy := ATOMS_COPY_length (mess.list.set 0 (A_SYM sym)) offset argv c
    (by omega) (by omega)
  rw [hset]
  simp only [Nat.add_sub_cancel]
  refine ⟨by omega, by omega, ?_, hwin, ?_, trivial, trivial, trivial, by rw [hcopy, hl0]⟩
  · intro j hj1 hj2
    refine ⟨?_, by omega⟩
    have h1 : (ATOMS_COPY (mess.list.set 0 (A_SYM sym)) offset argv c)[j]?
        = (((ATOMS_COPY (mess.list.set 0 (A_SYM sym)) offset argv c).drop offset).take c)[
            j - offset]? := by
      rw [List.getElem?_take_of_lt (by omega), List.getElem?_drop]
      congr 1
      omega
    rw [h1, hwin, List.getElem?_take_of_lt (by omega)]
  · intro ho1
    subst ho1
    refine ⟨?_, rfl⟩
    unfold ATOMS_COPY
    rw [List.append_assoc, List.getElem?_append_left (by rw [List.length_take]; omega),
      List.getElem?_take_of_lt (by omega), List.getElem?_set_self (by omega)]

/-- C15 on a structure of three slots: the message `foo 7 8 9` keeps the symbol
and the two values that fit, in order. -/
theorem mess_set_contract_witness :
    (mess_set (mess_realloc_ok (mess_init ⟨0, 0, sym_null, [], 0⟩) 3) "foo" 3
        [A_LONG 7, A_LONG 8, A_LONG 9] 1).len_cur = min (1 + 3) 3
    ∧ (mess_set (mess_realloc_ok (mess_init ⟨0, 0, sym_null, [], 0⟩) 3) "foo" 3
        [A_LONG 7, A_LONG 8, A_LONG 9] 1).list = [A_SYM "foo", A_LONG 7, A_LONG 8] :=
  ⟨(mess_set_contract (mess_realloc_ok (mess_init ⟨0, 0, sym_null, [], 0⟩) 3) "foo" 3
      [A_LONG 7, A_LONG 8, A_LONG 9] 1 (by decide) (by decide) (by decide) (by decide)).1,
    by decide⟩

/-- C16: the decision table of `mess_set_type`, for every structure. One
that is Null gets the symbol `null` and offset 0, and stays Null. Otherwise:
length 0 gives `empty` with offset 0; length 1 with an int in slot 0 gives
`int`, with a float `float`, both with offset 0; a length above 1 with a
number in slot 0 gives `list` with offset 0; a length of at least 1 with a
symbol `s` in slot 0 gives `s` with offset 1. The length, the capacity and
every slot are unchanged. -/
theorem mess_set_type_table (m : t_mess_struct) :
    (mess_set_type m).len_cur = m.len_cur
    ∧ (mess_set_type m).len_max = m.len_max
    ∧ (mess_set_type m).list = m.list
    ∧ MESS_IS_NULL (mess_set_type m) = MESS_IS_NULL m
    ∧ (MESS_IS_NULL m = true →
        (mess_set_type m).sym = sym_null ∧ (mess_set_type m).offset = 0)
    ∧ (MESS_IS_NULL m = false →
        (m.len_cur = 0 →
          (mess_set_type m).sym = sym_empty ∧ (mess_set_type m).offset = 0)
        ∧ (∀ n, m.len_cur = 1 → m.list.head? = some (A_LONG n) →
          (mess_set_type m).sym = sym_int ∧ (mess_set_type m).offset = 0)
        ∧ (∀ f, m.len_cur = 1 → m.list.head? = some (A_FLOAT f) →
          (mess_set_type m).sym = sym_float ∧ (mess_set_type m).offset = 0)
        ∧ (∀ a, 1 < m.len_cur → m.list.head? = some a → is_number a = true →
          (mess_set_type m).sym = sym_list ∧ (mess_set_type m).offset = 0)
        ∧ (∀ s, 1 ≤ m.len_cur → m.list.head? = some (A_SYM s) →
          (mess_set_type m).sym = s ∧ (mess_set_type m).offset = 1)) := by
  refine ⟨mess_set_type_len_cur m, mess_set_type_len_max m, mess_set_type_list m, ?_, ?_, ?_⟩
  · unfold MESS_IS_NULL
    rw [mess_set_type_len_max, mess_set_type_list]
  · intro hn
    unfold mess_set_type
    rw [if_pos hn]
    exact ⟨rfl, rfl⟩
  · intro hn
    obtain ⟨len_cur, len_max, sym, list, offset⟩ := m
    have hnn : ¬ (MESS_IS_NULL ⟨len_cur, len_max, sym, list, offset⟩ = true) := by simp [hn]
    unfold mess_set_type
    rw [if_neg hnn]
    simp only
    refine ⟨?_, ?_, ?_, ?_, ?_⟩
    · intro h0
      subst h0
      generalize list.head? = hd
      cases hd with
      | none => exact ⟨rfl, rfl⟩
      | some a => cases a <;> exact ⟨rfl, rfl⟩
    · intro n h1 hh
      subst h1
      rw [hh]
      exact ⟨rfl, rfl⟩
    · intro f h1 hh
      subst h1
      rw [hh]
      exact ⟨rfl, rfl⟩
    · intro a h1 hh ha
      rw [hh]
      match len_cur, h1, a, ha with
      | k + 2, _, A_LONG _, _ => exact ⟨rfl, rfl⟩
      | k + 2, _, A_FLOAT _, _ => exact ⟨rfl, rfl⟩
    · intro s h1 hh
      rw [hh]
      match len_cur, h1 with
      | 1, _ => exact ⟨rfl, rfl⟩
      | k + 2, _ => exact ⟨rfl, rfl⟩

/-- C16 on two structures of two slots, one holding the single symbol `foo`
and one holding the numbers `1 2.5`. -/
theorem mess_set_type_table_witness :
    ((mess_set_type ⟨1, 2, sym_empty, [A_SYM "foo", A_LONG 0], 0⟩).sym = "foo"
      ∧ (mess_set_type ⟨1, 2, sym_empty, [A_SYM "foo", A_LONG 0], 0⟩).offset = 1)
    ∧ (mess_set_type ⟨2, 2, sym_empty, [A_LONG 1, A_FLOAT (Dbl.fin (5 / 2))], 0⟩).sym
        = sym_list :=
  ⟨(mess_set_type_table ⟨1, 2, sym_empty, [A_SYM "foo", A_LONG 0], 0⟩).2.2.2.2.2 (by decide)
      |>.2.2.2.2 "foo" (by decide) rfl,
    by decide⟩

/-- C18, what the code does on a Null structure (as `mess_init` or a failed
allocation leaves it): `mess_set`, `mess_set_type` and `mess_zpad` change
nothing, but `mess_set_empty` replaces the symbol `null` by `empty`, and the
four `mess_fill` functions store the length they are given (and a symbol
other than `null` for `mess_fill_int`). `lchange_clear` reaches
`mess_set_empty` on the Null list of an object whose allocation failed, and
`lfind_new` with one argument reaches `mess_fill_float` on it, which stores
length 1 in a structure of capacity 0. -/
theorem mess_null_latch_broken (v : Int) (f : Dbl) (s : t_symbol) (a : t_atom) (len : Nat) :
    MESS_IS_NULL (mess_init ⟨0, 0, sym_null, [], 0⟩) = true
    ∧ (∀ m sym argc argv offset, MESS_IS_NULL m = true → mess_set m sym argc argv offset = m)
    ∧ mess_set_type (mess_init ⟨0, 0, sym_null, [], 0⟩) = mess_init ⟨0, 0, sym_null, [], 0⟩
    ∧ mess_zpad (mess_init ⟨0, 0, sym_null, [], 0⟩) = mess_init ⟨0, 0, sym_null, [], 0⟩
    ∧ mess_set_empty (mess_init ⟨0, 0, sym_null, [], 0⟩) = ⟨0, 0, sym_empty, [], 0⟩
    ∧ mess_set_empty (mess_init ⟨0, 0, sym_null, [], 0⟩) ≠ mess_init ⟨0, 0, sym_null, [], 0⟩
    ∧ (mess_fill_int (mess_init ⟨0, 0, sym_null, [], 0⟩) v len).len_cur = len
    ∧ (mess_fill_int (mess_init ⟨0, 0, sym_null, [], 0⟩) v len).sym ≠ sym_null
    ∧ (mess_fill_float (mess_init ⟨0, 0, sym_null, [], 0⟩) f len).len_cur = len
    ∧ (mess_fill_sym (mess_init ⟨0, 0, sym_null, [], 0⟩) s len).len_cur = len
    ∧ (mess_fill_atom (mess_init ⟨0, 0, sym_null, [], 0⟩) a len).len_cur = len
    ∧ (lchange_new [] false []).i_list_2 = ⟨0, 0, sym_null, [], 0⟩
    ∧ (lchange_clear (lchange_new [] false [])).i_list_2 = ⟨0, 0, sym_empty, [], 0⟩
    ∧ (lfind_new [] false [A_LONG 3]).i_list_2 = ⟨1, 0, sym_float, [], 0⟩ := by
  refine ⟨by decide, ?_, by decide, by decide, by decide, by decide, rfl, ?_, rfl, rfl, ?_,
    by decide, by decide, by decide⟩
  · intro m sym argc argv offset h
    unfold mess_set
    rw [if_pos h]
  · unfold mess_fill_int
    simp only
    split <;> decide
  · unfold mess_fill_atom
    rw [mess_set_type_len_cur]

/-! ### Capacity requests (`lchange_maxlen_set`) -/

theorem lchange_maxlen_set_fresh (x : t_lchange) (argv : List t_atom) (hargv : argv ≠ [])
    (hne : maxlen_request argv ≠ x.maxlen) :
    lchange_maxlen_set x argv.length argv true
      = ({ x with
            i_list_2 := ⟨0, maxlen_request argv, sym_empty,
              List.replicate (maxlen_request argv) (A_LONG 0), 0⟩
            maxlen := maxlen_request argv },
          t_max_err.MAX_ERR_NONE) := by
  have hlen : ¬ (argv.length = 0 ∨ argv = []) := by
    intro h
    rcases h with h | h
    · exact hargv (List.length_eq_zero.mp h)
    · exact hargv h
  obtain ⟨hn, -, he⟩ : MESS_IS_NULL (mess_realloc x.i_list_2 (maxlen_request argv) true) = false
      ∧ true = true
      ∧ mess_realloc x.i_list_2 (maxlen_request argv) true
        = mess_realloc_ok x.i_list_2 (maxlen_request argv) := by
    rcases mess_realloc_cases x.i_list_2 (maxlen_request argv) true (maxlen_request_pos argv)
      with ⟨_, h⟩ | h
    · cases h
    · exact h
  unfold lchange_maxlen_set
  rw [if_neg hlen, if_neg hne, if_neg (by simp [hn]), he]
  simp [mess_realloc_ok, mess_set_empty]

/-- C19 (as amended): a capacity request on an Lchange object for the
capacity it already has changes nothing, whatever the stored list holds; a
request for another capacity, when its allocation succeeds, leaves the stored
list empty: length 0, every slot the int 0, offset 0, symbol `empty`, with the
requested capacity. -/
theorem lchange_maxlen_set_discards (x : t_lchange) (argv : List t_atom) (ok : Bool)
    (hargv : argv ≠ []) :
    (maxlen_request argv = x.maxlen →
      lchange_maxlen_set x argv.length argv ok = (x, t_max_err.MAX_ERR_NONE))
    ∧ (maxlen_request argv ≠ x.maxlen → ok = true →
      lchange_maxlen_set x argv.length argv ok
        = ({ x with
              i_list_2 := ⟨0, maxlen_request argv, sym_empty,
                List.replicate (maxlen_request argv) (A_LONG 0), 0⟩
              maxlen := maxlen_request argv },
            t_max_err.MAX_ERR_NONE)) := by
  constructor
  · intro heq
    have hlen : ¬ (argv.length = 0 ∨ argv = []) := by
      intro h
      rcases h with h | h
      · exact hargv (List.length_eq_zero.mp h)
      · exact hargv h
    unfold lchange_maxlen_set
    rw [if_neg hlen, if_pos heq]
  · intro hne hok
    subst hok
    exact lchange_maxlen_set_fresh x argv hargv hne

/-- C19 on the object holding `1 2 3` with capacity 256: the request `maxlen 4`
leaves four slots holding 0 and length 0. -/
theorem lchange_maxlen_set_discards_witness :
    maxlen_request [A_LONG 4] ≠ lchange_example.maxlen
    ∧ lchange_maxlen_set lchange_example 1 [A_LONG 4] true
      = ({ lchange_example with
            i_list_2 := ⟨0, maxlen_request [A_LONG 4], sym_empty,
              List.replicate (maxlen_request [A_LONG 4]) (A_LONG 0), 0⟩
            maxlen := maxlen_request [A_LONG 4] },
          t_max_err.MAX_ERR_NONE) :=
  ⟨by decide,
    (lchange_maxlen_set_discards lchange_example [A_LONG 4] true (by decide)).2
      (by decide) rfl⟩

set_option maxRecDepth 8192 in
/-- C19 as stated fails: the object holding `1 2 3` has capacity 256; the
request `maxlen 256`, whose allocation would succeed, returns before any
allocation and the stored list still holds `1 2 3` with length 3. -/
theorem lchange_maxlen_set_same_keeps :
    lchange_example.maxlen = 256
    ∧ (lchange_maxlen_set lchange_example 1 [A_LONG 256] true).1.i_list_2.len_cur = 3
    ∧ (lchange_maxlen_set lchange_example 1 [A_LONG 256] true).1.i_list_2.list.take 3
      = [A_LONG 1, A_LONG 2, A_LONG 3] := by
  refine ⟨by decide, by decide, by decide⟩

theorem to_mess_int_of_range (n : Int) (hlo : -(2 : Int) ^ 31 ≤ n) (hhi : n < (2 : Int) ^ 31) :
    to_mess_int n = n := by
  unfold to_mess_int
  omega

/-- C20 (as amended): for a capacity request `n` in the range of a 32-bit
signed integer whose allocation succeeds, on an Lchange object whose list has
the capacity `maxlen`, the resulting capacity (the attribute `maxlen` and the
`len_max` of the list) is `n` when `n ≥ 1` and 256 when `n ≤ 0`, and the
request reports no error. -/
theorem lchange_maxlen_set_capacity (x : t_lchange) (n : Int)
    (hcap : x.i_list_2.len_max = x.maxlen)
    (hlo : -(2 : Int) ^ 31 ≤ n) (hhi : n < (2 : Int) ^ 31) :
    (lchange_maxlen_set x 1 [A_LONG n] true).2 = t_max_err.MAX_ERR_NONE
    ∧ (1 ≤ n →
      ((lchange_maxlen_set x 1 [A_LONG n] true).1.maxlen : Int) = n
      ∧ ((lchange_maxlen_set x 1 [A_LONG n] true).1.i_list_2.len_max : Int) = n)
    ∧ (n ≤ 0 →
      (lchange_maxlen_set x 1 [A_LONG n] true).1.maxlen = 256
      ∧ (lchange_maxlen_set x 1 [A_LONG n] true).1.i_list_2.len_max = 256) := by
  have hreq : maxlen_request [A_LONG n] = if n ≤ 0 then 256 else n.toNat := by
    unfold maxlen_request
    simp only [atom_getlong, to_mess_int_of_range n hlo hhi, MAXLEN_DEF]
  have hd : (lchange_maxlen_set x 1 [A_LONG n] true).2 = t_max_err.MAX_ERR_NONE
      ∧ (lchange_maxlen_set x 1 [A_LONG n] true).1.maxlen = maxlen_request [A_LONG n]
      ∧ (lchange_maxlen_set x 1 [A_LONG n] true).1.i_list_2.len_max
        = maxlen_request [A_LONG n] := by
    by_cases heq : maxlen_request [A_LONG n] = x.maxlen
    · have he : lchange_maxlen_set x 1 [A_LONG n] true = (x, t_max_err.MAX_ERR_NONE) := by
        unfold lchange_maxlen_set
        rw [if_neg (by simp), if_pos heq]
      rw [he]
      exact ⟨rfl, heq.symm, by rw [hcap, heq]⟩
    · have hc := lchange_maxlen_set_fresh x [A_LONG n] (by simp) heq
      simp only [List.length_singleton] at hc
      rw [hc]
      exact ⟨rfl, rfl, rfl⟩
  rcases hd with ⟨h1, h2, h3⟩
  rw [h1, h2, h3, hreq]
  refine ⟨rfl, ?_, ?_⟩
  · intro hn
    rw [if_neg (by omega)]
    omega
  · intro hn
    rw [if_pos hn]
    exact ⟨rfl, rfl⟩

/-- C20 on the new object: the request 10 gives capacity 10 and the request
-3 gives the default 256, which the object already has. -/
theorem lchange_maxlen_set_capacity_witness :
    (((lchange_maxlen_set lchange_new_default 1 [A_LONG 10] true).1.maxlen : Int) = 10
      ∧ ((lchange_maxlen_set lchange_new_default 1 [A_LONG 10] true).1.i_list_2.len_max : Int)
        = 10)
    ∧ (lchange_maxlen_set lchange_new_default 1 [A_LONG (-3)] true).1.maxlen = 256 :=
  ⟨(lchange_maxlen_set_capacity lchange_new_default 10 rfl (by decide) (by decide)).2.1
      (by decide),
    by decide⟩

/-- C20 as stated fails: the request `2^32 + 5` is at least 1, its cast to a
32-bit integer is 5, and the resulting capacity is 5. -/
theorem lchange_maxlen_set_wraps :
    (1 : Int) ≤ 2 ^ 32 + 5
    ∧ (lchange_maxlen_set lchange_new_default 1 [A_LONG (2 ^ 32 + 5)] true).1.maxlen = 5
    ∧ (lchange_maxlen_set lchange_new_default 1 [A_LONG (2 ^ 32 + 5)] true).1.i_list_2.len_max
      = 5 := by
  refine ⟨by decide, by decide, by decide⟩

/-! ### Lchange: the stored list after `lchange_action` -/

theorem lchange_action_cases (x : t_lchange) (sym : t_symbol) (argv : List t_atom)
    (offset : Nat) (hwf : x.i_list_2.len_cur ≤ x.i_list_2.list.length) :
    lchange_action x sym argv.length argv offset
      = some (if lchange_equals x sym argv offset then
          (x, t_lchange_outlet.outl_list_same, sym,
            argv.take (to_short (argv.length : Int)).toNat)
        else
          (if x.is_locked then x
            else { x with i_list_2 := mess_set x.i_list_2 sym argv.length argv offset },
            t_lchange_outlet.outl_list_diff, sym,
            argv.take (to_short (argv.length : Int)).toNat)) := by
  unfold lchange_action
  rw [lchange_match_equals x sym argv offset hwf]
  by_cases he : lchange_equals x sym argv offset
  · simp [he]
  · simp [he]

/-- C21 (as amended): the stored list after `lchange_action`, for every
message and every object whose stored length lies within its array. The
action returns; its outlet is `different` exactly when the message does not
equal the stored list. When the outlet is `different` and the object is not
locked, the stored list becomes `mess_set` of the incoming message (symbol,
offset, truncation to the capacity) and nothing else changes. When the object
is locked, or when the outlet is `same`, the whole object is unchanged:
length, symbol, offset and every slot of the stored list. The stored list
therefore differs afterwards only if the outlet is `different` and the object
is not locked; the converse does not hold, the list written by `mess_set`
can be the list that was stored. -/
theorem lchange_action_baseline (x : t_lchange) (sym : t_symbol) (argv : List t_atom)
    (offset : Nat) (hwf : x.i_list_2.len_cur ≤ x.i_list_2.list.length) :
    ∃ r, lchange_action x sym argv.length argv offset = some r
      ∧ (r.2.1 = t_lchange_outlet.outl_list_diff ↔ ¬ lchange_equals x sym argv offset)
      ∧ (r.2.1 = t_lchange_outlet.outl_list_same ↔ lchange_equals x sym argv offset)
      ∧ (r.2.1 = t_lchange_outlet.outl_list_diff → x.is_locked = false →
          r.1 = { x with i_list_2 := mess_set x.i_list_2 sym argv.length argv offset })
      ∧ (r.2.1 = t_lchange_outlet.outl_list_same ∨ x.is_locked = true → r.1 = x)
      ∧ (r.1.i_list_2 ≠ x.i_list_2 →
          r.2.1 = t_lchange_outlet.outl_list_diff ∧ x.is_locked = false) := by
  refine ⟨_, lchange_action_cases x sym argv offset hwf, ?_⟩
  by_cases he : lchange_equals x sym argv offset
  · simp [he]
  · cases hl : x.is_locked with
    | true => simp [he]
    | false => simp [he]

/-- C21 on an unlocked object of four slots holding the int 3: the float `3.`
comes out of `same` and leaves the stored list as it is; the int 4 comes out
of `different` and is stored. -/
theorem lchange_action_baseline_witness :
    (∃ r, lchange_action ⟨⟨1, 4, sym_int, [A_LONG 3, A_LONG 0, A_LONG 0, A_LONG 0], 0⟩,
          4, true, false⟩ sym_float 1 [A_FLOAT (Dbl.fin 3)] 0 = some r
      ∧ (r.2.1 = t_lchange_outlet.outl_list_diff
          ↔ ¬ lchange_equals ⟨⟨1, 4, sym_int, [A_LONG 3, A_LONG 0, A_LONG 0, A_LONG 0], 0⟩,
            4, true, false⟩ sym_float [A_FLOAT (Dbl.fin 3)] 0)
      ∧ (r.2.1 = t_lchange_outlet.outl_list_same
          ↔ lchange_equals ⟨⟨1, 4, sym_int, [A_LONG 3, A_LONG 0, A_LONG 0, A_LONG 0], 0⟩,
            4, true, false⟩ sym_float [A_FLOAT (Dbl.fin 3)] 0)
      ∧ (r.2.1 = t_lchange_outlet.outl_list_diff → false = false →
          r.1 = ⟨mess_set ⟨1, 4, sym_int, [A_LONG 3, A_LONG 0, A_LONG 0, A_LONG 0], 0⟩
            sym_float 1 [A_FLOAT (Dbl.fin 3)] 0, 4, true, false⟩)
      ∧ (r.2.1 = t_lchange_outlet.outl_list_same ∨ false = true →
          r.1 = ⟨⟨1, 4, sym_int, [A_LONG 3, A_LONG 0, A_LONG 0, A_LONG 0], 0⟩,
            4, true, false⟩)
      ∧ (r.1.i_list_2 ≠ ⟨1, 4, sym_int, [A_LONG 3, A_LONG 0, A_LONG 0, A_LONG 0], 0⟩ →
          r.2.1 = t_lchange_outlet.outl_list_diff ∧ false = false))
    ∧ lchange_action ⟨⟨1, 4, sym_int, [A_LONG 3, A_LONG 0, A_LONG 0, A_LONG 0], 0⟩,
          4, true, false⟩ sym_float 1 [A_FLOAT (Dbl.fin 3)] 0
        = some (⟨⟨1, 4, sym_int, [A_LONG 3, A_LONG 0, A_LONG 0, A_LONG 0], 0⟩, 4, true, false⟩,
            t_lchange_outlet.outl_list_same, sym_float, [A_FLOAT (Dbl.fin 3)])
    ∧ lchange_action ⟨⟨1, 4, sym_int, [A_LONG 3, A_LONG 0, A_LONG 0, A_LONG 0], 0⟩,
          4, true, false⟩ sym_int 1 [A_LONG 4] 0
        = some (⟨⟨1, 4, sym_int, [A_LONG 4, A_LONG 0, A_LONG 0, A_LONG 0], 0⟩, 4, true, false⟩,
            t_lchange_outlet.outl_list_diff, sym_int, [A_LONG 4]) :=
  ⟨lchange_action_baseline
      ⟨⟨1, 4, sym_int, [A_LONG 3, A_LONG 0, A_LONG 0, A_LONG 0], 0⟩, 4, true, false⟩
      sym_float [A_FLOAT (Dbl.fin 3)] 0 (by decide),
    by decide!, by decide!⟩

/-- C21, counterexample: an unlocked object of capacity 2 that stores the list
`1 2` receives the list `1 2 3`.  The outlet is `different` and the object is
not locked, and the stored list is the same afterwards: `mess_set` stores the
message truncated to the capacity, `1 2`. -/
theorem lchange_action_baseline_unchanged :
    lchange_run (lchange_new [lchange_attr.maxlen [A_LONG 2] true, lchange_attr.lock false] true [])
        [lchange_msg.list 1 [A_LONG 1, A_LONG 2]]
      = some ⟨⟨2, 2, sym_list, [A_LONG 1, A_LONG 2], 0⟩, 2, true, false⟩
    ∧ lchange_list ⟨⟨2, 2, sym_list, [A_LONG 1, A_LONG 2], 0⟩, 2, true, false⟩ 0 3
        [A_LONG 1, A_LONG 2, A_LONG 3]
      = some (⟨⟨2, 2, sym_list, [A_LONG 1, A_LONG 2], 0⟩, 2, true, false⟩,
          some (t_lchange_outlet.outl_list_diff, sym_list, [A_LONG 1, A_LONG 2, A_LONG 3])) := by
  decide!

/-- C22 (as amended), a message longer than the capacity is not clipped: for
every object whose stored length is within `maxlen` and every message of at
most 32767 atoms whose total length exceeds `maxlen`, `lchange_action` tests
the full length, so the message is `different`, and it sends all the atoms of
the message, not the first `maxlen` of them; only the copy that `mess_set`
stores, when the object is not locked, is truncated. With `maxlen` 2 and the
list `1 2` stored, the list `1 2 3` comes out of `different` with its three
atoms, where its first two atoms equal the stored list. -/
theorem lchange_action_not_clipped (x : t_lchange) (sym : t_symbol) (argv : List t_atom)
    (offset : Nat) (hcap : x.i_list_2.len_cur ≤ x.maxlen)
    (hlong : x.maxlen < argv.length + offset) (hshort : argv.length ≤ 32767) :
    lchange_action x sym argv.length argv offset
        = some ((if x.is_locked then x
            else { x with i_list_2 := mess_set x.i_list_2 sym argv.length argv offset }),
          t_lchange_outlet.outl_list_diff, sym, argv)
    ∧ (((lchange_list (lchange_new [lchange_attr.maxlen [A_LONG 2] true] true []) 1 2
            [A_LONG 1, A_LONG 2]).bind
          (fun r => lchange_list r.1 0 3 [A_LONG 1, A_LONG 2, A_LONG 3])).map Prod.snd
        = some (some (t_lchange_outlet.outl_list_diff, sym_list,
            [A_LONG 1, A_LONG 2, A_LONG 3])))
    ∧ (((lchange_list (lchange_new [lchange_attr.maxlen [A_LONG 2] true] true []) 1 2
            [A_LONG 1, A_LONG 2]).bind
          (fun r => lchange_list r.1 0 2 [A_LONG 1, A_LONG 2])).map Prod.snd
        = some (some (t_lchange_outlet.outl_list_same, sym_list, [A_LONG 1, A_LONG 2]))) := by
  refine ⟨?_, by decide!, by decide!⟩
  have htake : argv.take (to_short (argv.length : Int)).toNat = argv := by
    rw [to_short_of_le _ hshort, List.take_length]
  have hm : lchange_match x sym argv.length argv offset = some false := by
    unfold lchange_match
    rw [if_pos (Or.inl (by omega))]
  unfold lchange_action
  rw [hm, htake]

/-- C22 with `maxlen` 2 and the list `1 2 3`: the message sent has length 3. -/
theorem lchange_action_not_clipped_witness :
    (lchange_new [lchange_attr.maxlen [A_LONG 2] true] true []).maxlen = 2
    ∧ ∃ x2, lchange_action (lchange_new [lchange_attr.maxlen [A_LONG 2] true] true []) sym_list
        [A_LONG 1, A_LONG 2, A_LONG 3].length [A_LONG 1, A_LONG 2, A_LONG 3] 0
      = some (x2, t_lchange_outlet.outl_list_diff, sym_list, [A_LONG 1, A_LONG 2, A_LONG 3]) :=
  ⟨by decide,
    _, (lchange_action_not_clipped (lchange_new [lchange_attr.maxlen [A_LONG 2] true] true [])
      sym_list [A_LONG 1, A_LONG 2, A_LONG 3] 0 (by decide) (by decide) (by decide)).1⟩

/-- C22, counterexample: an object of capacity 2 that stores the list `1 2`
receives the list `1 2 3`, of length 3.  The message is not clipped to `1 2`
before the test: it comes out of `different`, where `1 2` comes out of `same`,
and the message sent has its three atoms. -/
theorem lchange_action_sends_unclipped :
    (lchange_new [lchange_attr.maxlen [A_LONG 2] true] true []).maxlen = 2
    ∧ ((lchange_list (lchange_new [lchange_attr.maxlen [A_LONG 2] true] true []) 1 2
            [A_LONG 1, A_LONG 2]).bind
          (fun r => lchange_list r.1 0 3 [A_LONG 1, A_LONG 2, A_LONG 3])).map Prod.snd
        = some (some (t_lchange_outlet.outl_list_diff, sym_list,
            [A_LONG 1, A_LONG 2, A_LONG 3]))
    ∧ [A_LONG 1, A_LONG 2, A_LONG 3].length = 3
    ∧ ((lchange_list (lchange_new [lchange_attr.maxlen [A_LONG 2] true] true []) 1 2
            [A_LONG 1, A_LONG 2]).bind
          (fun r => lchange_list r.1 0 2 [A_LONG 1, A_LONG 2])).map Prod.snd
        = some (some (t_lchange_outlet.outl_list_same, sym_list, [A_LONG 1, A_LONG 2])) := by
  decide!

/-! ### Ltoset: slots beyond the output length, scalar indices -/

theorem ltoset_action_slots (x : t_ltoset) (argv : List t_atom)
    (hmax : x.o_list.len_max = x.maxlen) :
    (∀ j, j < x.maxlen →
      (ltoset_action x argv.length argv).o_list.list[j]?
        = some (if ∃ a, a ∈ argv ∧ is_number a = true ∧ ltoset_index a = (j : Int)
            then A_LONG x.i_value else A_LONG 0))
    ∧ (ltoset_action x argv.length argv).o_list.list.length = x.maxlen
    ∧ (ltoset_action x argv.length argv).o_list.len_cur = x.o_list.len_cur
    ∧ (ltoset_action x argv.length argv).o_list.len_max = x.maxlen
    ∧ (ltoset_action x argv.length argv).maxlen = x.maxlen
    ∧ (ltoset_action x argv.length argv).i_value = x.i_value := by
  have hinit : (mess_fill_int x.o_list 0 x.o_list.len_cur).list
      = List.replicate x.maxlen (A_LONG 0) := by
    simp [mess_fill_int, hmax]
  have hlist : (ltoset_action x argv.length argv).o_list.list
      = argv.foldl (ltoset_step x.maxlen x.i_value) (List.replicate x.maxlen (A_LONG 0)) := by
    unfold ltoset_action
    simp only [mess_set_type_list, hinit, List.take_length]
  refine ⟨?_, ?_, ?_, ?_, rfl, rfl⟩
  · intro j hj
    obtain ⟨h1, _⟩ := ltoset_fold_spec x.maxlen x.i_value argv
      (List.replicate x.maxlen (A_LONG 0)) j (by simpa using hj) (by simp)
    rw [hlist, h1]
    by_cases h : ∃ a, a ∈ argv ∧ is_number a = true ∧ ltoset_index a = (j : Int)
    · rw [if_pos h, if_pos h]
    · rw [if_neg h, if_neg h, List.getElem?_replicate, if_pos hj]
  · rw [hlist, ltoset_fold_length]
    simp
  · unfold ltoset_action
    simp only [mess_set_type_len_cur, mess_fill_int]
  · unfold ltoset_action
    simp only [mess_set_type_len_max, mess_fill_int]
    exact hmax

theorem mess_set_type_long (m : t_mess_struct) (v : Int) (hnn : MESS_IS_NULL m = false)
    (h1 : 1 ≤ m.len_cur) (hh : m.list.head? = some (A_LONG v)) :
    (mess_set_type m).offset = 0
    ∧ (mess_set_type m).sym = (if m.len_cur = 1 then sym_int else sym_list) := by
  obtain ⟨len_cur, len_max, sym, list, offset⟩ := m
  simp only at h1 hh
  unfold mess_set_type
  rw [if_neg (by simp [hnn])]
  simp only [hh]
  match len_cur, h1 with
  | 1, _ => exact ⟨rfl, rfl⟩
  | k + 2, _ => exact ⟨rfl, by simp⟩

theorem ltoset_action_type (x : t_ltoset) (argv : List t_atom)
    (hmax : x.o_list.len_max = x.maxlen) (hpos : x.maxlen ≠ 0) (h1 : 1 ≤ x.o_list.len_cur) :
    (ltoset_action x argv.length argv).o_list.offset = 0
    ∧ (ltoset_action x argv.length argv).o_list.sym
        = (if x.o_list.len_cur = 1 then sym_int else sym_list) := by
  obtain ⟨hs, hl, _, _, _, _⟩ := ltoset_action_slots x argv hmax
  have h0 := hs 0 (by omega)
  have hlist : (ltoset_action x argv.length argv).o_list.list
      = (argv.take argv.length).foldl (ltoset_step x.maxlen x.i_value)
          (mess_fill_int x.o_list 0 x.o_list.len_cur).list := by
    unfold ltoset_action
    simp only [mess_set_type_list]
  rw [hlist] at h0 hl
  obtain ⟨v, hv⟩ : ∃ v : Int, ((argv.take argv.length).foldl (ltoset_step x.maxlen x.i_value)
      (mess_fill_int x.o_list 0 x.o_list.len_cur).list).head? = some (A_LONG v) := by
    rw [List.head?_eq_getElem?, h0]
    split
    · exact ⟨_, rfl⟩
    · exact ⟨_, rfl⟩
  have hnn : MESS_IS_NULL
      { mess_fill_int x.o_list 0 x.o_list.len_cur with
        list := (argv.take argv.length).foldl (ltoset_step x.maxlen x.i_value)
          (mess_fill_int x.o_list 0 x.o_list.len_cur).list } = false := by
    unfold MESS_IS_NULL
    simp only [Bool.or_eq_false_iff, beq_eq_false_iff_ne, List.isEmpty_eq_false]
    refine ⟨?_, ?_⟩
    · show x.o_list.len_max ≠ 0
      omega
    · intro he
      rw [he] at hl
      simp at hl
      omega
  have := mess_set_type_long _ v hnn h1 hv
  unfold ltoset_action
  exact this

theorem mess_outlet_numbers (m : t_mess_struct) (hoff : m.offset = 0)
    (hsym : m.sym = sym_int ∨ m.sym = sym_list) (hshort : m.len_cur ≤ 32767) :
    mess_outlet m = some (m.sym, m.list.take m.len_cur) := by
  unfold mess_outlet
  have h : m.sym ≠ sym_null ∧ m.sym ≠ sym_empty := by
    rcases hsym with h | h <;> rw [h] <;> decide
  rw [if_pos h, hoff]
  simp only [Nat.cast_zero, sub_zero, List.drop_zero]
  rw [to_short_of_le _ hshort]

/-- C23: indices of Ltoset are bounded by `maxlen`, not by the output length.
On an object with `maxlen` at most 32767 slots and an output length of at
least 1, let the list of indices hold a number whose index `i` lies between
the output length and `maxlen`. After the list, slot `i` of the array holds
the value, and the message sent holds the first `len_cur` slots only, so not
slot `i`. After the output length is then raised above `i` through the third
inlet, `bang` sends the first slots of the same array up to the new length,
and position `i` of that message holds the value. -/
theorem ltoset_index_beyond_length (x : t_ltoset) (argv : List t_atom) (i : Nat) (length : Int)
    (hmax : x.o_list.len_max = x.maxlen) (h1 : 1 ≤ x.o_list.len_cur)
    (hshort : x.maxlen ≤ 32767)
    (hlo : x.o_list.len_cur ≤ i) (hhi : i < x.maxlen)
    (hin : ∃ a, a ∈ argv ∧ is_number a = true ∧ ltoset_index a = (i : Int))
    (hraise : i < ltoset_clamp x (to_mess_int length)) :
    (ltoset_list x argv.length argv).1.o_list.list[i]? = some (A_LONG x.i_value)
    ∧ (∃ sym, (ltoset_list x argv.length argv).2
          = some (sym, (ltoset_list x argv.length argv).1.o_list.list.take x.o_list.len_cur))
    ∧ ((ltoset_list x argv.length argv).1.o_list.list.take x.o_list.len_cur).length
        = x.o_list.len_cur
    ∧ ((ltoset_list x argv.length argv).1.o_list.list.take x.o_list.len_cur)[i]? = none
    ∧ (∃ sym, ltoset_bang (ltoset_in2 (ltoset_list x argv.length argv).1 length)
          = some (sym, (ltoset_list x argv.length argv).1.o_list.list.take
              (ltoset_clamp x (to_mess_int length))))
    ∧ ((ltoset_list x argv.length argv).1.o_list.list.take
          (ltoset_clamp x (to_mess_int length)))[i]? = some (A_LONG x.i_value) := by
  have hpos : x.maxlen ≠ 0 := by omega
  obtain ⟨hs, hl, hc, hm, hml, _⟩ := ltoset_action_slots x argv hmax
  obtain ⟨hoff, hsym⟩ := ltoset_action_type x argv hmax hpos h1
  have hsym2 : (ltoset_action x argv.length argv).o_list.sym = sym_int
      ∨ (ltoset_action x argv.length argv).o_list.sym = sym_list := by
    rw [hsym]
    split
    · exact Or.inl rfl
    · exact Or.inr rfl
  have hlist : ltoset_list x argv.length argv
      = (ltoset_action x argv.length argv, ltoset_output (ltoset_action x argv.length argv)) := by
    unfold ltoset_list
    rw [if_neg hpos]
  have hclamp := ltoset_clamp_le x (to_mess_int length) hpos
  have hslot := hs i hhi
  rw [if_pos hin] at hslot
  rw [hlist]
  simp only
  refine ⟨hslot, ⟨(ltoset_action x argv.length argv).o_list.sym, ?_⟩, ?_, ?_,
    ⟨(ltoset_action x argv.length argv).o_list.sym, ?_⟩, ?_⟩
  · have := mess_outlet_numbers (ltoset_action x argv.length argv).o_list hoff hsym2
      (by rw [hc]; omega)
    rw [hc] at this
    exact this
  · rw [List.length_take, hl]
    omega
  · rw [List.getElem?_eq_none]
    rw [List.length_take, hl]
    omega
  · have := mess_outlet_numbers
      { (ltoset_action x argv.length argv).o_list with
        len_cur := ltoset_clamp (ltoset_action x argv.length argv) (to_mess_int length) }
      hoff hsym2 (by
        show ltoset_clamp (ltoset_action x argv.length argv) (to_mess_int length) ≤ 32767
        unfold ltoset_clamp
        rw [hml]
        unfold ltoset_clamp at hclamp
        omega)
    have hcl : ltoset_clamp (ltoset_action x argv.length argv) (to_mess_int length)
        = ltoset_clamp x (to_mess_int length) := by
      unfold ltoset_clamp
      rw [hml]
    rw [hcl] at this
    exact this
  · rw [List.getElem?_take_of_lt hraise]
    exact hslot

/-- C23 on the object `Ltoset 4 9 @maxlen 10`: the indices `1 1 5` send
`0 9 0 0` and leave the value 9 in slot 5; after the output length is set to
6, `bang` sends `0 9 0 0 0 9`. -/
theorem ltoset_index_beyond_length_witness :
    (ltoset_list ltoset_new_example 3 [A_LONG 1, A_LONG 1, A_LONG 5]).1.o_list.list[5]?
        = some (A_LONG ltoset_new_example.i_value)
    ∧ (ltoset_list ltoset_new_example 3 [A_LONG 1, A_LONG 1, A_LONG 5]).2
        = some (sym_list, [A_LONG 0, A_LONG 9, A_LONG 0, A_LONG 0])
    ∧ ltoset_bang (ltoset_in2
          (ltoset_list ltoset_new_example 3 [A_LONG 1, A_LONG 1, A_LONG 5]).1 6)
        = some (sym_list, [A_LONG 0, A_LONG 9, A_LONG 0, A_LONG 0, A_LONG 0, A_LONG 9]) :=
  ⟨(ltoset_index_beyond_length ltoset_new_example [A_LONG 1, A_LONG 1, A_LONG 5] 5 6
      (by decide) (by decide) (by decide) (by decide) (by decide) (by decide) (by decide)).1,
    by decide, by decide⟩

theorem maxlen_request_lt (argv : List t_atom) : (maxlen_request argv : Int) < 2 ^ 31 := by
  unfold maxlen_request
  cases argv with
  | nil => simp [MAXLEN_DEF]
  | cons a rest =>
    simp only
    split
    · simp [MAXLEN_DEF]
    · have : to_mess_int (atom_getlong a) < 2 ^ 31 := by
        unfold to_mess_int
        omega
      omega

theorem ltoset_action_frame (x : t_ltoset) (argc : Nat) (argv : List t_atom) :
    (ltoset_action x argc argv).o_list.len_cur = x.o_list.len_cur
    ∧ (ltoset_action x argc argv).maxlen = x.maxlen := by
  unfold ltoset_action
  simp only [mess_set_type_len_cur, mess_fill_int]
  exact ⟨trivial, trivial⟩

theorem ltoset_clamp_pos (x : t_ltoset) (n : Int) (hn : x.maxlen ≠ 0) :
    1 ≤ ltoset_clamp x n := by
  unfold ltoset_clamp CLAMP
  split
  · split <;> omega
  · omega

theorem ltoset_len_maxlen_set (x : t_ltoset) (argc : Nat) (argv : List t_atom) (ok : Bool)
    (h : (x.maxlen ≠ 0 → 1 ≤ x.o_list.len_cur) ∧ (x.maxlen : Int) < 2 ^ 31) :
    ((ltoset_maxlen_set x argc argv ok).1.maxlen ≠ 0 →
        1 ≤ (ltoset_maxlen_set x argc argv ok).1.o_list.len_cur)
    ∧ ((ltoset_maxlen_set x argc argv ok).1.maxlen : Int) < 2 ^ 31 := by
  unfold ltoset_maxlen_set
  split
  · exact h
  · split
    · exact h
    · split
      · exact ⟨fun hn => absurd rfl hn, by simp⟩
      · refine ⟨fun _ => ?_, maxlen_request_lt argv⟩
        have := maxlen_request_pos argv
        show 1 ≤ min 12 (maxlen_request argv)
        omega

theorem ltoset_len_handle (x : t_ltoset) (m : ltoset_msg)
    (h : (x.maxlen ≠ 0 → 1 ≤ x.o_list.len_cur) ∧ (x.maxlen : Int) < 2 ^ 31) :
    ((ltoset_handle x m).maxlen ≠ 0 → 1 ≤ (ltoset_handle x m).o_list.len_cur)
    ∧ ((ltoset_handle x m).maxlen : Int) < 2 ^ 31 := by
  cases m with
  | bang => exact h
  | clear => exact h
  | in1 value => exact h
  | in2 length => exact ⟨fun hn => ltoset_clamp_pos x _ hn, h.2⟩
  | attr a =>
    cases a with
    | maxlen argv ok => exact ltoset_len_maxlen_set _ _ _ _ h
    | warnings b => exact h
  | int n =>
    simp only [ltoset_handle, ltoset_int]
    split
    · exact h
    · rw [(ltoset_action_frame _ _ _).1, (ltoset_action_frame _ _ _).2]
      exact h
  | float f =>
    simp only [ltoset_handle, ltoset_float, ltoset_int]
    split
    · exact h
    · rw [(ltoset_action_frame _ _ _).1, (ltoset_action_frame _ _ _).2]
      exact h
  | list argv =>
    simp only [ltoset_handle, ltoset_list]
    split
    · exact h
    · rw [(ltoset_action_frame _ _ _).1, (ltoset_action_frame _ _ _).2]
      exact h
  | anything sym argv =>
    simp only [ltoset_handle, ltoset_anything]
    split
    · exact h
    · rw [(ltoset_action_frame _ _ _).1, (ltoset_action_frame _ _ _).2]
      exact h

theorem ltoset_len_run (ms : List ltoset_msg) :
    ∀ x : t_ltoset, ((x.maxlen ≠ 0 → 1 ≤ x.o_list.len_cur) ∧ (x.maxlen : Int) < 2 ^ 31) →
      (((ltoset_run x ms).maxlen ≠ 0 → 1 ≤ (ltoset_run x ms).o_list.len_cur)
        ∧ ((ltoset_run x ms).maxlen : Int) < 2 ^ 31) := by
  induction ms with
  | nil => intro x h; exact h
  | cons m ms ih =>
    intro x h
    exact ih _ (ltoset_len_handle x m h)

theorem ltoset_len_attrs (attrs : List ltoset_attr) :
    ∀ x : t_ltoset, ((x.maxlen ≠ 0 → 1 ≤ x.o_list.len_cur) ∧ (x.maxlen : Int) < 2 ^ 31) →
      (((attrs.foldl ltoset_attr_set x).maxlen ≠ 0 →
          1 ≤ (attrs.foldl ltoset_attr_set x).o_list.len_cur)
        ∧ ((attrs.foldl ltoset_attr_set x).maxlen : Int) < 2 ^ 31) := by
  induction attrs with
  | nil => intro x h; exact h
  | cons a attrs ih =>
    intro x h
    apply ih
    cases a with
    | maxlen argv ok => exact ltoset_len_maxlen_set _ _ _ _ h
    | warnings b => exact h

theorem ltoset_len_new (attrs : List ltoset_attr) (ok : Bool) (argv : List t_atom) :
    ((ltoset_new attrs ok argv).maxlen ≠ 0 → 1 ≤ (ltoset_new attrs ok argv).o_list.len_cur)
    ∧ ((ltoset_new attrs ok argv).maxlen : Int) < 2 ^ 31 := by
  have h0 : ((⟨0, mess_init ⟨0, 0, sym_null, [], 0⟩, 0, true⟩ : t_ltoset).maxlen ≠ 0 →
        1 ≤ (⟨0, mess_init ⟨0, 0, sym_null, [], 0⟩, 0, true⟩ : t_ltoset).o_list.len_cur)
      ∧ (((⟨0, mess_init ⟨0, 0, sym_null, [], 0⟩, 0, true⟩ : t_ltoset).maxlen : Nat) : Int)
        < 2 ^ 31 :=
    ⟨fun hn => absurd rfl hn, by simp⟩
  have h1 := ltoset_len_attrs attrs _ h0
  have h2 : ∀ x1 : t_ltoset,
      ((x1.maxlen ≠ 0 → 1 ≤ x1.o_list.len_cur) ∧ (x1.maxlen : Int) < 2 ^ 31) →
      (((if x1.maxlen = 0 then (ltoset_maxlen_set x1 1 [A_LONG (MAXLEN_DEF : Nat)] ok).1
            else x1).maxlen ≠ 0 →
          1 ≤ (if x1.maxlen = 0 then (ltoset_maxlen_set x1 1 [A_LONG (MAXLEN_DEF : Nat)] ok).1
            else x1).o_list.len_cur)
        ∧ ((if x1.maxlen = 0 then (ltoset_maxlen_set x1 1 [A_LONG (MAXLEN_DEF : Nat)] ok).1
            else x1).maxlen : Int) < 2 ^ 31) := by
    intro x1 hx1
    split
    · exact ltoset_len_maxlen_set _ _ _ _ hx1
    · exact hx1
  have h3 := h2 _ h1
  have h4 : ∀ x2 : t_ltoset, (x2.maxlen : Int) < 2 ^ 31 →
      (((ltoset_defaults x2).maxlen ≠ 0 → 1 ≤ (ltoset_defaults x2).o_list.len_cur)
        ∧ ((ltoset_defaults x2).maxlen : Int) < 2 ^ 31) := by
    intro x2 hx2
    refine ⟨fun hn => ?_, hx2⟩
    have hn2 : x2.maxlen ≠ 0 := hn
    show 1 ≤ min 12 x2.maxlen
    omega
  have h5 := h4 _ h3.2
  have h6 : ∀ x3 : t_ltoset,
      ((x3.maxlen ≠ 0 → 1 ≤ x3.o_list.len_cur) ∧ (x3.maxlen : Int) < 2 ^ 31) →
      (((match argv with
          | a :: _ =>
            if is_number a then
              { x3 with
                o_list :=
                  { x3.o_list with len_cur := ltoset_clamp x3 (to_mess_int (atom_getlong a)) } }
            else x3
          | [] => x3).maxlen ≠ 0 →
        1 ≤ (match argv with
          | a :: _ =>
            if is_number a then
              { x3 with
                o_list :=
                  { x3.o_list with len_cur := ltoset_clamp x3 (to_mess_int (atom_getlong a)) } }
            else x3
          | [] => x3).o_list.len_cur)
      ∧ ((match argv with
          | a :: _ =>
            if is_number a then
              { x3 with
                o_list :=
                  { x3.o_list with len_cur := ltoset_clamp x3 (to_mess_int (atom_getlong a)) } }
            else x3
          | [] => x3).maxlen : Int) < 2 ^ 31) := by
    intro x3 hx3
    split
    · split
      · exact ⟨fun hn => ltoset_clamp_pos x3 _ hn, hx3.2⟩
      · exact hx3
    · exact hx3
  have h7 := h6 _ h5
  unfold ltoset_new
  simp only
  split
  · split
    · exact h7
    · exact h7
  · exact h7

/-- C24: a bare int `n` sent to an Ltoset object, in any state the object
reaches from its creation with its array allocated, and for every integer
`n`. The index built is `CLAMP(n, 0, len_cur - 1)`, that is
`max 0 (min n (len_cur - 1))`; it lies inside the output length; afterwards
that slot of the array holds the value and every other slot below `maxlen`
holds the int 0; the array keeps its `maxlen` slots and the output length is
unchanged. -/
theorem ltoset_int_single_mark (attrs : List ltoset_attr) (ok : Bool) (argv : List t_atom)
    (msgs : List ltoset_msg) (s : t_ltoset) (n : Int)
    (hreach : ltoset_run (ltoset_new attrs ok argv) msgs = s) (halloc : s.maxlen ≠ 0) :
    CLAMP n 0 ((s.o_list.len_cur : Int) - 1) = max 0 (min n ((s.o_list.len_cur : Int) - 1))
    ∧ 0 ≤ CLAMP n 0 ((s.o_list.len_cur : Int) - 1)
    ∧ (CLAMP n 0 ((s.o_list.len_cur : Int) - 1)).toNat < s.o_list.len_cur
    ∧ s.o_list.len_cur ≤ s.maxlen
    ∧ (∀ j, j < s.maxlen →
        (ltoset_int s n).1.o_list.list[j]?
          = some (if j = (CLAMP n 0 ((s.o_list.len_cur : Int) - 1)).toNat
              then A_LONG s.i_value else A_LONG 0))
    ∧ (ltoset_int s n).1.o_list.list.length = s.maxlen
    ∧ (ltoset_int s n).1.o_list.len_cur = s.o_list.len_cur := by
  have hinv : ltoset_inv s := by
    rw [← hreach]
    exact ltoset_inv_run msgs _ (ltoset_inv_new attrs ok argv)
  have hlen : (s.maxlen ≠ 0 → 1 ≤ s.o_list.len_cur) ∧ (s.maxlen : Int) < 2 ^ 31 := by
    rw [← hreach]
    exact ltoset_len_run msgs _ (ltoset_len_new attrs ok argv)
  obtain ⟨hmax, _, hle⟩ := hinv
  have h1 := hlen.1 halloc
  have hle2 := hle halloc
  have hlt := hlen.2
  obtain ⟨c, hc⟩ : ∃ c : Int, CLAMP n 0 ((s.o_list.len_cur : Int) - 1) = c := ⟨_, rfl⟩
  have hcb : 0 ≤ c ∧ c ≤ (s.o_list.len_cur : Int) - 1 ∧ c = max 0 (min n ((s.o_list.len_cur : Int) - 1)) := by
    rw [← hc]
    unfold CLAMP
    split
    · split <;> omega
    · omega
  have hint : ltoset_int s n = (ltoset_action s 1 [A_LONG c], ltoset_output (ltoset_action s 1 [A_LONG c])) := by
    unfold ltoset_int
    rw [if_neg halloc, hc]
  obtain ⟨hs, hl, hcur, _, _, _⟩ := ltoset_action_slots s [A_LONG c] hmax
  simp only [List.length_singleton] at hs hl hcur
  rw [hint, hc]
  refine ⟨hcb.2.2, hcb.1, by omega, hle2, ?_, hl, hcur⟩
  intro j hj
  rw [hs j hj]
  have hidx : ltoset_index (A_LONG c) = c := by
    unfold ltoset_index
    simp only [atom_getlong]
    exact to_mess_int_of_range c (by omega) (by omega)
  by_cases hjc : j = c.toNat
  · have : ∃ a, a ∈ [A_LONG c] ∧ is_number a = true ∧ ltoset_index a = (j : Int) :=
      ⟨A_LONG c, List.mem_singleton.mpr rfl, rfl, by rw [hidx]; omega⟩
    rw [if_pos this, if_pos hjc]
  · have : ¬ ∃ a, a ∈ [A_LONG c] ∧ is_number a = true ∧ ltoset_index a = (j : Int) := by
      rintro ⟨a, ha, _, hi⟩
      rw [List.mem_singleton.mp ha, hidx] at hi
      omega
    rw [if_neg this, if_neg hjc]

/-- C24 on the object `Ltoset 4 9 @maxlen 10` as `ltoset_new` builds it: the
int 7 is clamped to index 3, the last slot of the output length 4, and the
message sent is `0 0 0 9`; the int -2 is clamped to index 0. -/
theorem ltoset_int_single_mark_witness :
    (∀ j, j < 10 →
      (ltoset_int (ltoset_run (ltoset_new [ltoset_attr.maxlen [A_LONG 10] true] true
          [A_LONG 4, A_LONG 9]) []) 7).1.o_list.list[j]?
        = some (if j = (CLAMP 7 0 (((ltoset_run (ltoset_new
              [ltoset_attr.maxlen [A_LONG 10] true] true [A_LONG 4, A_LONG 9]) []).o_list.len_cur
              : Int) - 1)).toNat
            then A_LONG 9 else A_LONG 0))
    ∧ (ltoset_int (ltoset_new [ltoset_attr.maxlen [A_LONG 10] true] true
          [A_LONG 4, A_LONG 9]) 7).2
        = some (sym_list, [A_LONG 0, A_LONG 0, A_LONG 0, A_LONG 9])
    ∧ (ltoset_int (ltoset_new [ltoset_attr.maxlen [A_LONG 10] true] true
          [A_LONG 4, A_LONG 9]) (-2)).2
        = some (sym_list, [A_LONG 9, A_LONG 0, A_LONG 0, A_LONG 0]) :=
  ⟨(ltoset_int_single_mark [ltoset_attr.maxlen [A_LONG 10] true] true [A_LONG 4, A_LONG 9] []
      _ 7 rfl (by decide)).2.2.2.2.1,
    by decide, by decide⟩

/-! ### Lmax and Lmin: the tail of the right list -/

theorem mess_tail_zero_zeros (m : t_mess_struct) (n : Nat)
    (h : m.list = List.replicate n (A_LONG 0)) (hn : m.len_max ≤ n) : mess_tail_zero m := by
  intro j hj _
  rw [h, List.getElem?_replicate, if_pos (by omega)]

theorem mess_tail_zero_init (m : t_mess_struct) : mess_tail_zero (mess_init m) := by
  intro j hj _
  exact absurd hj (Nat.not_lt_zero j)

theorem mess_tail_zero_set_empty (m : t_mess_struct) : mess_tail_zero (mess_set_empty m) :=
  mess_tail_zero_zeros _ m.len_max rfl (le_refl _)

theorem mess_tail_zero_realloc_ok (m : t_mess_struct) (n : Nat) :
    mess_tail_zero (mess_realloc_ok m n) :=
  mess_tail_zero_zeros _ n rfl (le_refl _)

theorem mess_tail_zero_set_type (m : t_mess_struct) (h : mess_tail_zero m) :
    mess_tail_zero (mess_set_type m) := by
  intro j hj hc
  rw [mess_set_type_len_max] at hj
  rw [mess_set_type_len_cur] at hc
  rw [mess_set_type_list]
  exact h j hj hc

theorem mess_tail_zero_zpad (n : Nat) (m : t_mess_struct) (h : mess_inv n m) :
    mess_tail_zero (mess_zpad m) := by
  obtain ⟨h1, h2, h3⟩ := h
  intro j hj hc
  have hj2 : j < m.len_max := hj
  have hc2 : m.len_cur ≤ j := hc
  have hn : n ≠ 0 := by omega
  have hle := h3 hn
  show (m.list.take m.len_cur ++ List.replicate (m.len_max - m.len_cur) (A_LONG 0))[j]?
    = some (A_LONG 0)
  rw [List.getElem?_append_right (by rw [List.length_take]; omega), List.getElem?_replicate,
    if_pos (by rw [List.length_take]; omega)]

theorem mess_tail_zero_set_first (n : Nat) (m : t_mess_struct) (sym : t_symbol) (argc : Nat)
    (argv : List t_atom) (h : mess_inv n m) (ht : mess_tail_zero m) (h0 : m.len_cur = 0)
    (h1 : 1 ≤ argc) (ha : argc ≤ argv.length) :
    mess_tail_zero (mess_set m sym argc argv 0) := by
  by_cases hnn : MESS_IS_NULL m = true
  · unfold mess_set
    rw [if_pos hnn]
    exact ht
  · have hnull := mess_inv_null_iff n m h
    obtain ⟨hm, hl, _⟩ := h
    have hn : n ≠ 0 := by
      intro h0
      rw [hnull] at hnn
      simp [h0] at hnn
    obtain ⟨c, hc, hcle⟩ : ∃ c : Nat, (if (argc : Int) > (m.len_max : Int) - ((0 : Nat) : Int)
        then m.len_max - 0 else argc) = c ∧ c = min argc m.len_max := by
      refine ⟨_, rfl, ?_⟩
      split <;> omega
    have hset : mess_set m sym argc argv 0
        = { m with len_cur := c + 0, sym := sym, offset := 0,
                   list := ATOMS_COPY (m.list.set 0 (A_SYM sym)) 0 argv c } := by
      unfold mess_set
      rw [if_neg hnn]
      simp only [hc]
    rw [hset]
    intro j hj hcj
    have hj2 : j < m.len_max := hj
    have hcj2 : c ≤ j := by
      have : c + 0 ≤ j := hcj
      omega
    show (ATOMS_COPY (m.list.set 0 (A_SYM sym)) 0 argv c)[j]? = some (A_LONG 0)
    unfold ATOMS_COPY
    rw [List.take_zero, List.nil_append,
      List.getElem?_append_right (by rw [List.length_take]; omega), List.length_take,
      List.getElem?_drop, Nat.min_eq_left (by omega)]
    have hidx : 0 + c + (j - c) = j := by omega
    rw [hidx, List.getElem?_set]
    have hj0 : ¬ (0 = j) := by omega
    rw [if_neg hj0]
    exact ht j hj2 (by omega)

theorem lmax_action_right (x x2 : t_lmax) (h : lmax_action x = some x2) :
    x2.i_list_2 = x.i_list_2 ∧ x2.i_list_1 = x.i_list_1 ∧ x2.maxlen = x.maxlen := by
  unfold lmax_action at h
  simp only [Option.map_eq_some'] at h
  obtain ⟨o2, _, he⟩ := h
  rw [← he]
  exact ⟨rfl, rfl, rfl⟩

theorem lmax_maxlen_set_right (x : t_lmax) (argc : Nat) (argv : List t_atom)
    (ok1 ok2 ok3 : Bool) :
    (lmax_maxlen_set x argc argv ok1 ok2 ok3).1.i_list_2 = x.i_list_2
    ∨ (lmax_maxlen_set x argc argv ok1 ok2 ok3).1.i_list_2
        = mess_init (mess_realloc x.i_list_2 (maxlen_request argv) ok2)
    ∨ (lmax_maxlen_set x argc argv ok1 ok2 ok3).1.i_list_2
        = mess_realloc_ok x.i_list_2 (maxlen_request argv) := by
  unfold lmax_maxlen_set
  split
  · exact Or.inl rfl
  · split
    · exact Or.inl rfl
    · split
      · exact Or.inr (Or.inl rfl)
      · rename_i hnn
        rcases mess_realloc_cases x.i_list_2 (maxlen_request argv) ok2 (maxlen_request_pos argv)
          with ⟨hn, _⟩ | ⟨_, _, he⟩
        · exact absurd (by simp [hn]) hnn
        · exact Or.inr (Or.inr he)

theorem lmax_tail_maxlen_set (x : t_lmax) (argc : Nat) (argv : List t_atom)
    (ok1 ok2 ok3 : Bool) (h : mess_tail_zero x.i_list_2) :
    mess_tail_zero (lmax_maxlen_set x argc argv ok1 ok2 ok3).1.i_list_2 := by
  rcases lmax_maxlen_set_right x argc argv ok1 ok2 ok3 with he | he | he
  · rw [he]; exact h
  · rw [he]; exact mess_tail_zero_init _
  · rw [he]; exact mess_tail_zero_realloc_ok _ _

theorem lmax_empty_maxlen_set (x : t_lmax) (argc : Nat) (argv : List t_atom)
    (ok1 ok2 ok3 : Bool) (h : x.i_list_2.len_cur = 0) :
    (lmax_maxlen_set x argc argv ok1 ok2 ok3).1.i_list_2.len_cur = 0 := by
  rcases lmax_maxlen_set_right x argc argv ok1 ok2 ok3 with he | he | he
  · rw [he]; exact h
  · rw [he]; rfl
  · rw [he]; rfl

theorem lmax_tail_left (x : t_lmax) (m1 : t_mess_struct)
    (r : t_lmax × Option (t_symbol × List t_atom)) (h : lmax_left x m1 = some r) :
    r.1.i_list_2 = x.i_list_2 := by
  unfold lmax_left at h
  simp only [Option.map_eq_some'] at h
  obtain ⟨x2, hx2, he⟩ := h
  rw [← he]
  exact (lmax_action_right _ x2 hx2).1

theorem lmax_tail_right (x : t_lmax) (m2 : t_mess_struct)
    (r : t_lmax × Option (t_symbol × List t_atom)) (h : lmax_right x m2 = some r) :
    r.1.i_list_2 = mess_zpad m2 := by
  unfold lmax_right at h
  simp only [Option.map_eq_some'] at h
  obtain ⟨x2, hx2, he⟩ := h
  rw [← he]
  exact (lmax_action_right _ x2 hx2).1

theorem lmax_tail_handle (x x2 : t_lmax) (m : lmax_msg) (hinv : lmax_inv x)
    (ht : mess_tail_zero x.i_list_2) (h : lmax_handle x m = some x2) :
    mess_tail_zero x2.i_list_2 := by
  cases m with
  | bang => cases h; exact ht
  | clear => cases h; exact mess_tail_zero_set_empty _
  | attr a =>
    cases h
    cases a with
    | maxlen argv ok1 ok2 ok3 => exact lmax_tail_maxlen_set _ _ _ _ _ _ ht
    | warnings b => exact ht
  | int inlet n =>
    simp only [lmax_handle, lmax_int, Option.map_eq_some'] at h
    obtain ⟨r, hr, he⟩ := h
    rw [← he]
    split at hr
    · cases hr; exact ht
    · split at hr
      · rw [lmax_tail_left x _ r hr]; exact ht
      · rw [lmax_tail_right x _ r hr]
        exact mess_tail_zero_zpad _ _ (mess_inv_set _ _ _ _ _ _ hinv.2.1 (by omega) (by simp))
      · cases hr; exact ht
  | float inlet f =>
    simp only [lmax_handle, lmax_float, Option.map_eq_some'] at h
    obtain ⟨r, hr, he⟩ := h
    rw [← he]
    split at hr
    · cases hr; exact ht
    · split at hr
      · rw [lmax_tail_left x _ r hr]; exact ht
      · rw [lmax_tail_right x _ r hr]
        exact mess_tail_zero_zpad _ _ (mess_inv_set _ _ _ _ _ _ hinv.2.1 (by omega) (by simp))
      · cases hr; exact ht
  | list inlet argv =>
    simp only [lmax_handle, lmax_list, Option.map_eq_some'] at h
    obtain ⟨r, hr, he⟩ := h
    rw [← he]
    split at hr
    · cases hr; exact ht
    · split at hr
      · rw [lmax_tail_left x _ r hr]; exact ht
      · rw [lmax_tail_right x _ r hr]
        exact mess_tail_zero_zpad _ _
          (mess_inv_set _ _ _ _ _ _ hinv.2.1 (by omega) (le_refl _))
      · cases hr; exact ht
  | anything inlet sym argv =>
    simp only [lmax_handle, lmax_anything, Option.map_eq_some'] at h
    obtain ⟨r, hr, he⟩ := h
    rw [← he]
    split at hr
    · cases hr; exact ht
    · split at hr
      · rw [lmax_tail_left x _ r hr]; exact ht
      · rw [lmax_tail_right x _ r hr]
        exact mess_tail_zero_zpad _ _
          (mess_inv_set _ _ _ _ _ _ hinv.2.1 (by omega) (le_refl _))
      · cases hr; exact ht

theorem lmax_tail_run (ms : List lmax_msg) :
    ∀ x x2 : t_lmax, lmax_inv x → mess_tail_zero x.i_list_2 → lmax_run x ms = some x2 →
      mess_tail_zero x2.i_list_2 := by
  induction ms with
  | nil => intro x x2 _ ht h; cases h; exact ht
  | cons m ms ih =>
    intro x x2 hinv ht h
    simp only [lmax_run, Option.bind_eq_some] at h
    obtain ⟨x1, h1, h2⟩ := h
    exact ih x1 x2 (lmax_inv_handle x x1 m hinv h1) (lmax_tail_handle x x1 m hinv ht h1) h2

theorem lmax_tail_attrs (attrs : List lmax_attr) :
    ∀ x : t_lmax, mess_tail_zero x.i_list_2 ∧ x.i_list_2.len_cur = 0 →
      mess_tail_zero (attrs.foldl lmax_attr_set x).i_list_2
        ∧ (attrs.foldl lmax_attr_set x).i_list_2.len_cur = 0 := by
  induction attrs with
  | nil => intro x h; exact h
  | cons a attrs ih =>
    intro x h
    apply ih
    cases a with
    | maxlen argv ok1 ok2 ok3 =>
      exact ⟨lmax_tail_maxlen_set _ _ _ _ _ _ h.1, lmax_empty_maxlen_set _ _ _ _ _ _ h.2⟩
    | warnings b => exact h

theorem lmax_tail_new (attrs : List lmax_attr) (ok1 ok2 ok3 : Bool) (argv : List t_atom) :
    mess_tail_zero (lmax_new attrs ok1 ok2 ok3 argv).i_list_2 := by
  have h0 : lmax_inv ⟨mess_init ⟨0, 0, sym_null, [], 0⟩, mess_init ⟨0, 0, sym_null, [], 0⟩,
      mess_init ⟨0, 0, sym_null, [], 0⟩, 0, true⟩ :=
    ⟨mess_inv_init ⟨0, 0, sym_null, [], 0⟩, mess_inv_init ⟨0, 0, sym_null, [], 0⟩,
      mess_inv_init ⟨0, 0, sym_null, [], 0⟩⟩
  have hi1 := lmax_inv_attrs attrs _ h0
  have ht1 := lmax_tail_attrs attrs ⟨mess_init ⟨0, 0, sym_null, [], 0⟩,
      mess_init ⟨0, 0, sym_null, [], 0⟩, mess_init ⟨0, 0, sym_null, [], 0⟩, 0, true⟩
    ⟨mess_tail_zero_init ⟨0, 0, sym_null, [], 0⟩, rfl⟩
  have h2 : ∀ x1 : t_lmax, lmax_inv x1 →
      mess_tail_zero x1.i_list_2 ∧ x1.i_list_2.len_cur = 0 →
      lmax_inv (if x1.maxlen = 0
        then (lmax_maxlen_set x1 1 [A_LONG (MAXLEN_DEF : Nat)] ok1 ok2 ok3).1 else x1)
      ∧ mess_tail_zero (if x1.maxlen = 0
        then (lmax_maxlen_set x1 1 [A_LONG (MAXLEN_DEF : Nat)] ok1 ok2 ok3).1 else x1).i_list_2
      ∧ (if x1.maxlen = 0
        then (lmax_maxlen_set x1 1 [A_LONG (MAXLEN_DEF : Nat)] ok1 ok2 ok3).1
        else x1).i_list_2.len_cur = 0 := by
    intro x1 hx1 ht
    split
    · exact ⟨lmax_inv_maxlen_set _ _ _ _ _ _ hx1, lmax_tail_maxlen_set _ _ _ _ _ _ ht.1,
        lmax_empty_maxlen_set _ _ _ _ _ _ ht.2⟩
    · exact ⟨hx1, ht⟩
  obtain ⟨hi3, ht3, hz3⟩ := h2 _ hi1 ht1
  unfold lmax_new
  simp only
  split
  · rename_i hlen
    apply mess_tail_zero_set_type
    exact mess_tail_zero_set_first _ _ _ _ _ hi3.2.1 ht3 hz3 (by omega) (le_refl _)
  · exact ht3

theorem lmin_action_right (x x2 : t_lmin) (h : lmin_action x = some x2) :
    x2.i_list_2 = x.i_list_2 ∧ x2.i_list_1 = x.i_list_1 ∧ x2.maxlen = x.maxlen := by
  unfold lmin_action at h
  simp only [Option.map_eq_some'] at h
  obtain ⟨o2, _, he⟩ := h
  rw [← he]
  exact ⟨rfl, rfl, rfl⟩

theorem lmin_maxlen_set_right (x : t_lmin) (argc : Nat) (argv : List t_atom)
    (ok1 ok2 ok3 : Bool) :
    (lmin_maxlen_set x argc argv ok1 ok2 ok3).1.i_list_2 = x.i_list_2
    ∨ (lmin_maxlen_set x argc argv ok1 ok2 ok3).1.i_list_2
        = mess_init (mess_realloc x.i_list_2 (maxlen_request argv) ok2)
    ∨ (lmin_maxlen_set x argc argv ok1 ok2 ok3).1.i_list_2
        = mess_realloc_ok x.i_list_2 (maxlen_request argv) := by
  unfold lmin_maxlen_set
  split
  · exact Or.inl rfl
  · split
    · exact Or.inl rfl
    · split
      · exact Or.inr (Or.inl rfl)
      · rename_i hnn
        rcases mess_realloc_cases x.i_list_2 (maxlen_request argv) ok2 (maxlen_request_pos argv)
          with ⟨hn, _⟩ | ⟨_, _, he⟩
        · exact absurd (by simp [hn]) hnn
        · exact Or.inr (Or.inr he)

theorem lmin_tail_maxlen_set (x : t_lmin) (argc : Nat) (argv : List t_atom)
    (ok1 ok2 ok3 : Bool) (h : mess_tail_zero x.i_list_2) :
    mess_tail_zero (lmin_maxlen_set x argc argv ok1 ok2 ok3).1.i_list_2 := by
  rcases lmin_maxlen_set_right x argc argv ok1 ok2 ok3 with he | he | he
  · rw [he]; exact h
  · rw [he]; exact mess_tail_zero_init _
  · rw [he]; exact mess_tail_zero_realloc_ok _ _

theorem lmin_empty_maxlen_set (x : t_lmin) (argc : Nat) (argv : List t_atom)
    (ok1 ok2 ok3 : Bool) (h : x.i_list_2.len_cur = 0) :
    (lmin_maxlen_set x argc argv ok1 ok2 ok3).1.i_list_2.len_cur = 0 := by
  rcases lmin_maxlen_set_right x argc argv ok1 ok2 ok3 with he | he | he
  · rw [he]; exact h
  · rw [he]; rfl
  · rw [he]; rfl

theorem lmin_tail_left (x : t_lmin) (m1 : t_mess_struct)
    (r : t_lmin × Option (t_symbol × List t_atom)) (h : lmin_left x m1 = some r) :
    r.1.i_list_2 = x.i_list_2 := by
  unfold lmin_left at h
  simp only [Option.map_eq_some'] at h
  obtain ⟨x2, hx2, he⟩ := h
  rw [← he]
  exact (lmin_action_right _ x2 hx2).1

theorem lmin_tail_right (x : t_lmin) (m2 : t_mess_struct)
    (r : t_lmin × Option (t_symbol × List t_atom)) (h : lmin_right x m2 = some r) :
    r.1.i_list_2 = mess_zpad m2 := by
  unfold lmin_right at h
  simp only [Option.map_eq_some'] at h
  obtain ⟨x2, hx2, he⟩ := h
  rw [← he]
  exact (lmin_action_right _ x2 hx2).1

theorem lmin_tail_handle (x x2 : t_lmin) (m : lmin_msg) (hinv : lmin_inv x)
    (ht : mess_tail_zero x.i_list_2) (h : lmin_handle x m = some x2) :
    mess_tail_zero x2.i_list_2 := by
  cases m with
  | bang => cases h; exact ht
  | clear => cases h; exact mess_tail_zero_set_empty _
  | attr a =>
    cases h
    cases a with
    | maxlen argv ok1 ok2 ok3 => exact lmin_tail_maxlen_set _ _ _ _ _ _ ht
    | warnings b => exact ht
  | int inlet n =>
    simp only [lmin_handle, lmin_int, Option.map_eq_some'] at h
    obtain ⟨r, hr, he⟩ := h
    rw [← he]
    split at hr
    · cases hr; exact ht
    · split at hr
      · rw [lmin_tail_left x _ r hr]; exact ht
      · rw [lmin_tail_right x _ r hr]
        exact mess_tail_zero_zpad _ _ (mess_inv_set _ _ _ _ _ _ hinv.2.1 (by omega) (by simp))
      · cases hr; exact ht
  | float inlet f =>
    simp only [lmin_handle, lmin_float, Option.map_eq_some'] at h
    obtain ⟨r, hr, he⟩ := h
    rw [← he]
    split at hr
    · cases hr; exact ht
    · split at hr
      · rw [lmin_tail_left x _ r hr]; exact ht
      · rw [lmin_tail_right x _ r hr]
        exact mess_tail_zero_zpad _ _ (mess_inv_set _ _ _ _ _ _ hinv.2.1 (by omega) (by simp))
      · cases hr; exact ht
  | list inlet argv =>
    simp only [lmin_handle, lmin_list, Option.map_eq_some'] at h
    obtain ⟨r, hr, he⟩ := h
    rw [← he]
    split at hr
    · cases hr; exact ht
    · split at hr
      · rw [lmin_tail_left x _ r hr]; exact ht
      · rw [lmin_tail_right x _ r hr]
        exact mess_tail_zero_zpad _ _
          (mess_inv_set _ _ _ _ _ _ hinv.2.1 (by omega) (le_refl _))
      · cases hr; exact ht
  | anything inlet sym argv =>
    simp only [lmin_handle, lmin_anything, Option.map_eq_some'] at h
    obtain ⟨r, hr, he⟩ := h
    rw [← he]
    split at hr
    · cases hr; exact ht
    · split at hr
      · rw [lmin_tail_left x _ r hr]; exact ht
      · rw [lmin_tail_right x _ r hr]
        exact mess_tail_zero_zpad _ _
          (mess_inv_set _ _ _ _ _ _ hinv.2.1 (by omega) (le_refl _))
      · cases hr; exact ht

theorem lmin_tail_run (ms : List lmin_msg) :
    ∀ x x2 : t_lmin, lmin_inv x → mess_tail_zero x.i_list_2 → lmin_run x ms = some x2 →
      mess_tail_zero x2.i_list_2 := by
  induction ms with
  | nil => intro x x2 _ ht h; cases h; exact ht
  | cons m ms ih =>
    intro x x2 hinv ht h
    simp only [lmin_run, Option.bind_eq_some] at h
    obtain ⟨x1, h1, h2⟩ := h
    exact ih x1 x2 (lmin_inv_handle x x1 m hinv h1) (lmin_tail_handle x x1 m hinv ht h1) h2

theorem lmin_tail_attrs (attrs : List lmin_attr) :
    ∀ x : t_lmin, mess_tail_zero x.i_list_2 ∧ x.i_list_2.len_cur = 0 →
      mess_tail_zero (attrs.foldl lmin_attr_set x).i_list_2
        ∧ (attrs.foldl lmin_attr_set x).i_list_2.len_cur = 0 := by
  induction attrs with
  | nil => intro x h; exact h
  | cons a attrs ih =>
    intro x h
    apply ih
    cases a with
    | maxlen argv ok1 ok2 ok3 =>
      exact ⟨lmin_tail_maxlen_set _ _ _ _ _ _ h.1, lmin_empty_maxlen_set _ _ _ _ _ _ h.2⟩
    | warnings b => exact h

theorem lmin_tail_new (attrs : List lmin_attr) (ok1 ok2 ok3 : Bool) (argv : List t_atom) :
    mess_tail_zero (lmin_new attrs ok1 ok2 ok3 argv).i_list_2 := by
  have h0 : lmin_inv ⟨mess_init ⟨0, 0, sym_null, [], 0⟩, mess_init ⟨0, 0, sym_null, [], 0⟩,
      mess_init ⟨0, 0, sym_null, [], 0⟩, 0, true⟩ :=
    ⟨mess_inv_init ⟨0, 0, sym_null, [], 0⟩, mess_inv_init ⟨0, 0, sym_null, [], 0⟩,
      mess_inv_init ⟨0, 0, sym_null, [], 0⟩⟩
  have hi1 := lmin_inv_attrs attrs _ h0
  have ht1 := lmin_tail_attrs attrs ⟨mess_init ⟨0, 0, sym_null, [], 0⟩,
      mess_init ⟨0, 0, sym_null, [], 0⟩, mess_init ⟨0, 0, sym_null, [], 0⟩, 0, true⟩
    ⟨mess_tail_zero_init ⟨0, 0, sym_null, [], 0⟩, rfl⟩
  have h2 : ∀ x1 : t_lmin, lmin_inv x1 →
      mess_tail_zero x1.i_list_2 ∧ x1.i_list_2.len_cur = 0 →
      lmin_inv (if x1.maxlen = 0
        then (lmin_maxlen_set x1 1 [A_LONG (MAXLEN_DEF : Nat)] ok1 ok2 ok3).1 else x1)
      ∧ mess_tail_zero (if x1.maxlen = 0
        then (lmin_maxlen_set x1 1 [A_LONG (MAXLEN_DEF : Nat)] ok1 ok2 ok3).1 else x1).i_list_2
      ∧ (if x1.maxlen = 0
        then (lmin_maxlen_set x1 1 [A_LONG (MAXLEN_DEF : Nat)] ok1 ok2 ok3).1
        else x1).i_list_2.len_cur = 0 := by
    intro x1 hx1 ht
    split
    · exact ⟨lmin_inv_maxlen_set _ _ _ _ _ _ hx1, lmin_tail_maxlen_set _ _ _ _ _ _ ht.1,
        lmin_empty_maxlen_set _ _ _ _ _ _ ht.2⟩
    · exact ⟨hx1, ht⟩
  obtain ⟨hi3, ht3, hz3⟩ := h2 _ hi1 ht1
  unfold lmin_new
  simp only
  split
  · rename_i hlen
    apply mess_tail_zero_set_type
    exact mess_tail_zero_set_first _ _ _ _ _ hi3.2.1 ht3 hz3 (by omega) (le_refl _)
  · exact ht3

/-- C25: the tail of the right list of Lmax and of Lmin. In every state an
object reaches from its creation through any sequence of messages on either
inlet, `clear` and attribute settings, every slot of the right list from its
length up to its capacity holds the int 0. -/
theorem lext_right_tail_zero :
    (∀ attrs ok1 ok2 ok3 argv msgs s,
        lmax_run (lmax_new attrs ok1 ok2 ok3 argv) msgs = some s →
        ∀ j, s.i_list_2.len_cur ≤ j → j < s.i_list_2.len_max →
          s.i_list_2.list[j]? = some (A_LONG 0))
    ∧ (∀ attrs ok1 ok2 ok3 argv msgs s,
        lmin_run (lmin_new attrs ok1 ok2 ok3 argv) msgs = some s →
        ∀ j, s.i_list_2.len_cur ≤ j → j < s.i_list_2.len_max →
          s.i_list_2.list[j]? = some (A_LONG 0)) := by
  constructor
  · intro attrs ok1 ok2 ok3 argv msgs s h j hj1 hj2
    exact lmax_tail_run msgs _ s (lmax_inv_new attrs ok1 ok2 ok3 argv)
      (lmax_tail_new attrs ok1 ok2 ok3 argv) h j hj2 hj1
  · intro attrs ok1 ok2 ok3 argv msgs s h j hj1 hj2
    exact lmin_tail_run msgs _ s (lmin_inv_new attrs ok1 ok2 ok3 argv)
      (lmin_tail_new attrs ok1 ok2 ok3 argv) h j hj2 hj1

/-- C25 on an Lmax object of four slots: after the right list `7 8 9` and
then the right int 5, the right list holds `5 0 0 0` with length 1, so slot 2
holds 0 and no longer 9. -/
theorem lext_right_tail_zero_witness :
    lmax_run (lmax_new [lmax_attr.maxlen [A_LONG 4] true true true] true true true [])
        [lmax_msg.list 1 [A_LONG 7, A_LONG 8, A_LONG 9], lmax_msg.int 1 5]
      = some ⟨⟨0, 4, sym_empty, [A_LONG 0, A_LONG 0, A_LONG 0, A_LONG 0], 0⟩,
          ⟨1, 4, sym_int, [A_LONG 5, A_LONG 0, A_LONG 0, A_LONG 0], 0⟩,
          ⟨0, 4, sym_empty, [A_LONG 0, A_LONG 0, A_LONG 0, A_LONG 0], 0⟩, 4, true⟩
    ∧ [A_LONG 5, A_LONG 0, A_LONG 0, A_LONG 0][2]? = some (A_LONG 0) :=
  ⟨by decide,
    lext_right_tail_zero.1 [lmax_attr.maxlen [A_LONG 4] true true true] true true true []
      [lmax_msg.list 1 [A_LONG 7, A_LONG 8, A_LONG 9], lmax_msg.int 1 5]
      ⟨⟨0, 4, sym_empty, [A_LONG 0, A_LONG 0, A_LONG 0, A_LONG 0], 0⟩,
        ⟨1, 4, sym_int, [A_LONG 5, A_LONG 0, A_LONG 0, A_LONG 0], 0⟩,
        ⟨0, 4, sym_empty, [A_LONG 0, A_LONG 0, A_LONG 0, A_LONG 0], 0⟩, 4, true⟩
      (by decide) 2 (by decide) (by decide)⟩

theorem lext_action_unequal (body : t_atom → t_atom → t_atom) (l1 l2 o : t_mess_struct)
    (n : Nat) (h1 : mess_inv n l1) (h2 : mess_inv n l2) (ho : mess_inv n o) (hn : n ≠ 0)
    (ht : mess_tail_zero l2) (hl1 : 1 < l1.len_cur) (hl2 : 1 < l2.len_cur) :
    ∃ o2, lext_action body l1 l2 o = some o2
      ∧ o2.len_cur = l1.len_cur
      ∧ (∀ i, i < l1.len_cur → i < l2.len_cur →
          ∃ a b, l1.list[i]? = some a ∧ l2.list[i]? = some b
            ∧ o2.list[i]? = some (body a b))
      ∧ (∀ i, i < l1.len_cur → l2.len_cur ≤ i →
          ∃ a, l1.list[i]? = some a ∧ o2.list[i]? = some (body a (A_LONG 0)))
      ∧ (∀ j, l1.len_cur ≤ j → o2.list[j]? = o.list[j]?) := by
  have hok : lext_ok l1 l2 o :=
    ⟨by rw [h1.2.1]; exact h1.2.2 hn, by rw [h2.2.1]; exact h2.2.2 hn,
      by rw [h1.2.1, h2.2.1], by rw [h2.2.1, ho.2.1]⟩
  obtain ⟨o2, hs, hlen, _, hp, hf⟩ := lext_action_spec body l1 l2 o hok
  have hne1 : ¬ l1.len_cur = 1 := by omega
  have hne2 : ¬ (l1.len_cur ≠ 1 ∧ l2.len_cur = 1) := by omega
  rw [if_neg hne1] at hlen
  refine ⟨o2, hs, hlen, ?_, ?_, ?_⟩
  · intro i hi _
    obtain ⟨a, b, ha, hb, hab⟩ := hp i (by rw [hlen]; exact hi)
    rw [if_neg hne1] at ha
    rw [if_neg hne2] at hb
    exact ⟨a, b, ha, hb, hab⟩
  · intro i hi hi2
    obtain ⟨a, b, ha, hb, hab⟩ := hp i (by rw [hlen]; exact hi)
    rw [if_neg hne1] at ha
    rw [if_neg hne2] at hb
    have hle := h1.2.2 hn
    have hz := ht i (by rw [h2.1]; omega) hi2
    rw [hz] at hb
    cases hb
    exact ⟨a, ha, hab⟩
  · intro j hj
    exact hf j (by rw [hlen]; exact hj)

set_option maxRecDepth 8192 in
/-- C26: `lmax_action` and `lmin_action` with two lists longer than 1, on an
allocated object whose three lists are consistent and whose right list holds
the int 0 from its length on. The output length is the left length. Every
position below both lengths holds the loop body applied to the left and the
right atom there; every position from the right length up to the left length
holds the loop body applied to the left atom and the int 0; the slots of the
output array from the left length on are not written, so right atoms beyond
the left length are not used. The maximum of left `1 5 -3` and right `4 4` is
`4 5 0`. -/
theorem lmax_lmin_unequal_lengths (x : t_lmax) (y : t_lmin)
    (hx : lmax_inv x) (hxn : x.maxlen ≠ 0) (hxt : mess_tail_zero x.i_list_2)
    (hx1 : 1 < x.i_list_1.len_cur) (hx2 : 1 < x.i_list_2.len_cur)
    (hy : lmin_inv y) (hyn : y.maxlen ≠ 0) (hyt : mess_tail_zero y.i_list_2)
    (hy1 : 1 < y.i_list_1.len_cur) (hy2 : 1 < y.i_list_2.len_cur) :
    (∃ x2, lmax_action x = some x2
      ∧ x2.o_list.len_cur = x.i_list_1.len_cur
      ∧ (∀ i, i < x.i_list_1.len_cur → i < x.i_list_2.len_cur →
          ∃ a b, x.i_list_1.list[i]? = some a ∧ x.i_list_2.list[i]? = some b
            ∧ x2.o_list.list[i]? = some (lmax_atom a b))
      ∧ (∀ i, i < x.i_list_1.len_cur → x.i_list_2.len_cur ≤ i →
          ∃ a, x.i_list_1.list[i]? = some a
            ∧ x2.o_list.list[i]? = some (lmax_atom a (A_LONG 0)))
      ∧ (∀ j, x.i_list_1.len_cur ≤ j → x2.o_list.list[j]? = x.o_list.list[j]?))
    ∧ (∃ y2, lmin_action y = some y2
      ∧ y2.o_list.len_cur = y.i_list_1.len_cur
      ∧ (∀ i, i < y.i_list_1.len_cur → i < y.i_list_2.len_cur →
          ∃ a b, y.i_list_1.list[i]? = some a ∧ y.i_list_2.list[i]? = some b
            ∧ y2.o_list.list[i]? = some (lmin_atom a b))
      ∧ (∀ i, i < y.i_list_1.len_cur → y.i_list_2.len_cur ≤ i →
          ∃ a, y.i_list_1.list[i]? = some a
            ∧ y2.o_list.list[i]? = some (lmin_atom a (A_LONG 0)))
      ∧ (∀ j, y.i_list_1.len_cur ≤ j → y2.o_list.list[j]? = y.o_list.list[j]?))
    ∧ ((lmax_list lmax_new_default 1 2 [A_LONG 4, A_LONG 4]).bind
          (fun r => lmax_list r.1 0 3 [A_LONG 1, A_LONG 5, A_LONG (-3)])).map Prod.snd
        = some (some (sym_list, [A_LONG 4, A_LONG 5, A_LONG 0]))
    ∧ ((lmax_list lmax_new_default 1 3 [A_LONG 4, A_LONG 4, A_LONG 9]).bind
          (fun r => lmax_list r.1 0 2 [A_LONG 1, A_LONG 5])).map Prod.snd
        = some (some (sym_list, [A_LONG 4, A_LONG 5])) := by
  refine ⟨?_, ?_, by decide, by decide⟩
  · obtain ⟨o2, ho, hl, hp, hq, hf⟩ :=
      lext_action_unequal lmax_atom _ _ _ _ hx.1 hx.2.1 hx.2.2 hxn hxt hx1 hx2
    exact ⟨{ x with o_list := o2 }, by simp [lmax_action, ho], hl, hp, hq, hf⟩
  · obtain ⟨o2, ho, hl, hp, hq, hf⟩ :=
      lext_action_unequal lmin_atom _ _ _ _ hy.1 hy.2.1 hy.2.2 hyn hyt hy1 hy2
    exact ⟨{ y with o_list := o2 }, by simp [lmin_action, ho], hl, hp, hq, hf⟩

/-- C26 on objects of four slots with left `1 5 -3` and right `4 4`: position
2 of the output holds the maximum, respectively the minimum, of -3 and the
padding 0. -/
theorem lmax_lmin_unequal_lengths_witness :
    (∃ a, [A_LONG 1, A_LONG 5, A_LONG (-3), A_LONG 0][2]? = some a
      ∧ ∃ x2, lmax_action
          ⟨⟨3, 4, sym_list, [A_LONG 1, A_LONG 5, A_LONG (-3), A_LONG 0], 0⟩,
            ⟨2, 4, sym_list, [A_LONG 4, A_LONG 4, A_LONG 0, A_LONG 0], 0⟩,
            ⟨0, 4, sym_empty, [A_LONG 0, A_LONG 0, A_LONG 0, A_LONG 0], 0⟩, 4, true⟩ = some x2
        ∧ x2.o_list.list[2]? = some (lmax_atom a (A_LONG 0)))
    ∧ lmax_atom (A_LONG (-3)) (A_LONG 0) = A_LONG 0
    ∧ lmin_atom (A_LONG (-3)) (A_LONG 0) = A_LONG (-3) := by
  obtain ⟨⟨x2, h1, _, _, h4, _⟩, _⟩ := lmax_lmin_unequal_lengths
    ⟨⟨3, 4, sym_list, [A_LONG 1, A_LONG 5, A_LONG (-3), A_LONG 0], 0⟩,
      ⟨2, 4, sym_list, [A_LONG 4, A_LONG 4, A_LONG 0, A_LONG 0], 0⟩,
      ⟨0, 4, sym_empty, [A_LONG 0, A_LONG 0, A_LONG 0, A_LONG 0], 0⟩, 4, true⟩
    ⟨⟨3, 4, sym_list, [A_LONG 1, A_LONG 5, A_LONG (-3), A_LONG 0], 0⟩,
      ⟨2, 4, sym_list, [A_LONG 4, A_LONG 4, A_LONG 0, A_LONG 0], 0⟩,
      ⟨0, 4, sym_empty, [A_LONG 0, A_LONG 0, A_LONG 0, A_LONG 0], 0⟩, 4, true⟩
    (by decide) (by decide) (by decide) (by decide) (by decide)
    (by decide) (by decide) (by decide) (by decide) (by decide)
  obtain ⟨a, ha, hb⟩ := h4 2 (by decide) (by decide)
  exact ⟨⟨a, ha, x2, h1, hb⟩, by decide, by decide⟩

/-! ### The `mess_fill` functions -/

/-- C27: on an allocated structure, `mess_fill_int`, `mess_fill_float` and
`mess_fill_sym` give the same structure as `mess_fill_atom` (the fill followed
by `mess_set_type`) for the same constant and length, whatever the length.
Every slot up to the capacity holds the constant, the length is the one
given, and the capacity is unchanged. The symbol and offset are: `empty` and
0 for length 0; `int`, respectively `float`, and 0 for length 1; `list` and 0
for a longer length and a number; the symbol filled and 1 for a symbol and a
length of at least 1. -/
theorem mess_fill_agrees (m : t_mess_struct) (len : Nat) (hnn : MESS_IS_NULL m = false) :
    (∀ v, mess_fill_int m v len = mess_fill_atom m (A_LONG v) len)
    ∧ (∀ f, mess_fill_float m f len = mess_fill_atom m (A_FLOAT f) len)
    ∧ (∀ s, mess_fill_sym m s len = mess_fill_atom m (A_SYM s) len)
    ∧ (∀ a, (mess_fill_atom m a len).list = List.replicate m.len_max a
        ∧ (mess_fill_atom m a len).len_cur = len
        ∧ (mess_fill_atom m a len).len_max = m.len_max)
    ∧ (∀ a, len = 0 →
        (mess_fill_atom m a len).sym = sym_empty ∧ (mess_fill_atom m a len).offset = 0)
    ∧ (∀ v, len = 1 → (mess_fill_atom m (A_LONG v) len).sym = sym_int
        ∧ (mess_fill_atom m (A_LONG v) len).offset = 0)
    ∧ (∀ f, len = 1 → (mess_fill_atom m (A_FLOAT f) len).sym = sym_float
        ∧ (mess_fill_atom m (A_FLOAT f) len).offset = 0)
    ∧ (∀ a, 1 < len → is_number a = true →
        (mess_fill_atom m a len).sym = sym_list ∧ (mess_fill_atom m a len).offset = 0)
    ∧ (∀ s, 1 ≤ len →
        (mess_fill_atom m (A_SYM s) len).sym = s ∧ (mess_fill_atom m (A_SYM s) len).offset = 1) := by
  have hpos : m.len_max ≠ 0 := by
    unfold MESS_IS_NULL at hnn
    simp only [Bool.or_eq_false_iff, beq_eq_false_iff_ne] at hnn
    exact hnn.1
  obtain ⟨k, hk⟩ : ∃ k, m.len_max = k + 1 := Nat.exists_eq_succ_of_ne_zero hpos
  have hfill : ∀ a, mess_fill_atom m a len
      = (match len, a with
        | 0, _ => { m with len_cur := len, list := List.replicate m.len_max a, offset := 0,
                           sym := sym_empty }
        | 1, A_LONG _ => { m with len_cur := len, list := List.replicate m.len_max a,
                                  offset := 0, sym := sym_int }
        | 1, A_FLOAT _ => { m with len_cur := len, list := List.replicate m.len_max a,
                                   offset := 0, sym := sym_float }
        | _, A_LONG _ => { m with len_cur := len, list := List.replicate m.len_max a,
                                  offset := 0, sym := sym_list }
        | _, A_FLOAT _ => { m with len_cur := len, list := List.replicate m.len_max a,
                                   offset := 0, sym := sym_list }
        | _, A_SYM s => { m with len_cur := len, list := List.replicate m.len_max a,
                                 offset := 1, sym := s }) := by
    intro a
    unfold mess_fill_atom mess_set_type
    have hn2 : MESS_IS_NULL { m with len_cur := len, list := List.replicate m.len_max a }
        = false := by
      unfold MESS_IS_NULL
      simp [hk, List.replicate_succ]
    rw [if_neg (by simp [hn2])]
    simp only [hk, List.replicate_succ, List.head?_cons]
    match len, a with
    | 0, A_LONG _ => rfl
    | 0, A_FLOAT _ => rfl
    | 0, A_SYM _ => rfl
    | 1, A_LONG _ => rfl
    | 1, A_FLOAT _ => rfl
    | 1, A_SYM _ => rfl
    | n + 2, A_LONG _ => rfl
    | n + 2, A_FLOAT _ => rfl
    | n + 2, A_SYM _ => rfl
  refine ⟨?_, ?_, ?_, ?_, ?_, ?_, ?_, ?_, ?_⟩
  · intro v
    rw [hfill]
    unfold mess_fill_int
    match len with
    | 0 => rfl
    | 1 => rfl
    | n + 2 => rfl
  · intro f
    rw [hfill]
    unfold mess_fill_float
    match len with
    | 0 => rfl
    | 1 => rfl
    | n + 2 => rfl
  · intro s
    rw [hfill]
    unfold mess_fill_sym
    match len with
    | 0 => rfl
    | 1 => rfl
    | n + 2 => rfl
  · intro a
    unfold mess_fill_atom
    exact ⟨by rw [mess_set_type_list], by rw [mess_set_type_len_cur],
      by rw [mess_set_type_len_max]⟩
  · intro a h0
    subst h0
    rw [hfill]
    cases a <;> exact ⟨rfl, rfl⟩
  · intro v h1
    subst h1
    rw [hfill]
    exact ⟨rfl, rfl⟩
  · intro f h1
    subst h1
    rw [hfill]
    exact ⟨rfl, rfl⟩
  · intro a h1 ha
    rw [hfill]
    match len, h1, a, ha with
    | n + 2, _, A_LONG _, _ => exact ⟨rfl, rfl⟩
    | n + 2, _, A_FLOAT _, _ => exact ⟨rfl, rfl⟩
  · intro s h1
    rw [hfill]
    match len, h1 with
    | 1, _ => exact ⟨rfl, rfl⟩
    | n + 2, _ => exact ⟨rfl, rfl⟩

/-- C27 on a structure of three slots: filling with the symbol `foo` for
length 2 gives the symbol `foo` and offset 1 in both ways. -/
theorem mess_fill_agrees_witness :
    mess_fill_sym (mess_realloc_ok (mess_init ⟨0, 0, sym_null, [], 0⟩) 3) "foo" 2
      = mess_fill_atom (mess_realloc_ok (mess_init ⟨0, 0, sym_null, [], 0⟩) 3) (A_SYM "foo") 2
    ∧ mess_fill_sym (mess_realloc_ok (mess_init ⟨0, 0, sym_null, [], 0⟩) 3) "foo" 2
      = ⟨2, 3, "foo", [A_SYM "foo", A_SYM "foo", A_SYM "foo"], 1⟩ :=
  ⟨(mess_fill_agrees (mess_realloc_ok (mess_init ⟨0, 0, sym_null, [], 0⟩) 3) 2
      (by decide)).2.2.1 "foo",
    by decide⟩

/-! ### Lpad: `clear` and the length setters -/

/-- C28: `lpad_clear` on an object whose output length lies within its
capacity: the output length is unchanged and every slot below it holds the
int 0 afterwards. In fact every slot up to the capacity is set to the int 0;
the capacity, the number of slots, the left padding, the padding value and
`maxlen` are unchanged. -/
theorem lpad_clear_zeroes (x : t_lpad) (hcap : x.o_list.len_cur ≤ x.o_list.len_max) :
    (lpad_clear x).o_list.len_cur = x.o_list.len_cur
    ∧ (∀ j, j < x.o_list.len_cur → (lpad_clear x).o_list.list[j]? = some (A_LONG 0))
    ∧ (lpad_clear x).o_list.list = List.replicate x.o_list.len_max (A_LONG 0)
    ∧ (lpad_clear x).o_list.len_max = x.o_list.len_max
    ∧ (lpad_clear x).i_pad_left = x.i_pad_left
    ∧ (lpad_clear x).i_pad_val = x.i_pad_val
    ∧ (lpad_clear x).maxlen = x.maxlen := by
  refine ⟨rfl, ?_, rfl, rfl, rfl, rfl, rfl⟩
  intro j hj
  show (List.replicate x.o_list.len_max (A_LONG 0))[j]? = some (A_LONG 0)
  rw [List.getElem?_replicate, if_pos (by omega)]

/-- C28 on an object of five slots holding `0 7 8 0 0` with output length 5. -/
theorem lpad_clear_zeroes_witness :
    (lpad_clear (lpad_action lpad_new_example sym_list 2 [A_LONG 7, A_LONG 8] 0)).o_list.len_cur
      = (lpad_action lpad_new_example sym_list 2 [A_LONG 7, A_LONG 8] 0).o_list.len_cur
    ∧ (lpad_action lpad_new_example sym_list 2 [A_LONG 7, A_LONG 8] 0).o_list.list
      = [A_LONG 0, A_LONG 7, A_LONG 8, A_LONG 0, A_LONG 0]
    ∧ (lpad_clear (lpad_action lpad_new_example sym_list 2 [A_LONG 7, A_LONG 8] 0)).o_list.list
      = [A_LONG 0, A_LONG 0, A_LONG 0, A_LONG 0, A_LONG 0] :=
  ⟨(lpad_clear_zeroes (lpad_action lpad_new_example sym_list 2 [A_LONG 7, A_LONG 8] 0)
      (by decide)).1,
    by decide, by decide⟩

theorem CLAMP_zero_eq (a : Int) (n : Nat) : CLAMP a 0 (n : Int) = max 0 (min a (n : Int)) := by
  unfold CLAMP
  split
  · split <;> omega
  · omega

/-- C29 (as amended): an int `n` sent to the second inlet (left padding) or to
the fourth inlet (output length) of Lpad is first converted to a 32-bit
integer. For every `n` the value stored is
`max 0 (min ((t_mess_int)n) maxlen)` and lies between 0 and `maxlen`; for
every `n` in the range of a 32-bit signed integer it is
`max 0 (min n maxlen)`. -/
theorem lpad_int_clamp (x : t_lpad) (n : Int) :
    (((lpad_int x 1 n).1.i_pad_left : Int) = max 0 (min (to_mess_int n) (x.maxlen : Int))
      ∧ (lpad_int x 1 n).1.i_pad_left ≤ x.maxlen)
    ∧ (((lpad_int x 3 n).1.o_list.len_cur : Int) = max 0 (min (to_mess_int n) (x.maxlen : Int))
      ∧ (lpad_int x 3 n).1.o_list.len_cur ≤ x.maxlen)
    ∧ (-(2 : Int) ^ 31 ≤ n → n < (2 : Int) ^ 31 →
        ((lpad_int x 1 n).1.i_pad_left : Int) = max 0 (min n (x.maxlen : Int))
        ∧ ((lpad_int x 3 n).1.o_list.len_cur : Int) = max 0 (min n (x.maxlen : Int))) := by
  have hb := CLAMP_zero_bounds (to_mess_int n) x.maxlen
  have he := CLAMP_zero_eq (to_mess_int n) x.maxlen
  have h1 : (lpad_int x 1 n).1.i_pad_left = (CLAMP (to_mess_int n) 0 (x.maxlen : Int)).toNat :=
    rfl
  have h3 : (lpad_int x 3 n).1.o_list.len_cur
      = (CLAMP (to_mess_int n) 0 (x.maxlen : Int)).toNat := rfl
  rw [h1, h3]
  refine ⟨⟨by omega, by omega⟩, ⟨by omega, by omega⟩, ?_⟩
  intro hlo hhi
  rw [to_mess_int_of_range n hlo hhi] at he
  rw [to_mess_int_of_range n hlo hhi]
  exact ⟨by omega, by omega⟩

/-- C29 on the object of five slots: the int 7 sent to the left padding inlet
is stored as 5. -/
theorem lpad_int_clamp_witness :
    ((lpad_int lpad_new_example 1 7).1.i_pad_left : Int)
        = max 0 (min 7 (lpad_new_example.maxlen : Int))
    ∧ (lpad_int lpad_new_example 1 7).1.i_pad_left = 5 :=
  ⟨((lpad_int_clamp lpad_new_example 7).2.2 (by decide) (by decide)).1, by decide⟩

/-- C29 as stated fails: on the object of five slots, the 64-bit integer
`2^32 + 3` sent to the left padding inlet, respectively to the output length
inlet, is stored as 3, while `max 0 (min (2^32 + 3) 5)` is 5. -/
theorem lpad_int_clamp_wraps :
    (lpad_int lpad_new_example 1 (2 ^ 32 + 3)).1.i_pad_left = 3
    ∧ (lpad_int lpad_new_example 3 (2 ^ 32 + 3)).1.o_list.len_cur = 3
    ∧ max (0 : Int) (min (2 ^ 32 + 3) (lpad_new_example.maxlen : Int)) = 5 := by
  refine ⟨by decide, by decide, by decide⟩

/-! ### Lfind: the stored output -/

theorem lfind_action_output (x : t_lfind) (argc : Nat) (argv : List t_atom) (f : Dbl)
    (r : t_lfind × Option Dbl) (h : lfind_action x argc argv f = some r) :
    r.1.i_list_2 = x.i_list_2
    ∧ (r.2 = none → r.1 = x)
    ∧ (∀ d, r.2 = some d → r.1 = { x with o_float := d }) := by
  unfold lfind_action at h
  simp only [Option.map_eq_some'] at h
  obtain ⟨p, _, hp⟩ := h
  cases p with
  | none =>
    cases hp
    exact ⟨rfl, fun _ => rfl, fun d hd => by cases hd⟩
  | some v =>
    cases hp
    refine ⟨rfl, ?_, ?_⟩
    · intro hn
      cases hn
    · intro d hd
      cases hd
      rfl

theorem lfind_maxlen_set_output (x : t_lfind) (argc : Nat) (argv : List t_atom) (ok : Bool) :
    (lfind_maxlen_set x argc argv ok).1.o_float = x.o_float := by
  unfold lfind_maxlen_set
  split
  · rfl
  · split
    · rfl
    · split <;> rfl

theorem lfind_step_output (x : t_lfind) (m : lfind_msg) (r : t_lfind × Option Dbl)
    (h : lfind_step x m = some r) :
    r.1.o_float = (r.2.toList.getLast?).getD x.o_float := by
  have hact : ∀ (argc : Nat) (argv : List t_atom) (f : Dbl),
      lfind_action x argc argv f = some r →
      r.1.o_float = (r.2.toList.getLast?).getD x.o_float := by
    intro argc argv f ha
    obtain ⟨_, h1, h2⟩ := lfind_action_output x argc argv f r ha
    cases hr : r.2 with
    | none => rw [h1 hr]; rfl
    | some d => rw [h2 d hr]; rfl
  have hfloat : ∀ (inlet : Nat) (f : Dbl), lfind_float x inlet f = some r →
      r.1.o_float = (r.2.toList.getLast?).getD x.o_float := by
    intro inlet f hf
    unfold lfind_float at hf
    split at hf
    · cases hf; rfl
    · split at hf
      · exact hact _ _ _ hf
      · cases hf; rfl
      · cases hf; rfl
  cases m with
  | bang => cases h; rfl
  | anything inlet sym argv => cases h; rfl
  | clear => cases h; rfl
  | attr a =>
    cases h
    cases a with
    | maxlen argv ok => exact lfind_maxlen_set_output _ _ _ _
    | warnings b => rfl
  | int inlet n => exact hfloat inlet _ h
  | float inlet f => exact hfloat inlet f h
  | list inlet argv =>
    simp only [lfind_step, lfind_list] at h
    split at h
    · cases h; rfl
    · split at h
      · split at h
        · cases h
        · exact hact _ _ _ h
      · cases h; rfl
      · cases h; rfl

theorem lfind_trace_output (ms : List lfind_msg) :
    ∀ (x s : t_lfind) (outs : List Dbl), lfind_trace x ms = some (s, outs) →
      lfind_run x ms = some s ∧ s.o_float = (outs.getLast?).getD x.o_float := by
  induction ms with
  | nil =>
    intro x s outs h
    cases h
    exact ⟨rfl, rfl⟩
  | cons m ms ih =>
    intro x s outs h
    simp only [lfind_trace, Option.bind_eq_some, Option.map_eq_some'] at h
    obtain ⟨r, hr, t, ht, he⟩ := h
    cases he
    obtain ⟨hrun, hlast⟩ := ih r.1 t.1 t.2 ht
    have hstep := lfind_step_output x m r hr
    have hhandle : lfind_handle x m = some r.1 := by
      cases m with
      | bang => cases hr; rfl
      | anything inlet sym argv => cases hr; rfl
      | clear => cases hr; rfl
      | attr a => cases hr; rfl
      | int inlet n =>
        simp only [lfind_step] at hr
        simp only [lfind_handle, hr, Option.map_some']
      | float inlet f =>
        simp only [lfind_step] at hr
        simp only [lfind_handle, hr, Option.map_some']
      | list inlet argv =>
        simp only [lfind_step] at hr
        simp only [lfind_handle, hr, Option.map_some']
    refine ⟨by simp only [lfind_run, hhandle, Option.some_bind]; exact hrun, ?_⟩
    rw [hlast, hstep]
    cases ht2 : t.2 with
    | nil => simp
    | cons d rest =>
      rw [List.getLast?_append_of_ne_nil _ (by simp)]
      obtain ⟨y, hy⟩ : ∃ y, (d :: rest).getLast? = some y :=
        ⟨_, List.getLast?_eq_getLast _ (by simp)⟩
      rw [hy]
      rfl

/-- C30: `lfind_bang` sends the stored float `o_float`. `lfind_new` sets it to
0. After any sequence of messages that runs without a read outside an array,
it is the last float computed and sent by `lfind_action` during the sequence,
or its value before the sequence if there was none. A call of `lfind_action`
that sends nothing leaves the whole object unchanged; one that sends `d`
changes only `o_float`, to `d`; no call changes the stored list. -/
theorem lfind_bang_last_output :
    (∀ x, lfind_bang x = x.o_float)
    ∧ (∀ attrs ok argv, lfind_bang (lfind_new attrs ok argv) = Dbl.fin 0)
    ∧ (∀ x msgs s outs, lfind_trace x msgs = some (s, outs) →
        lfind_run x msgs = some s ∧ lfind_bang s = (outs.getLast?).getD x.o_float)
    ∧ (∀ attrs ok argv msgs s outs,
        lfind_trace (lfind_new attrs ok argv) msgs = some (s, outs) →
        lfind_bang s = (outs.getLast?).getD (Dbl.fin 0))
    ∧ (∀ x argc argv f r, lfind_action x argc argv f = some r →
        r.1.i_list_2 = x.i_list_2
        ∧ (r.2 = none → r.1 = x)
        ∧ (∀ d, r.2 = some d → r.1 = { x with o_float := d })) := by
  refine ⟨fun _ => rfl, fun _ _ _ => rfl, ?_, ?_, ?_⟩
  · intro x msgs s outs h
    exact lfind_trace_output msgs x s outs h
  · intro attrs ok argv msgs s outs h
    exact (lfind_trace_output msgs _ s outs h).2
  · intro x argc argv f r h
    exact lfind_action_output x argc argv f r h

/-- C30 on an Lfind object of four slots: after the right list `0 10 20`, the
query 10 sends the position 1, the query 100 sends nothing, and `bang` then
sends 1 again. -/
theorem lfind_bang_last_output_witness :
    lfind_trace (lfind_new [lfind_attr.maxlen [A_LONG 4] true] true [])
        [lfind_msg.list 1 [A_LONG 0, A_LONG 10, A_LONG 20], lfind_msg.float 0 (Dbl.fin 10),
          lfind_msg.float 0 (Dbl.fin 100)]
      = some (⟨⟨3, 4, sym_list, [A_LONG 0, A_LONG 10, A_LONG 20, A_LONG 0], 0⟩,
          Dbl.ofInt 1, 4, true⟩, [Dbl.ofInt 1])
    ∧ lfind_bang ⟨⟨3, 4, sym_list, [A_LONG 0, A_LONG 10, A_LONG 20, A_LONG 0], 0⟩,
          Dbl.ofInt 1, 4, true⟩
      = ([Dbl.ofInt 1].getLast?).getD (Dbl.fin 0) := by
  have h : lfind_trace (lfind_new [lfind_attr.maxlen [A_LONG 4] true] true [])
        [lfind_msg.list 1 [A_LONG 0, A_LONG 10, A_LONG 20], lfind_msg.float 0 (Dbl.fin 10),
          lfind_msg.float 0 (Dbl.fin 100)]
      = some (⟨⟨3, 4, sym_list, [A_LONG 0, A_LONG 10, A_LONG 20, A_LONG 0], 0⟩,
          Dbl.ofInt 1, 4, true⟩, [Dbl.ofInt 1]) := by
    decide!
  exact ⟨h, lfind_bang_last_output.2.2.2.1 _ _ _ _ _ _ h⟩

/-! ### Lfind: a constant stored list -/

/-- C31: a float `f`, or an int `n`, on the right inlet of an Lfind object
whose array is allocated: the handler returns without output, and afterwards
every slot of the stored array up to the capacity holds the float `f`
(`(double)n` for an int), the stored length is 1, the symbol is `float` and
the offset is 0; nothing else in the object changes. -/
theorem lfind_float_constant (x : t_lfind) (f : Dbl) (n : Int) (halloc : x.maxlen ≠ 0) :
    lfind_float x 1 f
        = some ({ x with
            i_list_2 := ⟨1, x.i_list_2.len_max, sym_float,
              List.replicate x.i_list_2.len_max (A_FLOAT f), 0⟩ }, none)
    ∧ lfind_int x 1 n
        = some ({ x with
            i_list_2 := ⟨1, x.i_list_2.len_max, sym_float,
              List.replicate x.i_list_2.len_max (A_FLOAT (Dbl.ofInt n)), 0⟩ }, none)
    ∧ (∀ j, j < x.i_list_2.len_max →
        (List.replicate x.i_list_2.len_max (A_FLOAT f))[j]? = some (A_FLOAT f)) := by
  refine ⟨?_, ?_, ?_⟩
  · unfold lfind_float
    rw [if_neg halloc]
    rfl
  · unfold lfind_int lfind_float
    rw [if_neg halloc]
    rfl
  · intro j hj
    rw [List.getElem?_replicate, if_pos hj]

/-- C31 on an Lfind object of four slots holding `0 10 20`: the float `2.5` on
the right inlet leaves `2.5 2.5 2.5 2.5` with length 1. -/
theorem lfind_float_constant_witness :
    lfind_float ⟨⟨3, 4, sym_list, [A_LONG 0, A_LONG 10, A_LONG 20, A_LONG 0], 0⟩,
        Dbl.fin 0, 4, true⟩ 1 (Dbl.fin (5 / 2))
      = some (⟨⟨1, 4, sym_float,
          [A_FLOAT (Dbl.fin (5 / 2)), A_FLOAT (Dbl.fin (5 / 2)), A_FLOAT (Dbl.fin (5 / 2)),
            A_FLOAT (Dbl.fin (5 / 2))], 0⟩, Dbl.fin 0, 4, true⟩, none) :=
  (lfind_float_constant ⟨⟨3, 4, sym_list, [A_LONG 0, A_LONG 10, A_LONG 20, A_LONG 0], 0⟩,
    Dbl.fin 0, 4, true⟩ (Dbl.fin (5 / 2)) 0 (by decide)).1

/-! ### Lchange: storing a message and sending it again -/

theorem mess_set_stored (mess : t_mess_struct) (sym : t_symbol) (argv : List t_atom)
    (offset : Nat) (hnn : MESS_IS_NULL mess = false) (hlen : mess.list.length = mess.len_max)
    (hfit : argv.length + offset ≤ mess.len_max) :
    (mess_set mess sym argv.length argv offset).len_cur = argv.length + offset
    ∧ ((mess_set mess sym argv.length argv offset).list.drop offset).take argv.length = argv
    ∧ (mess_set mess sym argv.length argv offset).sym = sym
    ∧ (mess_set mess sym argv.length argv offset).offset = offset
    ∧ (mess_set mess sym argv.length argv offset).len_max = mess.len_max
    ∧ (mess_set mess sym argv.length argv offset).list.length = mess.len_max := by
  have hc : (if ((argv.length : Nat) : Int) > (mess.len_max : Int) - (offset : Int)
      then mess.len_max - offset else argv.length) = argv.length := by
    rw [if_neg (by omega)]
  have hset : mess_set mess sym argv.length argv offset
      = { mess with len_cur := argv.length + offset, sym := sym, offset := offset,
                    list := ATOMS_COPY (mess.list.set 0 (A_SYM sym)) offset argv argv.length } := by
    unfold mess_set
    rw [if_neg (by simp [hnn])]
    simp only [hc]
  have hl0 : (mess.list.set 0 (A_SYM sym)).length = mess.len_max := by
    rw [List.length_set, hlen]
  have hwin := ATOMS_COPY_window (mess.list.set 0 (A_SYM sym)) argv offset argv.length
    (by omega) (le_refl _)
  have hcopy := ATOMS_COPY_length (mess.list.set 0 (A_SYM sym)) offset argv argv.length
    (by omega) (le_refl _)
  rw [List.take_length] at hwin
  rw [hset]
  exact ⟨rfl, hwin, rfl, rfl, rfl, by rw [hcopy, hl0]⟩

theorem mess_outlet_set (mess : t_mess_struct) (sym : t_symbol) (argv : List t_atom)
    (offset : Nat) (hnn : MESS_IS_NULL mess = false) (hlen : mess.list.length = mess.len_max)
    (hfit : argv.length + offset ≤ mess.len_max) (hshort : argv.length ≤ 32767)
    (hsym : sym ≠ sym_null ∧ sym ≠ sym_empty) :
    mess_outlet (mess_set mess sym argv.length argv offset) = some (sym, argv) := by
  obtain ⟨h1, h2, h3, h4, _, _⟩ := mess_set_stored mess sym argv offset hnn hlen hfit
  unfold mess_outlet
  rw [h3, if_pos hsym, h1, h4]
  have : ((argv.length + offset : Nat) : Int) - (offset : Int) = (argv.length : Int) := by
    omega
  rw [this, to_short_of_le _ hshort, h2]

/-- C32 (as amended): storing a message in an allocated Lchange object
through the right inlet and then sending `bang`. For every message of at most
32767 atoms whose total length (arguments plus offset) fits the capacity and
whose selector is neither the symbol `empty` nor the symbol `null`, `bang`
sends exactly the selector with the arguments: a tagged message with its
selector and without the slot of the selector, a list with `list`, an int with
`int`, a float with `float`. When the symbol of the stored list is `empty` or
`null`, `bang` sends nothing. -/
theorem lchange_store_bang (x : t_lchange) (sym : t_symbol) (argv : List t_atom)
    (n : Int) (f : Dbl)
    (halloc : x.maxlen ≠ 0) (hinv : lchange_inv x)
    (hshort : argv.length ≤ 32767) (hsym : sym ≠ sym_null ∧ sym ≠ sym_empty) :
    (argv.length + 1 ≤ x.maxlen →
      (lchange_anything x 1 sym argv.length argv).map (fun r => lchange_bang r.1)
        = some (some (sym, argv)))
    ∧ (argv.length ≤ x.maxlen →
      (lchange_list x 1 argv.length argv).map (fun r => lchange_bang r.1)
        = some (some (sym_list, argv)))
    ∧ (lchange_int x 1 n).map (fun r => lchange_bang r.1) = some (some (sym_int, [A_LONG n]))
    ∧ (lchange_float x 1 f).map (fun r => lchange_bang r.1)
        = some (some (sym_float, [A_FLOAT f]))
    ∧ (∀ m : t_mess_struct, m.sym = sym_empty ∨ m.sym = sym_null → mess_outlet m = none) := by
  have hnull := mess_inv_null_iff _ _ hinv
  have hnn : MESS_IS_NULL x.i_list_2 = false := by
    rw [hnull]
    simp [halloc]
  obtain ⟨hmax, hlen, _⟩ := hinv
  have hlen2 : x.i_list_2.list.length = x.i_list_2.len_max := by rw [hlen, hmax]
  have hpos : 1 ≤ x.maxlen := by omega
  refine ⟨?_, ?_, ?_, ?_, ?_⟩
  · intro hfit
    unfold lchange_anything lchange_bang
    rw [if_neg halloc]
    simp only [Option.map_some', mess_set_any]
    rw [mess_outlet_set _ _ _ _ hnn hlen2 (by rw [hmax]; exact hfit) hshort hsym]
  · intro hfit
    unfold lchange_list lchange_bang
    rw [if_neg halloc]
    simp only [Option.map_some', mess_set_list]
    rw [mess_outlet_set _ _ _ _ hnn hlen2 (by rw [hmax]; exact hfit) hshort (by decide)]
  · unfold lchange_int lchange_bang
    rw [if_neg halloc]
    simp only [Option.map_some', mess_set_int]
    exact congrArg some (mess_outlet_set x.i_list_2 sym_int [A_LONG n] 0 hnn hlen2
      (by rw [hmax]; exact hpos) (by simp) (by decide))
  · unfold lchange_float lchange_bang
    rw [if_neg halloc]
    simp only [Option.map_some', mess_set_float]
    exact congrArg some (mess_outlet_set x.i_list_2 sym_float [A_FLOAT f] 0 hnn hlen2
      (by rw [hmax]; exact hpos) (by simp) (by decide))
  · intro m hm
    unfold mess_outlet
    rw [if_neg]
    rcases hm with h | h <;> rw [h] <;> simp

/-- C32 on an Lchange object of four slots: the message `foo 1 2` stored
through the right inlet is sent again by `bang` as `foo 1 2`. -/
theorem lchange_store_bang_witness :
    (lchange_anything (lchange_new [lchange_attr.maxlen [A_LONG 4] true] true []) 1 "foo"
        [A_LONG 1, A_LONG 2].length [A_LONG 1, A_LONG 2]).map (fun r => lchange_bang r.1)
      = some (some ("foo", [A_LONG 1, A_LONG 2])) :=
  (lchange_store_bang (lchange_new [lchange_attr.maxlen [A_LONG 4] true] true []) "foo"
    [A_LONG 1, A_LONG 2] 0 (Dbl.fin 0) (by decide) (by decide) (by decide) (by decide)).1
    (by decide)

/-- C32 as stated fails: the message `empty 1 2` fits an Lchange object of four
slots; stored through the right inlet it leaves length 3 with the symbol
`empty`, and `bang` sends nothing. -/
theorem lchange_store_bang_empty_selector :
    (lchange_anything (lchange_new [lchange_attr.maxlen [A_LONG 4] true] true []) 1 "empty" 2
        [A_LONG 1, A_LONG 2]).map (fun r => (r.1.i_list_2.len_cur, lchange_bang r.1))
      = some (3, none) := by
  decide

/-! ### The warning of `mess_set` -/

/-- C33: on an allocated structure of capacity `len_max`, `mess_set` with
offset `offset` and `argc` values posts its truncation warning exactly when
`offset + argc > len_max` and the warning flag is set, and the warning then
prints `offset + argc` and `len_max`. In that case the length stored is
`len_max`; `mess_set` is a total function of its arguments and has no error
return. -/
theorem mess_set_warning_iff (mess : t_mess_struct) (argc offset : Nat) (warn : Bool)
    (hnn : MESS_IS_NULL mess = false) :
    mess_set_warning mess argc offset warn
        = (if offset + argc > mess.len_max ∧ warn = true
            then some (((offset + argc : Nat) : Int), (mess.len_max : Int)) else none)
    ∧ ((mess_set_warning mess argc offset warn).isSome = true
        ↔ (offset + argc > mess.len_max ∧ warn = true))
    ∧ (∀ sym argv, offset ≤ mess.len_max → offset + argc > mess.len_max →
        (mess_set mess sym argc argv offset).len_cur = mess.len_max) := by
  have hw : mess_set_warning mess argc offset warn
      = (if offset + argc > mess.len_max ∧ warn = true
          then some (((offset + argc : Nat) : Int), (mess.len_max : Int)) else none) := by
    unfold mess_set_warning
    rw [if_neg (by simp [hnn])]
    by_cases h : offset + argc > mess.len_max
    · rw [if_pos (by omega)]
      cases warn with
      | true =>
        rw [if_pos rfl, if_pos ⟨h, rfl⟩]
        congr 2
        omega
      | false =>
        rw [if_neg (by simp), if_neg (by simp)]
    · rw [if_neg (by omega), if_neg (fun hh => h hh.1)]
  refine ⟨hw, ?_, ?_⟩
  · rw [hw]
    split
    · rename_i h
      simp [h]
    · rename_i h
      simp only [Option.isSome_none, Bool.false_eq_true, false_iff]
      exact h
  · intro sym argv ho hgt
    unfold mess_set
    rw [if_neg (by simp [hnn])]
    simp only
    rw [if_pos (by omega)]
    omega

/-- C33 on a structure of three slots: `foo 7 8 9` is truncated and the
warning prints 4 and 3 when warnings are set, and nothing is posted when they
are not, or when the message fits. -/
theorem mess_set_warning_iff_witness :
    mess_set_warning (mess_realloc_ok (mess_init ⟨0, 0, sym_null, [], 0⟩) 3) 3 1 true
      = (if 1 + 3 > (mess_realloc_ok (mess_init ⟨0, 0, sym_null, [], 0⟩) 3).len_max
            ∧ true = true
          then some (((1 + 3 : Nat) : Int),
            ((mess_realloc_ok (mess_init ⟨0, 0, sym_null, [], 0⟩) 3).len_max : Int))
          else none)
    ∧ mess_set_warning (mess_realloc_ok (mess_init ⟨0, 0, sym_null, [], 0⟩) 3) 3 1 true
      = some (4, 3)
    ∧ mess_set_warning (mess_realloc_ok (mess_init ⟨0, 0, sym_null, [], 0⟩) 3) 3 1 false = none
    ∧ mess_set_warning (mess_realloc_ok (mess_init ⟨0, 0, sym_null, [], 0⟩) 3) 2 1 true = none :=
  ⟨(mess_set_warning_iff (mess_realloc_ok (mess_init ⟨0, 0, sym_null, [], 0⟩) 3) 3 1 true
      (by decide)).1,
    by decide, by decide, by decide⟩

/-! ### Lchange: the same message twice -/

theorem atoms_diff_self (a : t_atom) (h : a ≠ A_FLOAT Dbl.nan) : atoms_diff a a = false := by
  cases a with
  | A_SYM s => simp [atoms_diff, is_sym, is_number, atom_getsym]
  | A_LONG n =>
    simp [atoms_diff, is_sym, is_number, atom_getfloat, Dbl.eq_self _ (Dbl.ofInt_ne_nan n)]
  | A_FLOAT d =>
    have hd : d ≠ Dbl.nan := fun hd => h (by rw [hd])
    simp [atoms_diff, is_sym, is_number, atom_getfloat, Dbl.eq_self d hd]

/-- C34: the same message twice on an unlocked Lchange object. For an object
that is not locked and whose stored list is allocated and consistent, and for
every message whose total length fits the capacity and that holds no NaN
float, `lchange_action` returns both times; whatever the outlet of the first
call, the second call sends the message through the `same` outlet and leaves
the object, so the stored list, as the first call left it. -/
theorem lchange_action_converges (x : t_lchange) (sym : t_symbol) (argv : List t_atom)
    (offset : Nat) (hunlocked : x.is_locked = false)
    (hnn : MESS_IS_NULL x.i_list_2 = false)
    (hlen : x.i_list_2.list.length = x.i_list_2.len_max)
    (hcur : x.i_list_2.len_cur ≤ x.i_list_2.len_max)
    (hfit : argv.length + offset ≤ x.i_list_2.len_max)
    (hnan : ∀ a, a ∈ argv → a ≠ A_FLOAT Dbl.nan) :
    ∃ r1 r2, lchange_action x sym argv.length argv offset = some r1
      ∧ lchange_action r1.1 sym argv.length argv offset = some r2
      ∧ r2.2.1 = t_lchange_outlet.outl_list_same
      ∧ r2.1 = r1.1 := by
  obtain ⟨l2, maxlen, warnings, locked⟩ := x
  simp only at hunlocked hnn hlen hcur hfit
  subst hunlocked
  have h1 := lchange_action_cases ⟨l2, maxlen, warnings, false⟩ sym argv offset
    (by rw [hlen]; exact hcur)
  by_cases he : lchange_equals ⟨l2, maxlen, warnings, false⟩ sym argv offset
  · rw [if_pos he] at h1
    refine ⟨_, _, h1, ?_, rfl, rfl⟩
    simp only
    rw [h1]
  · rw [if_neg he] at h1
    simp only [Bool.false_eq_true, if_false] at h1
    obtain ⟨s1, s2, s3, s4, s5, s6⟩ := mess_set_stored l2 sym argv offset hnn hlen hfit
    have he2 : lchange_equals
        ⟨mess_set l2 sym argv.length argv offset, maxlen, warnings, false⟩
        sym argv offset := by
      refine ⟨s1.symm, Or.inl s3.symm, ?_⟩
      intro i hi
      have hget : (mess_set l2 sym argv.length argv offset).list[offset + i]?
          = argv[i]? := by
        have := congrArg (fun l => l[i]?) s2
        simp only [List.getElem?_take_of_lt hi, List.getElem?_drop] at this
        exact this
      unfold lchange_pair_equal
      simp only [hget, List.getElem?_eq_getElem hi]
      have hself := atoms_diff_self _ (hnan _ (List.getElem_mem hi))
      rw [atoms_diff_atom_equal] at hself
      simpa using hself
    have h2 := lchange_action_cases
      ⟨mess_set l2 sym argv.length argv offset, maxlen, warnings, false⟩ sym argv offset
      (by
        show (mess_set l2 sym argv.length argv offset).len_cur
          ≤ (mess_set l2 sym argv.length argv offset).list.length
        rw [s1, s6]
        exact hfit)
    rw [if_pos he2] at h2
    exact ⟨_, _, h1, h2, rfl, rfl⟩

/-- C34 on an unlocked object of four slots holding the int 3: the list `1 2.`
comes out of `different` the first time and of `same` the second time. -/
theorem lchange_action_converges_witness :
    (∃ r1 r2, lchange_action ⟨⟨1, 4, sym_int, [A_LONG 3, A_LONG 0, A_LONG 0, A_LONG 0], 0⟩,
          4, true, false⟩ sym_list [A_LONG 1, A_FLOAT (Dbl.fin 2)].length
          [A_LONG 1, A_FLOAT (Dbl.fin 2)] 0 = some r1
      ∧ lchange_action r1.1 sym_list [A_LONG 1, A_FLOAT (Dbl.fin 2)].length
          [A_LONG 1, A_FLOAT (Dbl.fin 2)] 0 = some r2
      ∧ r2.2.1 = t_lchange_outlet.outl_list_same
      ∧ r2.1 = r1.1)
    ∧ (lchange_action ⟨⟨1, 4, sym_int, [A_LONG 3, A_LONG 0, A_LONG 0, A_LONG 0], 0⟩,
          4, true, false⟩ sym_list 2 [A_LONG 1, A_FLOAT (Dbl.fin 2)] 0).map (fun r => r.2.1)
        = some t_lchange_outlet.outl_list_diff :=
  ⟨lchange_action_converges
      ⟨⟨1, 4, sym_int, [A_LONG 3, A_LONG 0, A_LONG 0, A_LONG 0], 0⟩, 4, true, false⟩
      sym_list [A_LONG 1, A_FLOAT (Dbl.fin 2)] 0 rfl (by decide!) (by decide!) (by decide!)
      (by decide!) (by decide!),
    by decide!⟩

/-! ### Lfind: the two indices of the interpolation -/

theorem lfind_less_fwd_below (argc : Nat) (argv : List t_atom) (f : Dbl) :
    ∀ (rest : List t_atom) (k : Nat) (v : Dbl) (li : Nat) (r : Dbl × Nat),
      argv.drop k = rest → k ≤ argc →
      (li < argc ∧ ∃ a, argv[li]? = some a ∧ Dbl.lt (atom_getfloat a) f = true) →
      lfind_less_fwd f argc rest k v li = some r →
      r.2 < argc ∧ ∃ a, argv[r.2]? = some a ∧ Dbl.lt (atom_getfloat a) f = true := by
  intro rest
  induction rest with
  | nil =>
    intro k v li r _ _ hP h
    simp only [lfind_less_fwd] at h
    split at h
    · cases h; exact hP
    · cases h
  | cons a rest ih =>
    intro k v li r hd hk hP h
    have hka : argv[k]? = some a := by
      have := congrArg (fun l => l[0]?) hd
      simpa [List.getElem?_drop] using this
    have hd2 : argv.drop (k + 1) = rest := by
      have := congrArg (fun l => l.drop 1) hd
      simpa [List.drop_drop, Nat.add_comm] using this
    simp only [lfind_less_fwd] at h
    split at h
    · cases h; exact hP
    · rename_i hne
      split at h
      · rename_i hlt
        split at h
        · exact ih (k + 1) _ k r hd2 (by omega) ⟨by omega, a, hka, hlt⟩ h
        · exact ih (k + 1) v li r hd2 (by omega) hP h
      · cases h; exact hP

theorem lfind_less_bwd_below (argc : Nat) (argv : List t_atom) (f : Dbl) :
    ∀ (i : Nat) (v : Dbl) (li : Nat) (r : Dbl × Nat), i ≤ argc →
      (li < argc ∧ ∃ a, argv[li]? = some a ∧ Dbl.lt (atom_getfloat a) f = true) →
      lfind_less_bwd argv f i v li = some r →
      r.2 < argc ∧ ∃ a, argv[r.2]? = some a ∧ Dbl.lt (atom_getfloat a) f = true := by
  intro i
  induction i with
  | zero =>
    intro v li r _ hP h
    cases h
    exact hP
  | succ i ih =>
    intro v li r hi hP h
    simp only [lfind_less_bwd] at h
    split at h
    · cases h
    · rename_i a ha
      split at h
      · rename_i hlt
        split at h
        · exact ih _ i r (by omega) ⟨by omega, a, ha, hlt⟩ h
        · exact ih v li r (by omega) hP h
      · cases h; exact hP

theorem lfind_less_below (argc : Nat) (argv : List t_atom) (f : Dbl) (l : Nat)
    (hpos : 1 ≤ argc) (h : lfind_less argc argv f = some (some l)) :
    l < argc ∧ ∃ a, argv[l]? = some a ∧ Dbl.lt (atom_getfloat a) f = true := by
  unfold lfind_less at h
  split at h
  · cases h
  · rename_i a0 h0
    split at h
    · rename_i hlt
      simp only [Option.map_eq_some'] at h
      obtain ⟨r, hr, he⟩ := h
      cases he
      exact lfind_less_fwd_below argc argv f _ 1 _ 0 r rfl hpos ⟨by omega, a0, h0, hlt⟩ hr
    · split at h
      · cases h
      · rename_i m
        split at h
        · cases h
        · rename_i al hal
          split at h
          · rename_i hlt
            simp only [Option.map_eq_some'] at h
            obtain ⟨r, hr, he⟩ := h
            cases he
            exact lfind_less_bwd_below (m + 1) argv f m _ m r (by omega)
              ⟨by omega, al, hal, hlt⟩ hr
          · cases h

theorem lfind_more_fwd_above (argc : Nat) (argv : List t_atom) (f : Dbl) :
    ∀ (rest : List t_atom) (k j : Nat), argv.drop k = rest → k ≤ argc →
      lfind_more_fwd f argc rest k = some (some j) →
      j < argc ∧ ∃ a, argv[j]? = some a ∧ Dbl.gt (atom_getfloat a) f = true := by
  intro rest
  induction rest with
  | nil =>
    intro k j _ _ h
    simp only [lfind_more_fwd] at h
    split at h <;> cases h
  | cons a rest ih =>
    intro k j hd hk h
    have hka : argv[k]? = some a := by
      have := congrArg (fun l => l[0]?) hd
      simpa [List.getElem?_drop] using this
    have hd2 : argv.drop (k + 1) = rest := by
      have := congrArg (fun l => l.drop 1) hd
      simpa [List.drop_drop, Nat.add_comm] using this
    simp only [lfind_more_fwd] at h
    split at h
    · cases h
    · split at h
      · rename_i hne hgt
        cases h
        exact ⟨by omega, a, hka, hgt⟩
      · exact ih (k + 1) j hd2 (by omega) h

theorem lfind_more_bwd_above (argv : List t_atom) (f : Dbl) :
    ∀ (k j : Nat), lfind_more_bwd argv f k = some (some j) →
      j < k ∧ ∃ a, argv[j]? = some a ∧ Dbl.gt (atom_getfloat a) f = true := by
  intro k
  induction k with
  | zero => intro j h; cases h
  | succ k ih =>
    intro j h
    simp only [lfind_more_bwd] at h
    split at h
    · cases h
    · rename_i a ha
      split at h
      · rename_i hgt
        cases h
        exact ⟨by omega, a, ha, hgt⟩
      · obtain ⟨h1, h2⟩ := ih j h
        exact ⟨by omega, h2⟩

theorem lfind_more_above (argc : Nat) (argv : List t_atom) (f : Dbl) (l m : Nat)
    (hl : l < argc) (h : lfind_more argc argv f l = some (some m)) :
    m < argc ∧ ∃ a, argv[m]? = some a ∧ Dbl.gt (atom_getfloat a) f = true := by
  unfold lfind_more at h
  split at h
  · cases h
  · rename_i j hj
    cases h
    exact lfind_more_fwd_above argc argv f _ l m rfl (by omega) hj
  · obtain ⟨h1, h2⟩ := lfind_more_bwd_above argv f (l + 1) m h
    exact ⟨by omega, h2⟩

theorem atom_getfloat_is_double (a : t_atom) (v : ℚ) (h : atom_is_double a)
    (hv : atom_getfloat a = Dbl.fin v) : Dbl.is_double v := by
  cases a with
  | A_LONG n => exact Dbl.round_idem _ _ hv
  | A_SYM s =>
    simp only [atom_getfloat, Dbl.fin.injEq] at hv
    rw [← hv]
    exact Dbl.round_zero
  | A_FLOAT d =>
    simp only [atom_getfloat] at hv
    subst hv
    exact h

theorem Dbl.is_double_nat (n : Nat) (h : n ≤ 2 ^ 53) : Dbl.is_double (n : ℚ) := by
  have := Dbl.ofInt_nat n h
  unfold Dbl.ofInt at this
  simpa [Dbl.is_double] using this

/-- The interpolation formula of `lfind_action` in double arithmetic, on
finite values `a < q < b` whose difference `b - a` neither overflows nor rounds
to zero, lies between the two indices. -/
theorem lfind_formula_bounds (q a b v : ℚ) (l m : Nat) (hl : l ≤ 2 ^ 53) (hm : m ≤ 2 ^ 53)
    (haq : a < q) (hqb : q < b) (hv : Dbl.round (b - a) = Dbl.fin v) (hv0 : v ≠ 0) :
    ∃ p, Dbl.add (Dbl.mul (Dbl.div (Dbl.sub (Dbl.fin q) (Dbl.fin a))
            (Dbl.sub (Dbl.fin b) (Dbl.fin a))) (Dbl.ofInt ((m : Int) - (l : Int))))
          (Dbl.ofInt (l : Int)) = Dbl.fin p
      ∧ ((min l m : Nat) : ℚ) ≤ p ∧ p ≤ ((max l m : Nat) : ℚ) := by
  have hd0 : Dbl.is_double 0 := Dbl.round_zero
  have hd1 : Dbl.is_double 1 := by
    have := Dbl.is_double_nat 1 (by norm_num)
    simpa using this
  -- the numerator
  have m1 := Dbl.round_mono 0 (q - a) (by linarith)
  have m2 := Dbl.round_mono (q - a) (b - a) (by linarith)
  rw [Dbl.round_zero] at m1
  rw [hv] at m2
  obtain ⟨u, hu, hu0, huv⟩ : ∃ u, Dbl.round (q - a) = Dbl.fin u ∧ 0 ≤ u ∧ u ≤ v := by
    cases hq : Dbl.round (q - a) with
    | fin u =>
      rw [hq] at m1 m2
      simp only [Dbl.ge, decide_eq_true_eq] at m1 m2
      exact ⟨u, rfl, m1, m2⟩
    | nan => rw [hq] at m1; simp [Dbl.ge] at m1
    | pinf => rw [hq] at m2; simp [Dbl.ge] at m2
    | ninf => rw [hq] at m1; simp [Dbl.ge] at m1
  have hvpos : 0 < v := lt_of_le_of_ne (le_trans hu0 huv) (Ne.symm hv0)
  -- the quotient
  obtain ⟨r, hr, hr0, hr1⟩ := Dbl.round_between 0 1 (u / v) hd0 hd1
    (div_nonneg hu0 (le_of_lt hvpos)) ((div_le_one hvpos).mpr huv)
  -- the product with the difference of the indices
  have hdk : Dbl.is_double ((m : ℚ) - (l : ℚ)) := by
    have h1 : -(2 : Int) ^ 53 ≤ (m : Int) - (l : Int) := by
      have : (l : Int) ≤ 2 ^ 53 := by exact_mod_cast hl
      have : (0 : Int) ≤ (m : Int) := Int.ofNat_nonneg m
      omega
    have h2 : (m : Int) - (l : Int) ≤ (2 : Int) ^ 53 := by
      have : (m : Int) ≤ 2 ^ 53 := by exact_mod_cast hm
      have : (0 : Int) ≤ (l : Int) := Int.ofNat_nonneg l
      omega
    have := Dbl.round_int _ h1 h2
    push_cast at this
    exact this
  have hk : Dbl.ofInt ((m : Int) - (l : Int)) = Dbl.fin ((m : ℚ) - (l : ℚ)) := by
    unfold Dbl.ofInt
    push_cast
    exact hdk
  have hdl : Dbl.is_double (l : ℚ) := Dbl.is_double_nat l hl
  have hdm : Dbl.is_double (m : ℚ) := Dbl.is_double_nat m hm
  simp only [Dbl.sub, hu, hv, Dbl.div, if_neg hv0, hr, hk, Dbl.mul, Dbl.ofInt_nat l hl]
  rcases Nat.le_total l m with hlm | hlm
  · have hq : (l : ℚ) ≤ (m : ℚ) := by exact_mod_cast hlm
    obtain ⟨s, hs, hs0, hs1⟩ := Dbl.round_between 0 ((m : ℚ) - (l : ℚ)) (r * ((m : ℚ) - (l : ℚ)))
      hd0 hdk (mul_nonneg hr0 (by linarith)) (by nlinarith)
    rw [hs]
    simp only [Dbl.add]
    obtain ⟨p, hp, hp0, hp1⟩ := Dbl.round_between (l : ℚ) (m : ℚ) (s + (l : ℚ)) hdl hdm
      (by linarith) (by linarith)
    rw [Nat.min_eq_left hlm, Nat.max_eq_right hlm]
    exact ⟨p, hp, hp0, hp1⟩
  · have hq : (m : ℚ) ≤ (l : ℚ) := by exact_mod_cast hlm
    obtain ⟨s, hs, hs0, hs1⟩ := Dbl.round_between ((m : ℚ) - (l : ℚ)) 0 (r * ((m : ℚ) - (l : ℚ)))
      hdk hd0 (by nlinarith) (mul_nonpos_of_nonneg_of_nonpos hr0 (by linarith))
    rw [hs]
    simp only [Dbl.add]
    obtain ⟨p, hp, hp0, hp1⟩ := Dbl.round_between (m : ℚ) (l : ℚ) (s + (l : ℚ)) hdm hdl
      (by linarith) (by linarith)
    rw [Nat.min_eq_right hlm, Nat.max_eq_left hlm]
    exact ⟨p, hp, hp0, hp1⟩

/-- The divisor of the interpolation: the difference of two values of
doubles of which the first is below the second is positive, or `+inf`. -/
theorem lfind_divisor_pos (u w : Dbl) (h : Dbl.lt u w = true)
    (hu : ∀ a, u = Dbl.fin a → Dbl.is_double a) (hw : ∀ b, w = Dbl.fin b → Dbl.is_double b) :
    Dbl.lt (Dbl.fin 0) (Dbl.sub w u) = true := by
  cases u with
  | nan => simp [Dbl.lt] at h
  | pinf => simp [Dbl.lt] at h
  | ninf =>
    cases w with
    | nan => simp [Dbl.lt] at h
    | ninf => simp [Dbl.lt] at h
    | pinf => rfl
    | fin b => rfl
  | fin a =>
    cases w with
    | nan => simp [Dbl.lt] at h
    | ninf => simp [Dbl.lt] at h
    | pinf => rfl
    | fin b =>
      have hab : a < b := by simpa [Dbl.lt] using h
      have hpos := Dbl.round_sub_pos a b (hu a rfl) (hw b rfl) hab
      have hunit := Dbl.pow2_pos (-1074)
      simp only [Dbl.sub]
      cases hr : Dbl.round (b - a) with
      | fin y =>
        rw [hr] at hpos
        simp only [Dbl.ge, decide_eq_true_eq] at hpos
        simp only [Dbl.lt, decide_eq_true_eq]
        linarith
      | nan => rw [hr] at hpos; simp [Dbl.ge] at hpos
      | pinf => rfl
      | ninf => rw [hr] at hpos; simp [Dbl.ge] at hpos

/-- C35 (as amended): the two indices of the interpolation of `lfind_action`,
on a reference of `argc >= 1` atoms.  Whenever the first loop finds no atom
equal to the query and the function sends an output `d`, the indices
`less_than_ind` and `more_than_ind` it has chosen are below `argc` and
distinct, with `argv[less] < f < argv[more]`, and `d` is the value of the
interpolation formula in double arithmetic.  When the two values are those of
doubles, the divisor `argv[more] - argv[less]` is positive or `+inf`, so never
zero; when moreover it is finite (and `argc <= 2^53`), `d` is finite and lies
between the two indices, ends included, so between 0 and `argc - 1`. -/
theorem lfind_action_bracket (x x2 : t_lfind) (argc : Nat) (argv : List t_atom) (f d : Dbl)
    (hpos : 1 ≤ argc) (hexact : lfind_exact argv f argc 0 = some none)
    (hout : lfind_action x argc argv f = some (x2, some d)) :
    ∃ (l m : Nat) (al am : t_atom),
      lfind_less argc argv f = some (some l)
      ∧ lfind_more argc argv f l = some (some m)
      ∧ l < argc ∧ m < argc ∧ l ≠ m
      ∧ argv[l]? = some al ∧ argv[m]? = some am
      ∧ Dbl.lt (atom_getfloat al) f = true ∧ Dbl.lt f (atom_getfloat am) = true
      ∧ d = Dbl.add (Dbl.mul (Dbl.div (Dbl.sub f (atom_getfloat al))
              (Dbl.sub (atom_getfloat am) (atom_getfloat al)))
            (Dbl.ofInt ((m : Int) - (l : Int)))) (Dbl.ofInt (l : Int))
      ∧ (atom_is_double al → atom_is_double am →
          Dbl.lt (Dbl.fin 0) (Dbl.sub (atom_getfloat am) (atom_getfloat al)) = true
          ∧ ∀ v, Dbl.sub (atom_getfloat am) (atom_getfloat al) = Dbl.fin v → argc ≤ 2 ^ 53 →
            ∃ p, d = Dbl.fin p
              ∧ ((min l m : Nat) : ℚ) ≤ p ∧ p ≤ ((max l m : Nat) : ℚ)
              ∧ 0 ≤ p ∧ p ≤ ((argc - 1 : Nat) : ℚ)) := by
  unfold lfind_action at hout
  simp only [Option.map_eq_some'] at hout
  obtain ⟨r, hr, he⟩ := hout
  cases r with
  | none => simp at he
  | some p0 =>
    simp only [Prod.mk.injEq, Option.some.injEq] at he
    obtain ⟨_, hd⟩ := he
    subst hd
    unfold lfind_locate at hr
    rw [hexact] at hr
    simp only at hr
    cases hl : lfind_less argc argv f with
    | none => rw [hl] at hr; simp at hr
    | some ol =>
      cases ol with
      | none => rw [hl] at hr; simp at hr
      | some l =>
        rw [hl] at hr
        simp only at hr
        cases hm : lfind_more argc argv f l with
        | none => rw [hm] at hr; simp at hr
        | some om =>
          cases om with
          | none => rw [hm] at hr; simp at hr
          | some m =>
            rw [hm] at hr
            simp only [Option.map_eq_some', Option.some.injEq] at hr
            obtain ⟨p1, hp1, hp1e⟩ := hr
            subst hp1e
            obtain ⟨hlc, al, hal, hlt⟩ := lfind_less_below argc argv f l hpos hl
            obtain ⟨hmc, am, ham, hgt⟩ := lfind_more_above argc argv f l m hlc hm
            have hgt2 : Dbl.lt f (atom_getfloat am) = true := hgt
            have hlam : Dbl.lt (atom_getfloat al) (atom_getfloat am) = true :=
              Dbl.lt_trans _ _ _ hlt hgt2
            have hlm : l ≠ m := by
              intro hlm
              subst hlm
              rw [hal] at ham
              cases ham
              rw [Dbl.lt_irrefl] at hlam
              cases hlam
            have hint : p1 = Dbl.add (Dbl.mul (Dbl.div (Dbl.sub f (atom_getfloat al))
                  (Dbl.sub (atom_getfloat am) (atom_getfloat al)))
                (Dbl.ofInt ((m : Int) - (l : Int)))) (Dbl.ofInt (l : Int)) := by
              rw [lfind_interp_eq argv f l m al am hal ham] at hp1
              exact (Option.some.inj hp1).symm
            refine ⟨l, m, al, am, rfl, hm, hlc, hmc, hlm, hal, ham, hlt, hgt2, hint, ?_⟩
            intro hdl hdm
            refine ⟨lfind_divisor_pos _ _ hlam
              (fun a ha => atom_getfloat_is_double al a hdl ha)
              (fun b hb => atom_getfloat_is_double am b hdm hb), ?_⟩
            intro v hv hargc
            obtain ⟨b, a, hb, ha, hrv⟩ := Dbl.sub_fin _ _ v hv
            have hq : ∃ q, f = Dbl.fin q := by
              cases f with
              | fin q => exact ⟨q, rfl⟩
              | nan => rw [ha] at hlt; simp [Dbl.lt] at hlt
              | pinf => rw [hb] at hgt2; simp [Dbl.lt] at hgt2
              | ninf => rw [ha] at hlt; simp [Dbl.lt] at hlt
            obtain ⟨q, hq⟩ := hq
            subst hq
            have haq : a < q := by
              rw [ha] at hlt
              simpa [Dbl.lt] using hlt
            have hqb : q < b := by
              rw [hb] at hgt2
              simpa [Dbl.lt] using hgt2
            have hv0 : v ≠ 0 := by
              have hp := Dbl.round_sub_pos a b (atom_getfloat_is_double al a hdl ha)
                (atom_getfloat_is_double am b hdm hb) (by linarith)
              rw [hrv] at hp
              simp only [Dbl.ge, decide_eq_true_eq] at hp
              have := Dbl.pow2_pos (-1074)
              intro h0
              linarith
            obtain ⟨p, hp, hlo, hhi⟩ := lfind_formula_bounds q a b v l m (by omega) (by omega)
              haq hqb hrv hv0
            rw [hint, ha, hb]
            refine ⟨p, hp, hlo, hhi, ?_, ?_⟩
            · have : (0 : ℚ) ≤ ((min l m : Nat) : ℚ) := Nat.cast_nonneg _
              linarith
            · have : ((max l m : Nat) : ℚ) ≤ ((argc - 1 : Nat) : ℚ) := by
                apply Nat.cast_le.mpr
                have := Nat.max_le.mpr ⟨Nat.le_sub_one_of_lt hlc, Nat.le_sub_one_of_lt hmc⟩
                exact this
              linarith

/-- C35 on the reference `0 10 20` and the query 15: the output `3/2` comes
from the two indices 1 and 2 and lies between them. -/
theorem lfind_action_bracket_witness :
    lfind_exact [A_LONG 0, A_LONG 10, A_LONG 20] (Dbl.fin 15) 3 0 = some none
    ∧ lfind_action lfind_new_default 3 [A_LONG 0, A_LONG 10, A_LONG 20] (Dbl.fin 15)
        = some ({ lfind_new_default with o_float := Dbl.fin (3 / 2) }, some (Dbl.fin (3 / 2)))
    ∧ lfind_less 3 [A_LONG 0, A_LONG 10, A_LONG 20] (Dbl.fin 15) = some (some 1)
    ∧ lfind_more 3 [A_LONG 0, A_LONG 10, A_LONG 20] (Dbl.fin 15) 1 = some (some 2)
    ∧ ∃ (l m : Nat) (al am : t_atom),
      lfind_less 3 [A_LONG 0, A_LONG 10, A_LONG 20] (Dbl.fin 15) = some (some l)
      ∧ lfind_more 3 [A_LONG 0, A_LONG 10, A_LONG 20] (Dbl.fin 15) l = some (some m)
      ∧ l < 3 ∧ m < 3 ∧ l ≠ m
      ∧ [A_LONG 0, A_LONG 10, A_LONG 20][l]? = some al
      ∧ [A_LONG 0, A_LONG 10, A_LONG 20][m]? = some am
      ∧ Dbl.lt (atom_getfloat al) (Dbl.fin 15) = true
      ∧ Dbl.lt (Dbl.fin 15) (atom_getfloat am) = true
      ∧ Dbl.fin (3 / 2) = Dbl.add (Dbl.mul (Dbl.div (Dbl.sub (Dbl.fin 15) (atom_getfloat al))
              (Dbl.sub (atom_getfloat am) (atom_getfloat al)))
            (Dbl.ofInt ((m : Int) - (l : Int)))) (Dbl.ofInt (l : Int))
      ∧ (atom_is_double al → atom_is_double am →
          Dbl.lt (Dbl.fin 0) (Dbl.sub (atom_getfloat am) (atom_getfloat al)) = true
          ∧ ∀ v, Dbl.sub (atom_getfloat am) (atom_getfloat al) = Dbl.fin v → 3 ≤ 2 ^ 53 →
            ∃ p, Dbl.fin (3 / 2) = Dbl.fin p
              ∧ ((min l m : Nat) : ℚ) ≤ p ∧ p ≤ ((max l m : Nat) : ℚ)
              ∧ 0 ≤ p ∧ p ≤ ((3 - 1 : Nat) : ℚ)) :=
  have hex : lfind_exact [A_LONG 0, A_LONG 10, A_LONG 20] (Dbl.fin 15) 3 0 = some none := by
    decide!
  have hact : lfind_action lfind_new_default 3 [A_LONG 0, A_LONG 10, A_LONG 20] (Dbl.fin 15)
      = some ({ lfind_new_default with o_float := Dbl.fin (3 / 2) }, some (Dbl.fin (3 / 2))) := by
    decide!
  ⟨hex, hact, by decide!, by decide!,
    lfind_action_bracket lfind_new_default { lfind_new_default with o_float := Dbl.fin (3 / 2) }
      3 [A_LONG 0, A_LONG 10, A_LONG 20] (Dbl.fin 15) (Dbl.fin (3 / 2)) (by decide) hex hact⟩

/-- C35, counterexample: the output is not always strictly between the two
indices.  On the reference `-1 0 1` the query `2^-1000`, a double, is
bracketed by the indices 1 and 2 and the output is `1`, the sum `2^-1000 + 1`
being rounded.  On the reference `-2^1023 2^1023` the divisor overflows and
the output for the query 0 is `0`.  On the reference `-2^1023 3*2^1022` both
differences overflow for the query `2^1023` and the output is NaN. -/
theorem lfind_action_bracket_not_strict :
    Dbl.is_double (Dbl.pow2 (-1000))
    ∧ lfind_exact [A_LONG (-1), A_LONG 0, A_LONG 1] (Dbl.fin (Dbl.pow2 (-1000))) 3 0 = some none
    ∧ lfind_less 3 [A_LONG (-1), A_LONG 0, A_LONG 1] (Dbl.fin (Dbl.pow2 (-1000))) = some (some 1)
    ∧ lfind_more 3 [A_LONG (-1), A_LONG 0, A_LONG 1] (Dbl.fin (Dbl.pow2 (-1000))) 1
        = some (some 2)
    ∧ (lfind_action lfind_new_default 3 [A_LONG (-1), A_LONG 0, A_LONG 1]
          (Dbl.fin (Dbl.pow2 (-1000)))).map Prod.snd = some (some (Dbl.fin 1))
    ∧ Dbl.is_double (Dbl.pow2 1023) ∧ Dbl.is_double (-Dbl.pow2 1023)
    ∧ Dbl.is_double (3 * Dbl.pow2 1022)
    ∧ lfind_less 2 [A_FLOAT (Dbl.fin (-Dbl.pow2 1023)), A_FLOAT (Dbl.fin (Dbl.pow2 1023))]
        (Dbl.fin 0) = some (some 0)
    ∧ (lfind_action lfind_new_default 2
          [A_FLOAT (Dbl.fin (-Dbl.pow2 1023)), A_FLOAT (Dbl.fin (Dbl.pow2 1023))]
          (Dbl.fin 0)).map Prod.snd = some (some (Dbl.fin 0))
    ∧ lfind_exact [A_FLOAT (Dbl.fin (-Dbl.pow2 1023)), A_FLOAT (Dbl.fin (3 * Dbl.pow2 1022))]
        (Dbl.fin (Dbl.pow2 1023)) 2 0 = some none
    ∧ (lfind_action lfind_new_default 2
          [A_FLOAT (Dbl.fin (-Dbl.pow2 1023)), A_FLOAT (Dbl.fin (3 * Dbl.pow2 1022))]
          (Dbl.fin (Dbl.pow2 1023))).map Prod.snd = some (some Dbl.nan) := by
  decide!

/-! ### Lfind: the search starts from the two ends -/

/-- C36: `lfind_action` on a reference of `argc >= 1` atoms none of which
equals the query: when the first and the last atom are both greater than the
query, the function returns without output and leaves the object unchanged,
whatever the atoms in between. -/
theorem lfind_action_end_anchored (x : t_lfind) (argc : Nat) (argv : List t_atom) (f : Dbl)
    (hpos : 1 ≤ argc) (hargc : argc ≤ argv.length)
    (hne : ∀ j a, j < argc → argv[j]? = some a → Dbl.eq (atom_getfloat a) f = false)
    (hfirst : ∀ a, argv[0]? = some a → Dbl.gt (atom_getfloat a) f = true)
    (hlast : ∀ a, argv[argc - 1]? = some a → Dbl.gt (atom_getfloat a) f = true) :
    lfind_action x argc argv f = some (x, none) := by
  have hexact : lfind_exact argv f argc 0 = some none := by
    apply lfind_exact_none
    intro j _ hj
    have hjl : j < argv.length := by omega
    exact ⟨argv[j], List.getElem?_eq_getElem hjl,
      hne j _ (by omega) (List.getElem?_eq_getElem hjl)⟩
  obtain ⟨m, hm⟩ : ∃ m, argc = m + 1 := ⟨argc - 1, by omega⟩
  have h0l : 0 < argv.length := by omega
  have hml : m < argv.length := by omega
  have hf0 : Dbl.lt (atom_getfloat argv[0]) f = false :=
    Dbl.lt_asymm_bool _ _ (hfirst _ (List.getElem?_eq_getElem h0l))
  have hfm : Dbl.lt (atom_getfloat argv[m]) f = false := by
    apply Dbl.lt_asymm_bool
    have := hlast argv[m] (by rw [hm, Nat.add_sub_cancel]; exact List.getElem?_eq_getElem hml)
    exact this
  have hless : lfind_less argc argv f = some none := by
    unfold lfind_less
    simp only [List.getElem?_eq_getElem h0l, hf0, Bool.false_eq_true, if_false, hm,
      List.getElem?_eq_getElem hml, hfm]
  unfold lfind_action lfind_locate
  simp only [hexact, hless, Option.map_some']

/-- C36 on the reference `10 0 10` and the query 5: no output, although 5 lies
between the atoms of index 0 and 1. -/
theorem lfind_action_end_anchored_witness :
    lfind_action lfind_new_default 3 [A_LONG 10, A_LONG 0, A_LONG 10] (Dbl.fin 5)
      = some (lfind_new_default, none) :=
  lfind_action_end_anchored lfind_new_default 3 [A_LONG 10, A_LONG 0, A_LONG 10] (Dbl.fin 5)
    (by decide!) (by decide!)
    (by
      intro j a hj ha
      match j, hj with
      | 0, _ => cases ha; decide!
      | 1, _ => cases ha; decide!
      | 2, _ => cases ha; decide!)
    (by intro a ha; cases ha; decide!)
    (by intro a ha; cases ha; decide!)

/-! ### Ltoset: the array depends on the set of indices only -/

theorem ltoset_fold_index_set (maxlen : Nat) (v : Int) (argv1 argv2 : List t_atom)
    (hset : ∀ j : Nat, j < maxlen →
      ((∃ a, a ∈ argv1 ∧ is_number a = true ∧ ltoset_index a = (j : Int))
        ↔ (∃ a, a ∈ argv2 ∧ is_number a = true ∧ ltoset_index a = (j : Int)))) :
    argv1.foldl (ltoset_step maxlen v) (List.replicate maxlen (A_LONG 0))
      = argv2.foldl (ltoset_step maxlen v) (List.replicate maxlen (A_LONG 0)) := by
  apply List.ext_getElem?
  intro j
  by_cases hj : j < maxlen
  · obtain ⟨h1, _⟩ := ltoset_fold_spec maxlen v argv1 (List.replicate maxlen (A_LONG 0)) j
      (by simpa using hj) (by simp)
    obtain ⟨h2, _⟩ := ltoset_fold_spec maxlen v argv2 (List.replicate maxlen (A_LONG 0)) j
      (by simpa using hj) (by simp)
    rw [h1, h2]
    by_cases h : ∃ a, a ∈ argv1 ∧ is_number a = true ∧ ltoset_index a = (j : Int)
    · rw [if_pos h, if_pos ((hset j hj).mp h)]
    · rw [if_neg h, if_neg (fun h2 => h ((hset j hj).mpr h2))]
  · rw [List.getElem?_eq_none (by rw [ltoset_fold_length]; simp; omega),
      List.getElem?_eq_none (by rw [ltoset_fold_length]; simp; omega)]

theorem ltoset_action_of_set (x : t_ltoset) (argv1 argv2 : List t_atom)
    (hmax : x.o_list.len_max = x.maxlen)
    (hset : ∀ j : Nat, j < x.maxlen →
      ((∃ a, a ∈ argv1 ∧ is_number a = true ∧ ltoset_index a = (j : Int))
        ↔ (∃ a, a ∈ argv2 ∧ is_number a = true ∧ ltoset_index a = (j : Int)))) :
    ltoset_action x argv1.length argv1 = ltoset_action x argv2.length argv2 := by
  have hinit : (mess_fill_int x.o_list 0 x.o_list.len_cur).list
      = List.replicate x.maxlen (A_LONG 0) := by
    simp [mess_fill_int, hmax]
  unfold ltoset_action
  simp only [List.take_length, hinit]
  rw [ltoset_fold_index_set x.maxlen x.i_value argv1 argv2 hset]

/-- C37: `ltoset_action` on an object whose array has `maxlen` slots. Two lists
of indices that mark the same slots below `maxlen` leave the same object, so
the same array: the order of the indices does not matter (`xs ++ ys` against
`ys ++ xs`), nor does an index given twice. The array left by an earlier call
does not matter either: the result is the same whatever the array, symbol and
offset of the output held before. -/
theorem ltoset_action_index_set (x : t_ltoset) (hmax : x.o_list.len_max = x.maxlen) :
    (∀ argv1 argv2 : List t_atom,
      (∀ j : Nat, j < x.maxlen →
        ((∃ a, a ∈ argv1 ∧ is_number a = true ∧ ltoset_index a = (j : Int))
          ↔ (∃ a, a ∈ argv2 ∧ is_number a = true ∧ ltoset_index a = (j : Int)))) →
      ltoset_action x argv1.length argv1 = ltoset_action x argv2.length argv2)
    ∧ (∀ xs ys : List t_atom,
      ltoset_action x (xs ++ ys).length (xs ++ ys) = ltoset_action x (ys ++ xs).length (ys ++ xs))
    ∧ (∀ (xs ys : List t_atom) (a : t_atom),
      ltoset_action x (xs ++ a :: ys ++ [a]).length (xs ++ a :: ys ++ [a])
        = ltoset_action x (xs ++ a :: ys).length (xs ++ a :: ys))
    ∧ (∀ (argv : List t_atom) (list : List t_atom) (sym : t_symbol) (offset : Nat),
      (ltoset_action { x with o_list := { x.o_list with list := list, sym := sym, offset := offset } }
          argv.length argv).o_list
        = (ltoset_action x argv.length argv).o_list) := by
  refine ⟨fun argv1 argv2 hset => ltoset_action_of_set x argv1 argv2 hmax hset, ?_, ?_, ?_⟩
  · intro xs ys
    apply ltoset_action_of_set x _ _ hmax
    intro j _
    constructor
    · rintro ⟨a, ha, h⟩
      exact ⟨a, by rw [List.mem_append] at ha ⊢; exact ha.symm, h⟩
    · rintro ⟨a, ha, h⟩
      exact ⟨a, by rw [List.mem_append] at ha ⊢; exact ha.symm, h⟩
  · intro xs ys a
    apply ltoset_action_of_set x _ _ hmax
    intro j _
    constructor
    · rintro ⟨b, hb, h⟩
      refine ⟨b, ?_, h⟩
      rw [List.mem_append] at hb
      rcases hb with hb | hb
      · exact hb
      · rw [List.mem_singleton] at hb
        subst hb
        simp
    · rintro ⟨b, hb, h⟩
      exact ⟨b, List.mem_append_left _ hb, h⟩
  · intro argv list sym offset
    rfl

/-- C37 on the object `Ltoset 4 9 @maxlen 10`: the indices `1 5 1` and `5 1 1`
leave the same object. -/
theorem ltoset_action_index_set_witness :
    ltoset_action ltoset_new_example ([A_LONG 1] ++ [A_LONG 5, A_LONG 1]).length
        ([A_LONG 1] ++ [A_LONG 5, A_LONG 1])
      = ltoset_action ltoset_new_example ([A_LONG 5, A_LONG 1] ++ [A_LONG 1]).length
        ([A_LONG 5, A_LONG 1] ++ [A_LONG 1]) :=
  (ltoset_action_index_set ltoset_new_example (by decide)).2.1 [A_LONG 1] [A_LONG 5, A_LONG 1]

/-! ### Lmax and Lmin: exchanging the two lists -/

theorem lmax_atom_comm (a b : t_atom) (ha : is_number a = true) (hb : is_number b = true)
    (hna : a ≠ A_FLOAT Dbl.nan) (hnb : b ≠ A_FLOAT Dbl.nan) :
    lmax_atom a b = lmax_atom b a ∧ lmin_atom a b = lmin_atom b a := by
  have hq : ∀ p q : ℚ, MAX_dbl (Dbl.fin p) (Dbl.fin q) = MAX_dbl (Dbl.fin q) (Dbl.fin p)
      ∧ MIN_dbl (Dbl.fin p) (Dbl.fin q) = MIN_dbl (Dbl.fin q) (Dbl.fin p) := by
    intro p q
    unfold MAX_dbl MIN_dbl
    simp only [Dbl.gt, Dbl.lt, decide_eq_true_eq]
    rcases lt_trichotomy p q with h | h | h
    · rw [if_neg (not_lt.mpr (le_of_lt h)), if_pos h, if_pos h, if_neg (not_lt.mpr (le_of_lt h))]
      exact ⟨rfl, rfl⟩
    · subst h
      exact ⟨rfl, rfl⟩
    · rw [if_pos h, if_neg (not_lt.mpr (le_of_lt h)), if_neg (not_lt.mpr (le_of_lt h)), if_pos h]
      exact ⟨rfl, rfl⟩
  have hd : ∀ c d : Dbl, c ≠ Dbl.nan → d ≠ Dbl.nan →
      MAX_dbl c d = MAX_dbl d c ∧ MIN_dbl c d = MIN_dbl d c := by
    intro c d hc hd
    cases c with
    | nan => exact absurd rfl hc
    | fin p =>
      cases d with
      | nan => exact absurd rfl hd
      | fin q => exact hq p q
      | pinf => exact ⟨rfl, rfl⟩
      | ninf => exact ⟨rfl, rfl⟩
    | pinf =>
      cases d with
      | nan => exact absurd rfl hd
      | fin q => exact ⟨rfl, rfl⟩
      | pinf => exact ⟨rfl, rfl⟩
      | ninf => exact ⟨rfl, rfl⟩
    | ninf =>
      cases d with
      | nan => exact absurd rfl hd
      | fin q => exact ⟨rfl, rfl⟩
      | pinf => exact ⟨rfl, rfl⟩
      | ninf => exact ⟨rfl, rfl⟩
  have hz : ∀ p q : Int, MAX_long p q = MAX_long q p ∧ MIN_long p q = MIN_long q p := by
    intro p q
    unfold MAX_long MIN_long
    constructor
    · split <;> split <;> omega
    · split <;> split <;> omega
  have hga : atom_getfloat a ≠ Dbl.nan := by
    cases a with
    | A_SYM s => simp [atom_getfloat]
    | A_LONG p => exact Dbl.ofInt_ne_nan p
    | A_FLOAT e => exact fun h => hna (by simp only [atom_getfloat] at h; rw [h])
  have hgb : atom_getfloat b ≠ Dbl.nan := by
    cases b with
    | A_SYM s => simp [atom_getfloat]
    | A_LONG p => exact Dbl.ofInt_ne_nan p
    | A_FLOAT e => exact fun h => hnb (by simp only [atom_getfloat] at h; rw [h])
  have h1 := (hd _ _ hga hgb).1
  have h2 := (hd _ _ hga hgb).2
  cases a with
  | A_SYM s => simp [is_number] at ha
  | A_LONG p =>
    cases b with
    | A_SYM s => simp [is_number] at hb
    | A_LONG q =>
      simp only [lmax_atom, lmin_atom, is_number, Bool.not_true, Bool.or_self, Bool.false_eq_true,
        if_false, (hz p q).1, (hz p q).2]
      exact ⟨trivial, trivial⟩
    | A_FLOAT e =>
      simp only [lmax_atom, lmin_atom, is_number, Bool.not_true, Bool.or_self,
        Bool.false_eq_true, if_false, h1, h2]
      exact ⟨trivial, trivial⟩
  | A_FLOAT e =>
    cases b with
    | A_SYM s => simp [is_number] at hb
    | A_LONG q =>
      simp only [lmax_atom, lmin_atom, is_number, Bool.not_true, Bool.or_self,
        Bool.false_eq_true, if_false, h1, h2]
      exact ⟨trivial, trivial⟩
    | A_FLOAT e2 =>
      simp only [lmax_atom, lmin_atom, is_number, Bool.not_true, Bool.or_self,
        Bool.false_eq_true, if_false, h1, h2]
      exact ⟨trivial, trivial⟩

theorem lext_action_comm (body : t_atom → t_atom → t_atom) (l r o : t_mess_struct)
    (hok : lext_ok l r o) (hlen : l.len_cur = r.len_cur)
    (hcomm : ∀ i a b, i < l.len_cur → l.list[i]? = some a → r.list[i]? = some b →
      body a b = body b a) :
    ∃ o2, lext_action body l r o = some o2 ∧ lext_action body r l o = some o2
      ∧ o2.len_cur = l.len_cur := by
  obtain ⟨h1, h2, h12, ho⟩ := hok
  have hll : lext_len l.len_cur r.len_cur = l.len_cur := by
    unfold lext_len
    split
    · exact hlen.symm
    · rfl
  have hidx : ∀ k, k < l.len_cur →
      0 + k * lext_incr1 l.len_cur = k ∧ 0 + k * lext_incr2 l.len_cur r.len_cur = k := by
    intro k hk
    unfold lext_incr1 lext_incr2
    by_cases h : l.len_cur = 1
    · have hk0 : k = 0 := by omega
      subst hk0
      simp
    · have h' : ¬ r.len_cur = 1 := by omega
      simp [h, h']
  have hb1 : ∀ k, k < l.len_cur → 0 + k * lext_incr1 l.len_cur < l.list.length := by
    intro k hk
    rw [(hidx k hk).1]
    omega
  have hb2 : ∀ k, k < l.len_cur → 0 + k * lext_incr2 l.len_cur r.len_cur < r.list.length := by
    intro k hk
    rw [(hidx k hk).2]
    omega
  have hb1' : ∀ k, k < l.len_cur → 0 + k * lext_incr1 l.len_cur < r.list.length := by
    intro k hk
    rw [(hidx k hk).1]
    omega
  have hb2' : ∀ k, k < l.len_cur → 0 + k * lext_incr2 l.len_cur r.len_cur < l.list.length := by
    intro k hk
    rw [(hidx k hk).2]
    omega
  obtain ⟨res, hres, hrl, hpos, hframe⟩ :=
    lext_loop_spec body l.list r.list (lext_incr1 l.len_cur)
      (lext_incr2 l.len_cur r.len_cur) l.len_cur 0 0 0 o.list hb1 hb2 (by omega)
  obtain ⟨res2, hres2, hrl2, hpos2, hframe2⟩ :=
    lext_loop_spec body r.list l.list (lext_incr1 l.len_cur)
      (lext_incr2 l.len_cur r.len_cur) l.len_cur 0 0 0 o.list hb1' hb2' (by omega)
  have heq : res = res2 := by
    apply List.ext_getElem?
    intro j
    by_cases hj : j < l.len_cur
    · obtain ⟨a, b, ha, hb, hab⟩ := hpos j hj
      obtain ⟨a2, b2, ha2, hb2, hab2⟩ := hpos2 j hj
      rw [(hidx j hj).1] at ha ha2
      rw [(hidx j hj).2] at hb hb2
      rw [ha] at hb2
      rw [hb] at ha2
      cases hb2
      cases ha2
      rw [Nat.zero_add] at hab hab2
      rw [hab, hab2, hcomm j a b hj ha hb]
    · rw [hframe j (Or.inr (by omega)), hframe2 j (Or.inr (by omega))]
  refine ⟨mess_set_type { o with len_cur := l.len_cur, list := res }, ?_, ?_, ?_⟩
  · unfold lext_action
    simp only [hll, hres, Option.map_some']
  · have hll2 : lext_len r.len_cur l.len_cur = l.len_cur := by
      unfold lext_len
      split
      · rfl
      · exact hlen.symm
    unfold lext_action
    simp only [hll2]
    rw [← hlen] at hres2 ⊢
    rw [hres2, heq]
    rfl
  · rw [mess_set_type_len_cur]

/-- C38: exchanging the two lists of `lmax_action` and `lmin_action`. For two
lists of the same length inside arrays of one size, whose atoms below that
length are all numbers and not NaN, the action with left `l` and right `r`
and the action with left `r` and right `l` both return and give the same
output structure: the same length, and at every position the same atom, so
the same value with the same type, int or float. -/
theorem lmax_lmin_commute (l r o : t_mess_struct) (maxlen : Nat) (warnings : Bool)
    (hok : lext_ok l r o) (hlen : l.len_cur = r.len_cur)
    (hl : ∀ i a, i < l.len_cur → l.list[i]? = some a →
      is_number a = true ∧ a ≠ A_FLOAT Dbl.nan)
    (hr : ∀ i a, i < l.len_cur → r.list[i]? = some a →
      is_number a = true ∧ a ≠ A_FLOAT Dbl.nan) :
    (∃ o2, lmax_action ⟨l, r, o, maxlen, warnings⟩ = some ⟨l, r, o2, maxlen, warnings⟩
      ∧ lmax_action ⟨r, l, o, maxlen, warnings⟩ = some ⟨r, l, o2, maxlen, warnings⟩
      ∧ o2.len_cur = l.len_cur)
    ∧ (∃ o2, lmin_action ⟨l, r, o, maxlen, warnings⟩ = some ⟨l, r, o2, maxlen, warnings⟩
      ∧ lmin_action ⟨r, l, o, maxlen, warnings⟩ = some ⟨r, l, o2, maxlen, warnings⟩
      ∧ o2.len_cur = l.len_cur) := by
  constructor
  · obtain ⟨o2, h1, h2, h3⟩ := lext_action_comm lmax_atom l r o hok hlen
      (fun i a b hi ha hb =>
        (lmax_atom_comm a b (hl i a hi ha).1 (hr i b hi hb).1 (hl i a hi ha).2
          (hr i b hi hb).2).1)
    refine ⟨o2, ?_, ?_, h3⟩
    · simp only [lmax_action, h1, Option.map_some']
    · simp only [lmax_action, h2, Option.map_some']
  · obtain ⟨o2, h1, h2, h3⟩ := lext_action_comm lmin_atom l r o hok hlen
      (fun i a b hi ha hb =>
        (lmax_atom_comm a b (hl i a hi ha).1 (hr i b hi hb).1 (hl i a hi ha).2
          (hr i b hi hb).2).2)
    refine ⟨o2, ?_, ?_, h3⟩
    · simp only [lmin_action, h1, Option.map_some']
    · simp only [lmin_action, h2, Option.map_some']

/-- C38 on arrays of three slots with the lists `1 5.` and `4 2`: both orders
give the same output, `4 5.` for the maximum. -/
theorem lmax_lmin_commute_witness :
    (∃ o2, lmax_action ⟨⟨2, 3, sym_list, [A_LONG 1, A_FLOAT (Dbl.fin 5), A_LONG 0], 0⟩,
          ⟨2, 3, sym_list, [A_LONG 4, A_LONG 2, A_LONG 0], 0⟩,
          ⟨0, 3, sym_empty, [A_LONG 0, A_LONG 0, A_LONG 0], 0⟩, 3, true⟩
        = some ⟨⟨2, 3, sym_list, [A_LONG 1, A_FLOAT (Dbl.fin 5), A_LONG 0], 0⟩,
          ⟨2, 3, sym_list, [A_LONG 4, A_LONG 2, A_LONG 0], 0⟩, o2, 3, true⟩
      ∧ lmax_action ⟨⟨2, 3, sym_list, [A_LONG 4, A_LONG 2, A_LONG 0], 0⟩,
          ⟨2, 3, sym_list, [A_LONG 1, A_FLOAT (Dbl.fin 5), A_LONG 0], 0⟩,
          ⟨0, 3, sym_empty, [A_LONG 0, A_LONG 0, A_LONG 0], 0⟩, 3, true⟩
        = some ⟨⟨2, 3, sym_list, [A_LONG 4, A_LONG 2, A_LONG 0], 0⟩,
          ⟨2, 3, sym_list, [A_LONG 1, A_FLOAT (Dbl.fin 5), A_LONG 0], 0⟩, o2, 3, true⟩
      ∧ o2.len_cur = 2)
    ∧ (lmax_action ⟨⟨2, 3, sym_list, [A_LONG 4, A_LONG 2, A_LONG 0], 0⟩,
          ⟨2, 3, sym_list, [A_LONG 1, A_FLOAT (Dbl.fin 5), A_LONG 0], 0⟩,
          ⟨0, 3, sym_empty, [A_LONG 0, A_LONG 0, A_LONG 0], 0⟩, 3, true⟩).map
        (fun s => s.o_list.list.take 2)
      = some [A_LONG 4, A_FLOAT (Dbl.fin 5)] :=
  ⟨(lmax_lmin_commute ⟨2, 3, sym_list, [A_LONG 1, A_FLOAT (Dbl.fin 5), A_LONG 0], 0⟩
      ⟨2, 3, sym_list, [A_LONG 4, A_LONG 2, A_LONG 0], 0⟩
      ⟨0, 3, sym_empty, [A_LONG 0, A_LONG 0, A_LONG 0], 0⟩ 3 true (by decide!) rfl
      (by
        intro i a hi ha
        match i, hi with
        | 0, _ => cases ha; exact ⟨rfl, by decide!⟩
        | 1, _ => cases ha; exact ⟨rfl, by decide!⟩)
      (by
        intro i a hi ha
        match i, hi with
        | 0, _ => cases ha; exact ⟨rfl, by decide!⟩
        | 1, _ => cases ha; exact ⟨rfl, by decide!⟩)).1,
    by decide!⟩

/-! ### Dynamic strings: `_dstr_itoa` -/

theorem dstr_itoa_digits_spec :
    ∀ (room ui : Nat) (buf : List Char), 0 < ui → (Nat.digits 10 ui).length ≤ room →
      dstr_itoa_digits room ui buf
        = some (buf ++ (Nat.digits 10 ui).map fun d => Char.ofNat (48 + d)) := by
  intro room
  induction room with
  | zero =>
    intro ui buf hpos hlen
    have hd := Nat.digits_def' (by decide : 1 < 10) hpos
    rw [hd] at hlen
    simp at hlen
  | succ room ih =>
    intro ui buf hpos hlen
    have hd := Nat.digits_def' (by decide : 1 < 10) hpos
    rw [hd] at hlen ⊢
    simp only [List.length_cons] at hlen
    unfold dstr_itoa_digits
    by_cases h : ui / 10 ≠ 0
    · rw [if_pos h, ih (ui / 10) _ (Nat.pos_of_ne_zero h) (by omega)]
      simp
    · rw [if_neg h]
      have h0 : ui / 10 = 0 := by
        by_contra hne
        exact h hne
      rw [h0]
      simp

theorem dstr_itoa_digits_zero (room : Nat) (buf : List Char) :
    dstr_itoa_digits (room + 1) 0 buf = some (buf ++ ['0']) := by
  unfold dstr_itoa_digits
  simp

theorem dstr_itoa_reverse_spec :
    ∀ (n : Nat) (mid pre post : List Char), mid.length ≤ n →
      dstr_itoa_reverse n (pre ++ mid ++ post) pre.length (pre.length + mid.length - 1)
        = some (pre ++ mid.reverse ++ post) := by
  intro n
  induction n with
  | zero =>
    intro mid pre post hlen
    have : mid = [] := List.length_eq_zero.mp (by omega)
    subst this
    unfold dstr_itoa_reverse
    rw [if_neg (by simp)]
    simp
  | succ n ih =>
    intro mid pre post hlen
    unfold dstr_itoa_reverse
    cases mid with
    | nil =>
      rw [if_neg (by simp)]
      simp
    | cons a rest =>
      rcases List.eq_nil_or_concat rest with hr | ⟨mid2, b, hr⟩
      · subst hr
        rw [if_neg (by simp)]
        simp
      · rw [List.concat_eq_append] at hr
        subst hr
        have hL : (a :: (mid2 ++ [b])).length = mid2.length + 2 := by simp
        have hP : (pre ++ a :: mid2).length = pre.length + mid2.length + 1 := by
          simp
          omega
        have hPb : (pre ++ b :: mid2).length = pre.length + mid2.length + 1 := by
          simp
          omega
        have hQ : (pre ++ [b]).length = pre.length + 1 := by simp
        rw [hL] at hlen ⊢
        have hhi : pre.length + (mid2.length + 2) - 1 = pre.length + mid2.length + 1 := by
          omega
        rw [hhi, if_pos (by omega)]
        have hget1 : (pre ++ a :: (mid2 ++ [b]) ++ post)[pre.length]? = some a := by
          rw [List.append_assoc, List.getElem?_append_right (le_refl _)]
          simp
        have hget2 : (pre ++ a :: (mid2 ++ [b]) ++ post)[pre.length + mid2.length + 1]?
            = some b := by
          have : pre ++ a :: (mid2 ++ [b]) ++ post = (pre ++ a :: mid2) ++ (b :: post) := by
            simp
          rw [this, ← hP, List.getElem?_append_right (le_refl _)]
          simp
        rw [hget1, hget2]
        simp only
        have hset : ((pre ++ a :: (mid2 ++ [b]) ++ post).set pre.length b).set
            (pre.length + mid2.length + 1) a
            = (pre ++ [b]) ++ mid2 ++ (a :: post) := by
          have e1 : pre ++ a :: (mid2 ++ [b]) ++ post = pre ++ (a :: (mid2 ++ b :: post)) := by
            simp
          rw [e1, List.set_append_right _ _ (le_refl _)]
          simp only [Nat.sub_self, List.set_cons_zero]
          have e2 : pre ++ b :: (mid2 ++ b :: post) = (pre ++ b :: mid2) ++ (b :: post) := by
            simp
          rw [e2, ← hPb, List.set_append_right _ _ (le_refl _)]
          simp
        rw [hset]
        have hidx2 : pre.length + mid2.length + 1 - 1 = (pre ++ [b]).length + mid2.length - 1 := by
          rw [hQ]
          omega
        rw [← hQ, hidx2, ih mid2 (pre ++ [b]) (a :: post) (by omega)]
        simp

theorem digits_length_le (n : Nat) (hn : n ≠ 0) (h : n < 10 ^ 19) :
    (Nat.digits 10 n).length ≤ 19 := by
  have h1 := Nat.base_pow_length_digits_le 10 n (by decide) hn
  by_contra hc
  have hc2 : 20 ≤ (Nat.digits 10 n).length := by omega
  have h2 : 10 ^ 20 ≤ 10 ^ (Nat.digits 10 n).length := Nat.pow_le_pow_right (by decide) hc2
  have h3 : (10 : Nat) ^ 20 = 10 * 10 ^ 19 := by norm_num
  omega

theorem decimal_digits_length (n : Nat) (h : n < 10 ^ 19) :
    1 ≤ (decimal_digits n).length ∧ (decimal_digits n).length ≤ 19 := by
  unfold decimal_digits
  split
  · simp
  · rename_i hn
    rw [List.length_reverse, List.length_map]
    constructor
    · have := Nat.digits_def' (by decide : 1 < 10) (Nat.pos_of_ne_zero hn)
      rw [this]
      simp
    · exact digits_length_le n hn h

theorem dstr_itoa_digits_decimal (room n : Nat) (h : n < 10 ^ 19) (hroom : 19 ≤ room) :
    dstr_itoa_digits room n [] = some (decimal_digits n).reverse := by
  by_cases hn : n = 0
  · subst hn
    obtain ⟨r, hr⟩ : ∃ r, room = r + 1 := ⟨room - 1, by omega⟩
    rw [hr, dstr_itoa_digits_zero]
    rfl
  · have hlen : (Nat.digits 10 n).length ≤ room :=
      le_trans (digits_length_le n hn h) hroom
    rw [dstr_itoa_digits_spec room n [] (Nat.pos_of_ne_zero hn) hlen]
    unfold decimal_digits
    rw [if_neg hn, List.reverse_reverse]
    rfl

/-- C39: `_dstr_itoa` on a 64-bit signed integer `i`, writing into a buffer of
at least 21 bytes: the function stays inside the buffer, the string written
before the terminating NUL is the decimal representation of `i` (a leading `-`
for a negative number, then the digits of the magnitude without leading zero,
`0` for zero), and the value returned is its length, which is at most 20, so
that the string and its NUL fit the `DSTR_LEN_NTOA` bytes of the callers. -/
theorem dstr_itoa_decimal (size : Nat) (i : Int)
    (hlo : -(2 : Int) ^ 63 ≤ i) (hhi : i < (2 : Int) ^ 63) (hsize : 21 ≤ size) :
    _dstr_itoa size i = some (decimal_repr i, ((decimal_repr i).length : Int))
    ∧ 1 ≤ (decimal_repr i).length
    ∧ (decimal_repr i).length ≤ 20
    ∧ (decimal_repr i).length + 1 ≤ DSTR_LEN_NTOA
    ∧ (i ≠ 0 → (decimal_digits i.natAbs).head? ≠ some '0')
    ∧ (i = 0 → decimal_repr i = ['0']) := by
  have hui : ((if i > 0 then i else -i) % 2 ^ 64).toNat = i.natAbs := by
    split <;> omega
  have habs : i.natAbs < 10 ^ 19 := by omega
  obtain ⟨hd1, hd19⟩ := decimal_digits_length i.natAbs habs
  have hdig := dstr_itoa_digits_decimal size i.natAbs habs (by omega)
  have hlen : 1 ≤ (decimal_repr i).length ∧ (decimal_repr i).length ≤ 20 := by
    unfold decimal_repr
    rw [List.length_append]
    split
    · simp only [List.length_singleton]
      omega
    · simp only [List.length_nil]
      omega
  refine ⟨?_, hlen.1, hlen.2, by unfold DSTR_LEN_NTOA; omega, ?_, ?_⟩
  · unfold _dstr_itoa
    simp only [hui, hdig]
    by_cases hneg : i < 0
    · have hroom : (decimal_digits i.natAbs).reverse.length < size := by
        rw [List.length_reverse]
        omega
      have hroom2 : ((decimal_digits i.natAbs).reverse ++ ['-']).length < size := by
        rw [List.length_append, List.length_reverse, List.length_singleton]
        omega
      simp only [if_pos hneg, if_pos hroom, if_pos hroom2]
      have hrev := dstr_itoa_reverse_spec
        ((decimal_digits i.natAbs).reverse ++ ['-']).length
        ((decimal_digits i.natAbs).reverse ++ ['-']) [] [] (le_refl _)
      simp only [List.nil_append, List.append_nil, List.length_nil, Nat.zero_add] at hrev
      rw [hrev]
      have hrepr : decimal_repr i = ((decimal_digits i.natAbs).reverse ++ ['-']).reverse := by
        unfold decimal_repr
        rw [if_pos hneg]
        simp
      rw [hrepr]
      simp
    · have hroom : (decimal_digits i.natAbs).reverse.length < size := by
        rw [List.length_reverse]
        omega
      simp only [if_neg hneg, if_pos hroom]
      have hrev := dstr_itoa_reverse_spec (decimal_digits i.natAbs).reverse.length
        (decimal_digits i.natAbs).reverse [] [] (le_refl _)
      simp only [List.nil_append, List.append_nil, List.length_nil, Nat.zero_add] at hrev
      rw [hrev]
      have hrepr : decimal_repr i = (decimal_digits i.natAbs).reverse.reverse := by
        unfold decimal_repr
        rw [if_neg hneg]
        simp
      rw [hrepr]
      simp
  · intro hi
    have hn : i.natAbs ≠ 0 := by omega
    unfold decimal_digits
    rw [if_neg hn, List.head?_reverse, List.getLast?_map]
    have hne : Nat.digits 10 i.natAbs ≠ [] := Nat.digits_ne_nil_iff_ne_zero.mpr hn
    rw [List.getLast?_eq_getLast _ hne]
    have hlast := Nat.getLast_digit_ne_zero 10 hn
    have hlt : (Nat.digits 10 i.natAbs).getLast hne < 10 :=
      Nat.digits_lt_base (by decide) (List.getLast_mem hne)
    generalize (Nat.digits 10 i.natAbs).getLast hne = d at hlast hlt
    simp only [Option.map_some', ne_eq, Option.some.injEq]
    interval_cases d
    · exact absurd rfl hlast
    all_goals decide
  · intro hi
    subst hi
    rfl

/-- C39 for the smallest 64-bit integer, `-2^63`: the string written is
`-9223372036854775808`, of length 20, inside the 22 bytes of the callers. -/
theorem dstr_itoa_decimal_witness :
    _dstr_itoa DSTR_LEN_NTOA (-(2 : Int) ^ 63)
        = some (decimal_repr (-(2 : Int) ^ 63), ((decimal_repr (-(2 : Int) ^ 63)).length : Int))
    ∧ _dstr_itoa DSTR_LEN_NTOA (-(2 : Int) ^ 63) = some ("-9223372036854775808".toList, 20)
    ∧ _dstr_itoa DSTR_LEN_NTOA 0 = some ("0".toList, 1)
    ∧ _dstr_itoa DSTR_LEN_NTOA 1207 = some ("1207".toList, 4) :=
  ⟨(dstr_itoa_decimal DSTR_LEN_NTOA (-(2 : Int) ^ 63) (by decide) (by decide) (by decide)).1,
    by decide, by decide, by decide⟩

/-! ### Dynamic strings: `_dstr_cstr_adjust` -/

theorem dstr_smear_step (t p k w : Nat) (hw : w ≤ k)
    (hp : p < 2 ^ (t + 1))
    (hones : ∀ i, i ≤ t → t < i + k → p.testBit i = true) :
    (p ||| (p >>> w)) < 2 ^ (t + 1)
    ∧ ∀ i, i ≤ t → t < i + (k + w) → (p ||| (p >>> w)).testBit i = true := by
  constructor
  · apply Nat.or_lt_two_pow hp
    rw [Nat.shiftRight_eq_div_pow]
    exact lt_of_le_of_lt (Nat.div_le_self _ _) hp
  · intro i hi hik
    rw [Nat.testBit_or, Nat.testBit_shiftRight]
    by_cases h : t < i + k
    · rw [hones i hi h]
      rfl
    · rw [hones (w + i) (by omega) (by omega)]
      simp

theorem dstr_next_power_spec (v : Nat) (h1 : 1 ≤ v) (hv : v < 2 ^ 31) :
    ∃ e, dstr_next_power v = 2 ^ e ∧ v < 2 ^ e ∧ 2 ^ e ≤ 2 * v ∧ e ≤ 31 := by
  have hv0 : v ≠ 0 := by omega
  obtain ⟨t, ht1, ht2⟩ : ∃ t, 2 ^ t ≤ v ∧ v < 2 ^ (t + 1) :=
    ⟨Nat.log 2 v, Nat.pow_log_le_self 2 hv0, Nat.lt_pow_succ_log_self (by decide) v⟩
  have ht : t ≤ 30 := by
    by_contra hc
    have : 2 ^ 31 ≤ 2 ^ t := Nat.pow_le_pow_right (by decide) (by omega)
    omega
  have hbit : ∀ i, i ≤ t → t < i + 1 → v.testBit i = true := by
    intro i hi hi2
    have hit : i = t := by omega
    subst hit
    rw [Nat.testBit_to_div_mod]
    have hdiv : v / 2 ^ i = 1 := by
      apply Nat.div_eq_of_lt_le
      · simpa using ht1
      · rw [Nat.pow_succ] at ht2
        omega
    rw [hdiv]
    rfl
  obtain ⟨b1, o1⟩ := dstr_smear_step t v 1 1 (le_refl _) ht2 hbit
  obtain ⟨b2, o2⟩ := dstr_smear_step t _ 2 2 (le_refl _) b1 o1
  obtain ⟨b3, o3⟩ := dstr_smear_step t _ 4 4 (le_refl _) b2 o2
  obtain ⟨b4, o4⟩ := dstr_smear_step t _ 8 8 (le_refl _) b3 o3
  obtain ⟨b5, o5⟩ := dstr_smear_step t _ 16 16 (le_refl _) b4 o4
  have hall : ((((v ||| v >>> 1) ||| (v ||| v >>> 1) >>> 2)
      ||| ((v ||| v >>> 1) ||| (v ||| v >>> 1) >>> 2) >>> 4)
      ||| (((v ||| v >>> 1) ||| (v ||| v >>> 1) >>> 2)
        ||| ((v ||| v >>> 1) ||| (v ||| v >>> 1) >>> 2) >>> 4) >>> 8)
      ||| ((((v ||| v >>> 1) ||| (v ||| v >>> 1) >>> 2)
        ||| ((v ||| v >>> 1) ||| (v ||| v >>> 1) >>> 2) >>> 4)
        ||| (((v ||| v >>> 1) ||| (v ||| v >>> 1) >>> 2)
          ||| ((v ||| v >>> 1) ||| (v ||| v >>> 1) >>> 2) >>> 4) >>> 8) >>> 16
      = 2 ^ (t + 1) - 1 := by
    apply Nat.eq_of_testBit_eq
    intro i
    rw [Nat.testBit_two_pow_sub_one]
    by_cases hi : i ≤ t
    · rw [o5 i hi (by omega)]
      simp
      omega
    · rw [Nat.testBit_lt_two_pow (lt_of_lt_of_le b5 (Nat.pow_le_pow_right (by decide) (by omega)))]
      simp
      omega
  refine ⟨t + 1, ?_, ht2, ?_, by omega⟩
  · unfold dstr_next_power
    simp only
    rw [hall]
    have hpos : 1 ≤ 2 ^ (t + 1) := Nat.one_le_two_pow
    rw [Nat.sub_add_cancel hpos]
    apply Nat.mod_eq_of_lt
    exact lt_of_le_of_lt (Nat.pow_le_pow_right (by decide) (by omega : t + 1 ≤ 31)) (by decide)
  · rw [Nat.pow_succ]
    omega

theorem dstr_is_null_false (ds : t_dstr_struct) (h : DSTR_IS_NULL ds = false) :
    ds.cstr.isNone = false ∧ ds.len_max ≤ DSTR_LEN_MAX ∧ ds.len_cur ≤ ds.len_max := by
  unfold DSTR_IS_NULL at h
  simp only [Bool.or_eq_false_iff, decide_eq_false_iff_not, not_lt] at h
  exact ⟨h.1.1, by have := h.1.2; omega, by have := h.2; omega⟩

theorem dstr_cstr_adjust_unfold (dest : t_dstr_struct) (p k : Nat) (alloc_ok : Bool)
    (hvalid : DSTR_IS_NULL dest = false) (hp : p ≤ dest.len_cur) :
    _dstr_cstr_adjust dest p k alloc_ok =
      if p + min k (DSTR_LEN_MAX - p) > dest.len_max then
        (_dstr_cstr_alloc { dest with len_cur := p + min k (DSTR_LEN_MAX - p) }
            (dest.cstr.getD []) (p + min k (DSTR_LEN_MAX - p))
            (if (if p + min k (DSTR_LEN_MAX - p) < 8 then 8
                else if p + min k (DSTR_LEN_MAX - p) > DSTR_LEN_ERR >>> 1 then DSTR_LEN_MAX
                else dstr_next_power (p + min k (DSTR_LEN_MAX - p))) < DSTR_LEN_MAX
              then (if p + min k (DSTR_LEN_MAX - p) < 8 then 8
                else if p + min k (DSTR_LEN_MAX - p) > DSTR_LEN_ERR >>> 1 then DSTR_LEN_MAX
                else dstr_next_power (p + min k (DSTR_LEN_MAX - p)))
              else DSTR_LEN_MAX)
            p alloc_ok,
          min k (DSTR_LEN_MAX - p))
      else ({ dest with len_cur := p + min k (DSTR_LEN_MAX - p) }, min k (DSTR_LEN_MAX - p)) := by
  obtain ⟨-, hmax, hcur⟩ := dstr_is_null_false dest hvalid
  have hM : DSTR_LEN_MAX = 4294967294 := by decide
  have h1 : (DSTR_LEN_MAX + 2 ^ 32 - p) % 2 ^ 32 = DSTR_LEN_MAX - p := by
    rw [hM] at hmax ⊢
    omega
  have h2 : (p + min k (DSTR_LEN_MAX - p)) % 2 ^ 32 = p + min k (DSTR_LEN_MAX - p) := by
    apply Nat.mod_eq_of_lt
    have : min k (DSTR_LEN_MAX - p) ≤ DSTR_LEN_MAX - p := Nat.min_le_right _ _
    rw [hM] at hmax this ⊢
    omega
  unfold _dstr_cstr_adjust
  rw [hvalid]
  simp only [Bool.false_eq_true, if_false, h1, h2]

/-- C40 (as amended): growth policy of `_dstr_cstr_adjust`.  On a valid
dstring, for an insert position `p ≤ len_cur` and a copy length `k`, when the
reallocation succeeds or none is needed: the new `len_cur` is
`p + min k (DSTR_LEN_MAX - p)` and the value returned is the clipped copy
length; when the new `len_cur` does not exceed `len_max`, `len_max` is kept;
when it does, the new `len_max` is 8 for a new `len_cur` below 8,
`DSTR_LEN_MAX` for one above `2^31 - 1`, and otherwise the smallest power
of two strictly greater than it; and the dstring is valid afterwards,
`len_cur ≤ len_max ≤ DSTR_LEN_MAX`. -/
theorem dstr_cstr_adjust_growth (dest : t_dstr_struct) (p k : Nat) (alloc_ok : Bool)
    (hvalid : DSTR_IS_NULL dest = false) (hp : p ≤ dest.len_cur)
    (hok : alloc_ok = true ∨ p + min k (DSTR_LEN_MAX - p) ≤ dest.len_max) :
    (_dstr_cstr_adjust dest p k alloc_ok).1.len_cur = p + min k (DSTR_LEN_MAX - p)
    ∧ (_dstr_cstr_adjust dest p k alloc_ok).2 = min k (DSTR_LEN_MAX - p)
    ∧ (p + min k (DSTR_LEN_MAX - p) ≤ dest.len_max →
        (_dstr_cstr_adjust dest p k alloc_ok).1.len_max = dest.len_max)
    ∧ (dest.len_max < p + min k (DSTR_LEN_MAX - p) →
        (p + min k (DSTR_LEN_MAX - p) < 8 →
          (_dstr_cstr_adjust dest p k alloc_ok).1.len_max = 8)
        ∧ (2 ^ 31 - 1 < p + min k (DSTR_LEN_MAX - p) →
          (_dstr_cstr_adjust dest p k alloc_ok).1.len_max = DSTR_LEN_MAX)
        ∧ (8 ≤ p + min k (DSTR_LEN_MAX - p) → p + min k (DSTR_LEN_MAX - p) ≤ 2 ^ 31 - 1 →
          ∃ e, (_dstr_cstr_adjust dest p k alloc_ok).1.len_max = 2 ^ e
            ∧ p + min k (DSTR_LEN_MAX - p) < 2 ^ e
            ∧ ∀ e2, p + min k (DSTR_LEN_MAX - p) < 2 ^ e2 → 2 ^ e ≤ 2 ^ e2))
    ∧ (_dstr_cstr_adjust dest p k alloc_ok).1.len_cur
        ≤ (_dstr_cstr_adjust dest p k alloc_ok).1.len_max
    ∧ (_dstr_cstr_adjust dest p k alloc_ok).1.len_max ≤ DSTR_LEN_MAX
    ∧ DSTR_IS_NULL (_dstr_cstr_adjust dest p k alloc_ok).1 = false := by
  obtain ⟨hcstr, hmax, hcur⟩ := dstr_is_null_false dest hvalid
  rw [dstr_cstr_adjust_unfold dest p k alloc_ok hvalid hp]
  have hM : DSTR_LEN_MAX = 4294967294 := by decide
  have hE : DSTR_LEN_ERR >>> 1 = 2147483647 := by decide
  have hnle : p + min k (DSTR_LEN_MAX - p) ≤ DSTR_LEN_MAX := by
    have : min k (DSTR_LEN_MAX - p) ≤ DSTR_LEN_MAX - p := Nat.min_le_right _ _
    omega
  obtain ⟨n, hn⟩ : ∃ n, n = p + min k (DSTR_LEN_MAX - p) := ⟨_, rfl⟩
  rw [← hn] at hok hnle ⊢
  by_cases hgrow : n > dest.len_max
  · have halloc : alloc_ok = true := by
      rcases hok with h | h
      · exact h
      · omega
    subst halloc
    rw [if_pos hgrow]
    simp only [_dstr_cstr_alloc, if_true]
    by_cases h8 : n < 8
    · rw [if_pos h8]
      have hlt : 8 < DSTR_LEN_MAX := by decide
      rw [if_pos hlt]
      refine ⟨trivial, trivial, fun h => by omega, fun _ => ⟨fun _ => rfl, fun h => by omega,
        fun h => by omega⟩, by omega, by omega, ?_⟩
      simp only [DSTR_IS_NULL, Option.isNone_some, Bool.false_or, Bool.or_eq_false_iff,
        decide_eq_false_iff_not, not_lt]
      omega
    · rw [if_neg h8]
      by_cases hbig : n > DSTR_LEN_ERR >>> 1
      · rw [if_pos hbig]
        rw [if_neg (lt_irrefl _)]
        rw [hE] at hbig
        refine ⟨trivial, trivial, fun h => by omega, fun _ => ⟨fun h => by omega, fun _ => rfl,
          fun _ h => by omega⟩, hnle, le_refl _, ?_⟩
        simp only [DSTR_IS_NULL, Option.isNone_some, Bool.false_or, Bool.or_eq_false_iff,
          decide_eq_false_iff_not, not_lt]
        exact ⟨le_refl _, hnle⟩
      · rw [if_neg hbig]
        rw [hE] at hbig
        obtain ⟨e, he, hlt, hle, he31⟩ := dstr_next_power_spec n (by omega) (by omega)
        have hpow : 2 ^ e < DSTR_LEN_MAX := by
          have : 2 ^ e ≤ 2 ^ 31 := Nat.pow_le_pow_right (by decide) he31
          rw [hM]
          omega
        rw [he, if_pos hpow]
        refine ⟨trivial, trivial, fun h => by omega, fun _ => ⟨fun h => by omega,
          fun h => by omega, fun _ _ => ⟨e, rfl, hlt, ?_⟩⟩, le_of_lt hlt, le_of_lt hpow, ?_⟩
        · intro e2 h2
          by_contra hc
          have hlt2 : e2 < e := by
            by_contra hc2
            exact hc (Nat.pow_le_pow_right (by decide) (by omega))
          have : 2 ^ (e2 + 1) ≤ 2 ^ e := Nat.pow_le_pow_right (by decide) hlt2
          rw [Nat.pow_succ] at this
          omega
        · simp only [DSTR_IS_NULL, Option.isNone_some, Bool.false_or, Bool.or_eq_false_iff,
            decide_eq_false_iff_not, not_lt]
          exact ⟨le_of_lt hpow, le_of_lt hlt⟩
  · rw [if_neg hgrow]
    refine ⟨rfl, rfl, fun _ => rfl, fun h => by omega, by
      show n ≤ dest.len_max
      omega, hmax, ?_⟩
    simp only [DSTR_IS_NULL, hcstr, Bool.false_or, Bool.or_eq_false_iff,
      decide_eq_false_iff_not, not_lt]
    exact ⟨hmax, by omega⟩

/-- C40 on the dstring `abc` of capacity 8 adjusted for a copy of 10 bytes at
position 3, with a successful reallocation: length 13, capacity 16. -/
theorem dstr_cstr_adjust_growth_witness :
    DSTR_IS_NULL ⟨some ['a', 'b', 'c'], 3, 8⟩ = false
    ∧ (_dstr_cstr_adjust ⟨some ['a', 'b', 'c'], 3, 8⟩ 3 10 true).1.len_cur
        = 3 + min 10 (DSTR_LEN_MAX - 3)
    ∧ (_dstr_cstr_adjust ⟨some ['a', 'b', 'c'], 3, 8⟩ 3 10 true).2 = min 10 (DSTR_LEN_MAX - 3)
    ∧ (_dstr_cstr_adjust ⟨some ['a', 'b', 'c'], 3, 8⟩ 3 10 true).1
        = ⟨some ['a', 'b', 'c'], 13, 16⟩
    ∧ DSTR_IS_NULL (_dstr_cstr_adjust ⟨some ['a', 'b', 'c'], 3, 8⟩ 3 10 true).1 = false :=
  have h := dstr_cstr_adjust_growth ⟨some ['a', 'b', 'c'], 3, 8⟩ 3 10 true (by decide)
    (by decide) (Or.inl rfl)
  ⟨by decide, h.1, h.2.1, by decide, h.2.2.2.2.2.2⟩

/-- C40, counterexample: the valid dstring `abc` of capacity 8 adjusted for a
copy of 10 bytes at position 3 needs a reallocation; when `MALLOC` fails the
dstring is set to the null values, so that `len_cur` is 0 and not
`3 + min 10 (DSTR_LEN_MAX - 3) = 13`, and `len_max` is `DSTR_LEN_ERR`, above
`DSTR_LEN_MAX`. -/
theorem dstr_cstr_adjust_alloc_failure :
    DSTR_IS_NULL ⟨some ['a', 'b', 'c'], 3, 8⟩ = false
    ∧ (_dstr_cstr_adjust ⟨some ['a', 'b', 'c'], 3, 8⟩ 3 10 false).1 = ⟨none, 0, DSTR_LEN_ERR⟩
    ∧ (_dstr_cstr_adjust ⟨some ['a', 'b', 'c'], 3, 8⟩ 3 10 false).1.len_cur
        ≠ 3 + min 10 (DSTR_LEN_MAX - 3)
    ∧ ¬ (_dstr_cstr_adjust ⟨some ['a', 'b', 'c'], 3, 8⟩ 3 10 false).1.len_max ≤ DSTR_LEN_MAX := by
  decide

end Lobjects
